import Mathlib

/-!
# Enclave backend: access-control guard, room provisioning, notification broker

A shallow embedding of the Go sources

* `internal/graphql/helpers.go` (`ensureRoomMember`, `ensureRoomAdmin`,
  `ensureRoomOwner`, `rollbackOnError`),
* `internal/graphql/resolver.go` (the `room` query, the `createRoom`,
  `addRoomMembers`, `updateRoomMembership` and `removeRoomMember` mutations,
  the `notifications` subscription),
* `internal/auth/context.go` (`UserIDFromContext`),
* `internal/graphql/notifications.go` (`notificationBroker`),
* `ent/schema/room.go`, `ent/schema/roommembership.go` (fields, defaults and
  the unique `(user, room)` index).

Go values `(T, error)` are `Except Err T`; a bare `error` is `Option Err`
(`none` is `nil`). Go `int` identifiers are `Int`.
-/

namespace Enclave

/-! ## Data model -/

/-- The `role` enum of `ent/schema/roommembership.go`. -/
inductive Role where
  | owner
  | admin
  | member
  deriving DecidableEq, Repr

/-- Error values that the modelled code creates or passes on. -/
inductive Err where
  /-- `ErrUnauthorized` of `resolver.go`. -/
  | unauthorized
  /-- `ErrForbidden` of `resolver.go`. -/
  | forbidden
  /-- The `*ent.NotFoundError` of a query that matched no row. -/
  | notFound
  /-- The `*ent.NotSingularError` of an `Only` query that matched several rows. -/
  | notSingular
  /-- The `*ent.ConstraintError` of an insert that breaks a unique index. -/
  | constraint
  /-- The `*ent.ValidationError` of a builder whose field validator rejects. -/
  | validation
  /-- The `sql.ErrTxDone` of a transaction that was already finished. -/
  | txDone
  /-- Any other fault reported by the storage driver, told apart by a code. -/
  | storage (code : Nat)
  /-- The value `fmt.Errorf("rollback failed: %w (original error: %v)", ...)`. -/
  | rollbackFailed (rollbackErr original : Err)
  /-- Any other error made in place by `fmt.Errorf` or `errors.New`, told
  apart by its message. -/
  | text (msg : String)
  deriving DecidableEq, Repr

deriving instance DecidableEq for Except

/-- A row of the `room_memberships` table (`ent/schema/roommembership.go`). -/
structure RoomMembership where
  id : Int
  roomID : Int
  userID : Int
  role : Role
  canPost : Bool
  canCall : Bool
  deriving DecidableEq, Repr

/-- A row of the `rooms` table (`ent/schema/room.go`). -/
structure Room where
  id : Int
  name : String
  description : String
  isPrivate : Bool
  isDirect : Bool
  ownerID : Int
  deriving DecidableEq, Repr

/-- The committed content of the two tables the guard and the provisioner use. -/
structure DB where
  rooms : List Room
  memberships : List RoomMembership
  deriving DecidableEq, Repr

/-! ## Storage collaborator: queries -/

/-- `ent.IsNotFound(err)`: true exactly for a `*ent.NotFoundError`. -/
def IsNotFound : Err → Bool
  | .notFound => true
  | _ => false

/-- Modelled from the spec: the generated ent query code is not part of the
sources; this is the storage collaborator's `findMembership(room, user)`
filter, the rows whose room edge is `roomID` and whose user edge is `userID`
(`roommembership.HasRoomWith(room.ID(roomID))`,
`roommembership.HasUserWith(user.IDEQ(userID))`). -/
def membershipsWhere (db : DB) (roomID userID : Int) : List RoomMembership :=
  db.memberships.filter (fun m => decide (m.roomID = roomID) && decide (m.userID = userID))

/-- Modelled from the spec: the generated ent query code is not part of the
sources; `Only` returns the single matching row, a not-found error when
nothing matches, a not-singular error when several rows match, and the
driver's own error when the query itself faults (`fault = some code`). -/
def Only {α : Type} (fault : Option Nat) (nodes : List α) : Except Err α :=
  match fault with
  | some code => .error (.storage code)
  | none =>
    match nodes with
    | [] => .error .notFound
    | [node] => .ok node
    | _ :: _ :: _ => .error .notSingular

/-! ## `internal/graphql/helpers.go`: the guard -/

/-- `Resolver.ensureRoomMember` (helpers.go:18-29). `db` is the state behind
`r.Client`, `fault` the outcome of the driver for this one query. -/
def ensureRoomMember (db : DB) (fault : Option Nat) (roomID userID : Int) :
    Except Err RoomMembership :=
  match Only fault (membershipsWhere db roomID userID) with
  | .error err => if IsNotFound err then .error .forbidden else .error err
  | .ok membership => .ok membership

/-- `Resolver.ensureRoomAccess` (helpers.go:13-16). -/
def ensureRoomAccess (db : DB) (fault : Option Nat) (roomID userID : Int) : Option Err :=
  match ensureRoomMember db fault roomID userID with
  | .error err => some err
  | .ok _ => none

/-- `Resolver.ensureRoomAdmin` (helpers.go:31-40). -/
def ensureRoomAdmin (db : DB) (fault : Option Nat) (roomID userID : Int) : Option Err :=
  match ensureRoomMember db fault roomID userID with
  | .error err => some err
  | .ok membership =>
    if membership.role = Role.owner ∨ membership.role = Role.admin then none
    else some .forbidden

/-- `Resolver.ensureRoomOwner` (helpers.go:42-51). -/
def ensureRoomOwner (db : DB) (fault : Option Nat) (roomID userID : Int) : Option Err :=
  match ensureRoomMember db fault roomID userID with
  | .error err => some err
  | .ok membership =>
    if membership.role = Role.owner then none
    else some .forbidden

/-- The membership lookup of the guard faults: the query ends in an error
other than not-found (a driver fault, or several rows for one pair). -/
def lookupFaults (db : DB) (fault : Option Nat) (roomID userID : Int) : Bool :=
  match Only fault (membershipsWhere db roomID userID) with
  | .error err => !IsNotFound err
  | .ok _ => false

/-- A membership row exists for exactly the pair `(roomID, userID)`. -/
def hasMembership (db : DB) (roomID userID : Int) : Prop :=
  ∃ row ∈ db.memberships, row.roomID = roomID ∧ row.userID = userID

/-- The unique index `index.Edges("user", "room").Unique()` of the schema:
no two rows of the table share their `(room, user)` pair. -/
def uniqueIndex (rows : List RoomMembership) : Prop :=
  rows.Pairwise (fun a b => ¬ (a.roomID = b.roomID ∧ a.userID = b.userID))

/-! ## Storage collaborator: transactions and inserts -/

/-- Modelled from the spec: the storage engine is not part of the sources; a
fresh primary key is one more than the largest key in use (and at least 1). -/
def nextID (ids : List Int) : Int :=
  ids.foldl max 0 + 1

/-- Modelled from the spec: the storage collaborator's transaction
(`*ent.Tx`): `work` is the working copy the transaction writes to, invisible
to every reader until a commit installs it; `done` says that the transaction
was finished by a commit or a rollback. -/
structure Tx where
  work : DB
  done : Bool
  deriving DecidableEq, Repr

/-- Modelled from the spec: `beginTransaction()`, the call `r.Client.Tx(ctx)`.
It fails with the driver's error or opens a transaction on a copy of the
committed state. -/
def beginTx (db : DB) (fault : Option Nat) : Except Err Tx :=
  match fault with
  | some code => .error (.storage code)
  | none => .ok ⟨db, false⟩

/-- Modelled from the spec: `insertRoom(...)`, the call
`tx.Room.Create()...Save(ctx)`. The `NotEmpty` validator of the `name` field
(`ent/schema/room.go`) rejects an empty name; a driver fault fails the insert;
otherwise the row is appended to the working copy under a fresh key. -/
def Tx.saveRoom (tx : Tx) (fault : Option Nat) (name description : String)
    (isPrivate isDirect : Bool) (ownerID : Int) : Except Err (Room × Tx) :=
  if name = "" then .error .validation
  else
    match fault with
    | some code => .error (.storage code)
    | none =>
      let room : Room :=
        ⟨nextID (tx.work.rooms.map (fun r => r.id)), name, description, isPrivate, isDirect,
          ownerID⟩
      .ok (room, { tx with work := { tx.work with rooms := tx.work.rooms ++ [room] } })

/-- Modelled from the spec: `insertMembership(...)`, the call
`tx.RoomMembership.Create().SetRoom(..).SetUserID(..).SetRole(..).Save(ctx)`.
A driver fault fails the insert; the unique index on `(user, room)`
(`ent/schema/roommembership.go`) rejects a second row for a pair with a
constraint error; otherwise the row is appended to the working copy with the
schema defaults `can_post = true`, `can_call = true`. -/
def Tx.saveMembership (tx : Tx) (fault : Option Nat) (roomID userID : Int) (role : Role) :
    Except Err (RoomMembership × Tx) :=
  match fault with
  | some code => .error (.storage code)
  | none =>
    if tx.work.memberships.any
        (fun m => decide (m.roomID = roomID) && decide (m.userID = userID)) then
      .error .constraint
    else
      let membership : RoomMembership :=
        ⟨nextID (tx.work.memberships.map (fun m => m.id)), roomID, userID, role, true, true⟩
      .ok (membership,
        { tx with work := { tx.work with memberships := tx.work.memberships ++ [membership] } })

/-- Modelled from the spec: `commit()`. On a finished transaction it returns
`sql.ErrTxDone`. Otherwise the transaction is finished; with a driver fault the
committed state stays as it was, without one the working copy becomes the
committed state. The result is the error, the transaction and the committed
state. -/
def Tx.Commit (tx : Tx) (fault : Option Nat) (db : DB) : Option Err × Tx × DB :=
  if tx.done then (some .txDone, tx, db)
  else
    match fault with
    | some code => (some (.storage code), { tx with done := true }, db)
    | none => (none, { tx with done := true }, tx.work)

/-- Modelled from the spec: `rollback()`. On a finished transaction it returns
`sql.ErrTxDone`. Otherwise the transaction is finished and its working copy is
never installed, also when the driver reports a fault for the rollback. -/
def Tx.Rollback (tx : Tx) (fault : Option Nat) : Option Err × Tx :=
  if tx.done then (some .txDone, tx)
  else (fault.map Err.storage, { tx with done := true })

/-- Modelled from the spec: the read-back query
`r.Client.Room.Query().Where(room.ID(id)).WithOwner().Only(ctx)` on the
committed state. -/
def roomByID (db : DB) (fault : Option Nat) (id : Int) : Except Err Room :=
  Only fault (db.rooms.filter (fun r => decide (r.id = id)))

/-! ## `internal/auth/context.go` -/

/-- What `ctx.Value(userIDKey)` holds: nothing, an `int`, or a value of
another type. -/
inductive CtxValue where
  | absent
  | int (id : Int)
  | other
  deriving DecidableEq, Repr

/-- `auth.UserIDFromContext` (context.go:20-30); both of its errors are
rendered by `Err.unauthorized`, the only thing its callers do with them. -/
def UserIDFromContext (value : CtxValue) : Except Err Int :=
  match value with
  | .absent => .error .unauthorized
  | .int id => .ok id
  | .other => .error .unauthorized

/-! ## `internal/graphql/helpers.go`: `rollbackOnError` -/

/-- `rollbackOnError` (helpers.go:53-60). `errPtr` is the pointer argument
(`none` is a nil pointer, `some e` a pointer to a variable holding `e`);
`fault` is the driver's outcome for the rollback. The result is the pointer
with the variable's new content, the transaction, and the number of calls of
`tx.Rollback()` made. -/
def rollbackOnError (tx : Tx) (fault : Option Nat) (errPtr : Option (Option Err)) :
    Option (Option Err) × Tx × Nat :=
  match errPtr with
  | none => (none, tx, 0)
  | some none => (some none, tx, 0)
  | some (some err) =>
    match tx.Rollback fault with
    | (some rollbackErr, tx') => (some (some (.rollbackFailed rollbackErr err)), tx', 1)
    | (none, tx') => (some (some err), tx', 1)

/-! ## `internal/graphql/resolver.go`: the `createRoom` mutation -/

/-- The driver's outcome for each storage call of one `createRoom` request
(`none`: no fault). `saveParticipant i` is for the insert of the entry at
position `i` of the participant list. -/
structure Faults where
  beginTx : Option Nat
  saveRoom : Option Nat
  saveOwner : Option Nat
  saveParticipant : Nat → Option Nat
  commit : Option Nat
  rollback : Option Nat
  readBack : Option Nat

/-- The arguments of the mutation. `name` is non-null in the schema;
`description` and `isPrivate` may be missing; `participantIDs` is the value of
`decodeIDList(p.Args["participantIds"])`. -/
structure CreateRoomArgs where
  name : String
  description : Option String
  isPrivate : Option Bool
  participantIDs : List Int

/-- The counting loop of resolver.go:390-395. -/
def nonOwnerCount (uid : Int) (participantIDs : List Int) : Nat :=
  participantIDs.foldl (fun count pid => if pid ≠ uid then count + 1 else count) 0

/-- The participant loop of resolver.go:413-426, from position `i` on: the
error of the first insert that fails (or nil), and the transaction. -/
def saveParticipants (f : Faults) (roomID uid : Int) (direct : Bool) :
    Nat → List Int → Tx → Option Err × Tx
  | _, [], tx => (none, tx)
  | i, pid :: rest, tx =>
    let role := if direct && decide (pid ≠ uid) then Role.admin else Role.member
    match tx.saveMembership (f.saveParticipant i) roomID pid role with
    | .error err => (some err, tx)
    | .ok (_, tx') => saveParticipants f roomID uid direct (i + 1) rest tx'

/-- Where the statements after `defer rollbackOnError(tx, &err)` leave the
call: the values of the `return` statement reached, the content of the local
variable `err` at that moment, the transaction and the committed state. -/
structure BodyState where
  result : Except Err Room
  err : Option Err
  tx : Tx
  db : DB

/-- The statements of the resolver after the `defer` (resolver.go:383-431). -/
def createRoomBody (db : DB) (f : Faults) (tx : Tx) (uid : Int) (name description : String)
    (isPrivate : Bool) (participantIDs : List Int) : BodyState :=
  let direct := decide (nonOwnerCount uid participantIDs = 1)
  match tx.saveRoom f.saveRoom name description isPrivate direct uid with
  | .error err => ⟨.error err, some err, tx, db⟩
  | .ok (newRoom, tx1) =>
    match tx1.saveMembership f.saveOwner newRoom.id uid Role.owner with
    | .error err => ⟨.error err, some err, tx1, db⟩
    | .ok (_, tx2) =>
      match saveParticipants f newRoom.id uid direct 0 participantIDs tx2 with
      | (some err, tx3) => ⟨.error err, some err, tx3, db⟩
      | (none, tx3) =>
        match tx3.Commit f.commit db with
        | (some err, tx4, db') => ⟨.error err, some err, tx4, db'⟩
        | (none, tx4, db') => ⟨roomByID db' f.readBack newRoom.id, none, tx4, db'⟩

/-- What one `createRoom` request leaves behind: the values the resolver
returns, the committed storage state, the transaction it opened (if it got
that far) as it is left, the content of the local variable `err` after the
deferred call has run, and the number of `tx.Rollback()` calls made. -/
structure Outcome where
  result : Except Err Room
  db : DB
  tx : Option Tx
  err : Option Err
  rollbacks : Nat

/-- The `Resolve` function of the `createRoom` field (resolver.go:365-432).
The results are unnamed, so a `return` statement fixes them before the
deferred `rollbackOnError(tx, &err)` runs: the deferred call acts on the
transaction and on the local variable only. -/
def createRoom (db : DB) (f : Faults) (ctxValue : CtxValue) (args : CreateRoomArgs) : Outcome :=
  match UserIDFromContext ctxValue with
  | .error _ => ⟨.error .unauthorized, db, none, none, 0⟩
  | .ok uid =>
    let description := args.description.getD ""
    let isPrivate := args.isPrivate.getD false
    match beginTx db f.beginTx with
    | .error err => ⟨.error err, db, none, some err, 0⟩
    | .ok tx =>
      let body := createRoomBody db f tx uid args.name description isPrivate args.participantIDs
      match rollbackOnError body.tx f.rollback (some body.err) with
      | (errPtr, tx', calls) => ⟨body.result, body.db, some tx', errPtr.join, calls⟩

/-- No storage call faults. -/
def noFaults : Faults :=
  ⟨none, none, none, fun _ => none, none, none, none⟩

/-- The `(user, role)` pairs of the membership rows of a room, in table order. -/
def rolesOf (db : DB) (roomID : Int) : List (Int × Role) :=
  (db.memberships.filter (fun m => decide (m.roomID = roomID))).map (fun m => (m.userID, m.role))

/-- The request failed with `e`, the committed state is `db`, and the
transaction the request opened is finished: nothing of it is left pending. -/
def failedClean (db : DB) (out : Outcome) (e : Err) : Prop :=
  out.result = .error e ∧ out.db = db ∧ ∃ tx, out.tx = some tx ∧ tx.done = true

/-- The rows `createRoom` is to add for a new room `roomID` of owner `uid`:
the owner's row and one row per entry of the participant list, as
`(room, user, role)` triples in insertion order. -/
def expectedMemberships (roomID uid : Int) (direct : Bool) (participantIDs : List Int) :
    List (Int × Int × Role) :=
  (roomID, uid, Role.owner) ::
    participantIDs.map (fun pid =>
      (roomID, pid, if direct && decide (pid ≠ uid) then Role.admin else Role.member))

/-- Faults of a request in which only the insert of the participant at
position `i` fails, with driver code `code`. -/
def faultAtParticipant (i code : Nat) : Faults :=
  ⟨none, none, none, fun j => if j = i then some code else none, none, none, none⟩

/-! ## `internal/graphql/notifications.go`: the notification broker -/

/-- The part of `*ent.Notification` the broker reads: the record's ID and its
`Edges.Recipient` (the recipient's user ID when the edge is loaded, nil
otherwise). -/
structure Notification where
  id : Int
  recipient : Option Int
  deriving DecidableEq, Repr

/-- A Go channel of notifications: its capacity, the items buffered in it
(oldest first) and whether it has been closed. -/
structure Chan where
  cap : Nat
  buf : List Notification
  closed : Bool
  deriving DecidableEq, Repr

/-- The `notificationBroker` together with the channels it has made. A channel
value is its position in `chans`; `subscribers` is the map
`map[int]map[chan *ent.Notification]struct{}`, the inner map being the list of
its keys (`none`: the key is absent). -/
structure Broker where
  chans : List Chan
  subscribers : Int → Option (List Nat)

/-- `newNotificationBroker` (notifications.go:15-19). -/
def newNotificationBroker : Broker :=
  ⟨[], fun _ => none⟩

/-- `recipientIDFromNotification` (notifications.go:21-32); `none` is the nil
pointer. `Edges.RecipientOrErr()` returns an error whenever `Edges.Recipient`
is nil, so the second test never yields an ID. -/
def recipientIDFromNotification (notification : Option Notification) : Int :=
  match notification with
  | none => 0
  | some n =>
    match n.recipient with
    | some id => id
    | none => 0

/-- The release function `Subscribe` returns: a closure over the broker, the
`userID` argument and the channel made. -/
structure Release where
  userID : Int
  ch : Nat
  deriving DecidableEq, Repr

/-- `notificationBroker.Subscribe` (notifications.go:34-41 and the `return`):
the channel made (capacity 1), the release function, and the broker. -/
def Subscribe (b : Broker) (userID : Int) : Nat × Release × Broker :=
  let ch := b.chans.length
  let chans := b.chans ++ [⟨1, [], false⟩]
  let subs := match b.subscribers userID with
    | some subs => subs
    | none => []
  (ch, ⟨userID, ch⟩,
    ⟨chans, fun k => if k = userID then some (List.insert ch subs) else b.subscribers k⟩)

/-- `close(ch)`: a panic (`none`) when the channel is already closed. -/
def closeChan (chans : List Chan) (ch : Nat) : Option (List Chan) :=
  match chans[ch]? with
  | none => none
  | some c => if c.closed then none else some (chans.set ch { c with closed := true })

/-- The body of the release function (notifications.go:42-54); `none` is a
panic. -/
def Release.call (r : Release) (b : Broker) : Option Broker :=
  match b.subscribers r.userID with
  | none => some b
  | some subs =>
    if r.ch ∈ subs then
      let subs' := subs.filter (fun c => decide (c ≠ r.ch))
      match closeChan b.chans r.ch with
      | none => none
      | some chans =>
        if subs'.length = 0 then
          some ⟨chans, fun k => if k = r.userID then none else b.subscribers k⟩
        else
          some ⟨chans, fun k => if k = r.userID then some subs' else b.subscribers k⟩
    else some b

/-- The statement `select { case ch <- notification: default: }`
(notifications.go:69-72): a panic (`none`) on a closed channel, a send when
the buffer has room, and the `default` branch (nothing happens) when it is
full. -/
def trySend (chans : List Chan) (ch : Nat) (n : Notification) : Option (List Chan) :=
  match chans[ch]? with
  | none => none
  | some c =>
    if c.closed then none
    else if c.buf.length < c.cap then some (chans.set ch { c with buf := c.buf ++ [n] })
    else some chans

/-- The loop `for ch := range subs` of `Publish` (notifications.go:68-73). -/
def publishLoop (n : Notification) : List Nat → List Chan → Option (List Chan)
  | [], chans => some chans
  | ch :: rest, chans =>
    match trySend chans ch n with
    | none => none
    | some chans' => publishLoop n rest chans'

/-- `notificationBroker.Publish` (notifications.go:57-74); `none` is a panic.
Ranging over the nil map of an absent key runs the loop zero times. -/
def Publish (b : Broker) (notification : Option Notification) : Option Broker :=
  match notification with
  | none => some b
  | some n =>
    let userID := recipientIDFromNotification notification
    if userID = 0 then some b
    else
      let subs := match b.subscribers userID with
        | some subs => subs
        | none => []
      match publishLoop n subs b.chans with
      | none => none
      | some chans => some ⟨chans, b.subscribers⟩

/-- A consumer's receive `<-ch` when it does not block: the oldest buffered
item leaves the channel. On an empty channel nothing changes. -/
def recvChan (chans : List Chan) (ch : Nat) : List Chan :=
  match chans[ch]? with
  | none => chans
  | some c => chans.set ch { c with buf := c.buf.tail }

/-- The broker and the release functions `Subscribe` has returned so far, in
the order of the calls. -/
structure Sys where
  broker : Broker
  handles : List Release

/-- One call on the broker from outside: `Subscribe(userID)`, a call of the
`k`-th release function returned so far, `Publish(n)`, or a consumer taking an
item from channel `ch`. -/
inductive Op where
  | subscribe (userID : Int)
  | release (k : Nat)
  | publish (n : Option Notification)
  | recv (ch : Nat)
  deriving DecidableEq, Repr

/-- The effect of one call; `none` is a panic. Calling a release function that
has not been returned yet is not a call at all and changes nothing. -/
def step (s : Sys) : Op → Option Sys
  | .subscribe userID =>
    some ⟨(Subscribe s.broker userID).2.2, s.handles ++ [(Subscribe s.broker userID).2.1]⟩
  | .release k =>
    match s.handles[k]? with
    | none => some s
    | some r =>
      match r.call s.broker with
      | none => none
      | some b => some ⟨b, s.handles⟩
  | .publish n =>
    match Publish s.broker n with
    | none => none
    | some b => some ⟨b, s.handles⟩
  | .recv ch => some ⟨⟨recvChan s.broker.chans ch, s.broker.subscribers⟩, s.handles⟩

/-- A sequence of calls, from state `s`. -/
def run (s : Sys) : List Op → Option Sys
  | [] => some s
  | op :: ops =>
    match step s op with
    | none => none
    | some s' => run s' ops

/-- The system right after `newNotificationBroker()`. -/
def initSys : Sys :=
  ⟨newNotificationBroker, []⟩

/-- Channel `ch` is registered as a sink of `userID`. -/
def registered (b : Broker) (userID : Int) (ch : Nat) : Prop :=
  match b.subscribers userID with
  | some subs => ch ∈ subs
  | none => False

instance registeredDecidable (b : Broker) (userID : Int) (ch : Nat) :
    Decidable (registered b userID ch) :=
  match h : b.subscribers userID with
  | some subs => decidable_of_iff (ch ∈ subs) (by simp [registered, h])
  | none => isFalse (by simp [registered, h])

/-- The items buffered in channel `ch` (none for a channel never made). -/
def bufOf (b : Broker) (ch : Nat) : List Notification :=
  match b.chans[ch]? with
  | some c => c.buf
  | none => []

/-- Channel `ch` has been made and is not closed. -/
def isOpen (b : Broker) (ch : Nat) : Prop :=
  match b.chans[ch]? with
  | some c => c.closed = false
  | none => False

/-- Channel `ch` has been closed. -/
def isClosed (b : Broker) (ch : Nat) : Prop :=
  match b.chans[ch]? with
  | some c => c.closed = true
  | none => False

/-- What the `select` of `Publish` does to an open channel: the item is
appended when the buffer has room, otherwise the channel stays as it is. -/
def deliver (n : Notification) (c : Chan) : Chan :=
  if c.buf.length < c.cap then { c with buf := c.buf ++ [n] } else c

/-- The invariant of the broker and its release functions: the `k`-th release
function is the one of channel `k`; a registered channel is open and is
registered under the user its release function captured; an open channel is
still registered; every channel has capacity 1 and holds at most one item; no
key of the registry maps to an empty set. -/
structure Inv (s : Sys) : Prop where
  len : s.handles.length = s.broker.chans.length
  handle : ∀ (k : Nat) (r : Release), s.handles[k]? = some r → r.ch = k
  regOpen : ∀ u subs, s.broker.subscribers u = some subs → ∀ ch ∈ subs,
    (∃ c, s.broker.chans[ch]? = some c ∧ c.closed = false) ∧ s.handles[ch]? = some ⟨u, ch⟩
  openReg : ∀ (k : Nat) (r : Release) (c : Chan), s.handles[k]? = some r →
    s.broker.chans[k]? = some c → c.closed = false →
    ∃ subs, s.broker.subscribers r.userID = some subs ∧ k ∈ subs
  slot : ∀ (k : Nat) (c : Chan), s.broker.chans[k]? = some c → c.cap = 1 ∧ c.buf.length ≤ 1
  nonempty : ∀ u, s.broker.subscribers u ≠ some []

/-- The state after `Subscribe(7)` and one `Publish` to recipient 7: the sink
of the subscription holds the published item. -/
def sysWithFullSink : Sys :=
  ⟨⟨[⟨1, [⟨1, some 7⟩], false⟩], fun k => if k = 7 then some [0] else none⟩, [⟨7, 0⟩]⟩

/-- The capacity and the `closed` flag of channel `ch` (nothing for a channel
never made). -/
def chanShape (b : Broker) (ch : Nat) : Option (Nat × Bool) :=
  (b.chans[ch]?).map (fun c => (c.cap, c.closed))

/-- The state after two calls `Subscribe(7)`: recipient 7 has the sinks 0 and
1, both empty. -/
def sysWithTwoSinks : Sys :=
  ⟨⟨[⟨1, [], false⟩, ⟨1, [], false⟩],
      fun k => if k = 7 then some [1, 0] else if k = 7 then some [0] else none⟩,
    [⟨7, 0⟩, ⟨7, 1⟩]⟩

/-! ## `internal/graphql/resolver.go`: the `room` query -/

/-- The `Resolve` function of the `room` query field (resolver.go:138-151).
`id` is the value of `decodeID(p.Args["id"])`; `lookupFault` and `readFault`
are the driver's outcomes for the guard's lookup and for the room query. -/
def roomQuery (db : DB) (lookupFault readFault : Option Nat) (ctxValue : CtxValue)
    (id : Except Err Int) : Except Err Room :=
  match UserIDFromContext ctxValue with
  | .error _ => .error .unauthorized
  | .ok uid =>
    match id with
    | .error err => .error err
    | .ok id =>
      match ensureRoomAccess db lookupFault id uid with
      | some err => .error err
      | none => roomByID db readFault id

/-- Referential integrity of the membership table: every row's room edge
points to a row of the room table (the edge is `Required` in
`ent/schema/roommembership.go`). -/
def refIntegrity (db : DB) : Prop :=
  ∀ m ∈ db.memberships, ∃ r ∈ db.rooms, r.id = m.roomID

/-- Faults of a `createRoom` request in which the room insert fails with
driver code 3 and the rollback that follows fails with driver code 9. -/
def faultsRoomAndRollback : Faults :=
  ⟨none, some 3, none, fun _ => none, none, some 9, none⟩

/-! ## `internal/graphql/resolver.go`: the membership mutations -/

/-- The conversion `roommembership.Role(v)` of a role argument together with
the enum validator that ent runs when the builder is saved: `none` is a string
outside `owner`, `admin`, `member`, which the validator rejects. -/
def roleOfString (v : String) : Option Role :=
  if v = "owner" then some Role.owner
  else if v = "admin" then some Role.admin
  else if v = "member" then some Role.member
  else none

/-- Modelled from the spec: `insertMembership(...)` with a role that came from
a string argument; the enum validator runs before the insert reaches the
driver. -/
def Tx.saveMembershipWithRole (tx : Tx) (fault : Option Nat) (roomID userID : Int)
    (role : Option Role) : Except Err (RoomMembership × Tx) :=
  match role with
  | none => .error .validation
  | some role => tx.saveMembership fault roomID userID role

/-- Modelled from the spec: a query ended by `All(ctx)`: every matching row,
or the driver's error. -/
def All {α : Type} (fault : Option Nat) (nodes : List α) : Except Err (List α) :=
  match fault with
  | some code => .error (.storage code)
  | none => .ok nodes

/-- The driver's outcome for each storage call of one `addRoomMembers`
request; `save i` is for the insert of the entry at position `i`. -/
structure MemberFaults where
  lookup : Option Nat
  beginTx : Option Nat
  save : Nat → Option Nat
  commit : Option Nat
  rollback : Option Nat
  readBack : Option Nat

/-- The insert loop of `addRoomMembers` (resolver.go:521-531), from position
`i` on: the error of the first insert that fails (or nil), and the
transaction. -/
def saveMembers (f : MemberFaults) (roomID : Int) (role : Option Role) :
    Nat → List Int → Tx → Option Err × Tx
  | _, [], tx => (none, tx)
  | i, mid :: rest, tx =>
    match tx.saveMembershipWithRole (f.save i) roomID mid role with
    | .error err => (some err, tx)
    | .ok (_, tx') => saveMembers f roomID role (i + 1) rest tx'

/-- Where the statements of `addRoomMembers` after the `defer` leave the call
(resolver.go:520-539). -/
structure MembersBodyState where
  result : Except Err (List RoomMembership)
  err : Option Err
  tx : Tx
  db : DB

/-- The statements of `addRoomMembers` after the `defer`. Inside the loop
`m, err := ...Save(ctx)` declares a new `err`, so a failed insert returns that
error while the outer `err`, the one the deferred call looks at, is still
nil. -/
def addRoomMembersBody (db : DB) (f : MemberFaults) (tx : Tx) (roomID : Int)
    (role : Option Role) (memberIDs : List Int) : MembersBodyState :=
  match saveMembers f roomID role 0 memberIDs tx with
  | (some err, tx1) => ⟨.error err, none, tx1, db⟩
  | (none, tx1) =>
    match tx1.Commit f.commit db with
    | (some err, tx2, db') => ⟨.error err, some err, tx2, db'⟩
    | (none, tx2, db') =>
      ⟨All f.readBack (db'.memberships.filter (fun m =>
          decide (m.roomID = roomID) && decide (m.userID ∈ memberIDs))), none, tx2, db'⟩

/-- What one `addRoomMembers` request leaves behind (as `Outcome`). -/
structure MembersOutcome where
  result : Except Err (List RoomMembership)
  db : DB
  tx : Option Tx
  err : Option Err
  rollbacks : Nat

/-- The `Resolve` function of the `addRoomMembers` field (resolver.go:498-540).
`roomID` is the value of `decodeID(p.Args["roomId"])`, `memberIDs` the value of
`decodeIDList(p.Args["memberIds"])`, `roleArg` the string argument `role` when
it is present. -/
def addRoomMembers (db : DB) (f : MemberFaults) (ctxValue : CtxValue) (roomID : Except Err Int)
    (memberIDs : List Int) (roleArg : Option String) : MembersOutcome :=
  match UserIDFromContext ctxValue with
  | .error _ => ⟨.error .unauthorized, db, none, none, 0⟩
  | .ok uid =>
    match roomID with
    | .error err => ⟨.error err, db, none, some err, 0⟩
    | .ok roomID =>
      match ensureRoomAdmin db f.lookup roomID uid with
      | some err => ⟨.error err, db, none, none, 0⟩
      | none =>
        let role := match roleArg with
          | some v => if v ≠ "" then roleOfString v else some Role.member
          | none => some Role.member
        match beginTx db f.beginTx with
        | .error err => ⟨.error err, db, none, some err, 0⟩
        | .ok tx =>
          let body := addRoomMembersBody db f tx roomID role memberIDs
          match rollbackOnError body.tx f.rollback (some body.err) with
          | (errPtr, tx', calls) => ⟨body.result, body.db, some tx', errPtr.join, calls⟩

/-- The driver's outcome for each storage call of one `updateRoomMembership`
request. -/
structure UpdateFaults where
  lookup : Option Nat
  update : Option Nat
  readBack : Option Nat

/-- Modelled from the spec: the bulk update
`RoomMembership.Update().Where(room, user)...Save(ctx)`: the enum validator
rejects a role outside the enum before the driver is reached; a driver fault
changes nothing; otherwise every row of the pair takes the fields that were
set. -/
def updateMemberships (db : DB) (fault : Option Nat) (roomID memberID : Int)
    (role : Option (Option Role)) (canPost canCall : Option Bool) : Option Err × DB :=
  match role with
  | some none => (some .validation, db)
  | _ =>
    match fault with
    | some code => (some (.storage code), db)
    | none =>
      (none, { db with memberships := db.memberships.map (fun m =>
        if m.roomID = roomID ∧ m.userID = memberID then
          { m with
            role := match role with
              | some (some r) => r
              | _ => m.role
            canPost := canPost.getD m.canPost
            canCall := canCall.getD m.canCall }
        else m) })

/-- The `Resolve` function of the `updateRoomMembership` field
(resolver.go:551-587); `roomID` and `memberID` are the values of `decodeID`
on the two arguments. -/
def updateRoomMembership (db : DB) (f : UpdateFaults) (ctxValue : CtxValue)
    (roomID memberID : Except Err Int) (roleArg : Option String)
    (canPost canCall : Option Bool) : Except Err RoomMembership × DB :=
  match UserIDFromContext ctxValue with
  | .error _ => (.error .unauthorized, db)
  | .ok uid =>
    match roomID with
    | .error err => (.error err, db)
    | .ok roomID =>
      match memberID with
      | .error err => (.error err, db)
      | .ok memberID =>
        match ensureRoomAdmin db f.lookup roomID uid with
        | some err => (.error err, db)
        | none =>
          let role : Option (Option Role) := match roleArg with
            | some v => if v ≠ "" then some (roleOfString v) else none
            | none => none
          match updateMemberships db f.update roomID memberID role canPost canCall with
          | (some err, db') => (.error err, db')
          | (none, db') => (Only f.readBack (membershipsWhere db' roomID memberID), db')

/-- Modelled from the spec: the bulk delete
`RoomMembership.Delete().Where(room, user).Exec(ctx)`. -/
def deleteMemberships (db : DB) (fault : Option Nat) (roomID memberID : Int) :
    Option Err × DB :=
  match fault with
  | some code => (some (.storage code), db)
  | none =>
    (none, { db with memberships := db.memberships.filter (fun m =>
      !(decide (m.roomID = roomID) && decide (m.userID = memberID))) })

/-- The `Resolve` function of the `removeRoomMember` field
(resolver.go:595-618). -/
def removeRoomMember (db : DB) (lookupFault deleteFault : Option Nat) (ctxValue : CtxValue)
    (roomID memberID : Except Err Int) : Except Err Bool × DB :=
  match UserIDFromContext ctxValue with
  | .error _ => (.error .unauthorized, db)
  | .ok uid =>
    match roomID with
    | .error err => (.error err, db)
    | .ok roomID =>
      match memberID with
      | .error err => (.error err, db)
      | .ok memberID =>
        match ensureRoomAdmin db lookupFault roomID uid with
        | some err => (.error err, db)
        | none =>
          match deleteMemberships db deleteFault roomID memberID with
          | (some err, db') => (.error err, db')
          | (none, db') => (.ok true, db')

/-- One request of the four mutations that write membership rows, with its
arguments and the driver's outcomes. -/
inductive Mutation where
  | createRoom (f : Faults) (ctxValue : CtxValue) (args : CreateRoomArgs)
  | addRoomMembers (f : MemberFaults) (ctxValue : CtxValue) (roomID : Except Err Int)
      (memberIDs : List Int) (roleArg : Option String)
  | updateRoomMembership (f : UpdateFaults) (ctxValue : CtxValue)
      (roomID memberID : Except Err Int) (roleArg : Option String)
      (canPost canCall : Option Bool)
  | removeRoomMember (lookupFault deleteFault : Option Nat) (ctxValue : CtxValue)
      (roomID memberID : Except Err Int)

/-- The committed storage state after one request. -/
def Mutation.apply (db : DB) : Mutation → DB
  | .createRoom f ctxValue args => (Enclave.createRoom db f ctxValue args).db
  | .addRoomMembers f ctxValue roomID memberIDs roleArg =>
    (Enclave.addRoomMembers db f ctxValue roomID memberIDs roleArg).db
  | .updateRoomMembership f ctxValue roomID memberID roleArg canPost canCall =>
    (Enclave.updateRoomMembership db f ctxValue roomID memberID roleArg canPost canCall).2
  | .removeRoomMember lookupFault deleteFault ctxValue roomID memberID =>
    (Enclave.removeRoomMember db lookupFault deleteFault ctxValue roomID memberID).2

/-- The committed storage state after a sequence of requests. -/
def applyAll (db : DB) : List Mutation → DB
  | [] => db
  | m :: ms => applyAll (m.apply db) ms

/-- The number of owner-role membership rows of a room. -/
def ownerCount (db : DB) (roomID : Int) : Nat :=
  ((rolesOf db roomID).filter (fun p => decide (p.2 = Role.owner))).length

/-- The invariant of the membership table: the unique `(user, room)` index and
referential integrity of the room edge. -/
def storeInv (db : DB) : Prop :=
  uniqueIndex db.memberships ∧ refIntegrity db

/-- No storage call of an `updateRoomMembership` request faults. -/
def noUpdateFaults : UpdateFaults :=
  ⟨none, none, none⟩

/-! ## `internal/graphql/resolver.go`: the `notifications` subscription -/

/-- Where the relay goroutine of a subscription stands: at the outer `select`,
at the inner `select` with an item to write to the stream, or returned. -/
inductive RelayPhase where
  | waiting
  | forwarding (notif : Notification)
  | ended
  deriving DecidableEq, Repr

/-- One subscription session: the user ID of the connection, the sink and the
release function `Subscribe` returned, the phase of the relay, the items
written to the outward stream so far (oldest first) and whether the stream was
closed. `received` (the items taken from the sink, oldest first) and
`unsubscribeCalls` (the number of times the relay has invoked the release
function) record what the relay has done. -/
structure Session where
  uid : Int
  ch : Nat
  unsubscribe : Release
  phase : RelayPhase
  stream : List Notification
  streamClosed : Bool
  received : List Notification
  unsubscribeCalls : Nat
  deriving DecidableEq, Repr

/-- The broker, the cancellation signal of the connection (`p.Context.Done()`
is closed) and the session. -/
structure World where
  sys : Sys
  cancelled : Bool
  session : Session

/-- The `Subscribe` function of the `notifications` field up to the start of
the goroutine (resolver.go:1474-1480): the session with its relay at the outer
`select`. -/
def subscribeNotifications (sys : Sys) (ctxValue : CtxValue) : Except Err World :=
  match UserIDFromContext ctxValue with
  | .error _ => .error .unauthorized
  | .ok uid =>
    .ok ⟨⟨(Subscribe sys.broker uid).2.2, sys.handles ++ [(Subscribe sys.broker uid).2.1]⟩,
      false,
      ⟨uid, (Subscribe sys.broker uid).1, (Subscribe sys.broker uid).2.1, .waiting, [], false,
        [], 0⟩⟩

/-- A `return` of the relay goroutine: the deferred calls run, `unsubscribe()`
first and `close(stream)` second (resolver.go:1482-1483); `none` is a panic. -/
def relayReturn (w : World) : Option World :=
  match w.session.unsubscribe.call w.sys.broker with
  | none => none
  | some b =>
    if w.session.streamClosed then none
    else
      some { w with
        sys := ⟨b, w.sys.handles⟩
        session := { w.session with
          phase := .ended
          unsubscribeCalls := w.session.unsubscribeCalls + 1
          streamClosed := true } }

/-- What can happen next: a call on the broker from outside the session, the
cancellation of the connection's context, or the relay taking one of the cases
of the `select` it stands at: `<-p.Context.Done()` (either `select`),
`notif, ok := <-ch` (outer `select`), `stream <- notif` (inner `select`, a
reader takes the item). -/
inductive Event where
  | call (op : Op)
  | cancel
  | relayDone
  | relayRecv
  | relaySend
  deriving DecidableEq, Repr

/-- The effect of one event (resolver.go:1481-1502); `none` is a panic. A case
of a `select` that is not ready, or that the relay does not stand at, is not
taken: the event changes nothing. -/
def worldStep (w : World) : Event → Option World
  | .call op =>
    match step w.sys op with
    | none => none
    | some sys => some { w with sys := sys }
  | .cancel => some { w with cancelled := true }
  | .relayDone =>
    if w.cancelled then
      match w.session.phase with
      | .ended => some w
      | _ => relayReturn w
    else some w
  | .relayRecv =>
    match w.session.phase with
    | .waiting =>
      match w.sys.broker.chans[w.session.ch]? with
      | none => some w
      | some c =>
        match c.buf with
        | notif :: _ =>
          if recipientIDFromNotification (some notif) ≠ w.session.uid then
            some { w with
              sys := ⟨⟨recvChan w.sys.broker.chans w.session.ch, w.sys.broker.subscribers⟩,
                w.sys.handles⟩
              session := { w.session with received := w.session.received ++ [notif] } }
          else
            some { w with
              sys := ⟨⟨recvChan w.sys.broker.chans w.session.ch, w.sys.broker.subscribers⟩,
                w.sys.handles⟩
              session := { w.session with
                received := w.session.received ++ [notif]
                phase := .forwarding notif } }
        | [] => if c.closed then relayReturn w else some w
    | _ => some w
  | .relaySend =>
    match w.session.phase with
    | .forwarding notif =>
      some { w with
        session := { w.session with
          phase := .waiting
          stream := w.session.stream ++ [notif] } }
    | _ => some w

/-- A sequence of events, from world `w`. -/
def runWorld (w : World) : List Event → Option World
  | [] => some w
  | ev :: evs =>
    match worldStep w ev with
    | none => none
    | some w' => runWorld w' evs

/-- The items of a sequence whose recipient ID is `uid`, in order. -/
def relayFilter (uid : Int) (items : List Notification) : List Notification :=
  items.filter (fun n => decide (recipientIDFromNotification (some n) = uid))

/-- The session of user 7 opened on a new broker. -/
def worldOfUser7 : World :=
  ⟨⟨⟨[⟨1, [], false⟩], fun k => if k = 7 then some [0] else none⟩, [⟨7, 0⟩]⟩, false,
    ⟨7, 0, ⟨7, 0⟩, .waiting, [], false, [], 0⟩⟩

/-- The invariant of a session and its broker: the broker's invariant; the
session's release function is the one `Subscribe` returned for its sink; a
relay that has ended has invoked the release function once, its sink is closed
and its stream is closed; a relay that has not ended has not invoked it; and
the stream holds the received items of the session's user, in order, but for
the item in flight. -/
structure WInv (w : World) : Prop where
  sys : Inv w.sys
  handle : w.sys.handles[w.session.ch]? = some w.session.unsubscribe
  ended : w.session.phase = RelayPhase.ended →
    w.session.unsubscribeCalls = 1 ∧ isClosed w.sys.broker w.session.ch
      ∧ w.session.streamClosed = true
  running : w.session.phase ≠ RelayPhase.ended →
    w.session.unsubscribeCalls = 0 ∧ w.session.streamClosed = false
  relay : ∃ rest : List Notification, rest.length ≤ 1
    ∧ w.session.stream ++ rest = relayFilter w.session.uid w.session.received
    ∧ (w.session.phase = RelayPhase.waiting → rest = [])
    ∧ (∀ n, w.session.phase = RelayPhase.forwarding n → rest = [n])

/-! ## `internal/graphql/resolver.go`: `decodeID` and `decodeIDList` -/

/-- A raw argument value as `decodeID` tells them apart: an `int`, an `int64`,
a `string`, or a value of any other type. -/
inductive Raw where
  | int (v : Int)
  | int64 (v : Int)
  | str (s : String)
  | other
  deriving DecidableEq, Repr

/-- `decodeID` (resolver.go:1510-1525). `scan` stands for
`fmt.Sscanf(v, "%d", &id)` of the standard library: the integer read from the
string, or `none` when the scan fails. The conversion `int(v)` of an `int64`
keeps the value (`int` is 64 bits wide on the platforms the server is built
for), and the two errors are rendered by the fixed part of their message. -/
def decodeID (scan : String → Option Int) (value : Raw) : Except Err Int :=
  match value with
  | .int v => .ok v
  | .int64 v => .ok v
  | .str s =>
    match scan s with
    | none => .error (.text "invalid id")
    | some id => .ok id
  | .other => .error (.text "unsupported id type")

/-- The value handed to `decodeIDList`: nil, a `[]interface{}`, a `[]int`, a
`[]string`, or a value of another type together with what
`mapstructure.Decode(v, &raw)` makes of it (`none` when it fails). -/
inductive RawList where
  | nil
  | ifaces (items : List Raw)
  | ints (v : List Int)
  | strs (v : List String)
  | other (decoded : Option (List Raw))
  deriving DecidableEq, Repr

/-- The loops of `decodeIDList` (resolver.go:1539-1544 and 1552-1556): the IDs
of the items `decodeID` accepts, in order. -/
def decodeEach (scan : String → Option Int) : List Raw → List Int
  | [] => []
  | item :: rest =>
    match decodeID scan item with
    | .ok id => id :: decodeEach scan rest
    | .error _ => decodeEach scan rest

/-- `decodeIDList` (resolver.go:1527-1558). -/
def decodeIDList (scan : String → Option Int) (value : RawList) : List Int :=
  match value with
  | .nil => []
  | .ifaces items => decodeEach scan items
  | .ints v => v
  | .strs v => decodeEach scan (v.map Raw.str)
  | .other none => []
  | .other (some raw) => decodeEach scan raw

/-- The entries of a raw list as `decodeIDList` walks them: the elements of a
`[]interface{}`, `[]int` or `[]string`, and for any other type the entries
`mapstructure.Decode` produced (none when it failed). -/
def RawList.items : RawList → List Raw
  | .nil => []
  | .ifaces items => items
  | .ints v => v.map Raw.int
  | .strs v => v.map Raw.str
  | .other none => []
  | .other (some raw) => raw

/-- A stand-in for `fmt.Sscanf(v, "%d", &id)` on three sample strings. -/
def sampleScan (s : String) : Option Int :=
  if s = "7" then some 7 else if s = "12" then some 12 else none

/-! ## Values used by the statements on cancellation, on `addRoomMembers` and on recipient 0 -/

/-- Every sink that `Subscribe(0)` returned is empty. -/
def zeroSinksEmpty (s : Sys) : Prop :=
  ∀ (k : Nat) (r : Release), s.handles[k]? = some r → r.userID = 0 → bufOf s.broker k = []

/-- No driver fault for any storage call of an `addRoomMembers` request. -/
def noMemberFaults : MemberFaults :=
  ⟨none, none, fun _ => none, none, none, none⟩

/-- The driver fails the insert at position `i` of an `addRoomMembers`
request with code `code`, and nothing else. -/
def memberFaultAt (i code : Nat) : MemberFaults :=
  ⟨none, none, fun k => if k = i then some code else none, none, none, none⟩

/-- A store with room 7 owned by user 1, who is its only member. -/
def roomSevenOfUserOne : DB :=
  ⟨[⟨7, "r", "", false, false, 1⟩], [⟨1, 7, 1, Role.owner, true, true⟩]⟩

/-! ## `internal/graphql/resolver.go`: role tests outside the guard -/

/-- The authorisation steps of `updateMessage` and `deleteMessage` once the
message has been read (resolver.go:676-690 and 729-743). `roomEdge` and
`senderEdge` are `msg.Edges.Room` and `msg.Edges.Sender` (the ID of the row
the edge points to, nil when it is missing); the result is the error returned,
nil when the mutation goes on. -/
def messageAuthorCheck (db : DB) (fault : Option Nat) (uid : Int)
    (roomEdge senderEdge : Option Int) : Option Err :=
  match roomEdge with
  | none => some (.text "message missing room relationship")
  | some roomID =>
    match ensureRoomMember db fault roomID uid with
    | .error err => some err
    | .ok membership =>
      match senderEdge with
      | none => some (.text "message missing sender relationship")
      | some senderID =>
        if senderID ≠ uid ∧ membership.role = Role.member then some .forbidden else none

/-- The authorisation steps of `createMedia` for a message argument, once the
message has been read (resolver.go:948-965). -/
def mediaAuthorCheck (db : DB) (fault : Option Nat) (uid : Int)
    (roomEdge senderEdge : Option Int) : Option Err :=
  match senderEdge with
  | none => some (.text "message missing sender relationship")
  | some senderID =>
    if senderID ≠ uid then
      match roomEdge with
      | none => some (.text "message missing room relationship")
      | some roomID =>
        match ensureRoomMember db fault roomID uid with
        | .error err => some err
        | .ok membership => if membership.role = Role.member then some .forbidden else none
    else none

/-- The authorisation steps of the call-log mutations (`updateCallLog`,
`deleteCallLog`, `addCallParticipant`, `updateCallParticipant`,
`removeCallParticipant`) once the call log has been read
(resolver.go:1216-1232 and the same lines in the other four). `roomEdge` and
`initiator` are `callEntry.Edges.Room` and `callEntry.Edges.Initiator`. -/
def callInitiatorCheck (db : DB) (fault : Option Nat) (uid : Int)
    (roomEdge initiator : Option Int) : Option Err :=
  match initiator with
  | none => some (.text "call log missing initiator relationship")
  | some initiatorID =>
    if initiatorID ≠ uid then
      match roomEdge with
      | none => some .forbidden
      | some roomID =>
        match ensureRoomMember db fault roomID uid with
        | .error err => some err
        | .ok membership => if membership.role = Role.member then some .forbidden else none
    else none

/-- The role test the mutations above apply to the membership found:
`membership.Role == roommembership.RoleMember` leads to `ErrForbidden`. -/
def inlineRoleCheck (membership : RoomMembership) : Option Err :=
  if membership.role = Role.member then some .forbidden else none

/-- The role test of `ensureRoomAdmin` on the membership found
(helpers.go:36-39). -/
def guardRoleCheck (membership : RoomMembership) : Option Err :=
  if membership.role = Role.owner ∨ membership.role = Role.admin then none else some .forbidden

/-! ## Messages and notifications in storage -/

/-- A row of the `messages` table as the resolvers read it with `WithRoom()`
and `WithSender()`: `room` and `sender` are the IDs the two edges point to (nil
when the edge is missing). -/
structure Message where
  id : Int
  room : Option Int
  sender : Option Int
  cipherText : String
  contentType : String
  deriving DecidableEq, Repr

/-- A row of the `notifications` table (`ent/schema/notification.go`) with its
three edges: the recipient (required), the room and the message (optional). -/
structure NotificationRow where
  id : Int
  recipientID : Int
  kind : String
  cipherText : String
  encryptionScheme : String
  read : Bool
  roomID : Option Int
  messageID : Option Int
  deriving DecidableEq, Repr

/-- The committed storage state: rooms and memberships, messages and
notifications. -/
structure Store where
  db : DB
  messages : List Message
  notifications : List NotificationRow
  deriving DecidableEq, Repr

/-- A call a resolver makes on the storage client, in the order of the
statements: the guard's membership lookup, the calls on a transaction (its
opening, the inserts, the commit, the rollback), and the queries and writes on
rooms, memberships, messages and notifications. -/
inductive StorageCall where
  | membershipLookup (roomID userID : Int)
  | beginTx
  | roomInsert
  | membershipInsert (roomID userID : Int)
  | commit
  | rollback
  | membershipsOfRoom (roomID : Int)
  | membershipUpdate (roomID userID : Int)
  | membershipRead (roomID userID : Int)
  | membershipDelete (roomID userID : Int)
  | roomRead (id : Int)
  | roomUpdate (id : Int)
  | roomDelete (id : Int)
  | messagesOfRoom (roomID : Int)
  | messageRead (id : Int)
  | messageInsert
  | notificationInsert
  | notificationRead (id : Int)
  | notificationOfRecipient (id userID : Int)
  | notificationUpdate (id : Int)
  deriving DecidableEq, Repr

/-- What one request leaves behind: the values the resolver returns, the
committed storage state, the storage calls it made, in order, and the
arguments `(userID, n)` of its calls of `r.publishNotification`, whose first
statement is `r.notificationBroker.Publish(ctx, n)` (resolver.go:74-79). -/
structure Reply (α : Type) where
  result : Except Err α
  store : Store
  calls : List StorageCall
  published : List (Int × Notification)

/-- The part of a notification read with `WithRecipient()` that the broker
looks at: its ID and the recipient edge, which is loaded. -/
def NotificationRow.toNotification (row : NotificationRow) : Notification :=
  ⟨row.id, some row.recipientID⟩

/-! ## `internal/graphql/resolver.go`: `messages`, `updateRoom`, `deleteRoom`, `createMessage` -/

/-- The `Resolve` function of the `messages` query field (resolver.go:158-174);
`roomID` is the value of `decodeID(p.Args["roomId"])`. The ordering by
creation time is not modelled: the rows come in table order. -/
def messagesQuery (st : Store) (lookupFault readFault : Option Nat) (ctxValue : CtxValue)
    (roomID : Except Err Int) : Reply (List Message) :=
  match UserIDFromContext ctxValue with
  | .error _ => ⟨.error .unauthorized, st, [], []⟩
  | .ok uid =>
    match roomID with
    | .error err => ⟨.error err, st, [], []⟩
    | .ok roomID =>
      match ensureRoomAccess st.db lookupFault roomID uid with
      | some err => ⟨.error err, st, [.membershipLookup roomID uid], []⟩
      | none =>
        ⟨All readFault (st.messages.filter (fun m => decide (m.room = some roomID))), st,
          [.membershipLookup roomID uid, .messagesOfRoom roomID], []⟩

/-- The `Resolve` function of the `updateRoom` field (resolver.go:442-468).
Modelled from the spec: the generated update builder is not part of the
sources and the specification does not describe it, so `exec` stands for
`builder.Exec(ctx)` of the builder the arguments configure: its error and the
storage state after it. -/
def updateRoom (st : Store) (lookupFault readFault : Option Nat)
    (exec : Store → Option Err × Store) (ctxValue : CtxValue) (roomID : Except Err Int) :
    Reply Room :=
  match UserIDFromContext ctxValue with
  | .error _ => ⟨.error .unauthorized, st, [], []⟩
  | .ok uid =>
    match roomID with
    | .error err => ⟨.error err, st, [], []⟩
    | .ok roomID =>
      match ensureRoomAdmin st.db lookupFault roomID uid with
      | some err => ⟨.error err, st, [.membershipLookup roomID uid], []⟩
      | none =>
        match exec st with
        | (some err, st') =>
          ⟨.error err, st', [.membershipLookup roomID uid, .roomUpdate roomID], []⟩
        | (none, st') =>
          ⟨roomByID st'.db readFault roomID, st',
            [.membershipLookup roomID uid, .roomUpdate roomID, .roomRead roomID], []⟩

/-- The `Resolve` function of the `deleteRoom` field (resolver.go:476-489). It
returns the pair `(true, err)`; a non-nil `err` is the error of the field.
Modelled from the spec: `exec` stands for
`r.Client.Room.DeleteOneID(roomID).Exec(ctx)`, which is not part of the
sources. -/
def deleteRoom (st : Store) (lookupFault : Option Nat) (exec : Store → Option Err × Store)
    (ctxValue : CtxValue) (roomID : Except Err Int) : Reply Bool :=
  match UserIDFromContext ctxValue with
  | .error _ => ⟨.error .unauthorized, st, [], []⟩
  | .ok uid =>
    match roomID with
    | .error err => ⟨.error err, st, [], []⟩
    | .ok roomID =>
      match ensureRoomOwner st.db lookupFault roomID uid with
      | some err => ⟨.error err, st, [.membershipLookup roomID uid], []⟩
      | none =>
        match exec st with
        | (some err, st') =>
          ⟨.error err, st', [.membershipLookup roomID uid, .roomDelete roomID], []⟩
        | (none, st') =>
          ⟨.ok true, st', [.membershipLookup roomID uid, .roomDelete roomID], []⟩

/-- The `Resolve` function of the `createMessage` field (resolver.go:627-651).
Modelled from the spec: `save` stands for `builder.Save(ctx)` of the message
builder, which is not part of the sources: the row or the error, and the
storage state after it. -/
def createMessage (st : Store) (lookupFault : Option Nat)
    (save : Store → Except Err Message × Store) (ctxValue : CtxValue)
    (roomID : Except Err Int) : Reply Message :=
  match UserIDFromContext ctxValue with
  | .error _ => ⟨.error .unauthorized, st, [], []⟩
  | .ok uid =>
    match roomID with
    | .error err => ⟨.error err, st, [], []⟩
    | .ok roomID =>
      match ensureRoomMember st.db lookupFault roomID uid with
      | .error err => ⟨.error err, st, [.membershipLookup roomID uid], []⟩
      | .ok membership =>
        if !membership.canPost then
          ⟨.error .forbidden, st, [.membershipLookup roomID uid], []⟩
        else
          match save st with
          | (res, st') => ⟨res, st', [.membershipLookup roomID uid, .messageInsert], []⟩

/-! ## `internal/graphql/resolver.go`: `createNotification` and `updateNotification` -/

/-- The driver's outcome for each storage call of one `createNotification`
request. -/
structure NotifFaults where
  message : Option Nat
  recipientLookup : Option Nat
  callerLookup : Option Nat
  save : Option Nat
  readBack : Option Nat

/-- The arguments of `createNotification`. `recipientId` is the value of
`decodeID(p.Args["recipientId"])`; `roomId` and `messageId` are nil when the
argument is missing or null and otherwise the value of `decodeID` on it. -/
structure CreateNotificationArgs where
  recipientId : Except Err Int
  kind : String
  cipherText : String
  encryptionScheme : Option String
  roomId : Option (Except Err Int)
  messageId : Option (Except Err Int)

/-- The statements of `createNotification` that settle the room and the
message of the notification (resolver.go:770-795): the pair
`(roomID, messageID)` or the error returned, and the storage calls made. -/
def notificationTarget (st : Store) (fault : Option Nat)
    (roomId messageId : Option (Except Err Int)) :
    Except Err (Option Int × Option Int) × List StorageCall :=
  let decodedRoom : Except Err (Option Int) :=
    match roomId with
    | none => .ok none
    | some (.error err) => .error err
    | some (.ok rid) => .ok (some rid)
  match decodedRoom with
  | .error err => (.error err, [])
  | .ok roomID =>
    match messageId with
    | none => (.ok (roomID, none), [])
    | some (.error err) => (.error err, [])
    | some (.ok mid) =>
      match Only fault (st.messages.filter (fun m => decide (m.id = mid))) with
      | .error err => (.error err, [.messageRead mid])
      | .ok message =>
        match message.room with
        | none => (.error (.text "message missing room relationship"), [.messageRead mid])
        | some roomEdge =>
          match roomID with
          | some rid =>
            if rid ≠ roomEdge then
              (.error (.text "message does not belong to provided room"), [.messageRead mid])
            else (.ok (some roomEdge, some mid), [.messageRead mid])
          | none => (.ok (some roomEdge, some mid), [.messageRead mid])

/-- The authorisation statements of `createNotification`
(resolver.go:796-811): the error returned (nil when the request goes on) and
the storage calls made. -/
def notificationAuth (db : DB) (recipientLookup callerLookup : Option Nat)
    (uid recipientID : Int) (roomID : Option Int) : Option Err × List StorageCall :=
  match roomID with
  | some rid =>
    match ensureRoomMember db recipientLookup rid recipientID with
    | .error err => (some err, [.membershipLookup rid recipientID])
    | .ok _ =>
      if recipientID ≠ uid then
        (ensureRoomAdmin db callerLookup rid uid,
          [.membershipLookup rid recipientID, .membershipLookup rid uid])
      else
        match ensureRoomMember db callerLookup rid uid with
        | .error err =>
          (some err, [.membershipLookup rid recipientID, .membershipLookup rid uid])
        | .ok _ => (none, [.membershipLookup rid recipientID, .membershipLookup rid uid])
  | none => if recipientID ≠ uid then (some .forbidden, []) else (none, [])

/-- Modelled from the spec: `insertNotification(...)`, the call
`r.Client.Notification.Create()...Save(ctx)`. The `NotEmpty` validators of
`kind` and `cipher_text` (`ent/schema/notification.go`) reject an empty
string; a driver fault fails the insert; otherwise the row is appended under a
fresh key with the schema defaults `encryption_scheme = "signal"` and
`read = false`. -/
def Store.insertNotification (st : Store) (fault : Option Nat) (recipientID : Int)
    (kind cipherText : String) (scheme : Option String) (roomID messageID : Option Int) :
    Except Err (NotificationRow × Store) :=
  if kind = "" then .error .validation
  else if cipherText = "" then .error .validation
  else
    match fault with
    | some code => .error (.storage code)
    | none =>
      let row : NotificationRow :=
        ⟨nextID (st.notifications.map (fun n => n.id)), recipientID, kind, cipherText,
          scheme.getD "signal", false, roomID, messageID⟩
      .ok (row, { st with notifications := st.notifications ++ [row] })

/-- The `Resolve` function of the `createNotification` field
(resolver.go:757-838). -/
def createNotification (st : Store) (f : NotifFaults) (ctxValue : CtxValue)
    (args : CreateNotificationArgs) : Reply NotificationRow :=
  match UserIDFromContext ctxValue with
  | .error _ => ⟨.error .unauthorized, st, [], []⟩
  | .ok uid =>
    match args.recipientId with
    | .error err => ⟨.error err, st, [], []⟩
    | .ok recipientID =>
      match notificationTarget st f.message args.roomId args.messageId with
      | (.error err, calls) => ⟨.error err, st, calls, []⟩
      | (.ok (roomID, messageID), calls) =>
        match notificationAuth st.db f.recipientLookup f.callerLookup uid recipientID
            roomID with
        | (some err, calls2) => ⟨.error err, st, calls ++ calls2, []⟩
        | (none, calls2) =>
          let scheme : Option String :=
            match args.encryptionScheme with
            | some v => if v ≠ "" then some v else none
            | none => none
          match st.insertNotification f.save recipientID args.kind args.cipherText scheme
              roomID messageID with
          | .error err => ⟨.error err, st, calls ++ calls2 ++ [.notificationInsert], []⟩
          | .ok (saved, st') =>
            match Only f.readBack
                (st'.notifications.filter (fun n => decide (n.id = saved.id))) with
            | .error err =>
              ⟨.error err, st',
                calls ++ calls2 ++ [.notificationInsert, .notificationRead saved.id], []⟩
            | .ok enriched =>
              ⟨.ok enriched, st',
                calls ++ calls2 ++ [.notificationInsert, .notificationRead saved.id],
                [(recipientID, enriched.toNotification)]⟩

/-- The driver's outcome for each storage call of one `updateNotification`
request. -/
structure NotifUpdateFaults where
  owned : Option Nat
  update : Option Nat
  readBack : Option Nat

/-- The arguments of `updateNotification`; `id` is the value of
`decodeID(p.Args["id"])`, the others are nil when the argument is missing. -/
structure UpdateNotificationArgs where
  id : Except Err Int
  kind : Option String
  cipherText : Option String
  encryptionScheme : Option String
  read : Option Bool

/-- Modelled from the spec: `updateNotification(...)`, the call
`r.Client.Notification.UpdateOneID(id)...Exec(ctx)`. The `NotEmpty` validators
reject an empty `kind` or `cipher_text` that was set; a driver fault changes
nothing; with no row of that ID the result is a not-found error; otherwise the
row takes the fields that were set. -/
def Store.updateNotification (st : Store) (fault : Option Nat) (id : Int)
    (kind cipherText scheme : Option String) (read : Option Bool) : Option Err × Store :=
  if kind = some "" then (some .validation, st)
  else if cipherText = some "" then (some .validation, st)
  else
    match fault with
    | some code => (some (.storage code), st)
    | none =>
      if st.notifications.any (fun n => decide (n.id = id)) then
        (none, { st with notifications := st.notifications.map (fun n =>
          if n.id = id then
            { n with
              kind := kind.getD n.kind
              cipherText := cipherText.getD n.cipherText
              encryptionScheme := scheme.getD n.encryptionScheme
              read := read.getD n.read }
          else n) })
      else (some .notFound, st)

/-- The `Resolve` function of the `updateNotification` field
(resolver.go:849-891). -/
def updateNotification (st : Store) (f : NotifUpdateFaults) (ctxValue : CtxValue)
    (args : UpdateNotificationArgs) : Reply NotificationRow :=
  match UserIDFromContext ctxValue with
  | .error _ => ⟨.error .unauthorized, st, [], []⟩
  | .ok uid =>
    match args.id with
    | .error err => ⟨.error err, st, [], []⟩
    | .ok id =>
      match Only f.owned (st.notifications.filter
          (fun n => decide (n.id = id) && decide (n.recipientID = uid))) with
      | .error err => ⟨.error err, st, [.notificationOfRecipient id uid], []⟩
      | .ok _ =>
        match st.updateNotification f.update id args.kind args.cipherText
            args.encryptionScheme args.read with
        | (some err, st') =>
          ⟨.error err, st', [.notificationOfRecipient id uid, .notificationUpdate id], []⟩
        | (none, st') =>
          match Only f.readBack (st'.notifications.filter (fun n => decide (n.id = id))) with
          | .error err =>
            ⟨.error err, st',
              [.notificationOfRecipient id uid, .notificationUpdate id, .notificationRead id],
              []⟩
          | .ok updated =>
            ⟨.ok updated, st',
              [.notificationOfRecipient id uid, .notificationUpdate id, .notificationRead id],
              [(uid, updated.toNotification)]⟩

/-- A store with room 7 (owner 1, member 3), message 5 of room 7 sent by
user 3, and no notification. -/
def sampleStore : Store :=
  ⟨⟨[⟨7, "r", "", false, false, 1⟩],
      [⟨1, 7, 1, Role.owner, true, true⟩, ⟨2, 7, 3, Role.member, true, true⟩]⟩,
    [⟨5, some 7, some 3, "c", "text/plain"⟩], []⟩

/-- No driver fault for any storage call of a `createNotification` request. -/
def noNotifFaults : NotifFaults :=
  ⟨none, none, none, none, none⟩

/-- The arguments of a request that notifies user 3 about room 7. -/
def sampleNotifyArgs : CreateNotificationArgs :=
  ⟨.ok 3, "k", "c", none, some (.ok 7), none⟩

/-! ## `internal/graphql/notifications.go`: goroutines on one broker -/

/-- Where a goroutine stands in the call it is making on the broker. `idle`:
between two calls. `locking op`: inside `b.mu.Lock()` of `Subscribe` or of a
release function; it has announced itself as the writer and waits for the
readers to leave. `publishing n rest`: inside `Publish` holding the read lock,
with the sinks in `rest` still to visit in the loop `for ch := range subs`. -/
inductive Pc where
  | idle
  | locking (op : Op)
  | publishing (n : Notification) (rest : List Nat)
  deriving DecidableEq, Repr

/-- The goroutine has `b.mu` as the writer, or is the one waiting for it. -/
def Pc.holdsW : Pc → Bool
  | .locking _ => true
  | _ => false

/-- The goroutine holds the read lock of `b.mu`. -/
def Pc.reading : Pc → Bool
  | .publishing _ _ => true
  | _ => false

/-- A goroutine: where it stands, and the calls it has still to make, the one
in progress first. -/
structure Goroutine where
  pc : Pc
  todo : List Op
  deriving DecidableEq, Repr

/-- The broker shared by the goroutines. The state of `b.mu` is who stands
where: the mutex is write-locked or claimed by a writer exactly when a
goroutine is `locking`, and read-locked by the goroutines that are
`publishing`. `sent` records every delivery: the goroutine, the number of calls
it had left (which identifies the call of `Publish`), and the sink. -/
structure Conc where
  sys : Sys
  threads : List Goroutine
  sent : List (Nat × Nat × Nat)

/-- What a goroutine picked by the scheduler does: it cannot move (it waits
for the mutex, or has finished), the program panics, or it takes one step. -/
inductive Move where
  | blocked
  | panic
  | next (c : Conc)

/-- The `select` of `Publish` on channel `ch` takes the send case: the channel
is open and its buffer has room. -/
def sendDelivers (chans : List Chan) (ch : Nat) : Bool :=
  match chans[ch]? with
  | some c0 => !c0.closed && decide (c0.buf.length < c0.cap)
  | none => false

/-- One step of goroutine `i` (notifications.go:34-74 with the semantics of
`sync.RWMutex`). `Lock()` first claims the mutex against other writers and
against new readers, then waits until no reader is left; the body of
`Subscribe` or of the release function then runs as one step and unlocks (the
channel of `Subscribe`, made before `Lock()`, gets its place in `chans` in
that step). `RLock()` waits while a writer holds or claims the mutex; the loop
of `Publish` then makes one `select` per step and unlocks after the last; it
visits the sinks in list order, where Go ranges over the map in an order of
its own, each key once. `Publish` of a notification without recipient returns
before locking, a receive from a channel needs no lock, and a release function
not returned yet is not a call. -/
def cstep (c : Conc) (i : Nat) : Move :=
  match c.threads[i]? with
  | none => .blocked
  | some g =>
    match g.pc with
    | .idle =>
      match g.todo with
      | [] => .blocked
      | .subscribe u :: _ =>
        if c.threads.any (fun t => t.pc.holdsW) then .blocked
        else .next { c with threads := c.threads.set i { g with pc := .locking (.subscribe u) } }
      | .release k :: rest =>
        match c.sys.handles[k]? with
        | none => .next { c with threads := c.threads.set i { g with todo := rest } }
        | some _ =>
          if c.threads.any (fun t => t.pc.holdsW) then .blocked
          else
            .next { c with threads := c.threads.set i { g with pc := .locking (.release k) } }
      | .publish notification :: rest =>
        match notification with
        | none => .next { c with threads := c.threads.set i { g with todo := rest } }
        | some n =>
          if recipientIDFromNotification (some n) = 0 then
            .next { c with threads := c.threads.set i { g with todo := rest } }
          else if c.threads.any (fun t => t.pc.holdsW) then .blocked
          else
            .next { c with
              threads := c.threads.set i { g with
                pc := .publishing n
                  (match c.sys.broker.subscribers (recipientIDFromNotification (some n)) with
                    | some subs => subs
                    | none => []) } }
      | .recv ch :: rest =>
        .next { c with
          sys := ⟨⟨recvChan c.sys.broker.chans ch, c.sys.broker.subscribers⟩, c.sys.handles⟩
          threads := c.threads.set i { g with todo := rest } }
    | .locking op =>
      if c.threads.any (fun t => t.pc.reading) then .blocked
      else
        match step c.sys op with
        | none => .panic
        | some sys => .next { c with sys := sys, threads := c.threads.set i ⟨.idle, g.todo.tail⟩ }
    | .publishing _ [] => .next { c with threads := c.threads.set i ⟨.idle, g.todo.tail⟩ }
    | .publishing n (ch :: rest) =>
      match trySend c.sys.broker.chans ch n with
      | none => .panic
      | some chans =>
        .next
          { sys := ⟨⟨chans, c.sys.broker.subscribers⟩, c.sys.handles⟩
            threads := c.threads.set i { g with pc := .publishing n rest }
            sent :=
              if sendDelivers c.sys.broker.chans ch then c.sent ++ [(i, g.todo.length, ch)]
              else c.sent }

/-- A schedule: the goroutine picked at each turn. Picking a goroutine that
cannot move changes nothing; `none` is a panic. -/
def crun (c : Conc) : List Nat → Option Conc
  | [] => some c
  | i :: rest =>
    match cstep c i with
    | .blocked => crun c rest
    | .panic => none
    | .next c' => crun c' rest

/-- A new broker and one goroutine per program, each about to make its first
call. -/
def startConc (programs : List (List Op)) : Conc :=
  ⟨initSys, programs.map (fun p => ⟨.idle, p⟩), []⟩

/-- No sink is listed twice for a recipient (the inner maps of `subscribers`
are sets). -/
def regNodup (b : Broker) : Prop :=
  ∀ u subs, b.subscribers u = some subs → subs.Nodup

/-- The invariant of the goroutines on one broker: the broker's invariant; no
sink listed twice; a goroutine inside a call has that call first in its list;
a goroutine inside `Publish` has pairwise different sinks left to visit, all
registered for the recipient; every recorded delivery belongs to a call that
is over or to the call in progress and a sink already visited; and no
delivery is recorded twice. -/
structure CInv (c : Conc) : Prop where
  sys : Inv c.sys
  nodup : regNodup c.sys.broker
  busy : ∀ (i : Nat) (g : Goroutine), c.threads[i]? = some g → g.pc ≠ Pc.idle → g.todo ≠ []
  pub : ∀ (i : Nat) (g : Goroutine) (n : Notification) (rest : List Nat),
    c.threads[i]? = some g → g.pc = Pc.publishing n rest →
    rest.Nodup ∧ ∀ ch ∈ rest, registered c.sys.broker (recipientIDFromNotification (some n)) ch
  log : ∀ e ∈ c.sent, ∃ g, c.threads[e.1]? = some g
    ∧ (g.todo.length < e.2.1
      ∨ (g.todo.length = e.2.1 ∧ ∃ n rest, g.pc = Pc.publishing n rest ∧ e.2.2 ∉ rest))
  once : c.sent.Nodup

/-- The weight of a goroutine for the termination order: two per call left,
less one when the call in progress has passed its lock. -/
def Goroutine.weight (g : Goroutine) : Nat :=
  match g.pc with
  | .idle => 2 * g.todo.length
  | _ => 2 * g.todo.length - 1

/-- The sinks a goroutine inside `Publish` has still to visit. -/
def Goroutine.left (g : Goroutine) : Nat :=
  match g.pc with
  | .publishing _ rest => rest.length
  | _ => 0

/-- The termination measure: the total weight of the goroutines, then the
number of sinks still to visit by the calls of `Publish` in progress. -/
def Conc.measure (c : Conc) : Nat × Nat :=
  ((c.threads.map Goroutine.weight).sum, (c.threads.map Goroutine.left).sum)

/-! ## The guarded resolvers with the storage calls they make -/

/-- The `Resolve` function of the `room` query field (resolver.go:138-151) with
its storage calls: the result of `roomQuery` and the calls made, in order. -/
def roomQueryTraced (db : DB) (lookupFault readFault : Option Nat) (ctxValue : CtxValue)
    (id : Except Err Int) : Except Err Room × List StorageCall :=
  match UserIDFromContext ctxValue with
  | .error _ => (.error .unauthorized, [])
  | .ok uid =>
    match id with
    | .error err => (.error err, [])
    | .ok id =>
      match ensureRoomAccess db lookupFault id uid with
      | some err => (.error err, [.membershipLookup id uid])
      | none => (roomByID db readFault id, [.membershipLookup id uid, .roomRead id])

/-- The participant loop of `createRoom` (resolver.go:413-426) with its storage
calls: one insert per entry reached. -/
def saveParticipantsTraced (f : Faults) (roomID uid : Int) (direct : Bool) :
    Nat → List Int → Tx → (Option Err × Tx) × List StorageCall
  | _, [], tx => ((none, tx), [])
  | i, pid :: rest, tx =>
    let role := if direct && decide (pid ≠ uid) then Role.admin else Role.member
    match tx.saveMembership (f.saveParticipant i) roomID pid role with
    | .error err => ((some err, tx), [.membershipInsert roomID pid])
    | .ok (_, tx') =>
      ((saveParticipantsTraced f roomID uid direct (i + 1) rest tx').1,
        .membershipInsert roomID pid
          :: (saveParticipantsTraced f roomID uid direct (i + 1) rest tx').2)

/-- The statements of `createRoom` after the `defer` (resolver.go:383-431) with
their storage calls. -/
def createRoomBodyTraced (db : DB) (f : Faults) (tx : Tx) (uid : Int)
    (name description : String) (isPrivate : Bool) (participantIDs : List Int) :
    BodyState × List StorageCall :=
  let direct := decide (nonOwnerCount uid participantIDs = 1)
  match tx.saveRoom f.saveRoom name description isPrivate direct uid with
  | .error err => (⟨.error err, some err, tx, db⟩, [.roomInsert])
  | .ok (newRoom, tx1) =>
    match tx1.saveMembership f.saveOwner newRoom.id uid Role.owner with
    | .error err =>
      (⟨.error err, some err, tx1, db⟩, [.roomInsert, .membershipInsert newRoom.id uid])
    | .ok (_, tx2) =>
      match saveParticipantsTraced f newRoom.id uid direct 0 participantIDs tx2 with
      | ((some err, tx3), calls) =>
        (⟨.error err, some err, tx3, db⟩,
          [.roomInsert, .membershipInsert newRoom.id uid] ++ calls)
      | ((none, tx3), calls) =>
        match tx3.Commit f.commit db with
        | (some err, tx4, db') =>
          (⟨.error err, some err, tx4, db'⟩,
            [.roomInsert, .membershipInsert newRoom.id uid] ++ calls ++ [.commit])
        | (none, tx4, db') =>
          (⟨roomByID db' f.readBack newRoom.id, none, tx4, db'⟩,
            [.roomInsert, .membershipInsert newRoom.id uid] ++ calls
              ++ [.commit, .roomRead newRoom.id])

/-- The `Resolve` function of the `createRoom` field (resolver.go:365-432) with
its storage calls; the deferred `rollbackOnError` adds its `Rollback` calls
last. -/
def createRoomTraced (db : DB) (f : Faults) (ctxValue : CtxValue) (args : CreateRoomArgs) :
    Outcome × List StorageCall :=
  match UserIDFromContext ctxValue with
  | .error _ => (⟨.error .unauthorized, db, none, none, 0⟩, [])
  | .ok uid =>
    let description := args.description.getD ""
    let isPrivate := args.isPrivate.getD false
    match beginTx db f.beginTx with
    | .error err => (⟨.error err, db, none, some err, 0⟩, [.beginTx])
    | .ok tx =>
      match createRoomBodyTraced db f tx uid args.name description isPrivate
          args.participantIDs with
      | (body, calls) =>
        match rollbackOnError body.tx f.rollback (some body.err) with
        | (errPtr, tx', n) =>
          (⟨body.result, body.db, some tx', errPtr.join, n⟩,
            [.beginTx] ++ calls ++ List.replicate n .rollback)

/-- The insert loop of `addRoomMembers` (resolver.go:521-531) with its storage
calls. -/
def saveMembersTraced (f : MemberFaults) (roomID : Int) (role : Option Role) :
    Nat → List Int → Tx → (Option Err × Tx) × List StorageCall
  | _, [], tx => ((none, tx), [])
  | i, mid :: rest, tx =>
    match tx.saveMembershipWithRole (f.save i) roomID mid role with
    | .error err => ((some err, tx), [.membershipInsert roomID mid])
    | .ok (_, tx') =>
      ((saveMembersTraced f roomID role (i + 1) rest tx').1,
        .membershipInsert roomID mid :: (saveMembersTraced f roomID role (i + 1) rest tx').2)

/-- The statements of `addRoomMembers` after the `defer` (resolver.go:520-539)
with their storage calls. -/
def addRoomMembersBodyTraced (db : DB) (f : MemberFaults) (tx : Tx) (roomID : Int)
    (role : Option Role) (memberIDs : List Int) : MembersBodyState × List StorageCall :=
  match saveMembersTraced f roomID role 0 memberIDs tx with
  | ((some err, tx1), calls) => (⟨.error err, none, tx1, db⟩, calls)
  | ((none, tx1), calls) =>
    match tx1.Commit f.commit db with
    | (some err, tx2, db') => (⟨.error err, some err, tx2, db'⟩, calls ++ [.commit])
    | (none, tx2, db') =>
      (⟨All f.readBack (db'.memberships.filter (fun m =>
          decide (m.roomID = roomID) && decide (m.userID ∈ memberIDs))), none, tx2, db'⟩,
        calls ++ [.commit, .membershipsOfRoom roomID])

/-- The `Resolve` function of the `addRoomMembers` field (resolver.go:498-540)
with its storage calls. -/
def addRoomMembersTraced (db : DB) (f : MemberFaults) (ctxValue : CtxValue)
    (roomID : Except Err Int) (memberIDs : List Int) (roleArg : Option String) :
    MembersOutcome × List StorageCall :=
  match UserIDFromContext ctxValue with
  | .error _ => (⟨.error .unauthorized, db, none, none, 0⟩, [])
  | .ok uid =>
    match roomID with
    | .error err => (⟨.error err, db, none, some err, 0⟩, [])
    | .ok roomID =>
      match ensureRoomAdmin db f.lookup roomID uid with
      | some err => (⟨.error err, db, none, none, 0⟩, [.membershipLookup roomID uid])
      | none =>
        let role := match roleArg with
          | some v => if v ≠ "" then roleOfString v else some Role.member
          | none => some Role.member
        match beginTx db f.beginTx with
        | .error err =>
          (⟨.error err, db, none, some err, 0⟩, [.membershipLookup roomID uid, .beginTx])
        | .ok tx =>
          match addRoomMembersBodyTraced db f tx roomID role memberIDs with
          | (body, calls) =>
            match rollbackOnError body.tx f.rollback (some body.err) with
            | (errPtr, tx', n) =>
              (⟨body.result, body.db, some tx', errPtr.join, n⟩,
                [.membershipLookup roomID uid, .beginTx] ++ calls
                  ++ List.replicate n .rollback)

/-- The `Resolve` function of the `updateRoomMembership` field
(resolver.go:551-587) with its storage calls. -/
def updateRoomMembershipTraced (db : DB) (f : UpdateFaults) (ctxValue : CtxValue)
    (roomID memberID : Except Err Int) (roleArg : Option String)
    (canPost canCall : Option Bool) : (Except Err RoomMembership × DB) × List StorageCall :=
  match UserIDFromContext ctxValue with
  | .error _ => ((.error .unauthorized, db), [])
  | .ok uid =>
    match roomID with
    | .error err => ((.error err, db), [])
    | .ok roomID =>
      match memberID with
      | .error err => ((.error err, db), [])
      | .ok memberID =>
        match ensureRoomAdmin db f.lookup roomID uid with
        | some err => ((.error err, db), [.membershipLookup roomID uid])
        | none =>
          let role : Option (Option Role) := match roleArg with
            | some v => if v ≠ "" then some (roleOfString v) else none
            | none => none
          match updateMemberships db f.update roomID memberID role canPost canCall with
          | (some err, db') =>
            ((.error err, db'),
              [.membershipLookup roomID uid, .membershipUpdate roomID memberID])
          | (none, db') =>
            ((Only f.readBack (membershipsWhere db' roomID memberID), db'),
              [.membershipLookup roomID uid, .membershipUpdate roomID memberID,
                .membershipRead roomID memberID])

/-- The `Resolve` function of the `removeRoomMember` field
(resolver.go:595-618) with its storage calls. -/
def removeRoomMemberTraced (db : DB) (lookupFault deleteFault : Option Nat)
    (ctxValue : CtxValue) (roomID memberID : Except Err Int) :
    (Except Err Bool × DB) × List StorageCall :=
  match UserIDFromContext ctxValue with
  | .error _ => ((.error .unauthorized, db), [])
  | .ok uid =>
    match roomID with
    | .error err => ((.error err, db), [])
    | .ok roomID =>
      match memberID with
      | .error err => ((.error err, db), [])
      | .ok memberID =>
        match ensureRoomAdmin db lookupFault roomID uid with
        | some err => ((.error err, db), [.membershipLookup roomID uid])
        | none =>
          match deleteMemberships db deleteFault roomID memberID with
          | (some err, db') =>
            ((.error err, db'),
              [.membershipLookup roomID uid, .membershipDelete roomID memberID])
          | (none, db') =>
            ((.ok true, db'),
              [.membershipLookup roomID uid, .membershipDelete roomID memberID])

/-! ## Requests that leave the owner rows alone -/

/-- The test "row of room `roomID` with role owner" that `ownerCount` counts. -/
def isOwnerRowOf (roomID : Int) (m : RoomMembership) : Bool :=
  decide (m.roomID = roomID) && decide (m.role = Role.owner)

/-- The pair `(roomID, userID)` has a membership row whose role is owner. -/
def ownerRowOf (db : DB) (roomID userID : Int) : Bool :=
  db.memberships.any (fun m =>
    decide (m.roomID = roomID) && decide (m.userID = userID) && decide (m.role = Role.owner))

/-- The request, made in state `db`, leaves the owner rows alone: it does not
ask for the role owner (`addRoomMembers` or `updateRoomMembership` with the
role argument `owner`), does not set the role of a member whose row has role
owner, and does not remove such a member. Every `createRoom` request does. -/
def Mutation.sparesOwners (db : DB) : Mutation → Bool
  | .createRoom _ _ _ => true
  | .addRoomMembers _ _ _ _ roleArg => decide (roleArg ≠ some "owner")
  | .updateRoomMembership _ _ roomID memberID roleArg _ _ =>
    match roleArg with
    | none => true
    | some v =>
      if v = "" then true
      else
        decide (v ≠ "owner") &&
          (match roomID, memberID with
            | .ok r, .ok u => !ownerRowOf db r u
            | _, _ => true)
  | .removeRoomMember _ _ _ roomID memberID =>
    match roomID, memberID with
    | .ok r, .ok u => !ownerRowOf db r u
    | _, _ => true

/-- Every request of the sequence leaves the owner rows alone in the state it
is made in. -/
def sparesOwnersAll (db : DB) : List Mutation → Bool
  | [] => true
  | m :: ms => m.sparesOwners db && sparesOwnersAll (m.apply db) ms

/-! # Theorems -/

/-! ## The guard -/

theorem mem_membershipsWhere (db : DB) (roomID userID : Int) (m : RoomMembership) :
    m ∈ membershipsWhere db roomID userID ↔
      m ∈ db.memberships ∧ m.roomID = roomID ∧ m.userID = userID := by
  simp [membershipsWhere, List.mem_filter]

theorem hasMembership_iff_ne_nil (db : DB) (roomID userID : Int) :
    hasMembership db roomID userID ↔ membershipsWhere db roomID userID ≠ [] := by
  constructor
  · rintro ⟨row, hrow, hr, hu⟩ hnil
    have hmem : row ∈ membershipsWhere db roomID userID :=
      (mem_membershipsWhere db roomID userID row).2 ⟨hrow, hr, hu⟩
    rw [hnil] at hmem
    exact List.not_mem_nil _ hmem
  · intro hne
    obtain ⟨row, hrow⟩ := List.exists_mem_of_ne_nil _ hne
    have hmem := (mem_membershipsWhere db roomID userID row).1 hrow
    exact ⟨row, hmem.1, hmem.2.1, hmem.2.2⟩

/-- Under the unique `(user, room)` index a filter on one pair keeps at most
one row, so `Only` never reports a not-singular result. -/
theorem membershipsWhere_length_le_one (db : DB) (roomID userID : Int)
    (hidx : uniqueIndex db.memberships) :
    (membershipsWhere db roomID userID).length ≤ 1 := by
  have hpw : (membershipsWhere db roomID userID).Pairwise
      (fun a b => ¬ (a.roomID = b.roomID ∧ a.userID = b.userID)) :=
    List.Pairwise.sublist (List.filter_sublist _) hidx
  match hl : membershipsWhere db roomID userID, hpw with
  | [], _ => simp
  | [_], _ => simp
  | a :: b :: t, hp =>
    exfalso
    have ha := (mem_membershipsWhere db roomID userID a).1 (by rw [hl]; simp)
    have hb := (mem_membershipsWhere db roomID userID b).1 (by rw [hl]; simp)
    have hab := (List.pairwise_cons.1 hp).1 b (by simp)
    exact hab ⟨ha.2.1.trans hb.2.1.symm, ha.2.2.trans hb.2.2.symm⟩

/-- With no driver fault and the unique index in force, the lookup of the
guard does not fault. -/
theorem lookupFaults_false_of_uniqueIndex (db : DB) (roomID userID : Int)
    (hidx : uniqueIndex db.memberships) :
    lookupFaults db none roomID userID = false := by
  have hlen := membershipsWhere_length_le_one db roomID userID hidx
  unfold lookupFaults Only
  match hl : membershipsWhere db roomID userID with
  | [] => simp [IsNotFound]
  | [_] => simp
  | _ :: _ :: _ => rw [hl] at hlen; simp at hlen

/-- What `ensureRoomMember` returns when the lookup does not fault. -/
theorem ensureRoomMember_spec (db : DB) (fault : Option Nat) (roomID userID : Int)
    (h : lookupFaults db fault roomID userID = false) :
    ((∃ m, ensureRoomMember db fault roomID userID = .ok m) ↔
        hasMembership db roomID userID)
    ∧ (∀ m, ensureRoomMember db fault roomID userID = .ok m →
        m ∈ db.memberships ∧ m.roomID = roomID ∧ m.userID = userID)
    ∧ (¬ hasMembership db roomID userID →
        ensureRoomMember db fault roomID userID = .error Err.forbidden) := by
  rw [hasMembership_iff_ne_nil]
  have hmem := mem_membershipsWhere db roomID userID
  unfold lookupFaults at h
  unfold ensureRoomMember
  cases fault with
  | some code => simp [Only, IsNotFound] at h
  | none =>
    match hl : membershipsWhere db roomID userID with
    | [] => simp [Only, IsNotFound]
    | [row] =>
      have hrow := (hmem row).1 (by rw [hl]; simp)
      refine ⟨by simp [Only], ?_, by simp [Only]⟩
      intro m hm
      simp only [Only, Except.ok.injEq] at hm
      subst hm
      exact hrow
    | _ :: _ :: _ => rw [hl] at h; simp [Only, IsNotFound] at h

/-- C1. Whenever the membership lookup does not fault, `ensureRoomMember`
returns a membership (with a nil error) exactly when a membership row exists
for the pair `(roomID, userID)`, the membership returned is such a row, and
when no such row exists the result is `ErrForbidden` with no membership. -/
theorem ensureRoomMember_ok_iff_row (db : DB) (fault : Option Nat) (roomID userID : Int)
    (h : lookupFaults db fault roomID userID = false) :
    ((∃ m, ensureRoomMember db fault roomID userID = .ok m) ↔
        hasMembership db roomID userID)
    ∧ (∀ m, ensureRoomMember db fault roomID userID = .ok m →
        m ∈ db.memberships ∧ m.roomID = roomID ∧ m.userID = userID)
    ∧ (¬ hasMembership db roomID userID →
        ensureRoomMember db fault roomID userID = .error Err.forbidden) :=
  ensureRoomMember_spec db fault roomID userID h

/-- Witness for C1: room 7 has the single member 3 (an admin); the lookup for
`(7, 3)` does not fault. -/
theorem ensureRoomMember_ok_iff_row_witness :
    lookupFaults ⟨[], [⟨1, 7, 3, Role.admin, true, true⟩]⟩ none 7 3 = false
    ∧ ((∃ m, ensureRoomMember ⟨[], [⟨1, 7, 3, Role.admin, true, true⟩]⟩ none 7 3 = .ok m) ↔
        hasMembership ⟨[], [⟨1, 7, 3, Role.admin, true, true⟩]⟩ 7 3)
    ∧ (∀ m, ensureRoomMember ⟨[], [⟨1, 7, 3, Role.admin, true, true⟩]⟩ none 7 3 = .ok m →
        m ∈ (⟨[], [⟨1, 7, 3, Role.admin, true, true⟩]⟩ : DB).memberships
          ∧ m.roomID = 7 ∧ m.userID = 3)
    ∧ (¬ hasMembership ⟨[], [⟨1, 7, 3, Role.admin, true, true⟩]⟩ 7 3 →
        ensureRoomMember ⟨[], [⟨1, 7, 3, Role.admin, true, true⟩]⟩ none 7 3
          = .error Err.forbidden) :=
  ⟨by decide, ensureRoomMember_ok_iff_row _ none 7 3 (by decide)⟩

/-- C2. `ensureRoomAdmin` succeeds (returns nil) exactly when `ensureRoomMember`
succeeds with a membership whose role is owner or admin; when the membership
found has role member it fails with `ErrForbidden`. -/
theorem ensureRoomAdmin_ok_iff (db : DB) (fault : Option Nat) (roomID userID : Int) :
    (ensureRoomAdmin db fault roomID userID = none ↔
        ∃ m, ensureRoomMember db fault roomID userID = .ok m
          ∧ (m.role = Role.owner ∨ m.role = Role.admin))
    ∧ (∀ m, ensureRoomMember db fault roomID userID = .ok m → m.role = Role.member →
        ensureRoomAdmin db fault roomID userID = some Err.forbidden) := by
  unfold ensureRoomAdmin
  cases hres : ensureRoomMember db fault roomID userID with
  | error err => simp
  | ok membership =>
    constructor
    · by_cases hrole : membership.role = Role.owner ∨ membership.role = Role.admin
      · simp [hrole]
      · simp [hrole]
    · intro m hm hmember
      simp only [Except.ok.injEq] at hm
      subst hm
      simp [hmember]

/-- C3. `ensureRoomOwner` succeeds (returns nil) exactly when `ensureRoomMember`
finds the user's membership in the room and its role is owner, which, when the
lookup does not fault, is to say that the table holds a row for the pair with
role owner; for a membership with role admin or member it fails with
`ErrForbidden`. -/
theorem ensureRoomOwner_ok_iff (db : DB) (fault : Option Nat) (roomID userID : Int) :
    (ensureRoomOwner db fault roomID userID = none ↔
        ∃ m, ensureRoomMember db fault roomID userID = .ok m ∧ m.role = Role.owner)
    ∧ (lookupFaults db fault roomID userID = false →
        (ensureRoomOwner db fault roomID userID = none ↔
          ∃ row ∈ db.memberships,
            row.roomID = roomID ∧ row.userID = userID ∧ row.role = Role.owner))
    ∧ (∀ m, ensureRoomMember db fault roomID userID = .ok m →
        m.role = Role.admin ∨ m.role = Role.member →
        ensureRoomOwner db fault roomID userID = some Err.forbidden) := by
  have hfirst : ensureRoomOwner db fault roomID userID = none ↔
      ∃ m, ensureRoomMember db fault roomID userID = .ok m ∧ m.role = Role.owner := by
    unfold ensureRoomOwner
    cases hres : ensureRoomMember db fault roomID userID with
    | error err => simp
    | ok membership =>
      by_cases hrole : membership.role = Role.owner
      · simp [hrole]
      · simp [hrole]
  refine ⟨hfirst, ?_, ?_⟩
  · intro hfault
    rw [hfirst]
    obtain ⟨hiff, hrow, -⟩ := ensureRoomMember_spec db fault roomID userID hfault
    constructor
    · rintro ⟨m, hm, hrole⟩
      obtain ⟨h1, h2, h3⟩ := hrow m hm
      exact ⟨m, h1, h2, h3, hrole⟩
    · rintro ⟨row, hmem, hr, hu, hrole⟩
      obtain ⟨m, hm⟩ := hiff.2 ⟨row, hmem, hr, hu⟩
      refine ⟨m, hm, ?_⟩
      -- the lookup did not fault, so the filter kept exactly the row found
      have hw := (mem_membershipsWhere db roomID userID row).2 ⟨hmem, hr, hu⟩
      unfold ensureRoomMember at hm
      unfold lookupFaults at hfault
      cases fault with
      | some code => simp [Only, IsNotFound] at hfault
      | none =>
        match hl : membershipsWhere db roomID userID with
        | [] => rw [hl] at hw; simp at hw
        | [x] =>
          rw [hl] at hw hm
          simp only [Only, Except.ok.injEq] at hm
          simp only [List.mem_singleton] at hw
          rw [← hm, ← hw]; exact hrole
        | _ :: _ :: _ => rw [hl] at hfault; simp [Only, IsNotFound] at hfault
  · intro m hm hrole
    unfold ensureRoomOwner
    rw [hm]
    rcases hrole with h | h <;> simp [h]

/-! ## Room provisioning -/

theorem foldl_count_eq (uid : Int) (pids : List Int) (acc : Nat) :
    pids.foldl (fun count pid => if pid ≠ uid then count + 1 else count) acc
      = acc + (pids.filter (fun pid => decide (pid ≠ uid))).length := by
  induction pids generalizing acc with
  | nil => simp
  | cons pid rest ih =>
    rw [List.foldl_cons, ih, List.filter_cons]
    by_cases h : pid = uid
    · simp [h]
    · simp [h]; omega

/-- The counting loop computes the number of entries that differ from the owner. -/
theorem nonOwnerCount_eq (uid : Int) (pids : List Int) :
    nonOwnerCount uid pids = (pids.filter (fun pid => decide (pid ≠ uid))).length := by
  unfold nonOwnerCount
  rw [foldl_count_eq, Nat.zero_add]

theorem foldl_max_ge (ids : List Int) (a : Int) :
    a ≤ ids.foldl max a ∧ ∀ x ∈ ids, x ≤ ids.foldl max a := by
  induction ids generalizing a with
  | nil => simp
  | cons y rest ih =>
    obtain ⟨h1, h2⟩ := ih (max a y)
    refine ⟨le_trans (le_max_left a y) h1, ?_⟩
    intro x hx
    rcases List.mem_cons.1 hx with hxy | hxr
    · subst hxy; exact le_trans (le_max_right a x) h1
    · exact h2 x hxr

/-- A fresh key is larger than every key in use. -/
theorem lt_nextID (ids : List Int) (x : Int) (hx : x ∈ ids) : x < nextID ids := by
  have := (foldl_max_ge ids 0).2 x hx
  unfold nextID
  omega

theorem saveRoom_ok (tx tx1 : Tx) (fault : Option Nat) (name description : String)
    (isPrivate isDirect : Bool) (ownerID : Int) (room : Room)
    (h : tx.saveRoom fault name description isPrivate isDirect ownerID = .ok (room, tx1)) :
    room = ⟨nextID (tx.work.rooms.map (fun r => r.id)), name, description, isPrivate, isDirect,
        ownerID⟩
    ∧ tx1 = ⟨⟨tx.work.rooms ++ [room], tx.work.memberships⟩, tx.done⟩ := by
  unfold Tx.saveRoom at h
  by_cases hname : name = ""
  · simp [hname] at h
  · cases fault with
    | some code => simp [hname] at h
    | none =>
      simp only [hname, if_false, Except.ok.injEq, Prod.mk.injEq] at h
      obtain ⟨h1, h2⟩ := h
      subst h1
      exact ⟨rfl, h2.symm⟩

theorem saveMembership_ok (tx tx1 : Tx) (fault : Option Nat) (roomID userID : Int) (role : Role)
    (m : RoomMembership) (h : tx.saveMembership fault roomID userID role = .ok (m, tx1)) :
    m = ⟨nextID (tx.work.memberships.map (fun r => r.id)), roomID, userID, role, true, true⟩
    ∧ tx1 = ⟨⟨tx.work.rooms, tx.work.memberships ++ [m]⟩, tx.done⟩
    ∧ ∀ row ∈ tx.work.memberships, ¬ (row.roomID = roomID ∧ row.userID = userID) := by
  unfold Tx.saveMembership at h
  cases fault with
  | some code => simp at h
  | none =>
    by_cases hany : tx.work.memberships.any
        (fun m => decide (m.roomID = roomID) && decide (m.userID = userID)) = true
    · simp [hany] at h
    · simp only [hany, Bool.false_eq_true, if_false, Except.ok.injEq, Prod.mk.injEq] at h
      obtain ⟨h1, h2⟩ := h
      subst h1
      refine ⟨rfl, h2.symm, ?_⟩
      intro row hrow hpair
      apply hany
      simp only [List.any_eq_true, Bool.and_eq_true, decide_eq_true_eq]
      exact ⟨row, hrow, hpair⟩

/-- The participant loop never touches the room table or the `done` flag, and
a run without error appends one row per entry, in order, with the role the
loop chose. -/
theorem saveParticipants_spec (f : Faults) (roomID uid : Int) (direct : Bool)
    (pids : List Int) (i : Nat) (tx : Tx) :
    (saveParticipants f roomID uid direct i pids tx).2.done = tx.done
    ∧ (saveParticipants f roomID uid direct i pids tx).2.work.rooms = tx.work.rooms
    ∧ ((saveParticipants f roomID uid direct i pids tx).1 = none →
        ∃ rows, (saveParticipants f roomID uid direct i pids tx).2.work.memberships
            = tx.work.memberships ++ rows
          ∧ rows.map (fun m => (m.roomID, m.userID, m.role))
            = pids.map (fun pid =>
                (roomID, pid, if direct && decide (pid ≠ uid) then Role.admin else Role.member))
          ∧ ∀ m ∈ rows, m.canPost = true ∧ m.canCall = true) := by
  induction pids generalizing i tx with
  | nil => simp [saveParticipants]
  | cons pid rest ih =>
    cases hsave : tx.saveMembership (f.saveParticipant i) roomID pid
        (if direct && decide (pid ≠ uid) then Role.admin else Role.member) with
    | error err =>
      have hstep : saveParticipants f roomID uid direct i (pid :: rest) tx = (some err, tx) := by
        simp only [saveParticipants]
        rw [hsave]
      rw [hstep]
      simp
    | ok res =>
      obtain ⟨m, tx1⟩ := res
      have hstep : saveParticipants f roomID uid direct i (pid :: rest) tx
          = saveParticipants f roomID uid direct (i + 1) rest tx1 := by
        simp only [saveParticipants]
        rw [hsave]
      obtain ⟨hm, htx1, -⟩ := saveMembership_ok _ _ _ _ _ _ _ hsave
      obtain ⟨ih1, ih2, ih3⟩ := ih (i + 1) tx1
      rw [hstep]
      refine ⟨by rw [ih1, htx1], by rw [ih2, htx1], ?_⟩
      intro hnone
      obtain ⟨rows, hrows, hmap, hflags⟩ := ih3 hnone
      refine ⟨m :: rows, ?_, ?_, ?_⟩
      · rw [hrows, htx1]; simp
      · rw [List.map_cons, List.map_cons, hmap, hm]
      · intro x hx
        rcases List.mem_cons.1 hx with hxm | hxr
        · subst hxm; rw [hm]; exact ⟨rfl, rfl⟩
        · exact hflags x hxr

/-! The five ways through the statements after the `defer`. -/

theorem body_saveRoom_error (db : DB) (f : Faults) (tx : Tx) (uid : Int)
    (name description : String) (isPrivate : Bool) (pids : List Int) (e : Err)
    (h1 : tx.saveRoom f.saveRoom name description isPrivate
        (decide (nonOwnerCount uid pids = 1)) uid = .error e) :
    createRoomBody db f tx uid name description isPrivate pids = ⟨.error e, some e, tx, db⟩ := by
  simp only [createRoomBody]
  rw [h1]

theorem body_saveOwner_error (db : DB) (f : Faults) (tx tx1 : Tx) (uid : Int)
    (name description : String) (isPrivate : Bool) (pids : List Int) (newRoom : Room) (e : Err)
    (h1 : tx.saveRoom f.saveRoom name description isPrivate
        (decide (nonOwnerCount uid pids = 1)) uid = .ok (newRoom, tx1))
    (h2 : tx1.saveMembership f.saveOwner newRoom.id uid Role.owner = .error e) :
    createRoomBody db f tx uid name description isPrivate pids = ⟨.error e, some e, tx1, db⟩ := by
  simp only [createRoomBody]
  rw [h1]
  simp only []
  rw [h2]

theorem body_participant_error (db : DB) (f : Faults) (tx tx1 tx2 tx3 : Tx) (uid : Int)
    (name description : String) (isPrivate : Bool) (pids : List Int) (newRoom : Room)
    (m : RoomMembership) (e : Err)
    (h1 : tx.saveRoom f.saveRoom name description isPrivate
        (decide (nonOwnerCount uid pids = 1)) uid = .ok (newRoom, tx1))
    (h2 : tx1.saveMembership f.saveOwner newRoom.id uid Role.owner = .ok (m, tx2))
    (h3 : saveParticipants f newRoom.id uid (decide (nonOwnerCount uid pids = 1)) 0 pids tx2
        = (some e, tx3)) :
    createRoomBody db f tx uid name description isPrivate pids = ⟨.error e, some e, tx3, db⟩ := by
  simp only [createRoomBody]
  rw [h1]
  simp only []
  rw [h2]
  simp only []
  rw [h3]

theorem body_commit_error (db db' : DB) (f : Faults) (tx tx1 tx2 tx3 tx4 : Tx) (uid : Int)
    (name description : String) (isPrivate : Bool) (pids : List Int) (newRoom : Room)
    (m : RoomMembership) (e : Err)
    (h1 : tx.saveRoom f.saveRoom name description isPrivate
        (decide (nonOwnerCount uid pids = 1)) uid = .ok (newRoom, tx1))
    (h2 : tx1.saveMembership f.saveOwner newRoom.id uid Role.owner = .ok (m, tx2))
    (h3 : saveParticipants f newRoom.id uid (decide (nonOwnerCount uid pids = 1)) 0 pids tx2
        = (none, tx3))
    (h4 : tx3.Commit f.commit db = (some e, tx4, db')) :
    createRoomBody db f tx uid name description isPrivate pids = ⟨.error e, some e, tx4, db'⟩ := by
  simp only [createRoomBody]
  rw [h1]
  simp only []
  rw [h2]
  simp only []
  rw [h3]
  simp only []
  rw [h4]

theorem body_commit_ok (db db' : DB) (f : Faults) (tx tx1 tx2 tx3 tx4 : Tx) (uid : Int)
    (name description : String) (isPrivate : Bool) (pids : List Int) (newRoom : Room)
    (m : RoomMembership)
    (h1 : tx.saveRoom f.saveRoom name description isPrivate
        (decide (nonOwnerCount uid pids = 1)) uid = .ok (newRoom, tx1))
    (h2 : tx1.saveMembership f.saveOwner newRoom.id uid Role.owner = .ok (m, tx2))
    (h3 : saveParticipants f newRoom.id uid (decide (nonOwnerCount uid pids = 1)) 0 pids tx2
        = (none, tx3))
    (h4 : tx3.Commit f.commit db = (none, tx4, db')) :
    createRoomBody db f tx uid name description isPrivate pids
      = ⟨roomByID db' f.readBack newRoom.id, none, tx4, db'⟩ := by
  simp only [createRoomBody]
  rw [h1]
  simp only []
  rw [h2]
  simp only []
  rw [h3]
  simp only []
  rw [h4]

/-- What a failed commit and a successful one do to a transaction in progress. -/
theorem commit_spec (tx : Tx) (fault : Option Nat) (db : DB) (hdone : tx.done = false) :
    (tx.Commit fault db).2.1.done = true
    ∧ (tx.Commit fault db).2.1.work = tx.work
    ∧ ((tx.Commit fault db).1 = none → (tx.Commit fault db).2.2 = tx.work)
    ∧ ((tx.Commit fault db).1 ≠ none → (tx.Commit fault db).2.2 = db) := by
  unfold Tx.Commit
  cases fault <;> simp [hdone]

/-- After the deferred call a non-nil `err` always finds the transaction
finished, with exactly one `Rollback` call made. -/
theorem rollbackOnError_some (tx : Tx) (fault : Option Nat) (e : Err) :
    (rollbackOnError tx fault (some (some e))).2.1.done = true
    ∧ (rollbackOnError tx fault (some (some e))).2.1.work = tx.work
    ∧ (rollbackOnError tx fault (some (some e))).2.2 = 1 := by
  unfold rollbackOnError Tx.Rollback
  by_cases hdone : tx.done = true
  · simp [hdone]
  · cases fault <;> simp [hdone]

theorem beginTx_ok (db : DB) (fault : Option Nat) (tx : Tx) (h : beginTx db fault = .ok tx) :
    tx = ⟨db, false⟩ := by
  unfold beginTx at h
  cases fault with
  | some code => simp at h
  | none => simp only [Except.ok.injEq] at h; exact h.symm

/-- When the statements after the `defer` end with a non-nil `err`, the
request returns that error, the deferred call finishes the transaction, and
the committed state is the one those statements left. -/
theorem createRoom_of_body_error (db db' : DB) (f : Faults) (uid : Int) (args : CreateRoomArgs)
    (tx tx' : Tx) (e : Err) (hbegin : beginTx db f.beginTx = .ok tx)
    (hbody : createRoomBody db f tx uid args.name (args.description.getD "")
        (args.isPrivate.getD false) args.participantIDs = ⟨.error e, some e, tx', db'⟩) :
    (createRoom db f (.int uid) args).result = .error e
    ∧ (createRoom db f (.int uid) args).db = db'
    ∧ (∃ t, (createRoom db f (.int uid) args).tx = some t ∧ t.done = true ∧ t.work = tx'.work)
    ∧ (createRoom db f (.int uid) args).rollbacks = 1 := by
  obtain ⟨h1, h2, h3⟩ := rollbackOnError_some tx' f.rollback e
  have hout : createRoom db f (.int uid) args
      = ⟨.error e, db', some (rollbackOnError tx' f.rollback (some (some e))).2.1,
          (rollbackOnError tx' f.rollback (some (some e))).1.join,
          (rollbackOnError tx' f.rollback (some (some e))).2.2⟩ := by
    simp only [createRoom, UserIDFromContext, hbegin, hbody]
  rw [hout]
  exact ⟨rfl, rfl, ⟨_, rfl, h1, h2⟩, h3⟩

/-- When the statements after the `defer` end with a nil `err`, the deferred
call does nothing. -/
theorem createRoom_of_body_ok (db db' : DB) (f : Faults) (uid : Int) (args : CreateRoomArgs)
    (tx tx' : Tx) (res : Except Err Room) (hbegin : beginTx db f.beginTx = .ok tx)
    (hbody : createRoomBody db f tx uid args.name (args.description.getD "")
        (args.isPrivate.getD false) args.participantIDs = ⟨res, none, tx', db'⟩) :
    createRoom db f (.int uid) args = ⟨res, db', some tx', none, 0⟩ := by
  simp only [createRoom, UserIDFromContext, hbegin, hbody, rollbackOnError]
  rfl

/-- The shape of every `createRoom` request of an authenticated caller whose
transaction could be opened: either it fails and leaves the committed state
as it was, or it commits the new room row together with the owner's row and
one row per participant. In both cases every room row of the transaction's
working copy that is not an old row is the row the request built. -/
theorem createRoom_shape (db : DB) (f : Faults) (uid : Int) (args : CreateRoomArgs)
    (hbegin : f.beginTx = none) :
    (∃ t, (createRoom db f (.int uid) args).tx = some t ∧ t.done = true
      ∧ ∀ r ∈ t.work.rooms, r ∉ db.rooms →
          r = ⟨nextID (db.rooms.map (fun r => r.id)), args.name, args.description.getD "",
                args.isPrivate.getD false, decide (nonOwnerCount uid args.participantIDs = 1),
                uid⟩)
    ∧ ((∃ e, (createRoom db f (.int uid) args).result = .error e
          ∧ (createRoom db f (.int uid) args).db = db
          ∧ (createRoom db f (.int uid) args).rollbacks = 1)
       ∨ (∃ rows,
          (createRoom db f (.int uid) args).db
            = ⟨db.rooms ++ [⟨nextID (db.rooms.map (fun r => r.id)), args.name,
                  args.description.getD "", args.isPrivate.getD false,
                  decide (nonOwnerCount uid args.participantIDs = 1), uid⟩],
                db.memberships ++ rows⟩
          ∧ rows.map (fun m => (m.roomID, m.userID, m.role))
              = expectedMemberships (nextID (db.rooms.map (fun r => r.id))) uid
                  (decide (nonOwnerCount uid args.participantIDs = 1)) args.participantIDs
          ∧ (∀ m ∈ rows, m.canPost = true ∧ m.canCall = true)
          ∧ (createRoom db f (.int uid) args).result
              = roomByID (createRoom db f (.int uid) args).db f.readBack
                  (nextID (db.rooms.map (fun r => r.id)))
          ∧ (createRoom db f (.int uid) args).rollbacks = 0)) := by
  have hb : beginTx db f.beginTx = .ok ⟨db, false⟩ := by rw [hbegin]; rfl
  cases h1 : (⟨db, false⟩ : Tx).saveRoom f.saveRoom args.name (args.description.getD "")
      (args.isPrivate.getD false) (decide (nonOwnerCount uid args.participantIDs = 1)) uid with
  | error e =>
    obtain ⟨r1, r2, ⟨t, r3, r4, r5⟩, r6⟩ := createRoom_of_body_error db db f uid args _ _ e hb
      (body_saveRoom_error _ _ _ _ _ _ _ _ _ h1)
    refine ⟨⟨t, r3, r4, ?_⟩, Or.inl ⟨e, r1, r2, r6⟩⟩
    intro r hr hnot
    rw [r5] at hr
    exact absurd hr hnot
  | ok res1 =>
    obtain ⟨newRoom, tx1⟩ := res1
    obtain ⟨hroom, htx1⟩ := saveRoom_ok _ _ _ _ _ _ _ _ _ h1
    simp only [] at hroom htx1
    have hnew : ∀ t : Tx, t.work.rooms = db.rooms ++ [newRoom] →
        ∀ r ∈ t.work.rooms, r ∉ db.rooms → r = newRoom := by
      intro t ht r hr hnot
      rw [ht] at hr
      rcases List.mem_append.1 hr with h | h
      · exact absurd h hnot
      · exact List.mem_singleton.1 h
    cases h2 : tx1.saveMembership f.saveOwner newRoom.id uid Role.owner with
    | error e =>
      obtain ⟨r1, r2, ⟨t, r3, r4, r5⟩, r6⟩ := createRoom_of_body_error db db f uid args _ _ e hb
        (body_saveOwner_error _ _ _ _ _ _ _ _ _ _ _ h1 h2)
      refine ⟨⟨t, r3, r4, ?_⟩, Or.inl ⟨e, r1, r2, r6⟩⟩
      rw [← hroom]
      exact hnew t (by rw [r5, htx1])
    | ok res2 =>
      obtain ⟨m, tx2⟩ := res2
      obtain ⟨hm, htx2, -⟩ := saveMembership_ok _ _ _ _ _ _ _ h2
      obtain ⟨p1, p2, p3⟩ := saveParticipants_spec f newRoom.id uid
        (decide (nonOwnerCount uid args.participantIDs = 1)) args.participantIDs 0 tx2
      have hrooms2 : tx2.work.rooms = db.rooms ++ [newRoom] := by rw [htx2, htx1]
      have hdone2 : tx2.done = false := by rw [htx2, htx1]
      have hmem2 : tx2.work.memberships = db.memberships ++ [m] := by rw [htx2, htx1]
      cases h3 : saveParticipants f newRoom.id uid
          (decide (nonOwnerCount uid args.participantIDs = 1)) 0 args.participantIDs tx2 with
      | mk perr tx3 =>
        rw [h3] at p1 p2 p3
        simp only [] at p1 p2 p3
        cases perr with
        | some e =>
          obtain ⟨r1, r2, ⟨t, r3, r4, r5⟩, r6⟩ :=
            createRoom_of_body_error db db f uid args _ _ e hb
              (body_participant_error _ _ _ _ _ _ _ _ _ _ _ _ _ _ h1 h2 h3)
          refine ⟨⟨t, r3, r4, ?_⟩, Or.inl ⟨e, r1, r2, r6⟩⟩
          rw [← hroom]
          exact hnew t (by rw [r5, p2, hrooms2])
        | none =>
          obtain ⟨rows, hrows, hmap, hflags⟩ := p3 rfl
          obtain ⟨c1, c2, c3, c4⟩ := commit_spec tx3 f.commit db (by rw [p1, hdone2])
          cases h4 : tx3.Commit f.commit db with
          | mk cerr rest4 =>
            obtain ⟨tx4, db'⟩ := rest4
            rw [h4] at c1 c2 c3 c4
            simp only [] at c1 c2 c3 c4
            cases cerr with
            | some e =>
              obtain ⟨r1, r2, ⟨t, r3, r4, r5⟩, r6⟩ :=
                createRoom_of_body_error db db' f uid args _ _ e hb
                  (body_commit_error _ _ _ _ _ _ _ _ _ _ _ _ _ _ _ _ h1 h2 h3 h4)
              have hdb : db' = db := c4 (by simp)
              refine ⟨⟨t, r3, r4, ?_⟩, Or.inl ⟨e, r1, by rw [r2, hdb], r6⟩⟩
              rw [← hroom]
              exact hnew t (by rw [r5, c2, p2, hrooms2])
            | none =>
              have hout := createRoom_of_body_ok db db' f uid args _ _ _ hb
                (body_commit_ok _ _ _ _ _ _ _ _ _ _ _ _ _ _ _ h1 h2 h3 h4)
              have hdb : db' = tx3.work := c3 rfl
              have hid : newRoom.id = nextID (db.rooms.map (fun r => r.id)) := by rw [hroom]
              rw [hout]
              refine ⟨⟨tx4, rfl, c1, ?_⟩, Or.inr ⟨m :: rows, ?_, ?_, ?_, ?_, rfl⟩⟩
              · rw [← hroom]
                exact hnew tx4 (by rw [c2, p2, hrooms2])
              · simp only []
                rw [hdb, ← hroom]
                have e1 : tx3.work = ⟨tx3.work.rooms, tx3.work.memberships⟩ := rfl
                rw [e1, p2, hrooms2, hrows, hmem2]
                simp
              · rw [List.map_cons, hmap, hm, ← hid]
                rfl
              · intro x hx
                rcases List.mem_cons.1 hx with hxm | hxr
                · subst hxm; rw [hm]; exact ⟨rfl, rfl⟩
                · exact hflags x hxr
              · simp only []
                rw [hid]

theorem Only_ok_mem {α : Type} (fault : Option Nat) (nodes : List α) (x : α)
    (h : Only fault nodes = .ok x) : x ∈ nodes := by
  unfold Only at h
  cases fault with
  | some code => simp at h
  | none =>
    match nodes, h with
    | [y], h =>
      simp only [Except.ok.injEq] at h
      simp [h]

/-- A successful `createRoom` request returns the room row it built, and that
row is new in the committed state. -/
theorem createRoom_ok_room (db : DB) (f : Faults) (uid : Int) (args : CreateRoomArgs)
    (room : Room) (hok : (createRoom db f (.int uid) args).result = .ok room) :
    room = ⟨nextID (db.rooms.map (fun r => r.id)), args.name, args.description.getD "",
              args.isPrivate.getD false, decide (nonOwnerCount uid args.participantIDs = 1), uid⟩
    ∧ ∃ rows,
        (createRoom db f (.int uid) args).db = ⟨db.rooms ++ [room], db.memberships ++ rows⟩
        ∧ rows.map (fun m => (m.roomID, m.userID, m.role))
            = expectedMemberships room.id uid room.isDirect args.participantIDs
        ∧ ∀ m ∈ rows, m.canPost = true ∧ m.canCall = true := by
  cases hb : f.beginTx with
  | some code =>
    simp [createRoom, UserIDFromContext, beginTx, hb] at hok
  | none =>
    obtain ⟨-, hshape⟩ := createRoom_shape db f uid args hb
    rcases hshape with ⟨e, he, -⟩ | ⟨rows, hdb, hmap, hflags, hres, -⟩
    · rw [he] at hok; simp at hok
    · rw [hres, hdb] at hok
      have hmem := Only_ok_mem _ _ _ hok
      simp only [List.mem_filter, List.mem_append, List.mem_singleton, decide_eq_true_eq] at hmem
      obtain ⟨hin, hid⟩ := hmem
      have hroom : room = ⟨nextID (db.rooms.map (fun r => r.id)), args.name,
          args.description.getD "", args.isPrivate.getD false,
          decide (nonOwnerCount uid args.participantIDs = 1), uid⟩ := by
        rcases hin with hold | hnew
        · have hlt := lt_nextID (db.rooms.map (fun r => r.id)) room.id
            (List.mem_map.2 ⟨room, hold, rfl⟩)
          omega
        · exact hnew
      refine ⟨hroom, rows, ?_, ?_, hflags⟩
      · rw [hdb, hroom]
      · rw [hmap, hroom]

/-- C5. After a successful `createRoom` request the committed membership
table is the old table followed by the rows the request created: one row for
the owner with role owner, then one row per entry of the participant list,
in order, with role admin when the room is direct and the entry differs from
the owner and role member otherwise, all for the room returned. For owner 1
the list `[2]` yields `(1, owner), (2, admin)` and `[2, 3]` yields
`(1, owner), (2, member), (3, member)`. -/
theorem createRoom_memberships (db : DB) (f : Faults) (uid : Int) (args : CreateRoomArgs)
    (room : Room) (hok : (createRoom db f (.int uid) args).result = .ok room) :
    (∃ rows,
      (createRoom db f (.int uid) args).db.memberships = db.memberships ++ rows
      ∧ rows.map (fun m => (m.roomID, m.userID, m.role))
          = (room.id, uid, Role.owner) ::
              args.participantIDs.map (fun pid =>
                (room.id, pid,
                  if room.isDirect && decide (pid ≠ uid) then Role.admin else Role.member)))
    ∧ rolesOf (createRoom ⟨[], []⟩ noFaults (.int 1) ⟨"r", none, none, [2]⟩).db 1
        = [(1, Role.owner), (2, Role.admin)]
    ∧ rolesOf (createRoom ⟨[], []⟩ noFaults (.int 1) ⟨"r", none, none, [2, 3]⟩).db 1
        = [(1, Role.owner), (2, Role.member), (3, Role.member)] := by
  refine ⟨?_, by decide, by decide⟩
  obtain ⟨-, rows, hdb, hmap, -⟩ := createRoom_ok_room db f uid args room hok
  exact ⟨rows, by rw [hdb], hmap⟩

/-- Witness for C5: owner 1 creates a room with the single participant 2 on
an empty store, and no storage call faults. -/
theorem createRoom_memberships_witness :
    (createRoom ⟨[], []⟩ noFaults (.int 1) ⟨"r", none, none, [2]⟩).result
      = .ok ⟨1, "r", "", false, true, 1⟩
    ∧ ((∃ rows,
      (createRoom ⟨[], []⟩ noFaults (.int 1) ⟨"r", none, none, [2]⟩).db.memberships
        = ([] : List RoomMembership) ++ rows
      ∧ rows.map (fun m => (m.roomID, m.userID, m.role))
          = ((1 : Int), (1 : Int), Role.owner) ::
              ([2] : List Int).map (fun pid =>
                ((1 : Int), pid,
                  if true && decide (pid ≠ 1) then Role.admin else Role.member)))
    ∧ rolesOf (createRoom ⟨[], []⟩ noFaults (.int 1) ⟨"r", none, none, [2]⟩).db 1
        = [(1, Role.owner), (2, Role.admin)]
    ∧ rolesOf (createRoom ⟨[], []⟩ noFaults (.int 1) ⟨"r", none, none, [2, 3]⟩).db 1
        = [(1, Role.owner), (2, Role.member), (3, Role.member)]) :=
  ⟨by decide,
    createRoom_memberships ⟨[], []⟩ noFaults 1 ⟨"r", none, none, [2]⟩ ⟨1, "r", "", false, true, 1⟩
      (by decide)⟩

/-- C6. `createRoom` is atomic. Once the transaction is open, if the room
insert fails, or the owner-membership insert, or an insert of the participant
loop, or the commit, then the request returns that step's error, the
committed storage state is the state before the request, and the transaction
is finished by the deferred rollback; and whatever happens, the committed
state after the request is either the state before it or that state with the
new room row, the owner's row and every participant's row added. -/
theorem createRoom_atomic (db : DB) (f : Faults) (uid : Int) (args : CreateRoomArgs) (tx : Tx)
    (hbegin : beginTx db f.beginTx = .ok tx) :
    (∀ e,
      tx.saveRoom f.saveRoom args.name (args.description.getD "") (args.isPrivate.getD false)
        (decide (nonOwnerCount uid args.participantIDs = 1)) uid = .error e →
      failedClean db (createRoom db f (.int uid) args) e)
    ∧ (∀ newRoom tx1 e,
      tx.saveRoom f.saveRoom args.name (args.description.getD "") (args.isPrivate.getD false)
        (decide (nonOwnerCount uid args.participantIDs = 1)) uid = .ok (newRoom, tx1) →
      tx1.saveMembership f.saveOwner newRoom.id uid Role.owner = .error e →
      failedClean db (createRoom db f (.int uid) args) e)
    ∧ (∀ newRoom tx1 m tx2 e tx3,
      tx.saveRoom f.saveRoom args.name (args.description.getD "") (args.isPrivate.getD false)
        (decide (nonOwnerCount uid args.participantIDs = 1)) uid = .ok (newRoom, tx1) →
      tx1.saveMembership f.saveOwner newRoom.id uid Role.owner = .ok (m, tx2) →
      saveParticipants f newRoom.id uid (decide (nonOwnerCount uid args.participantIDs = 1)) 0
        args.participantIDs tx2 = (some e, tx3) →
      failedClean db (createRoom db f (.int uid) args) e)
    ∧ (∀ newRoom tx1 m tx2 tx3 e tx4 db',
      tx.saveRoom f.saveRoom args.name (args.description.getD "") (args.isPrivate.getD false)
        (decide (nonOwnerCount uid args.participantIDs = 1)) uid = .ok (newRoom, tx1) →
      tx1.saveMembership f.saveOwner newRoom.id uid Role.owner = .ok (m, tx2) →
      saveParticipants f newRoom.id uid (decide (nonOwnerCount uid args.participantIDs = 1)) 0
        args.participantIDs tx2 = (none, tx3) →
      tx3.Commit f.commit db = (some e, tx4, db') →
      failedClean db (createRoom db f (.int uid) args) e)
    ∧ ((createRoom db f (.int uid) args).db = db
       ∨ ∃ newRoom rows,
          (createRoom db f (.int uid) args).db
            = ⟨db.rooms ++ [newRoom], db.memberships ++ rows⟩
          ∧ rows.map (fun m => (m.roomID, m.userID, m.role))
              = expectedMemberships newRoom.id uid newRoom.isDirect args.participantIDs) := by
  have hnone : f.beginTx = none := by
    cases hb : f.beginTx with
    | some code => rw [hb] at hbegin; simp [beginTx] at hbegin
    | none => rfl
  obtain ⟨-, hshape⟩ := createRoom_shape db f uid args hnone
  have hclean : ∀ e tx', createRoomBody db f tx uid args.name (args.description.getD "")
      (args.isPrivate.getD false) args.participantIDs = ⟨.error e, some e, tx', db⟩ →
      failedClean db (createRoom db f (.int uid) args) e := by
    intro e tx' hbody
    obtain ⟨r1, r2, ⟨t, r3, r4, -⟩, -⟩ := createRoom_of_body_error db db f uid args tx tx' e
      hbegin hbody
    exact ⟨r1, r2, t, r3, r4⟩
  refine ⟨?_, ?_, ?_, ?_, ?_⟩
  · intro e h1
    exact hclean e _ (body_saveRoom_error _ _ _ _ _ _ _ _ _ h1)
  · intro newRoom tx1 e h1 h2
    exact hclean e _ (body_saveOwner_error _ _ _ _ _ _ _ _ _ _ _ h1 h2)
  · intro newRoom tx1 m tx2 e tx3 h1 h2 h3
    exact hclean e _ (body_participant_error _ _ _ _ _ _ _ _ _ _ _ _ _ _ h1 h2 h3)
  · intro newRoom tx1 m tx2 tx3 e tx4 db' h1 h2 h3 h4
    have hbody := body_commit_error _ _ _ _ _ _ _ _ _ _ _ _ _ _ _ _ h1 h2 h3 h4
    obtain ⟨r1, -, ⟨t, r3, r4, -⟩, r6⟩ := createRoom_of_body_error db db' f uid args tx tx4 e
      hbegin hbody
    rcases hshape with ⟨e', -, hdb, -⟩ | ⟨rows, -, -, -, -, hr0⟩
    · exact ⟨r1, hdb, t, r3, r4⟩
    · -- a request that made a rollback call did not commit
      rw [r6] at hr0
      exact absurd hr0 (by decide)
  · rcases hshape with ⟨e, -, hdb, -⟩ | ⟨rows, hdb, hmap, -⟩
    · exact Or.inl hdb
    · exact Or.inr ⟨_, rows, hdb, hmap⟩

/-- Witness for C6: owner 1 creates a room for participants 2 and 3 on an
empty store and the insert of the second participant (position 1) fails with
driver code 5; the request fails with that error and no room row and no
membership row persists. -/
theorem createRoom_atomic_witness :
    beginTx ⟨[], []⟩ (faultAtParticipant 1 5).beginTx = .ok ⟨⟨[], []⟩, false⟩
    ∧ failedClean ⟨[], []⟩
        (createRoom ⟨[], []⟩ (faultAtParticipant 1 5) (.int 1) ⟨"r", none, none, [2, 3]⟩)
        (Err.storage 5)
    ∧ (createRoom ⟨[], []⟩ (faultAtParticipant 1 5) (.int 1) ⟨"r", none, none, [2, 3]⟩).db
        = ⟨[], []⟩ :=
  ⟨rfl,
    (createRoom_atomic ⟨[], []⟩ (faultAtParticipant 1 5) 1 ⟨"r", none, none, [2, 3]⟩
      ⟨⟨[], []⟩, false⟩ rfl).2.2.1 _ _ _ _ _ _ rfl rfl rfl,
    by decide⟩

/-! ## The notification broker -/

theorem lt_of_getElem?_eq_some {α : Type} (l : List α) (k : Nat) (a : α)
    (h : l[k]? = some a) : k < l.length := by
  by_contra hlt
  rw [List.getElem?_eq_none (Nat.le_of_not_lt hlt)] at h
  exact Option.noConfusion h

theorem getElem?_set_of_some {α : Type} (l : List α) (i k : Nat) (a b : α)
    (h : l[i]? = some a) :
    (l.set i b)[k]? = if k = i then some b else l[k]? := by
  have hlt := lt_of_getElem?_eq_some l i a h
  rw [List.getElem?_set]
  by_cases hk : i = k
  · subst hk; simp [hlt]
  · have hk' : ¬ k = i := fun e => hk e.symm
    simp [hk, hk']

theorem deliver_cap (n : Notification) (c : Chan) : (deliver n c).cap = c.cap := by
  unfold deliver; split <;> rfl

theorem deliver_closed (n : Notification) (c : Chan) : (deliver n c).closed = c.closed := by
  unfold deliver; split <;> rfl

/-- With capacity 1 a second delivery attempt finds the slot taken. -/
theorem deliver_idem (n : Notification) (c : Chan) (hcap : c.cap = 1) :
    deliver n (deliver n c) = deliver n c := by
  by_cases h : c.buf.length < c.cap
  · have h2 : ¬ (c.buf ++ [n]).length < c.cap := by
      rw [List.length_append, List.length_singleton]; omega
    simp only [deliver, h, if_true, h2, if_false]
  · simp only [deliver, h, if_false]

theorem deliver_buf (n : Notification) (c : Chan) (hcap : c.cap = 1) :
    (c.buf = [] → (deliver n c).buf = [n]) ∧ (c.buf ≠ [] → deliver n c = c)
    ∧ (c.buf.length ≤ 1 → (deliver n c).buf.length ≤ 1) := by
  unfold deliver
  refine ⟨?_, ?_, ?_⟩
  · intro h; simp [h, hcap]
  · intro h
    have : ¬ c.buf.length < c.cap := by
      rw [hcap]
      have := List.length_pos.2 h
      omega
    simp [this]
  · intro h
    by_cases hlt : c.buf.length < c.cap
    · simp only [hlt, if_true, List.length_append, List.length_singleton]; omega
    · simp [hlt, h]

/-- The `select` on an open channel does not panic and delivers into that
channel only. -/
theorem trySend_open (chans : List Chan) (ch : Nat) (n : Notification) (c : Chan)
    (hc : chans[ch]? = some c) (hopen : c.closed = false) :
    ∃ chans', trySend chans ch n = some chans' ∧ chans'.length = chans.length
      ∧ ∀ k, chans'[k]? = if k = ch then some (deliver n c) else chans[k]? := by
  unfold trySend
  rw [hc]
  by_cases hlt : c.buf.length < c.cap
  · refine ⟨chans.set ch { c with buf := c.buf ++ [n] }, by simp [hopen, hlt], by simp, ?_⟩
    intro k
    rw [getElem?_set_of_some chans ch k c _ hc]
    simp [deliver, hlt]
  · refine ⟨chans, by simp [hopen, hlt], rfl, ?_⟩
    intro k
    by_cases hk : k = ch
    · subst hk; simp [deliver, hlt, hc]
    · simp [hk]

/-- The loop of `Publish` over open channels of capacity 1 does not panic: it
attempts a delivery on every channel it ranges over and touches no other. -/
theorem publishLoop_spec (n : Notification) (subs : List Nat) (chans : List Chan)
    (hopen : ∀ ch ∈ subs, ∃ c, chans[ch]? = some c ∧ c.closed = false)
    (hcap : ∀ (k : Nat) (c : Chan), chans[k]? = some c → c.cap = 1) :
    ∃ chans', publishLoop n subs chans = some chans' ∧ chans'.length = chans.length
      ∧ ∀ k, chans'[k]? = if k ∈ subs then (chans[k]?).map (deliver n) else chans[k]? := by
  induction subs generalizing chans with
  | nil => exact ⟨chans, rfl, rfl, by simp⟩
  | cons ch rest ih =>
    obtain ⟨c, hc, hcl⟩ := hopen ch (by simp)
    obtain ⟨chans1, hsend, hlen1, hpt1⟩ := trySend_open chans ch n c hc hcl
    have hopen1 : ∀ x ∈ rest, ∃ c1, chans1[x]? = some c1 ∧ c1.closed = false := by
      intro x hx
      rw [hpt1 x]
      by_cases hxc : x = ch
      · exact ⟨deliver n c, by simp [hxc], by rw [deliver_closed]; exact hcl⟩
      · obtain ⟨cx, hcx, hclx⟩ := hopen x (by simp [hx])
        exact ⟨cx, by simp [hxc, hcx], hclx⟩
    have hcap1 : ∀ (k : Nat) (c1 : Chan), chans1[k]? = some c1 → c1.cap = 1 := by
      intro k c1 hk
      rw [hpt1 k] at hk
      by_cases hkc : k = ch
      · simp only [hkc, if_true, Option.some.injEq] at hk
        rw [← hk, deliver_cap]; exact hcap ch c hc
      · simp only [hkc, if_false] at hk
        exact hcap k c1 hk
    obtain ⟨chans', hloop, hlen', hpt'⟩ := ih chans1 hopen1 hcap1
    refine ⟨chans', ?_, by rw [hlen', hlen1], ?_⟩
    · simp only [publishLoop, hsend]; exact hloop
    · intro k
      rw [hpt' k, hpt1 k]
      by_cases hkc : k = ch
      · subst hkc
        by_cases hkr : k ∈ rest
        · simp [hkr, hc, deliver_idem n c (hcap k c hc)]
        · simp [hkr, hc]
      · by_cases hkr : k ∈ rest
        · simp [hkc, hkr]
        · simp [hkc, hkr]

theorem recvChan_spec (chans : List Chan) (ch : Nat) :
    (recvChan chans ch).length = chans.length
    ∧ ∀ k, (recvChan chans ch)[k]?
        = if k = ch then (chans[k]?).map (fun c => { c with buf := c.buf.tail }) else chans[k]? := by
  unfold recvChan
  cases hc : chans[ch]? with
  | none =>
    refine ⟨rfl, ?_⟩
    intro k
    by_cases hk : k = ch
    · subst hk; simp [hc]
    · simp [hk]
  | some c =>
    refine ⟨by simp, ?_⟩
    intro k
    simp only []
    rw [getElem?_set_of_some chans ch k c _ hc]
    by_cases hk : k = ch
    · subst hk; simp [hc]
    · simp [hk]

theorem closeChan_open (chans : List Chan) (ch : Nat) (c : Chan)
    (hc : chans[ch]? = some c) (hopen : c.closed = false) :
    closeChan chans ch = some (chans.set ch { c with closed := true })
    ∧ ∀ k, (chans.set ch { c with closed := true })[k]?
        = if k = ch then some { c with closed := true } else chans[k]? := by
  refine ⟨by simp [closeChan, hc, hopen], ?_⟩
  intro k
  exact getElem?_set_of_some chans ch k c _ hc

/-! ### The invariant holds in every state the calls can reach -/

theorem Inv_initSys : Inv initSys := by
  refine ⟨rfl, ?_, ?_, ?_, ?_, ?_⟩
  · intro k r h; simp [initSys] at h
  · intro u subs h; simp [initSys, newNotificationBroker] at h
  · intro k r c h; simp [initSys] at h
  · intro k c h; simp [initSys, newNotificationBroker] at h
  · intro u h; simp [initSys, newNotificationBroker] at h

/-- A change of the channels that only rewrites buffers, never beyond one item,
keeps the invariant. -/
theorem Inv_bufOnly (s : Sys) (chans' : List Chan) (g : Nat → Chan → Chan) (hinv : Inv s)
    (hlen : chans'.length = s.broker.chans.length)
    (hpt : ∀ k, chans'[k]? = (s.broker.chans[k]?).map (g k))
    (hg : ∀ (k : Nat) (c : Chan), c.cap = 1 → c.buf.length ≤ 1 →
      (g k c).cap = c.cap ∧ (g k c).closed = c.closed ∧ (g k c).buf.length ≤ 1) :
    Inv ⟨⟨chans', s.broker.subscribers⟩, s.handles⟩ := by
  have hback : ∀ (k : Nat) (c' : Chan), chans'[k]? = some c' →
      ∃ c, s.broker.chans[k]? = some c ∧ g k c = c' := by
    intro k c' h
    rw [hpt k] at h
    cases hc : s.broker.chans[k]? with
    | none => rw [hc] at h; simp at h
    | some c => rw [hc] at h; simp only [Option.map_some', Option.some.injEq] at h; exact ⟨c, rfl, h⟩
  refine ⟨?_, hinv.handle, ?_, ?_, ?_, hinv.nonempty⟩
  · show s.handles.length = chans'.length
    rw [hlen]; exact hinv.len
  · intro u subs hsub ch hch
    obtain ⟨⟨c, hc, hcl⟩, hh⟩ := hinv.regOpen u subs hsub ch hch
    obtain ⟨h1, h2⟩ := hinv.slot ch c hc
    refine ⟨⟨g ch c, ?_, ?_⟩, hh⟩
    · show chans'[ch]? = some (g ch c)
      rw [hpt ch, hc]; rfl
    · rw [(hg ch c h1 h2).2.1]; exact hcl
  · intro k r c' hh hc' hcl'
    obtain ⟨c, hc, hgc⟩ := hback k c' hc'
    obtain ⟨h1, h2⟩ := hinv.slot k c hc
    have hcl : c.closed = false := by rw [← (hg k c h1 h2).2.1, hgc]; exact hcl'
    exact hinv.openReg k r c hh hc hcl
  · intro k c' hc'
    obtain ⟨c, hc, hgc⟩ := hback k c' hc'
    obtain ⟨h1, h2⟩ := hinv.slot k c hc
    obtain ⟨g1, -, g3⟩ := hg k c h1 h2
    rw [← hgc]
    exact ⟨by rw [g1]; exact h1, g3⟩

/-- `Publish` in a state with the invariant does not panic; it keeps the
registry, attempts one delivery on each sink of the recipient and leaves
every other channel as it is. -/
theorem Publish_spec (s : Sys) (hinv : Inv s) (n : Notification)
    (hu : recipientIDFromNotification (some n) ≠ 0) :
    ∃ chans', Publish s.broker (some n) = some ⟨chans', s.broker.subscribers⟩
      ∧ chans'.length = s.broker.chans.length
      ∧ (∀ k, chans'[k]? = (s.broker.chans[k]?).map (fun c =>
          if registered s.broker (recipientIDFromNotification (some n)) k then deliver n c
          else c))
      ∧ Inv ⟨⟨chans', s.broker.subscribers⟩, s.handles⟩ := by
  have hcap : ∀ (k : Nat) (c : Chan), s.broker.chans[k]? = some c → c.cap = 1 :=
    fun k c h => (hinv.slot k c h).1
  have key : ∀ subs : List Nat,
      (∀ ch ∈ subs, ∃ c, s.broker.chans[ch]? = some c ∧ c.closed = false) →
      (∀ k, k ∈ subs ↔ registered s.broker (recipientIDFromNotification (some n)) k) →
      ∃ chans', publishLoop n subs s.broker.chans = some chans'
        ∧ chans'.length = s.broker.chans.length
        ∧ (∀ k, chans'[k]? = (s.broker.chans[k]?).map (fun c =>
            if registered s.broker (recipientIDFromNotification (some n)) k then deliver n c
            else c))
        ∧ Inv ⟨⟨chans', s.broker.subscribers⟩, s.handles⟩ := by
    intro subs hopen hreg
    obtain ⟨chans', hloop, hlen, hpt⟩ := publishLoop_spec n subs s.broker.chans hopen hcap
    have hpt' : ∀ k, chans'[k]? = (s.broker.chans[k]?).map (fun c =>
        if registered s.broker (recipientIDFromNotification (some n)) k then deliver n c
        else c) := by
      intro k
      rw [hpt k]
      by_cases hk : k ∈ subs
      · simp [hk, (hreg k).1 hk]
      · have hnr : ¬ registered s.broker (recipientIDFromNotification (some n)) k :=
          fun h => hk ((hreg k).2 h)
        simp [hk, hnr]
    refine ⟨chans', hloop, hlen, hpt', ?_⟩
    refine Inv_bufOnly s chans' _ hinv hlen hpt' ?_
    intro k c h1 h2
    by_cases hr : registered s.broker (recipientIDFromNotification (some n)) k
    · beta_reduce
      rw [if_pos hr]
      exact ⟨deliver_cap n c, deliver_closed n c, (deliver_buf n c h1).2.2 h2⟩
    · beta_reduce
      rw [if_neg hr]
      exact ⟨rfl, rfl, h2⟩
  cases hsub : s.broker.subscribers (recipientIDFromNotification (some n)) with
  | none =>
    obtain ⟨chans', hloop, rest⟩ := key [] (by simp) (by
      intro k
      simp [registered, hsub])
    refine ⟨chans', ?_, rest⟩
    simp only [Publish, hu, if_false, hsub]
    rw [hloop]
  | some subs =>
    obtain ⟨chans', hloop, rest⟩ := key subs
      (fun ch hch => (hinv.regOpen _ subs hsub ch hch).1) (by
      intro k
      simp [registered, hsub])
    refine ⟨chans', ?_, rest⟩
    simp only [Publish, hu, if_false, hsub]
    rw [hloop]

/-- `Publish` of any argument keeps the invariant and does not panic. -/
theorem Publish_inv (s : Sys) (hinv : Inv s) (n : Option Notification) :
    ∃ b', Publish s.broker n = some b' ∧ b'.subscribers = s.broker.subscribers
      ∧ Inv ⟨b', s.handles⟩ := by
  cases n with
  | none => exact ⟨s.broker, rfl, rfl, hinv⟩
  | some n =>
    by_cases hu : recipientIDFromNotification (some n) = 0
    · exact ⟨s.broker, by simp [Publish, hu], rfl, hinv⟩
    · obtain ⟨chans', h1, -, -, h4⟩ := Publish_spec s hinv n hu
      exact ⟨_, h1, rfl, h4⟩

theorem recv_inv (s : Sys) (hinv : Inv s) (ch : Nat) :
    Inv ⟨⟨recvChan s.broker.chans ch, s.broker.subscribers⟩, s.handles⟩ := by
  obtain ⟨hlen, hpt⟩ := recvChan_spec s.broker.chans ch
  refine Inv_bufOnly s _ (fun k c => if k = ch then { c with buf := c.buf.tail } else c)
    hinv hlen ?_ ?_
  · intro k
    rw [hpt k]
    by_cases hk : k = ch
    · simp [hk]
    · simp [hk]
  · intro k c h1 h2
    by_cases hk : k = ch
    · beta_reduce
      rw [if_pos hk]
      refine ⟨rfl, rfl, ?_⟩
      simp only [List.length_tail]
      omega
    · beta_reduce
      rw [if_neg hk]
      exact ⟨rfl, rfl, h2⟩

theorem getElem?_concat_eq_some {α : Type} (l : List α) (a b : α) (k : Nat) :
    (l ++ [a])[k]? = some b ↔ l[k]? = some b ∨ (k = l.length ∧ a = b) := by
  rw [List.getElem?_append]
  by_cases hk : k < l.length
  · rw [if_pos hk]
    constructor
    · intro h; exact Or.inl h
    · rintro (h | ⟨h, -⟩)
      · exact h
      · omega
  · rw [if_neg hk]
    have hnone : l[k]? = none := List.getElem?_eq_none (Nat.le_of_not_lt hk)
    by_cases he : k = l.length
    · subst he
      simp [hnone]
    · have hout : [a][k - l.length]? = none :=
        List.getElem?_eq_none (by simp only [List.length_singleton]; omega)
      rw [hout, hnone]
      simp [he]

theorem registered_iff (b : Broker) (u : Int) (ch : Nat) :
    registered b u ch ↔ ∃ subs, b.subscribers u = some subs ∧ ch ∈ subs := by
  unfold registered
  cases h : b.subscribers u with
  | none => simp
  | some subs => simp

/-- `Subscribe` keeps the invariant. -/
theorem Subscribe_inv (s : Sys) (hinv : Inv s) (u : Int) :
    Inv ⟨(Subscribe s.broker u).2.2, s.handles ++ [(Subscribe s.broker u).2.1]⟩ := by
  have hlen := hinv.len
  have hold : ∀ x, x ∈ (match s.broker.subscribers u with
      | some subs => subs
      | none => []) → ∃ subs, s.broker.subscribers u = some subs ∧ x ∈ subs := by
    intro x hx
    cases hs : s.broker.subscribers u with
    | none => rw [hs] at hx; simp at hx
    | some subs => rw [hs] at hx; exact ⟨subs, rfl, hx⟩
  have hnewc : ∀ (k : Nat) (c : Chan),
      (Subscribe s.broker u).2.2.chans[k]? = some c ↔
        s.broker.chans[k]? = some c ∨ (k = s.broker.chans.length ∧ (⟨1, [], false⟩ : Chan) = c) :=
    fun k c => getElem?_concat_eq_some _ _ _ _
  have hnewh : ∀ (k : Nat) (r : Release),
      (s.handles ++ [(Subscribe s.broker u).2.1])[k]? = some r ↔
        s.handles[k]? = some r ∨ (k = s.handles.length ∧ (⟨u, s.broker.chans.length⟩ : Release) = r) :=
    fun k r => getElem?_concat_eq_some _ _ _ _
  have hnews : ∀ u', (Subscribe s.broker u).2.2.subscribers u'
      = if u' = u then some (List.insert s.broker.chans.length (match s.broker.subscribers u with
          | some subs => subs
          | none => [])) else s.broker.subscribers u' := fun _ => rfl
  refine ⟨?_, ?_, ?_, ?_, ?_, ?_⟩
  · show (s.handles ++ [_]).length = (s.broker.chans ++ [_]).length
    simp [hlen]
  · intro k r h
    rcases (hnewh k r).1 h with h | ⟨h1, h2⟩
    · exact hinv.handle k r h
    · rw [← h2, h1]; exact hlen.symm
  · intro u' subs' hsub x hx
    have lift : (∃ c, s.broker.chans[x]? = some c ∧ c.closed = false) ∧
        s.handles[x]? = some ⟨u', x⟩ →
        (∃ c, (Subscribe s.broker u).2.2.chans[x]? = some c ∧ c.closed = false) ∧
        (s.handles ++ [(Subscribe s.broker u).2.1])[x]? = some ⟨u', x⟩ := by
      rintro ⟨⟨c, hc, hcl⟩, hh⟩
      exact ⟨⟨c, (hnewc x c).2 (Or.inl hc), hcl⟩, (hnewh x _).2 (Or.inl hh)⟩
    rw [hnews u'] at hsub
    by_cases hu : u' = u
    · rw [if_pos hu, Option.some.injEq] at hsub
      rw [← hsub] at hx
      rcases List.mem_insert_iff.1 hx with hxc | hxo
      · refine ⟨⟨⟨1, [], false⟩, (hnewc x _).2 (Or.inr ⟨hxc, rfl⟩), rfl⟩, ?_⟩
        refine (hnewh x _).2 (Or.inr ⟨by rw [hxc, hlen], ?_⟩)
        rw [hu, hxc]
      · obtain ⟨subs, hs, hxs⟩ := hold x hxo
        exact lift (hinv.regOpen u' subs (by rw [hu]; exact hs) x hxs)
    · rw [if_neg hu] at hsub
      exact lift (hinv.regOpen u' subs' hsub x hx)
  · intro k r c hh hc hcl
    rw [hnews r.userID]
    rcases (hnewh k r).1 hh with hh | ⟨hk, hr⟩
    · have hklt := lt_of_getElem?_eq_some _ _ _ hh
      rcases (hnewc k c).1 hc with hc | ⟨hk', -⟩
      · obtain ⟨subs, hs, hks⟩ := hinv.openReg k r c hh hc hcl
        by_cases hu : r.userID = u
        · rw [if_pos hu]
          rw [hu] at hs
          refine ⟨_, rfl, ?_⟩
          rw [hs]
          exact List.mem_insert_iff.2 (Or.inr hks)
        · rw [if_neg hu]
          exact ⟨subs, hs, hks⟩
      · omega
    · have hu : r.userID = u := by rw [← hr]
      rw [if_pos hu]
      refine ⟨_, rfl, ?_⟩
      rw [hk, hlen]
      exact List.mem_insert_iff.2 (Or.inl rfl)
  · intro k c hc
    rcases (hnewc k c).1 hc with hc | ⟨-, hc⟩
    · exact hinv.slot k c hc
    · rw [← hc]; exact ⟨rfl, by simp⟩
  · intro u' h
    rw [hnews u'] at h
    by_cases hu : u' = u
    · rw [if_pos hu, Option.some.injEq] at h
      have : s.broker.chans.length ∈ List.insert s.broker.chans.length
          (match s.broker.subscribers u with
            | some subs => subs
            | none => []) := List.mem_insert_iff.2 (Or.inl rfl)
      rw [h] at this
      exact List.not_mem_nil _ this
    · rw [if_neg hu] at h
      exact hinv.nonempty u' h

/-- The release function of a sink that is not registered changes nothing. -/
theorem Release_call_unregistered (r : Release) (b : Broker)
    (h : ¬ registered b r.userID r.ch) : r.call b = some b := by
  unfold Release.call
  cases hs : b.subscribers r.userID with
  | none => rfl
  | some subs =>
    have hm : r.ch ∉ subs := fun hm => h ((registered_iff b r.userID r.ch).2 ⟨subs, hs, hm⟩)
    simp [hm]

/-- The release function of a registered, open sink removes it from the
recipient's set, closes it, and drops the recipient's key when the set has
become empty. -/
theorem Release_call_registered (r : Release) (b : Broker) (subs : List Nat) (c : Chan)
    (hs : b.subscribers r.userID = some subs) (hm : r.ch ∈ subs)
    (hc : b.chans[r.ch]? = some c) (hcl : c.closed = false) :
    r.call b = some ⟨b.chans.set r.ch { c with closed := true },
      fun k => if k = r.userID then
          (if (subs.filter (fun x => decide (x ≠ r.ch))).length = 0 then none
            else some (subs.filter (fun x => decide (x ≠ r.ch))))
        else b.subscribers k⟩ := by
  unfold Release.call
  rw [hs]
  simp only [hm, if_true, (closeChan_open b.chans r.ch c hc hcl).1]
  by_cases hlen : (subs.filter (fun x => decide (x ≠ r.ch))).length = 0
  · rw [if_pos hlen]
    congr 2
    funext k
    by_cases hk : k = r.userID
    · rw [if_pos hk, if_pos hk, if_pos hlen]
    · rw [if_neg hk, if_neg hk]
  · rw [if_neg hlen]
    congr 2
    funext k
    by_cases hk : k = r.userID
    · rw [if_pos hk, if_pos hk, if_neg hlen]
    · rw [if_neg hk, if_neg hk]

/-- A call of a release function that `Subscribe` returned does not panic,
keeps the invariant, and leaves its sink closed and registered nowhere. -/
theorem Release_inv (s : Sys) (hinv : Inv s) (k : Nat) (r : Release)
    (hh : s.handles[k]? = some r) :
    ∃ b', r.call s.broker = some b' ∧ Inv ⟨b', s.handles⟩ ∧ isClosed b' k := by
  have hrk : r.ch = k := hinv.handle k r hh
  have hklt : k < s.broker.chans.length := by
    rw [← hinv.len]; exact lt_of_getElem?_eq_some _ _ _ hh
  obtain ⟨c, hc⟩ : ∃ c, s.broker.chans[k]? = some c :=
    ⟨s.broker.chans[k], List.getElem?_eq_getElem hklt⟩
  by_cases hreg : registered s.broker r.userID r.ch
  · obtain ⟨subs, hs, hm⟩ := (registered_iff _ _ _).1 hreg
    obtain ⟨⟨c0, hc0, hcl⟩, -⟩ := hinv.regOpen r.userID subs hs r.ch hm
    have hcall := Release_call_registered r s.broker subs c0 hs hm hc0 hcl
    have hset := (closeChan_open s.broker.chans r.ch c0 hc0 hcl).2
    refine ⟨_, hcall, ?_, ?_⟩
    · refine ⟨?_, hinv.handle, ?_, ?_, ?_, ?_⟩
      · show s.handles.length = (s.broker.chans.set r.ch _).length
        rw [List.length_set]; exact hinv.len
      · intro u' subs' hsub x hx
        simp only [] at hsub
        have hxne : x ≠ r.ch ∧ ∃ subs0, s.broker.subscribers u' = some subs0 ∧ x ∈ subs0 := by
          by_cases hu : u' = r.userID
          · rw [if_pos hu] at hsub
            by_cases hl : (subs.filter (fun x => decide (x ≠ r.ch))).length = 0
            · rw [if_pos hl] at hsub; exact Option.noConfusion hsub
            · rw [if_neg hl, Option.some.injEq] at hsub
              rw [← hsub] at hx
              have hx' := List.mem_filter.1 hx
              exact ⟨by simpa using hx'.2, subs, by rw [hu]; exact hs, hx'.1⟩
          · rw [if_neg hu] at hsub
            refine ⟨?_, subs', hsub, hx⟩
            intro hxe
            have h1 := (hinv.regOpen u' subs' hsub x hx).2
            rw [hxe, hrk, hh] at h1
            apply hu
            simp only [Option.some.injEq] at h1
            rw [h1]
        obtain ⟨hne, subs0, hs0, hx0⟩ := hxne
        obtain ⟨⟨cx, hcx, hclx⟩, hhx⟩ := hinv.regOpen u' subs0 hs0 x hx0
        refine ⟨⟨cx, ?_, hclx⟩, hhx⟩
        show (s.broker.chans.set r.ch _)[x]? = some cx
        rw [hset x, if_neg hne]; exact hcx
      · intro k' r' c' hh' hc' hcl'
        have hc'' : (s.broker.chans.set r.ch { c0 with closed := true })[k']? = some c' := hc'
        rw [hset k'] at hc''
        by_cases hk' : k' = r.ch
        · rw [if_pos hk', Option.some.injEq] at hc''
          rw [← hc''] at hcl'
          exact absurd hcl' (by simp)
        · rw [if_neg hk'] at hc''
          obtain ⟨subs0, hs0, hk0⟩ := hinv.openReg k' r' c' hh' hc'' hcl'
          show ∃ subs1, (if r'.userID = r.userID then _ else _) = some subs1 ∧ k' ∈ subs1
          by_cases hu : r'.userID = r.userID
          · rw [if_pos hu]
            rw [hu, hs, Option.some.injEq] at hs0
            have hkf : k' ∈ subs.filter (fun x => decide (x ≠ r.ch)) :=
              List.mem_filter.2 ⟨by rw [hs0]; exact hk0, by simpa using hk'⟩
            have hl : ¬ (subs.filter (fun x => decide (x ≠ r.ch))).length = 0 := by
              intro h0
              rw [List.length_eq_zero.1 h0] at hkf
              exact List.not_mem_nil _ hkf
            rw [if_neg hl]
            exact ⟨_, rfl, hkf⟩
          · rw [if_neg hu]
            exact ⟨subs0, hs0, hk0⟩
      · intro k' c' hc'
        have hc'' : (s.broker.chans.set r.ch { c0 with closed := true })[k']? = some c' := hc'
        rw [hset k'] at hc''
        by_cases hk' : k' = r.ch
        · rw [if_pos hk', Option.some.injEq] at hc''
          rw [← hc'']
          exact hinv.slot r.ch c0 hc0
        · rw [if_neg hk'] at hc''
          exact hinv.slot k' c' hc''
      · intro u' h
        simp only [] at h
        by_cases hu : u' = r.userID
        · rw [if_pos hu] at h
          by_cases hl : (subs.filter (fun x => decide (x ≠ r.ch))).length = 0
          · rw [if_pos hl] at h; exact Option.noConfusion h
          · rw [if_neg hl, Option.some.injEq] at h
            rw [h] at hl
            exact hl rfl
        · rw [if_neg hu] at h
          exact hinv.nonempty u' h
    · show isClosed ⟨s.broker.chans.set r.ch _, _⟩ k
      unfold isClosed
      simp only []
      rw [hset k, if_pos hrk.symm]
  · refine ⟨s.broker, Release_call_unregistered r s.broker hreg, hinv, ?_⟩
    unfold isClosed
    rw [hc]
    simp only []
    cases hcl : c.closed with
    | true => rfl
    | false =>
      exfalso
      obtain ⟨subs, hs, hm⟩ := hinv.openReg k r c hh hc hcl
      apply hreg
      rw [hrk]
      exact (registered_iff _ _ _).2 ⟨subs, hs, hm⟩

/-- Closed channels stay closed under a change that keeps the `closed` flags. -/
theorem isClosed_of_map (chans chans' : List Chan) (subs subs' : Int → Option (List Nat))
    (g : Nat → Chan → Chan) (hpt : ∀ k, chans'[k]? = (chans[k]?).map (g k))
    (hg : ∀ k c, (g k c).closed = true ↔ c.closed = true) (k : Nat) :
    isClosed ⟨chans', subs'⟩ k ↔ isClosed ⟨chans, subs⟩ k := by
  unfold isClosed
  simp only []
  rw [hpt k]
  cases chans[k]? with
  | none => simp
  | some c => simp [hg k c]

/-- One call in a state with the invariant does not panic and keeps the
invariant; release functions already returned stay where they are, and closed
channels stay closed. -/
theorem step_inv (s : Sys) (hinv : Inv s) (op : Op) :
    ∃ s', step s op = some s' ∧ Inv s'
      ∧ (∀ (k : Nat) (r : Release), s.handles[k]? = some r → s'.handles[k]? = some r)
      ∧ (∀ k, isClosed s.broker k → isClosed s'.broker k) := by
  cases op with
  | subscribe u =>
    refine ⟨_, rfl, Subscribe_inv s hinv u, ?_, ?_⟩
    · intro k r h
      exact (getElem?_concat_eq_some _ _ _ _).2 (Or.inl h)
    · intro k hk
      unfold isClosed at hk ⊢
      cases hc : s.broker.chans[k]? with
      | none => rw [hc] at hk; exact hk.elim
      | some c =>
        rw [hc] at hk
        have : (Subscribe s.broker u).2.2.chans[k]? = some c :=
          (getElem?_concat_eq_some _ _ _ _).2 (Or.inl hc)
        rw [this]
        exact hk
  | release k =>
    cases hh : s.handles[k]? with
    | none => exact ⟨s, by simp [step, hh], hinv, fun _ _ h => h, fun _ h => h⟩
    | some r =>
      have hrk : r.ch = k := hinv.handle k r hh
      by_cases hreg : registered s.broker r.userID r.ch
      · obtain ⟨subs, hs, hm⟩ := (registered_iff _ _ _).1 hreg
        obtain ⟨⟨c0, hc0, hcl⟩, -⟩ := hinv.regOpen r.userID subs hs r.ch hm
        obtain ⟨b', hcall, hinv', -⟩ := Release_inv s hinv k r hh
        have hcall' := Release_call_registered r s.broker subs c0 hs hm hc0 hcl
        refine ⟨⟨b', s.handles⟩, by simp [step, hh, hcall], hinv', fun _ _ h => h, ?_⟩
        intro k' hk'
        rw [hcall, Option.some.injEq] at hcall'
        rw [hcall']
        unfold isClosed at hk' ⊢
        simp only []
        rw [(closeChan_open s.broker.chans r.ch c0 hc0 hcl).2 k']
        by_cases hkk : k' = r.ch
        · rw [if_pos hkk]
        · rw [if_neg hkk]; exact hk'
      · have hcall := Release_call_unregistered r s.broker hreg
        exact ⟨s, by simp [step, hh, hcall], hinv, fun _ _ h => h, fun _ h => h⟩
  | publish n =>
    cases n with
    | none => exact ⟨s, rfl, hinv, fun _ _ h => h, fun _ h => h⟩
    | some n =>
      by_cases hu : recipientIDFromNotification (some n) = 0
      · exact ⟨s, by simp [step, Publish, hu], hinv, fun _ _ h => h, fun _ h => h⟩
      · obtain ⟨chans', h1, -, hpt, h4⟩ := Publish_spec s hinv n hu
        refine ⟨_, by simp only [step, h1], h4, fun _ _ h => h, ?_⟩
        intro k hk
        refine (isClosed_of_map s.broker.chans chans' s.broker.subscribers _ _ hpt ?_ k).2 hk
        intro k c
        beta_reduce
        split
        · rw [deliver_closed]
        · rfl
  | recv ch =>
    refine ⟨_, rfl, recv_inv s hinv ch, fun _ _ h => h, ?_⟩
    intro k hk
    obtain ⟨-, hpt⟩ := recvChan_spec s.broker.chans ch
    refine (isClosed_of_map s.broker.chans _ s.broker.subscribers s.broker.subscribers
      (fun k c => if k = ch then { c with buf := c.buf.tail } else c) ?_ ?_ k).2 hk
    · intro k
      rw [hpt k]
      by_cases hk : k = ch
      · simp [hk]
      · simp [hk]
    · intro k c
      beta_reduce
      split <;> rfl

/-- No sequence of calls panics, and the invariant holds after it. -/
theorem run_inv (ops : List Op) (s : Sys) (hinv : Inv s) :
    ∃ s', run s ops = some s' ∧ Inv s'
      ∧ (∀ (k : Nat) (r : Release), s.handles[k]? = some r → s'.handles[k]? = some r)
      ∧ (∀ k, isClosed s.broker k → isClosed s'.broker k) := by
  induction ops generalizing s with
  | nil => exact ⟨s, rfl, hinv, fun _ _ h => h, fun _ h => h⟩
  | cons op ops ih =>
    obtain ⟨s1, h1, hinv1, hh1, hc1⟩ := step_inv s hinv op
    obtain ⟨s2, h2, hinv2, hh2, hc2⟩ := ih s1 hinv1
    refine ⟨s2, ?_, hinv2, fun k r h => hh2 k r (hh1 k r h), fun k h => hc2 k (hc1 k h)⟩
    simp only [run, h1]
    exact h2

/-- Every state the calls reach from a new broker has the invariant. -/
theorem Inv_of_run (ops : List Op) (s : Sys) (hrun : run initSys ops = some s) : Inv s := by
  obtain ⟨s', h, hinv, -⟩ := run_inv ops initSys Inv_initSys
  rw [hrun, Option.some.injEq] at h
  rw [h]; exact hinv

/-- In a state with the invariant a closed channel is registered nowhere. -/
theorem not_registered_of_isClosed (s : Sys) (hinv : Inv s) (k : Nat)
    (hk : isClosed s.broker k) (u : Int) : ¬ registered s.broker u k := by
  intro hreg
  obtain ⟨subs, hs, hm⟩ := (registered_iff _ _ _).1 hreg
  obtain ⟨⟨c, hc, hcl⟩, -⟩ := hinv.regOpen u subs hs k hm
  unfold isClosed at hk
  rw [hc] at hk
  simp only [] at hk
  rw [hcl] at hk
  exact Bool.noConfusion hk

/-- The buffers after a `Publish` whose recipient is not 0: a free slot of a
sink of the recipient takes the item, a taken slot keeps what it holds, and
channels that are not sinks of the recipient are untouched. -/
theorem Publish_bufs (s : Sys) (hinv : Inv s) (n : Notification)
    (hu : recipientIDFromNotification (some n) ≠ 0) :
    ∃ b', Publish s.broker (some n) = some b' ∧ b'.subscribers = s.broker.subscribers
      ∧ ∀ ch,
        (registered s.broker (recipientIDFromNotification (some n)) ch →
          bufOf s.broker ch = [] → bufOf b' ch = [n])
        ∧ (registered s.broker (recipientIDFromNotification (some n)) ch →
          bufOf s.broker ch ≠ [] → b'.chans[ch]? = s.broker.chans[ch]?)
        ∧ (¬ registered s.broker (recipientIDFromNotification (some n)) ch →
          b'.chans[ch]? = s.broker.chans[ch]?) := by
  obtain ⟨chans', h1, -, hpt, -⟩ := Publish_spec s hinv n hu
  refine ⟨_, h1, rfl, ?_⟩
  intro ch
  have hpt' : (⟨chans', s.broker.subscribers⟩ : Broker).chans[ch]?
      = (s.broker.chans[ch]?).map (fun c =>
          if registered s.broker (recipientIDFromNotification (some n)) ch then deliver n c
          else c) := hpt ch
  refine ⟨?_, ?_, ?_⟩
  · intro hreg hempty
    obtain ⟨subs, hs, hm⟩ := (registered_iff _ _ _).1 hreg
    obtain ⟨⟨c, hc, -⟩, -⟩ := hinv.regOpen _ subs hs ch hm
    have hcap := (hinv.slot ch c hc).1
    unfold bufOf at hempty ⊢
    rw [hc] at hempty
    rw [hpt', hc]
    simp only [Option.map_some', if_pos hreg]
    exact (deliver_buf n c hcap).1 hempty
  · intro hreg hfull
    obtain ⟨subs, hs, hm⟩ := (registered_iff _ _ _).1 hreg
    obtain ⟨⟨c, hc, -⟩, -⟩ := hinv.regOpen _ subs hs ch hm
    have hcap := (hinv.slot ch c hc).1
    unfold bufOf at hfull
    rw [hc] at hfull
    rw [hpt', hc]
    simp only [Option.map_some', if_pos hreg]
    rw [(deliver_buf n c hcap).2.1 hfull]
  · intro hreg
    rw [hpt']
    simp only [if_neg hreg]
    cases s.broker.chans[ch]? <;> rfl

/-- The sink `Subscribe` returns is registered for the recipient. -/
theorem Subscribe_registered (b : Broker) (u : Int) :
    registered (Subscribe b u).2.2 u (Subscribe b u).1 := by
  rw [registered_iff]
  refine ⟨List.insert b.chans.length (match b.subscribers u with
    | some subs => subs
    | none => []), ?_, List.mem_insert_iff.2 (Or.inl rfl)⟩
  show (if u = u then _ else _) = _
  rw [if_pos rfl]

/-- Counterexample for C7 as stated: on a new broker `Subscribe(0)` returns
sink 0, and `Publish` of a notification whose recipient is user 0 returns with
the sink still empty, so the notification is not placed in it. -/
theorem publish_recipient_zero_not_delivered :
    (Subscribe newNotificationBroker 0).1 = 0
    ∧ recipientIDFromNotification (some ⟨1, some 0⟩) = 0
    ∧ (Publish (Subscribe newNotificationBroker 0).2.2 (some ⟨1, some 0⟩)).map
        (fun b => bufOf b (Subscribe newNotificationBroker 0).1) = some []
    ∧ ¬ ∃ b', Publish (Subscribe newNotificationBroker 0).2.2 (some ⟨1, some 0⟩) = some b'
        ∧ bufOf b' (Subscribe newNotificationBroker 0).1 = [⟨1, some 0⟩] := by
  refine ⟨rfl, rfl, by decide, ?_⟩
  rintro ⟨b', hpub, hbuf⟩
  have hsame : Publish (Subscribe newNotificationBroker 0).2.2 (some ⟨1, some 0⟩)
      = some (Subscribe newNotificationBroker 0).2.2 := rfl
  rw [hsame, Option.some.injEq] at hpub
  rw [← hpub] at hbuf
  exact absurd hbuf (by decide)

/-- C7 (amended). In every state reached from a new broker and for every
notification `n` whose recipient ID is not 0: after `Subscribe` for that
recipient returns sink `S`, `Publish(n)` returns and `S` holds exactly `[n]`;
and `Publish(n)` in the state itself returns and every registered sink of the
recipient whose slot is free holds exactly `[n]` afterwards. -/
theorem publish_delivers_once (ops : List Op) (s : Sys) (hrun : run initSys ops = some s)
    (n : Notification) (hu : recipientIDFromNotification (some n) ≠ 0) :
    (∃ b', Publish (Subscribe s.broker (recipientIDFromNotification (some n))).2.2 (some n)
          = some b'
        ∧ bufOf b' (Subscribe s.broker (recipientIDFromNotification (some n))).1 = [n])
    ∧ (∃ b', Publish s.broker (some n) = some b'
        ∧ ∀ ch, registered s.broker (recipientIDFromNotification (some n)) ch →
            bufOf s.broker ch = [] → bufOf b' ch = [n]) := by
  have hinv := Inv_of_run ops s hrun
  constructor
  · have hinv1 := Subscribe_inv s hinv (recipientIDFromNotification (some n))
    obtain ⟨b', hpub, -, hbufs⟩ := Publish_bufs _ hinv1 n hu
    refine ⟨b', hpub, (hbufs _).1 ?_ ?_⟩
    · exact Subscribe_registered s.broker _
    · unfold bufOf
      have hnew : (Subscribe s.broker (recipientIDFromNotification (some n))).2.2.chans[
          (Subscribe s.broker (recipientIDFromNotification (some n))).1]?
          = some ⟨1, [], false⟩ :=
        (getElem?_concat_eq_some _ _ _ _).2 (Or.inr ⟨rfl, rfl⟩)
      rw [hnew]
  · obtain ⟨b', hpub, -, hbufs⟩ := Publish_bufs s hinv n hu
    exact ⟨b', hpub, fun ch hreg hempty => (hbufs ch).1 hreg hempty⟩

/-- Witness for C7: a new broker and a notification for recipient 7. -/
theorem publish_delivers_once_witness :
    run initSys [] = some initSys
    ∧ recipientIDFromNotification (some ⟨1, some 7⟩) ≠ 0
    ∧ (∃ b', Publish (Subscribe initSys.broker
            (recipientIDFromNotification (some ⟨1, some 7⟩))).2.2 (some ⟨1, some 7⟩) = some b'
        ∧ bufOf b' (Subscribe initSys.broker
            (recipientIDFromNotification (some ⟨1, some 7⟩))).1 = [⟨1, some 7⟩])
    ∧ (∃ b', Publish initSys.broker (some ⟨1, some 7⟩) = some b'
        ∧ ∀ ch, registered initSys.broker (recipientIDFromNotification (some ⟨1, some 7⟩)) ch →
            bufOf initSys.broker ch = [] → bufOf b' ch = [⟨1, some 7⟩]) :=
  ⟨rfl, by decide, publish_delivers_once [] initSys rfl ⟨1, some 7⟩ (by decide)⟩

/-- C8. In every state reached from a new broker, every channel holds at most
one item, and `Publish` of any notification returns (the `select` has a
`default` branch and the call does not panic) and leaves every registered sink
of the recipient that already holds an item `m` holding exactly `[m]`: the new
item is dropped for that sink. -/
theorem publish_full_sink_drops (ops : List Op) (s : Sys) (hrun : run initSys ops = some s) :
    (∀ ch, (bufOf s.broker ch).length ≤ 1)
    ∧ ∀ n : Notification, ∃ b', Publish s.broker (some n) = some b'
        ∧ (∀ ch m, registered s.broker (recipientIDFromNotification (some n)) ch →
            bufOf s.broker ch = [m] → bufOf b' ch = [m])
        ∧ ∀ ch, (bufOf b' ch).length ≤ 1 := by
  have hinv := Inv_of_run ops s hrun
  have hslot : ∀ (t : Sys), Inv t → ∀ ch, (bufOf t.broker ch).length ≤ 1 := by
    intro t ht ch
    unfold bufOf
    cases hc : t.broker.chans[ch]? with
    | none => simp
    | some c => exact (ht.slot ch c hc).2
  refine ⟨hslot s hinv, ?_⟩
  intro n
  by_cases hu : recipientIDFromNotification (some n) = 0
  · refine ⟨s.broker, by simp [Publish, hu], fun ch m _ h => h, hslot s hinv⟩
  · obtain ⟨chans', h1, -, -, hinv'⟩ := Publish_spec s hinv n hu
    obtain ⟨b', hpub, -, hbufs⟩ := Publish_bufs s hinv n hu
    rw [h1, Option.some.injEq] at hpub
    refine ⟨b', by rw [h1, hpub], ?_, ?_⟩
    · intro ch m hreg hfull
      have hne : bufOf s.broker ch ≠ [] := by rw [hfull]; simp
      have hsame := (hbufs ch).2.1 hreg hne
      unfold bufOf at hfull ⊢
      rw [hsame]
      exact hfull
    · rw [← hpub]
      exact hslot _ hinv'

/-- Witness for C8: after `Subscribe(7)` and a first `Publish` to recipient 7
the sink holds that item; a second `Publish` to recipient 7 leaves the sink
holding the first item only. -/
theorem publish_full_sink_drops_witness :
    run initSys [.subscribe 7, .publish (some ⟨1, some 7⟩)] = some sysWithFullSink
    ∧ registered sysWithFullSink.broker 7 0
    ∧ bufOf sysWithFullSink.broker 0 = [⟨1, some 7⟩]
    ∧ (Publish sysWithFullSink.broker (some ⟨2, some 7⟩)).map (fun b => bufOf b 0)
        = some [⟨1, some 7⟩]
    ∧ ((∀ ch, (bufOf sysWithFullSink.broker ch).length ≤ 1)
      ∧ ∀ n : Notification, ∃ b', Publish sysWithFullSink.broker (some n) = some b'
          ∧ (∀ ch m, registered sysWithFullSink.broker (recipientIDFromNotification (some n)) ch →
              bufOf sysWithFullSink.broker ch = [m] → bufOf b' ch = [m])
          ∧ ∀ ch, (bufOf b' ch).length ≤ 1) :=
  ⟨rfl, by decide, by decide, by decide,
    publish_full_sink_drops [.subscribe 7, .publish (some ⟨1, some 7⟩)] sysWithFullSink rfl⟩

/-- C9. In every state reached from a new broker every registered sink is
open and every closed sink is registered nowhere, and no call panics. A call
of a release function that `Subscribe` returned leaves its sink `S` closed;
from then on, whatever calls follow, `S` stays closed and registered for no
recipient, and every `Publish` returns and leaves `S` as it is. -/
theorem publish_after_release_safe (ops : List Op) (s : Sys)
    (hrun : run initSys ops = some s) :
    (∀ u ch, registered s.broker u ch → isOpen s.broker ch)
    ∧ (∀ u ch, isClosed s.broker ch → ¬ registered s.broker u ch)
    ∧ (∀ op, ∃ s', step s op = some s')
    ∧ ∀ (k : Nat) (r : Release), s.handles[k]? = some r →
        ∃ s1, step s (.release k) = some s1
          ∧ ∀ post, ∃ s2, run s1 post = some s2
              ∧ isClosed s2.broker r.ch
              ∧ (∀ u, ¬ registered s2.broker u r.ch)
              ∧ ∀ n, ∃ b', Publish s2.broker n = some b'
                  ∧ b'.chans[r.ch]? = s2.broker.chans[r.ch]? := by
  have hinv := Inv_of_run ops s hrun
  refine ⟨?_, ?_, ?_, ?_⟩
  · intro u ch hreg
    obtain ⟨subs, hs, hm⟩ := (registered_iff _ _ _).1 hreg
    obtain ⟨⟨c, hc, hcl⟩, -⟩ := hinv.regOpen u subs hs ch hm
    unfold isOpen
    rw [hc]
    exact hcl
  · intro u ch hcl
    exact not_registered_of_isClosed s hinv ch hcl u
  · intro op
    obtain ⟨s', h, -⟩ := step_inv s hinv op
    exact ⟨s', h⟩
  · intro k r hh
    have hrk : r.ch = k := hinv.handle k r hh
    obtain ⟨b1, hcall, hinv1, hclosed1⟩ := Release_inv s hinv k r hh
    refine ⟨⟨b1, s.handles⟩, by simp [step, hh, hcall], ?_⟩
    intro post
    obtain ⟨s2, hrun2, hinv2, -, hcl2⟩ := run_inv post ⟨b1, s.handles⟩ hinv1
    have hclosed2 : isClosed s2.broker r.ch := by rw [hrk]; exact hcl2 k hclosed1
    have hunreg : ∀ u, ¬ registered s2.broker u r.ch :=
      fun u => not_registered_of_isClosed s2 hinv2 r.ch hclosed2 u
    refine ⟨s2, hrun2, hclosed2, hunreg, ?_⟩
    intro n
    cases n with
    | none => exact ⟨s2.broker, rfl, rfl⟩
    | some n =>
      by_cases hu : recipientIDFromNotification (some n) = 0
      · exact ⟨s2.broker, by simp [Publish, hu], rfl⟩
      · obtain ⟨b', hpub, -, hbufs⟩ := Publish_bufs s2 hinv2 n hu
        exact ⟨b', hpub, (hbufs r.ch).2.2 (hunreg _)⟩

/-- Witness for C9: the state after `Subscribe(7)` and one `Publish`; its only
release function is then called and a `Publish` to recipient 7 follows. -/
theorem publish_after_release_safe_witness :
    run initSys [.subscribe 7, .publish (some ⟨1, some 7⟩)] = some sysWithFullSink
    ∧ (run sysWithFullSink [.release 0, .publish (some ⟨2, some 7⟩)]).map
        (fun t => (t.broker.chans, t.broker.subscribers 7))
        = some ([⟨1, [⟨1, some 7⟩], true⟩], none)
    ∧ ((∀ u ch, registered sysWithFullSink.broker u ch → isOpen sysWithFullSink.broker ch)
      ∧ (∀ u ch, isClosed sysWithFullSink.broker ch → ¬ registered sysWithFullSink.broker u ch)
      ∧ (∀ op, ∃ s', step sysWithFullSink op = some s')
      ∧ ∀ (k : Nat) (r : Release), sysWithFullSink.handles[k]? = some r →
          ∃ s1, step sysWithFullSink (.release k) = some s1
            ∧ ∀ post, ∃ s2, run s1 post = some s2
                ∧ isClosed s2.broker r.ch
                ∧ (∀ u, ¬ registered s2.broker u r.ch)
                ∧ ∀ n, ∃ b', Publish s2.broker n = some b'
                    ∧ b'.chans[r.ch]? = s2.broker.chans[r.ch]?) :=
  ⟨rfl, by decide,
    publish_after_release_safe [.subscribe 7, .publish (some ⟨1, some 7⟩)] sysWithFullSink rfl⟩

/-- C10. The release function is idempotent. In every state reached from a
new broker, a call of a release function that `Subscribe` returned does not
panic; calling it again right away, or after any further sequence of calls
(other subscriptions of the same recipient among them), does not panic either
(the sink is never closed a second time) and leaves the state exactly as it
was before that call. -/
theorem release_idempotent (ops : List Op) (s : Sys) (hrun : run initSys ops = some s)
    (k : Nat) (r : Release) (hh : s.handles[k]? = some r) :
    ∃ s1, step s (.release k) = some s1
      ∧ step s1 (.release k) = some s1
      ∧ ∀ post, ∃ s2, run s1 post = some s2 ∧ step s2 (.release k) = some s2 := by
  have hinv := Inv_of_run ops s hrun
  have hrk : r.ch = k := hinv.handle k r hh
  obtain ⟨b1, hcall, hinv1, hclosed1⟩ := Release_inv s hinv k r hh
  have again : ∀ t : Sys, Inv t → t.handles[k]? = some r → isClosed t.broker k →
      step t (.release k) = some t := by
    intro t ht hth htc
    have hunreg : ¬ registered t.broker r.userID r.ch := by
      rw [hrk]; exact not_registered_of_isClosed t ht k htc r.userID
    simp only [step, hth, Release_call_unregistered r t.broker hunreg]
  refine ⟨⟨b1, s.handles⟩, by simp [step, hh, hcall], again _ hinv1 hh hclosed1, ?_⟩
  intro post
  obtain ⟨s2, hrun2, hinv2, hh2, hcl2⟩ := run_inv post ⟨b1, s.handles⟩ hinv1
  exact ⟨s2, hrun2, again s2 hinv2 (hh2 k r hh) (hcl2 k hclosed1)⟩

/-- Witness for C10: the state after `Subscribe(7)` and one `Publish`, and its
release function 0; a second subscription of recipient 7 between two calls of
the release function changes nothing for the second call. -/
theorem release_idempotent_witness :
    run initSys [.subscribe 7, .publish (some ⟨1, some 7⟩)] = some sysWithFullSink
    ∧ sysWithFullSink.handles[0]? = some ⟨7, 0⟩
    ∧ (run sysWithFullSink [.release 0, .subscribe 7, .release 0]).map
        (fun t => (t.broker.chans, t.broker.subscribers 7, t.handles))
      = (run sysWithFullSink [.release 0, .subscribe 7]).map
        (fun t => (t.broker.chans, t.broker.subscribers 7, t.handles))
    ∧ ∃ s1, step sysWithFullSink (.release 0) = some s1
        ∧ step s1 (.release 0) = some s1
        ∧ ∀ post, ∃ s2, run s1 post = some s2 ∧ step s2 (.release 0) = some s2 :=
  ⟨rfl, rfl, by decide,
    release_idempotent [.subscribe 7, .publish (some ⟨1, some 7⟩)] sysWithFullSink rfl 0 ⟨7, 0⟩
      rfl⟩

/-! ### Frame properties of `Publish` and of the release function -/

/-- A channel is registered for at most one recipient. -/
theorem registered_unique (s : Sys) (hinv : Inv s) (u u' : Int) (ch : Nat)
    (h : registered s.broker u ch) (h' : registered s.broker u' ch) : u = u' := by
  obtain ⟨subs, hs, hm⟩ := (registered_iff _ _ _).1 h
  obtain ⟨subs', hs', hm'⟩ := (registered_iff _ _ _).1 h'
  have h1 := (hinv.regOpen u subs hs ch hm).2
  have h2 := (hinv.regOpen u' subs' hs' ch hm').2
  rw [h1, Option.some.injEq, Release.mk.injEq] at h2
  exact h2.1

/-- What a call of a release function changes: its own sink is closed and
registered nowhere, every other channel and every other registration is as
before. -/
theorem Release_frame (s : Sys) (hinv : Inv s) (k : Nat) (r : Release)
    (hh : s.handles[k]? = some r) :
    ∃ b', r.call s.broker = some b' ∧ Inv ⟨b', s.handles⟩ ∧ isClosed b' k
      ∧ (∀ u, ¬ registered b' u k)
      ∧ (∀ u ch, ch ≠ k → (registered b' u ch ↔ registered s.broker u ch))
      ∧ (∀ ch, ch ≠ k → b'.chans[ch]? = s.broker.chans[ch]?)
      ∧ bufOf b' k = bufOf s.broker k := by
  have hrk : r.ch = k := hinv.handle k r hh
  obtain ⟨b', hcall, hinv', hclosed⟩ := Release_inv s hinv k r hh
  have hunreg : ∀ u, ¬ registered b' u k :=
    fun u => not_registered_of_isClosed ⟨b', s.handles⟩ hinv' k hclosed u
  refine ⟨b', hcall, hinv', hclosed, hunreg, ?_⟩
  by_cases hreg : registered s.broker r.userID r.ch
  · obtain ⟨subs, hs, hm⟩ := (registered_iff _ _ _).1 hreg
    obtain ⟨⟨c0, hc0, hcl⟩, -⟩ := hinv.regOpen r.userID subs hs r.ch hm
    have hcall' := Release_call_registered r s.broker subs c0 hs hm hc0 hcl
    have hset := (closeChan_open s.broker.chans r.ch c0 hc0 hcl).2
    rw [hcall, Option.some.injEq] at hcall'
    have hchans : ∀ ch, b'.chans[ch]?
        = if ch = r.ch then some { c0 with closed := true } else s.broker.chans[ch]? := by
      intro ch; rw [hcall']; exact hset ch
    have hsubs : ∀ u, b'.subscribers u = if u = r.userID then
          (if (subs.filter (fun x => decide (x ≠ r.ch))).length = 0 then none
            else some (subs.filter (fun x => decide (x ≠ r.ch))))
        else s.broker.subscribers u := by
      intro u; rw [hcall']
    refine ⟨?_, ?_, ?_⟩
    · intro u ch hne
      rw [registered_iff, registered_iff, hsubs u]
      by_cases hu : u = r.userID
      · rw [if_pos hu, hu, hs]
        constructor
        · rintro ⟨l, hl, hmem⟩
          by_cases h0 : (subs.filter (fun x => decide (x ≠ r.ch))).length = 0
          · rw [if_pos h0] at hl; exact Option.noConfusion hl
          · rw [if_neg h0, Option.some.injEq] at hl
            rw [← hl] at hmem
            exact ⟨subs, rfl, (List.mem_filter.1 hmem).1⟩
        · rintro ⟨l, hl, hmem⟩
          rw [Option.some.injEq] at hl
          have hf : ch ∈ subs.filter (fun x => decide (x ≠ r.ch)) :=
            List.mem_filter.2 ⟨by rw [hl]; exact hmem, by rw [hrk]; simpa using hne⟩
          have h0 : ¬ (subs.filter (fun x => decide (x ≠ r.ch))).length = 0 := by
            intro h0
            rw [List.length_eq_zero.1 h0] at hf
            exact List.not_mem_nil _ hf
          rw [if_neg h0]
          exact ⟨_, rfl, hf⟩
      · rw [if_neg hu]
    · intro ch hne
      rw [hchans ch, if_neg (by rw [hrk]; exact hne)]
    · unfold bufOf
      rw [hchans k, if_pos hrk.symm, ← hrk, hc0]
  · have hcall' := Release_call_unregistered r s.broker hreg
    rw [hcall, Option.some.injEq] at hcall'
    rw [hcall']
    exact ⟨fun _ _ _ => Iff.rfl, fun _ _ => rfl, rfl⟩

/-- C17. In every state reached from a new broker, `Publish` of any argument
returns and changes nothing but buffers of sinks registered for the
notification's recipient: the registry is the same map afterwards, no channel
is made, closed or resized, every channel that is not a sink of the recipient
is exactly as it was, and in particular every sink registered for another
recipient holds what it held before. -/
theorem publish_frame (ops : List Op) (s : Sys) (hrun : run initSys ops = some s)
    (n : Option Notification) :
    ∃ b', Publish s.broker n = some b'
      ∧ b'.subscribers = s.broker.subscribers
      ∧ b'.chans.length = s.broker.chans.length
      ∧ (∀ ch, chanShape b' ch = chanShape s.broker ch)
      ∧ (∀ ch, ¬ registered s.broker (recipientIDFromNotification n) ch →
          b'.chans[ch]? = s.broker.chans[ch]?)
      ∧ (∀ u ch, u ≠ recipientIDFromNotification n → registered s.broker u ch →
          bufOf b' ch = bufOf s.broker ch) := by
  have hinv := Inv_of_run ops s hrun
  have same : Publish s.broker n = some s.broker →
      ∃ b', Publish s.broker n = some b'
        ∧ b'.subscribers = s.broker.subscribers
        ∧ b'.chans.length = s.broker.chans.length
        ∧ (∀ ch, chanShape b' ch = chanShape s.broker ch)
        ∧ (∀ ch, ¬ registered s.broker (recipientIDFromNotification n) ch →
            b'.chans[ch]? = s.broker.chans[ch]?)
        ∧ (∀ u ch, u ≠ recipientIDFromNotification n → registered s.broker u ch →
            bufOf b' ch = bufOf s.broker ch) :=
    fun h => ⟨s.broker, h, rfl, rfl, fun _ => rfl, fun _ _ => rfl, fun _ _ _ _ => rfl⟩
  cases n with
  | none => exact same rfl
  | some n =>
    by_cases hu : recipientIDFromNotification (some n) = 0
    · exact same (by simp [Publish, hu])
    · obtain ⟨chans', hpub, hlen, hpt, -⟩ := Publish_spec s hinv n hu
      have hkeep : ∀ ch, ¬ registered s.broker (recipientIDFromNotification (some n)) ch →
          chans'[ch]? = s.broker.chans[ch]? := by
        intro ch hreg
        rw [hpt ch]
        simp only [if_neg hreg]
        cases s.broker.chans[ch]? <;> rfl
      refine ⟨_, hpub, rfl, hlen, ?_, hkeep, ?_⟩
      · intro ch
        show (chans'[ch]?).map (fun c : Chan => (c.cap, c.closed)) = _
        unfold chanShape
        rw [hpt ch]
        cases s.broker.chans[ch]? with
        | none => rfl
        | some c =>
          simp only [Option.map_some']
          split
          · rw [deliver_cap, deliver_closed]
          · rfl
      · intro u ch hne hreg
        have hnot : ¬ registered s.broker (recipientIDFromNotification (some n)) ch :=
          fun h => hne (registered_unique s hinv _ _ ch hreg h)
        unfold bufOf
        show (match chans'[ch]? with
          | some c => c.buf
          | none => []) = _
        rw [hkeep ch hnot]

/-- Witness for C17: the state after `Subscribe(7)` and one `Publish` to
recipient 7, and a `Publish` to recipient 8. -/
theorem publish_frame_witness :
    run initSys [.subscribe 7, .publish (some ⟨1, some 7⟩)] = some sysWithFullSink
    ∧ ∃ b', Publish sysWithFullSink.broker (some ⟨2, some 8⟩) = some b'
      ∧ b'.subscribers = sysWithFullSink.broker.subscribers
      ∧ b'.chans.length = sysWithFullSink.broker.chans.length
      ∧ (∀ ch, chanShape b' ch = chanShape sysWithFullSink.broker ch)
      ∧ (∀ ch, ¬ registered sysWithFullSink.broker
            (recipientIDFromNotification (some ⟨2, some 8⟩)) ch →
          b'.chans[ch]? = sysWithFullSink.broker.chans[ch]?)
      ∧ (∀ u ch, u ≠ recipientIDFromNotification (some ⟨2, some 8⟩) →
          registered sysWithFullSink.broker u ch →
          bufOf b' ch = bufOf sysWithFullSink.broker ch) :=
  ⟨rfl,
    publish_frame [.subscribe 7, .publish (some ⟨1, some 7⟩)] sysWithFullSink rfl
      (some ⟨2, some 8⟩)⟩

/-- C18. In every state reached from a new broker, a call of a release
function that `Subscribe` returned for sink `S` returns and removes and closes
exactly `S`: `S` is closed and registered for no recipient, every other
channel (flag and buffered item) and every other registration is exactly as
before, so every other registered sink is still registered and open; and in
every state reached by further calls, `Publish` of a notification whose
recipient ID is not 0 still places it in every registered sink of the
recipient whose slot is free. -/
theorem release_removes_exactly_one (ops : List Op) (s : Sys) (hrun : run initSys ops = some s)
    (k : Nat) (r : Release) (hh : s.handles[k]? = some r) :
    ∃ s1, step s (.release k) = some s1
      ∧ isClosed s1.broker r.ch
      ∧ (∀ u, ¬ registered s1.broker u r.ch)
      ∧ (∀ u ch, ch ≠ r.ch → (registered s1.broker u ch ↔ registered s.broker u ch))
      ∧ (∀ ch, ch ≠ r.ch → s1.broker.chans[ch]? = s.broker.chans[ch]?)
      ∧ (∀ u ch, ch ≠ r.ch → registered s.broker u ch →
          registered s1.broker u ch ∧ isOpen s1.broker ch
            ∧ bufOf s1.broker ch = bufOf s.broker ch)
      ∧ ∀ post, ∃ s2, run s1 post = some s2
          ∧ ∀ n : Notification, recipientIDFromNotification (some n) ≠ 0 →
              ∃ b', Publish s2.broker (some n) = some b'
                ∧ ∀ ch, registered s2.broker (recipientIDFromNotification (some n)) ch →
                    bufOf s2.broker ch = [] → bufOf b' ch = [n] := by
  have hinv := Inv_of_run ops s hrun
  have hrk : r.ch = k := hinv.handle k r hh
  obtain ⟨b1, hcall, hinv1, hclosed, hunreg, hregs, hchans, -⟩ := Release_frame s hinv k r hh
  refine ⟨⟨b1, s.handles⟩, by simp [step, hh, hcall], by rw [hrk]; exact hclosed,
    by rw [hrk]; exact hunreg, by rw [hrk]; exact hregs, by rw [hrk]; exact hchans, ?_, ?_⟩
  · intro u ch hne hreg
    rw [hrk] at hne
    refine ⟨(hregs u ch hne).2 hreg, ?_, ?_⟩
    · obtain ⟨subs, hs, hm⟩ := (registered_iff _ _ _).1 hreg
      obtain ⟨⟨c, hc, hcl⟩, -⟩ := hinv.regOpen u subs hs ch hm
      unfold isOpen
      show (match b1.chans[ch]? with
        | some c => c.closed = false
        | none => False)
      rw [hchans ch hne, hc]
      exact hcl
    · unfold bufOf
      show (match b1.chans[ch]? with
        | some c => c.buf
        | none => []) = _
      rw [hchans ch hne]
  · intro post
    obtain ⟨s2, hrun2, hinv2, -, -⟩ := run_inv post ⟨b1, s.handles⟩ hinv1
    refine ⟨s2, hrun2, ?_⟩
    intro n hu
    obtain ⟨b', hpub, -, hbufs⟩ := Publish_bufs s2 hinv2 n hu
    exact ⟨b', hpub, fun ch hreg hempty => (hbufs ch).1 hreg hempty⟩

/-- Witness for C18: recipient 7 has two sinks; the release function of the
first is called and the second stays registered, open and empty, and takes the
next notification for recipient 7. -/
theorem release_removes_exactly_one_witness :
    run initSys [.subscribe 7, .subscribe 7] = some sysWithTwoSinks
    ∧ sysWithTwoSinks.handles[0]? = some ⟨7, 0⟩
    ∧ (run sysWithTwoSinks [.release 0, .publish (some ⟨1, some 7⟩)]).map
        (fun t => (t.broker.chans, t.broker.subscribers 7))
        = some ([⟨1, [], true⟩, ⟨1, [⟨1, some 7⟩], false⟩], some [1])
    ∧ ∃ s1, step sysWithTwoSinks (.release 0) = some s1
      ∧ isClosed s1.broker (⟨7, 0⟩ : Release).ch
      ∧ (∀ u, ¬ registered s1.broker u (⟨7, 0⟩ : Release).ch)
      ∧ (∀ u ch, ch ≠ (⟨7, 0⟩ : Release).ch →
          (registered s1.broker u ch ↔ registered sysWithTwoSinks.broker u ch))
      ∧ (∀ ch, ch ≠ (⟨7, 0⟩ : Release).ch →
          s1.broker.chans[ch]? = sysWithTwoSinks.broker.chans[ch]?)
      ∧ (∀ u ch, ch ≠ (⟨7, 0⟩ : Release).ch → registered sysWithTwoSinks.broker u ch →
          registered s1.broker u ch ∧ isOpen s1.broker ch
            ∧ bufOf s1.broker ch = bufOf sysWithTwoSinks.broker ch)
      ∧ ∀ post, ∃ s2, run s1 post = some s2
          ∧ ∀ n : Notification, recipientIDFromNotification (some n) ≠ 0 →
              ∃ b', Publish s2.broker (some n) = some b'
                ∧ ∀ ch, registered s2.broker (recipientIDFromNotification (some n)) ch →
                    bufOf s2.broker ch = [] → bufOf b' ch = [n] :=
  ⟨rfl, rfl, by decide,
    release_removes_exactly_one [.subscribe 7, .subscribe 7] sysWithTwoSinks rfl 0 ⟨7, 0⟩ rfl⟩

/-- C19. In every state reached from a new broker no recipient key maps to an
empty sink set; a recipient is a key of the registry exactly when it has a
registered sink, and such a sink is open; and once every sink that was ever
made for a recipient is closed (its release function has been called), the
registry has no entry for that recipient. -/
theorem registry_has_no_empty_set (ops : List Op) (s : Sys) (hrun : run initSys ops = some s) :
    (∀ u, s.broker.subscribers u ≠ some [])
    ∧ (∀ u, s.broker.subscribers u ≠ none ↔
        ∃ ch, registered s.broker u ch ∧ isOpen s.broker ch)
    ∧ (∀ u, (∀ (k : Nat) (r : Release), s.handles[k]? = some r → r.userID = u →
          isClosed s.broker k) → s.broker.subscribers u = none) := by
  have hinv := Inv_of_run ops s hrun
  have hopen : ∀ u ch, registered s.broker u ch →
      isOpen s.broker ch ∧ s.handles[ch]? = some ⟨u, ch⟩ := by
    intro u ch hreg
    obtain ⟨subs, hs, hm⟩ := (registered_iff _ _ _).1 hreg
    obtain ⟨⟨c, hc, hcl⟩, hh⟩ := hinv.regOpen u subs hs ch hm
    refine ⟨?_, hh⟩
    unfold isOpen
    rw [hc]
    exact hcl
  have hkey : ∀ u, s.broker.subscribers u ≠ none → ∃ ch, registered s.broker u ch := by
    intro u hne
    cases hs : s.broker.subscribers u with
    | none => exact absurd hs hne
    | some subs =>
      cases subs with
      | nil => exact absurd hs (hinv.nonempty u)
      | cons ch rest => exact ⟨ch, (registered_iff _ _ _).2 ⟨_, hs, List.mem_cons_self _ _⟩⟩
  refine ⟨hinv.nonempty, ?_, ?_⟩
  · intro u
    constructor
    · intro hne
      obtain ⟨ch, hreg⟩ := hkey u hne
      exact ⟨ch, hreg, (hopen u ch hreg).1⟩
    · rintro ⟨ch, hreg, -⟩ hnone
      obtain ⟨subs, hs, -⟩ := (registered_iff _ _ _).1 hreg
      rw [hnone] at hs
      exact Option.noConfusion hs
  · intro u hall
    by_contra hne
    obtain ⟨ch, hreg⟩ := hkey u hne
    obtain ⟨-, hh⟩ := hopen u ch hreg
    exact not_registered_of_isClosed s hinv ch (hall ch ⟨u, ch⟩ hh rfl) u hreg

/-- Witness for C19: recipient 7 subscribes twice and both release functions
are called; the registry then has no entry for recipient 7. -/
theorem registry_has_no_empty_set_witness :
    run initSys [.subscribe 7, .subscribe 7] = some sysWithTwoSinks
    ∧ (run sysWithTwoSinks [.release 0]).map (fun t => t.broker.subscribers 7) = some (some [1])
    ∧ (run sysWithTwoSinks [.release 0, .release 1]).map (fun t => t.broker.subscribers 7)
        = some none
    ∧ ((∀ u, sysWithTwoSinks.broker.subscribers u ≠ some [])
      ∧ (∀ u, sysWithTwoSinks.broker.subscribers u ≠ none ↔
          ∃ ch, registered sysWithTwoSinks.broker u ch ∧ isOpen sysWithTwoSinks.broker ch)
      ∧ (∀ u, (∀ (k : Nat) (r : Release), sysWithTwoSinks.handles[k]? = some r →
            r.userID = u → isClosed sysWithTwoSinks.broker k) →
          sysWithTwoSinks.broker.subscribers u = none)) :=
  ⟨rfl, by decide, by decide,
    registry_has_no_empty_set [.subscribe 7, .subscribe 7] sysWithTwoSinks rfl⟩

/-! ## The guard does not disclose whether a room exists -/

/-- C12. For a user without a membership row for room `R`, `ensureRoomMember`
and the `room` query built on it answer `ErrForbidden` in any two storage
states, whether or not `R` is a row of the room table; and for every driver
outcome, the answers to such a user in two states with the same membership
table are equal whatever the room tables hold. -/
theorem nonmember_cannot_probe_room (db1 db2 : DB) (roomID userID : Int)
    (h1 : ¬ hasMembership db1 roomID userID) (h2 : ¬ hasMembership db2 roomID userID) :
    ensureRoomMember db1 none roomID userID = .error Err.forbidden
    ∧ ensureRoomMember db2 none roomID userID = .error Err.forbidden
    ∧ (∀ readFault,
        roomQuery db1 none readFault (.int userID) (.ok roomID) = .error Err.forbidden
        ∧ roomQuery db2 none readFault (.int userID) (.ok roomID) = .error Err.forbidden)
    ∧ (∀ fault rooms, ensureRoomMember ⟨rooms, db1.memberships⟩ fault roomID userID
        = ensureRoomMember db1 fault roomID userID)
    ∧ (∀ lookupFault readFault rooms,
        roomQuery ⟨rooms, db1.memberships⟩ lookupFault readFault (.int userID) (.ok roomID)
          = roomQuery db1 lookupFault readFault (.int userID) (.ok roomID)) := by
  have hnil : ∀ db : DB, ¬ hasMembership db roomID userID →
      membershipsWhere db roomID userID = [] := by
    intro db h
    by_contra hne
    exact h ((hasMembership_iff_ne_nil db roomID userID).2 hne)
  have hforb : ∀ db : DB, ¬ hasMembership db roomID userID →
      ensureRoomMember db none roomID userID = .error Err.forbidden := by
    intro db h
    simp [ensureRoomMember, hnil db h, Only, IsNotFound]
  have hq : ∀ (db : DB) readFault, ¬ hasMembership db roomID userID →
      roomQuery db none readFault (.int userID) (.ok roomID) = .error Err.forbidden := by
    intro db readFault h
    simp [roomQuery, UserIDFromContext, ensureRoomAccess, hforb db h]
  have hrooms : ∀ fault rooms, ensureRoomMember ⟨rooms, db1.memberships⟩ fault roomID userID
      = ensureRoomMember db1 fault roomID userID := fun _ _ => rfl
  refine ⟨hforb db1 h1, hforb db2 h2, fun rf => ⟨hq db1 rf h1, hq db2 rf h2⟩, hrooms, ?_⟩
  intro lookupFault readFault rooms
  have hacc : ∀ db : DB, ¬ hasMembership db roomID userID →
      ∃ e, ensureRoomAccess db lookupFault roomID userID = some e := by
    intro db h
    cases lookupFault with
    | none => exact ⟨Err.forbidden, by simp [ensureRoomAccess, hforb db h]⟩
    | some code =>
      exact ⟨Err.storage code, by simp [ensureRoomAccess, ensureRoomMember, Only, IsNotFound]⟩
  obtain ⟨e, he⟩ := hacc db1 h1
  have he' : ensureRoomAccess ⟨rooms, db1.memberships⟩ lookupFault roomID userID = some e := he
  simp only [roomQuery, UserIDFromContext, he, he']

/-- Witness for C12: user 3 asks for room 5; in the first state room 5 exists
(with its owner 9), in the second it does not. -/
theorem nonmember_cannot_probe_room_witness :
    ¬ hasMembership ⟨[⟨5, "r", "", false, false, 9⟩], [⟨1, 5, 9, Role.owner, true, true⟩]⟩ 5 3
    ∧ ¬ hasMembership ⟨[], []⟩ 5 3
    ∧ roomQuery ⟨[⟨5, "r", "", false, false, 9⟩], [⟨1, 5, 9, Role.owner, true, true⟩]⟩
        none none (.int 3) (.ok 5) = .error Err.forbidden
    ∧ roomQuery ⟨[], []⟩ none none (.int 3) (.ok 5) = .error Err.forbidden :=
  have h := nonmember_cannot_probe_room
    ⟨[⟨5, "r", "", false, false, 9⟩], [⟨1, 5, 9, Role.owner, true, true⟩]⟩ ⟨[], []⟩ 5 3
    (by simp [hasMembership]) (by simp [hasMembership])
  ⟨by simp [hasMembership], by simp [hasMembership], (h.2.2.1 none).1, (h.2.2.1 none).2⟩

/-! ## Room provisioning: the owner in the participant list, the error returned -/

/-- C13 (the code at the failing input). Owner 1 creates a room with the
participant list `[1, 2]` on an empty store and no storage call faults: the
owner's entry is not counted (`nonOwnerCount` is 1), but the loop inserts a
second row for the owner, the unique `(user, room)` index rejects it, and the
request fails with a constraint error and commits nothing. -/
theorem createRoom_owner_in_list_fails :
    nonOwnerCount 1 [1, 2] = 1
    ∧ (createRoom ⟨[], []⟩ noFaults (.int 1) ⟨"r", none, none, [1, 2]⟩).result
        = .error Err.constraint
    ∧ (createRoom ⟨[], []⟩ noFaults (.int 1) ⟨"r", none, none, [1, 2]⟩).db = ⟨[], []⟩
    ∧ (createRoom ⟨[], []⟩ noFaults (.int 1) ⟨"r", none, none, [1, 2]⟩).rollbacks = 1 := by
  decide

/-- C16 (the code at the failing input). Owner 1 creates a room; the room
insert fails with driver code 3 and the rollback fails with driver code 9.
`Rollback` is called once and `rollbackOnError` stores the "rollback failed"
error in the local variable `err`, but the caller receives the error of the
room insert: the results were fixed by the `return` statement before the
deferred call ran. -/
theorem createRoom_rollback_error_not_returned :
    (createRoom ⟨[], []⟩ faultsRoomAndRollback (.int 1) ⟨"r", none, none, [2]⟩).result
        = .error (Err.storage 3)
    ∧ (createRoom ⟨[], []⟩ faultsRoomAndRollback (.int 1) ⟨"r", none, none, [2]⟩).err
        = some (Err.rollbackFailed (Err.storage 9) (Err.storage 3))
    ∧ (createRoom ⟨[], []⟩ faultsRoomAndRollback (.int 1) ⟨"r", none, none, [2]⟩).rollbacks = 1
    ∧ (createRoom ⟨[], []⟩ faultsRoomAndRollback (.int 1) ⟨"r", none, none, [2]⟩).db
        = ⟨[], []⟩ := by
  decide

/-! ## Room provisioning: the steps behind a committed request -/

/-- Every `createRoom` request of an authenticated caller either fails and
leaves the committed state as it was, or went through the room insert, the
owner insert and the whole participant loop and committed the working copy
those steps built. -/
theorem createRoom_cases (db : DB) (f : Faults) (uid : Int) (args : CreateRoomArgs) :
    ((∃ e, (createRoom db f (.int uid) args).result = .error e)
      ∧ (createRoom db f (.int uid) args).db = db)
    ∨ (∃ newRoom tx1 m tx2 tx3,
        (⟨db, false⟩ : Tx).saveRoom f.saveRoom args.name (args.description.getD "")
          (args.isPrivate.getD false) (decide (nonOwnerCount uid args.participantIDs = 1)) uid
          = .ok (newRoom, tx1)
        ∧ tx1.saveMembership f.saveOwner newRoom.id uid Role.owner = .ok (m, tx2)
        ∧ saveParticipants f newRoom.id uid (decide (nonOwnerCount uid args.participantIDs = 1))
            0 args.participantIDs tx2 = (none, tx3)
        ∧ (createRoom db f (.int uid) args).db = tx3.work
        ∧ (createRoom db f (.int uid) args).result = roomByID tx3.work f.readBack newRoom.id) := by
  cases hbegin : f.beginTx with
  | some code =>
    left
    simp [createRoom, UserIDFromContext, beginTx, hbegin]
  | none =>
    have hb : beginTx db f.beginTx = .ok ⟨db, false⟩ := by rw [hbegin]; rfl
    cases h1 : (⟨db, false⟩ : Tx).saveRoom f.saveRoom args.name (args.description.getD "")
        (args.isPrivate.getD false) (decide (nonOwnerCount uid args.participantIDs = 1)) uid with
    | error e =>
      obtain ⟨r1, r2, -⟩ := createRoom_of_body_error db db f uid args _ _ e hb
        (body_saveRoom_error _ _ _ _ _ _ _ _ _ h1)
      exact Or.inl ⟨⟨e, r1⟩, r2⟩
    | ok res1 =>
      obtain ⟨newRoom, tx1⟩ := res1
      obtain ⟨-, htx1⟩ := saveRoom_ok _ _ _ _ _ _ _ _ _ h1
      cases h2 : tx1.saveMembership f.saveOwner newRoom.id uid Role.owner with
      | error e =>
        obtain ⟨r1, r2, -⟩ := createRoom_of_body_error db db f uid args _ _ e hb
          (body_saveOwner_error _ _ _ _ _ _ _ _ _ _ _ h1 h2)
        exact Or.inl ⟨⟨e, r1⟩, r2⟩
      | ok res2 =>
        obtain ⟨m, tx2⟩ := res2
        obtain ⟨-, htx2, -⟩ := saveMembership_ok _ _ _ _ _ _ _ h2
        obtain ⟨p1, -, -⟩ := saveParticipants_spec f newRoom.id uid
          (decide (nonOwnerCount uid args.participantIDs = 1)) args.participantIDs 0 tx2
        have hdone2 : tx2.done = false := by rw [htx2, htx1]
        cases h3 : saveParticipants f newRoom.id uid
            (decide (nonOwnerCount uid args.participantIDs = 1)) 0 args.participantIDs tx2 with
        | mk perr tx3 =>
          rw [h3] at p1
          simp only [] at p1
          cases perr with
          | some e =>
            obtain ⟨r1, r2, -⟩ := createRoom_of_body_error db db f uid args _ _ e hb
              (body_participant_error _ _ _ _ _ _ _ _ _ _ _ _ _ _ h1 h2 h3)
            exact Or.inl ⟨⟨e, r1⟩, r2⟩
          | none =>
            obtain ⟨-, -, c3, c4⟩ := commit_spec tx3 f.commit db (by rw [p1, hdone2])
            cases h4 : tx3.Commit f.commit db with
            | mk cerr rest4 =>
              obtain ⟨tx4, db'⟩ := rest4
              rw [h4] at c3 c4
              simp only [] at c3 c4
              cases cerr with
              | some e =>
                obtain ⟨r1, r2, -⟩ := createRoom_of_body_error db db' f uid args _ _ e hb
                  (body_commit_error _ _ _ _ _ _ _ _ _ _ _ _ _ _ _ _ h1 h2 h3 h4)
                have hdb : db' = db := c4 (by simp)
                exact Or.inl ⟨⟨e, r1⟩, by rw [r2, hdb]⟩
              | none =>
                have hout := createRoom_of_body_ok db db' f uid args _ _ _ hb
                  (body_commit_ok _ _ _ _ _ _ _ _ _ _ _ _ _ _ _ h1 h2 h3 h4)
                have hdb : db' = tx3.work := c3 rfl
                refine Or.inr ⟨newRoom, tx1, m, tx2, tx3, rfl, h2, h3, ?_, ?_⟩
                · rw [hout, hdb]
                · rw [hout, hdb]

/-- A run of the participant loop without error met no row for any of its
entries in the table it started from, and no entry twice. -/
theorem saveParticipants_fresh (f : Faults) (roomID uid : Int) (direct : Bool)
    (pids : List Int) (i : Nat) (tx tx' : Tx)
    (h : saveParticipants f roomID uid direct i pids tx = (none, tx')) :
    (∀ pid ∈ pids, ∀ row ∈ tx.work.memberships, ¬ (row.roomID = roomID ∧ row.userID = pid))
    ∧ pids.Nodup := by
  induction pids generalizing i tx with
  | nil => exact ⟨by simp, List.nodup_nil⟩
  | cons pid rest ih =>
    cases hsave : tx.saveMembership (f.saveParticipant i) roomID pid
        (if direct && decide (pid ≠ uid) then Role.admin else Role.member) with
    | error err =>
      have hstep : saveParticipants f roomID uid direct i (pid :: rest) tx = (some err, tx) := by
        simp only [saveParticipants]
        rw [hsave]
      rw [hstep] at h
      simp at h
    | ok res =>
      obtain ⟨m, tx1⟩ := res
      have hstep : saveParticipants f roomID uid direct i (pid :: rest) tx
          = saveParticipants f roomID uid direct (i + 1) rest tx1 := by
        simp only [saveParticipants]
        rw [hsave]
      rw [hstep] at h
      obtain ⟨hm, htx1, hfresh⟩ := saveMembership_ok _ _ _ _ _ _ _ hsave
      obtain ⟨ih1, ih2⟩ := ih (i + 1) tx1 h
      have hmem1 : tx1.work.memberships = tx.work.memberships ++ [m] := by rw [htx1]
      refine ⟨?_, List.nodup_cons.2 ⟨?_, ih2⟩⟩
      · intro p hp row hrow
        rcases List.mem_cons.1 hp with hpp | hpr
        · rw [hpp]; exact hfresh row hrow
        · exact ih1 p hpr row (by rw [hmem1]; exact List.mem_append_left _ hrow)
      · intro hin
        have := ih1 pid hin m (by rw [hmem1]; simp)
        apply this
        rw [hm]
        exact ⟨rfl, rfl⟩

/-- A successful `createRoom` request had no entry equal to the owner in its
participant list, and no entry twice: the unique index fails every other
request. -/
theorem createRoom_ok_participants (db : DB) (f : Faults) (uid : Int) (args : CreateRoomArgs)
    (room : Room) (hok : (createRoom db f (.int uid) args).result = .ok room) :
    uid ∉ args.participantIDs ∧ args.participantIDs.Nodup := by
  rcases createRoom_cases db f uid args with ⟨⟨e, he⟩, -⟩ | ⟨newRoom, tx1, m, tx2, tx3, -, h2, h3, -, -⟩
  · rw [he] at hok; simp at hok
  · obtain ⟨hm, htx2, -⟩ := saveMembership_ok _ _ _ _ _ _ _ h2
    obtain ⟨hfresh, hnodup⟩ := saveParticipants_fresh _ _ _ _ _ _ _ _ h3
    refine ⟨?_, hnodup⟩
    intro hin
    apply hfresh uid hin m (by rw [htx2]; simp)
    rw [hm]
    exact ⟨rfl, rfl⟩

/-! ## Room provisioning: when the room is stored -/

/-- An insert of a pair that has no row yet succeeds when the driver does not
fault. -/
theorem saveMembership_none_ok (tx : Tx) (roomID userID : Int) (role : Role)
    (hfree : ∀ row ∈ tx.work.memberships, ¬ (row.roomID = roomID ∧ row.userID = userID)) :
    tx.saveMembership none roomID userID role
      = .ok (⟨nextID (tx.work.memberships.map (fun m => m.id)), roomID, userID, role, true,
            true⟩,
          ⟨⟨tx.work.rooms, tx.work.memberships
            ++ [⟨nextID (tx.work.memberships.map (fun m => m.id)), roomID, userID, role, true,
              true⟩]⟩, tx.done⟩) := by
  have hany : tx.work.memberships.any
      (fun m => decide (m.roomID = roomID) && decide (m.userID = userID)) = false := by
    rw [List.any_eq_false]
    intro row hrow hflag
    simp only [Bool.and_eq_true, decide_eq_true_eq] at hflag
    exact hfree row hrow hflag
  unfold Tx.saveMembership
  simp only [hany, Bool.false_eq_true, if_false]

/-- The participant loop succeeds when the driver does not fault, no entry
occurs twice and none has a row in the room yet. -/
theorem saveParticipants_ok (f : Faults) (roomID uid : Int) (direct : Bool)
    (pids : List Int) (i : Nat) (tx : Tx) (hf : ∀ k, f.saveParticipant k = none)
    (hnd : pids.Nodup)
    (hfree : ∀ pid ∈ pids, ∀ row ∈ tx.work.memberships,
      ¬ (row.roomID = roomID ∧ row.userID = pid)) :
    (saveParticipants f roomID uid direct i pids tx).1 = none := by
  induction pids generalizing i tx with
  | nil => rfl
  | cons pid rest ih =>
    obtain ⟨hnotin, hnd'⟩ := List.nodup_cons.1 hnd
    have hsave := saveMembership_none_ok tx roomID pid
      (if direct && decide (pid ≠ uid) then Role.admin else Role.member)
      (hfree pid (List.mem_cons_self _ _))
    simp only [saveParticipants, hf i, hsave]
    apply ih _ _ hnd'
    intro pid' hpid' row hrow
    rcases List.mem_append.1 hrow with h1 | h1
    · exact hfree pid' (List.mem_cons_of_mem _ hpid') row h1
    · rw [List.mem_singleton.1 h1]
      intro hpair
      apply hnotin
      have : pid = pid' := hpair.2
      rw [this]
      exact hpid'

/-- With consistent tables, a non-empty name and no driver fault, a request
whose participant list holds neither the owner nor an entry twice succeeds. -/
theorem createRoom_succeeds (db : DB) (f : Faults) (uid : Int) (args : CreateRoomArgs)
    (hint : refIntegrity db) (hname : args.name ≠ "")
    (hf : f.beginTx = none ∧ f.saveRoom = none ∧ f.saveOwner = none
      ∧ (∀ k, f.saveParticipant k = none) ∧ f.commit = none ∧ f.readBack = none)
    (hown : uid ∉ args.participantIDs) (hnd : args.participantIDs.Nodup) :
    ∃ room, (createRoom db f (.int uid) args).result = .ok room := by
  obtain ⟨hf1, hf2, hf3, hf4, hf5, hf6⟩ := hf
  have hb : beginTx db f.beginTx = .ok ⟨db, false⟩ := by rw [hf1]; rfl
  have h1 : (⟨db, false⟩ : Tx).saveRoom f.saveRoom args.name (args.description.getD "")
      (args.isPrivate.getD false) (decide (nonOwnerCount uid args.participantIDs = 1)) uid
      = .ok (⟨nextID (db.rooms.map (fun r => r.id)), args.name, args.description.getD "",
            args.isPrivate.getD false, decide (nonOwnerCount uid args.participantIDs = 1),
            uid⟩,
          ⟨⟨db.rooms ++ [⟨nextID (db.rooms.map (fun r => r.id)), args.name,
            args.description.getD "", args.isPrivate.getD false,
            decide (nonOwnerCount uid args.participantIDs = 1), uid⟩], db.memberships⟩,
            false⟩) := by
    unfold Tx.saveRoom
    rw [hf2]
    simp only [hname, if_false]
  have hfresh : ∀ row ∈ db.memberships,
      row.roomID ≠ nextID (db.rooms.map (fun r => r.id)) := by
    intro row hrow heq
    obtain ⟨r, hr, hrid⟩ := hint row hrow
    have := lt_nextID (db.rooms.map (fun r => r.id)) r.id (List.mem_map.2 ⟨r, hr, rfl⟩)
    omega
  have h2 := saveMembership_none_ok
    (⟨⟨db.rooms ++ [⟨nextID (db.rooms.map (fun r => r.id)), args.name,
      args.description.getD "", args.isPrivate.getD false,
      decide (nonOwnerCount uid args.participantIDs = 1), uid⟩], db.memberships⟩, false⟩ : Tx)
    (nextID (db.rooms.map (fun r => r.id))) uid Role.owner
    (fun row hrow hpair => hfresh row hrow hpair.1)
  rw [← hf3] at h2
  have h3none := saveParticipants_ok f (nextID (db.rooms.map (fun r => r.id))) uid
    (decide (nonOwnerCount uid args.participantIDs = 1)) args.participantIDs 0
    (⟨⟨db.rooms ++ [⟨nextID (db.rooms.map (fun r => r.id)), args.name,
        args.description.getD "", args.isPrivate.getD false,
        decide (nonOwnerCount uid args.participantIDs = 1), uid⟩],
      db.memberships ++ [⟨nextID (db.memberships.map (fun m => m.id)),
        nextID (db.rooms.map (fun r => r.id)), uid, Role.owner, true, true⟩]⟩, false⟩ : Tx)
    hf4 hnd (by
      intro pid hpid row hrow hpair
      rcases List.mem_append.1 hrow with h | h
      · exact hfresh row h hpair.1
      · rw [List.mem_singleton.1 h] at hpair
        apply hown
        have : uid = pid := hpair.2
        rw [this]
        exact hpid)
  obtain ⟨hdone, hrooms, -⟩ := saveParticipants_spec f (nextID (db.rooms.map (fun r => r.id)))
    uid (decide (nonOwnerCount uid args.participantIDs = 1)) args.participantIDs 0
    (⟨⟨db.rooms ++ [⟨nextID (db.rooms.map (fun r => r.id)), args.name,
        args.description.getD "", args.isPrivate.getD false,
        decide (nonOwnerCount uid args.participantIDs = 1), uid⟩],
      db.memberships ++ [⟨nextID (db.memberships.map (fun m => m.id)),
        nextID (db.rooms.map (fun r => r.id)), uid, Role.owner, true, true⟩]⟩, false⟩ : Tx)
  rcases h3 : saveParticipants f (nextID (db.rooms.map (fun r => r.id))) uid
    (decide (nonOwnerCount uid args.participantIDs = 1)) 0 args.participantIDs
    (⟨⟨db.rooms ++ [⟨nextID (db.rooms.map (fun r => r.id)), args.name,
        args.description.getD "", args.isPrivate.getD false,
        decide (nonOwnerCount uid args.participantIDs = 1), uid⟩],
      db.memberships ++ [⟨nextID (db.memberships.map (fun m => m.id)),
        nextID (db.rooms.map (fun r => r.id)), uid, Role.owner, true, true⟩]⟩, false⟩ : Tx)
    with ⟨perr, tx3⟩
  rw [h3] at h3none hdone hrooms
  have hperr : perr = none := h3none
  rw [hperr] at h3
  have hdone' : tx3.done = false := hdone
  have hrooms' : tx3.work.rooms = db.rooms ++ [⟨nextID (db.rooms.map (fun r => r.id)),
      args.name, args.description.getD "", args.isPrivate.getD false,
      decide (nonOwnerCount uid args.participantIDs = 1), uid⟩] := hrooms
  have h4 : tx3.Commit f.commit db = (none, { tx3 with done := true }, tx3.work) := by
    unfold Tx.Commit
    rw [hf5]
    simp only [hdone', Bool.false_eq_true, if_false]
  have hbody := body_commit_ok db tx3.work f ⟨db, false⟩ _ _ tx3 _ uid args.name
    (args.description.getD "") (args.isPrivate.getD false) args.participantIDs _ _ h1 h2 h3 h4
  have hout := createRoom_of_body_ok db tx3.work f uid args ⟨db, false⟩ _ _ hb hbody
  refine ⟨⟨nextID (db.rooms.map (fun r => r.id)), args.name, args.description.getD "",
    args.isPrivate.getD false, decide (nonOwnerCount uid args.participantIDs = 1), uid⟩, ?_⟩
  rw [hout]
  show roomByID tx3.work f.readBack (nextID (db.rooms.map (fun r => r.id))) = _
  unfold roomByID
  rw [hf6, hrooms', List.filter_append]
  have hold : db.rooms.filter
      (fun r => decide (r.id = nextID (db.rooms.map (fun r => r.id)))) = [] := by
    rw [List.filter_eq_nil_iff]
    intro r hr hflag
    have := lt_nextID (db.rooms.map (fun r => r.id)) r.id (List.mem_map.2 ⟨r, hr, rfl⟩)
    simp only [decide_eq_true_eq] at hflag
    omega
  rw [hold]
  simp [Only]

/-- Counterexample for C4 as stated: on an empty store with no driver fault,
owner 1 with the list `[1, 2]` has exactly one entry that differs from the
owner, yet the request returns a constraint error and stores no room, so none
with `isDirect = true`; and owner 1 with `[2, 2]` stores no room either, where
the claim has one stored with `isDirect = false`. -/
theorem createRoom_one_other_entry_nothing_stored :
    ([1, 2].filter (fun pid : Int => decide (pid ≠ 1))).length = 1
    ∧ (createRoom ⟨[], []⟩ noFaults (.int 1) ⟨"r", none, none, [1, 2]⟩).result
        = .error Err.constraint
    ∧ (createRoom ⟨[], []⟩ noFaults (.int 1) ⟨"r", none, none, [1, 2]⟩).db = ⟨[], []⟩
    ∧ ¬ ((∃ r ∈ (createRoom ⟨[], []⟩ noFaults (.int 1) ⟨"r", none, none, [1, 2]⟩).db.rooms,
            r.isDirect = true)
          ↔ ([1, 2].filter (fun pid : Int => decide (pid ≠ 1))).length = 1)
    ∧ (createRoom ⟨[], []⟩ noFaults (.int 1) ⟨"r", none, none, [2, 2]⟩).result
        = .error Err.constraint
    ∧ (createRoom ⟨[], []⟩ noFaults (.int 1) ⟨"r", none, none, [2, 2]⟩).db = ⟨[], []⟩ := by
  refine ⟨by decide, by decide, by decide, ?_, by decide, by decide⟩
  intro hiff
  obtain ⟨r, hr, -⟩ := hiff.2 (by decide)
  have hdb : (createRoom ⟨[], []⟩ noFaults (.int 1) ⟨"r", none, none, [1, 2]⟩).db
      = ⟨[], []⟩ := by decide
  rw [hdb] at hr
  exact absurd hr (List.not_mem_nil _)

/-- C4 (amended). The room row that `createRoom` builds has `isDirect = true`
exactly when exactly one entry of the participant list (counted with
multiplicity) differs from the owner: this holds for the row in the
transaction's working copy, for every room row the request adds to the
committed state, and for the room a successful request returns. The row is
stored only when the request succeeds: a successful request had neither the
owner nor an entry twice in its list, so the room it returns is new in the
committed state and has `isDirect = true` exactly when the list has one entry;
a request whose list holds the owner or an entry twice fails and leaves the
committed state as it was; and with consistent tables, a non-empty name and no
driver fault every other request succeeds. For owner 1 the list `[2, 2]` builds
a row with `isDirect = false` inside the transaction and returns a constraint
error with nothing stored, `[]` stores a room with `false` and `[2]` one with
`true`. -/
theorem createRoom_isDirect_iff (db : DB) (f : Faults) (uid : Int) (args : CreateRoomArgs) :
    (∀ t, (createRoom db f (.int uid) args).tx = some t →
      ∀ r ∈ t.work.rooms, r ∉ db.rooms →
        (r.isDirect = true ↔
          (args.participantIDs.filter (fun pid => decide (pid ≠ uid))).length = 1))
    ∧ (∀ r ∈ (createRoom db f (.int uid) args).db.rooms, r ∉ db.rooms →
        (r.isDirect = true ↔
          (args.participantIDs.filter (fun pid => decide (pid ≠ uid))).length = 1))
    ∧ (∀ r, (createRoom db f (.int uid) args).result = .ok r →
        (r.isDirect = true ↔
          (args.participantIDs.filter (fun pid => decide (pid ≠ uid))).length = 1)
        ∧ uid ∉ args.participantIDs ∧ args.participantIDs.Nodup
        ∧ (r.isDirect = true ↔ args.participantIDs.length = 1)
        ∧ r ∈ (createRoom db f (.int uid) args).db.rooms ∧ r ∉ db.rooms)
    ∧ ((uid ∈ args.participantIDs ∨ ¬ args.participantIDs.Nodup) →
        (∃ e, (createRoom db f (.int uid) args).result = .error e)
        ∧ (createRoom db f (.int uid) args).db = db)
    ∧ (refIntegrity db → args.name ≠ "" →
        (f.beginTx = none ∧ f.saveRoom = none ∧ f.saveOwner = none
          ∧ (∀ k, f.saveParticipant k = none) ∧ f.commit = none ∧ f.readBack = none) →
        uid ∉ args.participantIDs → args.participantIDs.Nodup →
        ∃ r, (createRoom db f (.int uid) args).result = .ok r
          ∧ r ∈ (createRoom db f (.int uid) args).db.rooms ∧ r ∉ db.rooms
          ∧ (r.isDirect = true ↔ args.participantIDs.length = 1))
    ∧ (createRoom ⟨[], []⟩ noFaults (.int 1) ⟨"r", none, none, [2, 2]⟩).tx.map
        (fun t => t.work.rooms.map (fun r => r.isDirect)) = some [false]
    ∧ (createRoom ⟨[], []⟩ noFaults (.int 1) ⟨"r", none, none, [2, 2]⟩).result
        = .error Err.constraint
    ∧ (createRoom ⟨[], []⟩ noFaults (.int 1) ⟨"r", none, none, [2, 2]⟩).db.rooms = []
    ∧ (createRoom ⟨[], []⟩ noFaults (.int 1) ⟨"r", none, none, []⟩).result
        = .ok ⟨1, "r", "", false, false, 1⟩
    ∧ (createRoom ⟨[], []⟩ noFaults (.int 1) ⟨"r", none, none, []⟩).db.rooms.map
        (fun r => r.isDirect) = [false]
    ∧ (createRoom ⟨[], []⟩ noFaults (.int 1) ⟨"r", none, none, [2]⟩).result
        = .ok ⟨1, "r", "", false, true, 1⟩
    ∧ (createRoom ⟨[], []⟩ noFaults (.int 1) ⟨"r", none, none, [2]⟩).db.rooms.map
        (fun r => r.isDirect) = [true] := by
  have hflag : ∀ r : Room,
      r = ⟨nextID (db.rooms.map (fun r => r.id)), args.name, args.description.getD "",
            args.isPrivate.getD false, decide (nonOwnerCount uid args.participantIDs = 1), uid⟩ →
      (r.isDirect = true ↔
        (args.participantIDs.filter (fun pid => decide (pid ≠ uid))).length = 1) := by
    intro r hr
    rw [hr, ← nonOwnerCount_eq]
    simp
  have hall : uid ∉ args.participantIDs →
      args.participantIDs.filter (fun pid => decide (pid ≠ uid)) = args.participantIDs := by
    intro hown
    rw [List.filter_eq_self]
    intro pid hpid
    simp only [decide_eq_true_eq]
    intro heq
    exact hown (heq ▸ hpid)
  have hstored : ∀ r, (createRoom db f (.int uid) args).result = .ok r →
      r ∈ (createRoom db f (.int uid) args).db.rooms ∧ r ∉ db.rooms := by
    intro r hok
    obtain ⟨hroom, rows, hdb, -⟩ := createRoom_ok_room db f uid args r hok
    refine ⟨by rw [hdb]; simp, ?_⟩
    intro hold
    have hlt := lt_nextID (db.rooms.map (fun r => r.id)) r.id (List.mem_map.2 ⟨r, hold, rfl⟩)
    have hid : r.id = nextID (db.rooms.map (fun r => r.id)) := by rw [hroom]
    omega
  refine ⟨?_, ?_, ?_, ?_, ?_, by decide, by decide, by decide, by decide, by decide,
    by decide, by decide⟩
  · intro t ht r hr hnot
    cases hb : f.beginTx with
    | some code => simp [createRoom, UserIDFromContext, beginTx, hb] at ht
    | none =>
      obtain ⟨⟨t', ht', -, hrooms⟩, -⟩ := createRoom_shape db f uid args hb
      rw [ht] at ht'
      simp only [Option.some.injEq] at ht'
      subst ht'
      exact hflag r (hrooms r hr hnot)
  · intro r hr hnot
    cases hb : f.beginTx with
    | some code =>
      simp only [createRoom, UserIDFromContext, beginTx, hb] at hr
      exact absurd hr hnot
    | none =>
      obtain ⟨-, hshape⟩ := createRoom_shape db f uid args hb
      rcases hshape with ⟨e, -, hdb, -⟩ | ⟨rows, hdb, -⟩
      · rw [hdb] at hr; exact absurd hr hnot
      · rw [hdb] at hr
        rcases List.mem_append.1 hr with hold | hnew
        · exact absurd hold hnot
        · exact hflag r (List.mem_singleton.1 hnew)
  · intro r hok
    have hdirect := hflag r (createRoom_ok_room db f uid args r hok).1
    obtain ⟨hown, hnd⟩ := createRoom_ok_participants db f uid args r hok
    obtain ⟨hin, hnew⟩ := hstored r hok
    refine ⟨hdirect, hown, hnd, ?_, hin, hnew⟩
    rw [hall hown] at hdirect
    exact hdirect
  · intro hbad
    rcases createRoom_cases db f uid args with hfail | ⟨newRoom, tx1, m, tx2, tx3, -, h2, h3, -, -⟩
    · exact hfail
    · exfalso
      obtain ⟨hm, htx2, -⟩ := saveMembership_ok _ _ _ _ _ _ _ h2
      obtain ⟨hfresh, hnodup⟩ := saveParticipants_fresh _ _ _ _ _ _ _ _ h3
      rcases hbad with h | h
      · apply hfresh uid h m (by rw [htx2]; simp)
        rw [hm]
        exact ⟨rfl, rfl⟩
      · exact h hnodup
  · intro hint hname hf hown hnd
    obtain ⟨r, hok⟩ := createRoom_succeeds db f uid args hint hname hf hown hnd
    obtain ⟨hin, hnew⟩ := hstored r hok
    refine ⟨r, hok, hin, hnew, ?_⟩
    have hdirect := hflag r (createRoom_ok_room db f uid args r hok).1
    rw [hall hown] at hdirect
    exact hdirect

/-- C4 at owner 1 with the list `[2]` on the empty store without driver
faults: the list holds neither the owner nor an entry twice, so the request
succeeds, and the room it returns is stored, new, and direct because the list
has one entry. -/
theorem createRoom_isDirect_iff_witness :
    refIntegrity ⟨[], []⟩ ∧ (1 : Int) ∉ ([2] : List Int) ∧ ([2] : List Int).Nodup
    ∧ ∃ r, (createRoom ⟨[], []⟩ noFaults (.int 1) ⟨"r", none, none, [2]⟩).result = .ok r
        ∧ r ∈ (createRoom ⟨[], []⟩ noFaults (.int 1) ⟨"r", none, none, [2]⟩).db.rooms
        ∧ r ∉ (⟨[], []⟩ : DB).rooms
        ∧ (r.isDirect = true ↔ ([2] : List Int).length = 1) :=
  ⟨fun m hm => absurd hm (List.not_mem_nil m), by decide, by decide,
    (createRoom_isDirect_iff ⟨[], []⟩ noFaults 1 ⟨"r", none, none, [2]⟩).2.2.2.2.1
      (fun m hm => absurd hm (List.not_mem_nil m)) (by decide)
      ⟨rfl, rfl, rfl, fun _ => rfl, rfl, rfl⟩ (by decide) (by decide)⟩

/-- With referential integrity no old membership row belongs to the room a
successful `createRoom` request creates, so the memberships of the new room
are the rows of that request: the owner's, then one per participant entry. -/
theorem rolesOf_new_room (db : DB) (f : Faults) (uid : Int) (args : CreateRoomArgs)
    (room : Room) (hint : refIntegrity db)
    (hok : (createRoom db f (.int uid) args).result = .ok room) :
    rolesOf (createRoom db f (.int uid) args).db room.id
      = (uid, Role.owner) :: args.participantIDs.map (fun pid =>
          (pid, if room.isDirect && decide (pid ≠ uid) then Role.admin else Role.member)) := by
  obtain ⟨hroom, rows, hdb, hmap, -⟩ := createRoom_ok_room db f uid args room hok
  have hid : room.id = nextID (db.rooms.map (fun r => r.id)) := by rw [hroom]
  have hold : db.memberships.filter (fun m => decide (m.roomID = room.id)) = [] := by
    rw [List.filter_eq_nil_iff]
    intro m hm
    obtain ⟨r, hr, hrid⟩ := hint m hm
    have hlt := lt_nextID (db.rooms.map (fun r => r.id)) r.id (List.mem_map.2 ⟨r, hr, rfl⟩)
    simp only [decide_eq_true_eq]
    omega
  have hnew : rows.filter (fun m => decide (m.roomID = room.id)) = rows := by
    rw [List.filter_eq_self]
    intro m hm
    have hin : (m.roomID, m.userID, m.role) ∈
        expectedMemberships room.id uid room.isDirect args.participantIDs := by
      rw [← hmap]
      exact List.mem_map.2 ⟨m, hm, rfl⟩
    simp only [expectedMemberships, List.mem_cons, Prod.mk.injEq, List.mem_map] at hin
    simp only [decide_eq_true_eq]
    rcases hin with ⟨h, -⟩ | ⟨pid, -, h, -⟩
    · exact h
    · exact h.symm
  have hsplit : rows.map (fun m => (m.userID, m.role))
      = (rows.map (fun m => (m.roomID, m.userID, m.role))).map (fun t => t.2) := by
    rw [List.map_map]; rfl
  unfold rolesOf
  rw [hdb]
  simp only []
  rw [List.filter_append, hold, hnew, List.nil_append, hsplit, hmap]
  simp [expectedMemberships, List.map_map, Function.comp_def]

/-- C15. After a successful `createRoom` request on a store with referential
integrity (and with the unique index enforced, as the storage model does), the
memberships of the new room are the owner's row followed by one row per
participant entry, and the new room has `isDirect = true` exactly when its
memberships are two: the owner's, with role owner, and one of another user,
whose role is admin. -/
theorem createRoom_direct_iff_two_party (db : DB) (f : Faults) (uid : Int)
    (args : CreateRoomArgs) (room : Room) (hint : refIntegrity db)
    (hok : (createRoom db f (.int uid) args).result = .ok room) :
    room.isDirect = true ↔
      ∃ other, other ≠ uid
        ∧ rolesOf (createRoom db f (.int uid) args).db room.id
            = [(uid, Role.owner), (other, Role.admin)] := by
  have hroles := rolesOf_new_room db f uid args room hint hok
  obtain ⟨hnot, -⟩ := createRoom_ok_participants db f uid args room hok
  obtain ⟨hroom, -⟩ := createRoom_ok_room db f uid args room hok
  have hdirect : room.isDirect = decide (nonOwnerCount uid args.participantIDs = 1) := by
    rw [hroom]
  constructor
  · intro hd
    rw [hdirect, decide_eq_true_eq, nonOwnerCount_eq] at hd
    have hall : args.participantIDs.filter (fun pid => decide (pid ≠ uid))
        = args.participantIDs := by
      rw [List.filter_eq_self]
      intro a ha
      simp only [decide_eq_true_eq]
      intro hau
      exact hnot (hau ▸ ha)
    rw [hall] at hd
    obtain ⟨p, hp⟩ := List.length_eq_one.1 hd
    have hpu : p ≠ uid := by
      intro h
      apply hnot
      rw [hp, h]
      exact List.mem_singleton.2 rfl
    have hd' : room.isDirect = true := by
      rw [hdirect, decide_eq_true_eq, nonOwnerCount_eq, hall]; exact hd
    refine ⟨p, hpu, ?_⟩
    rw [hroles, hp]
    simp [hd', hpu]
  · rintro ⟨other, -, hrows⟩
    rw [hroles] at hrows
    cases hp : args.participantIDs with
    | nil => rw [hp] at hrows; simp at hrows
    | cons p rest =>
      rw [hp] at hrows
      simp only [List.map_cons, List.cons.injEq, Prod.mk.injEq, true_and] at hrows
      obtain ⟨⟨-, hrole⟩, -⟩ := hrows
      by_cases hd : room.isDirect = true
      · exact hd
      · simp [hd] at hrole

/-- Witness for C15: owner 1 creates a room with the single participant 2 on
an empty store. -/
theorem createRoom_direct_iff_two_party_witness :
    refIntegrity ⟨[], []⟩
    ∧ (createRoom ⟨[], []⟩ noFaults (.int 1) ⟨"r", none, none, [2]⟩).result
        = .ok ⟨1, "r", "", false, true, 1⟩
    ∧ rolesOf (createRoom ⟨[], []⟩ noFaults (.int 1) ⟨"r", none, none, [2]⟩).db 1
        = [(1, Role.owner), (2, Role.admin)]
    ∧ rolesOf (createRoom ⟨[], []⟩ noFaults (.int 1) ⟨"r", none, none, [2, 3]⟩).db 1
        = [(1, Role.owner), (2, Role.member), (3, Role.member)]
    ∧ ((⟨1, "r", "", false, true, 1⟩ : Room).isDirect = true ↔
        ∃ other, other ≠ 1
          ∧ rolesOf (createRoom ⟨[], []⟩ noFaults (.int 1) ⟨"r", none, none, [2]⟩).db
              (⟨1, "r", "", false, true, 1⟩ : Room).id
              = [(1, Role.owner), (other, Role.admin)]) :=
  ⟨by simp [refIntegrity], by decide, by decide, by decide,
    createRoom_direct_iff_two_party ⟨[], []⟩ noFaults 1 ⟨"r", none, none, [2]⟩
      ⟨1, "r", "", false, true, 1⟩ (by simp [refIntegrity]) (by decide)⟩

/-! ## The membership table under the four mutations -/

theorem uniqueIndex_concat (rows : List RoomMembership) (m : RoomMembership)
    (hu : uniqueIndex rows)
    (hfresh : ∀ row ∈ rows, ¬ (row.roomID = m.roomID ∧ row.userID = m.userID)) :
    uniqueIndex (rows ++ [m]) := by
  unfold uniqueIndex at hu ⊢
  rw [List.pairwise_append]
  refine ⟨hu, List.pairwise_singleton _ _, ?_⟩
  intro a ha b hb
  rw [List.mem_singleton.1 hb]
  exact hfresh a ha

/-- An insert that the unique index lets through keeps the index, leaves the
room table alone and adds a row of the room it was asked for. -/
theorem saveMembership_inv (tx tx1 : Tx) (fault : Option Nat) (roomID userID : Int)
    (role : Role) (m : RoomMembership)
    (h : tx.saveMembership fault roomID userID role = .ok (m, tx1))
    (hu : uniqueIndex tx.work.memberships) :
    uniqueIndex tx1.work.memberships ∧ tx1.work.rooms = tx.work.rooms
    ∧ ∀ row ∈ tx1.work.memberships, row ∈ tx.work.memberships ∨ row.roomID = roomID := by
  obtain ⟨hm, htx1, hfresh⟩ := saveMembership_ok _ _ _ _ _ _ _ h
  have hmr : m.roomID = roomID := by rw [hm]
  have hmu : m.userID = userID := by rw [hm]
  have hmem : tx1.work.memberships = tx.work.memberships ++ [m] := by rw [htx1]
  refine ⟨?_, by rw [htx1], ?_⟩
  · rw [hmem]
    refine uniqueIndex_concat _ _ hu ?_
    intro row hrow
    rw [hmr, hmu]
    exact hfresh row hrow
  · intro row hrow
    rw [hmem] at hrow
    rcases List.mem_append.1 hrow with h1 | h1
    · exact Or.inl h1
    · right
      rw [List.mem_singleton.1 h1]
      exact hmr

/-- The participant loop keeps the unique index and the room table, and adds
rows of the new room only. -/
theorem saveParticipants_inv (f : Faults) (roomID uid : Int) (direct : Bool)
    (pids : List Int) (i : Nat) (tx : Tx) (hu : uniqueIndex tx.work.memberships) :
    uniqueIndex (saveParticipants f roomID uid direct i pids tx).2.work.memberships
    ∧ (saveParticipants f roomID uid direct i pids tx).2.work.rooms = tx.work.rooms
    ∧ ∀ row ∈ (saveParticipants f roomID uid direct i pids tx).2.work.memberships,
        row ∈ tx.work.memberships ∨ row.roomID = roomID := by
  induction pids generalizing i tx with
  | nil => exact ⟨hu, rfl, fun row h => Or.inl h⟩
  | cons pid rest ih =>
    cases hsave : tx.saveMembership (f.saveParticipant i) roomID pid
        (if direct && decide (pid ≠ uid) then Role.admin else Role.member) with
    | error err =>
      have hstep : saveParticipants f roomID uid direct i (pid :: rest) tx = (some err, tx) := by
        simp only [saveParticipants]
        rw [hsave]
      rw [hstep]
      exact ⟨hu, rfl, fun row h => Or.inl h⟩
    | ok res =>
      obtain ⟨m, tx1⟩ := res
      have hstep : saveParticipants f roomID uid direct i (pid :: rest) tx
          = saveParticipants f roomID uid direct (i + 1) rest tx1 := by
        simp only [saveParticipants]
        rw [hsave]
      obtain ⟨h1, h2, h3⟩ := saveMembership_inv _ _ _ _ _ _ _ hsave hu
      obtain ⟨ih1, ih2, ih3⟩ := ih (i + 1) tx1 h1
      rw [hstep]
      refine ⟨ih1, by rw [ih2, h2], ?_⟩
      intro row hrow
      rcases ih3 row hrow with h | h
      · exact h3 row h
      · exact Or.inr h

/-- The insert loop of `addRoomMembers` keeps the unique index and the room
table, and adds rows of the room it was asked for only. -/
theorem saveMembers_inv (f : MemberFaults) (roomID : Int) (role : Option Role)
    (mids : List Int) (i : Nat) (tx : Tx) (hu : uniqueIndex tx.work.memberships) :
    uniqueIndex (saveMembers f roomID role i mids tx).2.work.memberships
    ∧ (saveMembers f roomID role i mids tx).2.work.rooms = tx.work.rooms
    ∧ ∀ row ∈ (saveMembers f roomID role i mids tx).2.work.memberships,
        row ∈ tx.work.memberships ∨ row.roomID = roomID := by
  induction mids generalizing i tx with
  | nil => exact ⟨hu, rfl, fun row h => Or.inl h⟩
  | cons mid rest ih =>
    cases hsave : tx.saveMembershipWithRole (f.save i) roomID mid role with
    | error err =>
      have hstep : saveMembers f roomID role i (mid :: rest) tx = (some err, tx) := by
        simp only [saveMembers]
        rw [hsave]
      rw [hstep]
      exact ⟨hu, rfl, fun row h => Or.inl h⟩
    | ok res =>
      obtain ⟨m, tx1⟩ := res
      have hstep : saveMembers f roomID role i (mid :: rest) tx
          = saveMembers f roomID role (i + 1) rest tx1 := by
        simp only [saveMembers]
        rw [hsave]
      have hsave' : ∃ r, tx.saveMembership (f.save i) roomID mid r = .ok (m, tx1) := by
        unfold Tx.saveMembershipWithRole at hsave
        cases role with
        | none => simp at hsave
        | some r => exact ⟨r, hsave⟩
      obtain ⟨r, hr⟩ := hsave'
      obtain ⟨h1, h2, h3⟩ := saveMembership_inv _ _ _ _ _ _ _ hr hu
      obtain ⟨ih1, ih2, ih3⟩ := ih (i + 1) tx1 h1
      rw [hstep]
      refine ⟨ih1, by rw [ih2, h2], ?_⟩
      intro row hrow
      rcases ih3 row hrow with h | h
      · exact h3 row h
      · exact Or.inr h

/-- A commit leaves the committed state as it was or installs the working
copy. -/
theorem commit_db_cases (tx : Tx) (fault : Option Nat) (db : DB) :
    (tx.Commit fault db).2.2 = db ∨ (tx.Commit fault db).2.2 = tx.work := by
  unfold Tx.Commit
  by_cases hd : tx.done = true
  · simp [hd]
  · cases fault <;> simp [hd]

/-- `createRoom` keeps the invariant of the membership table. -/
theorem createRoom_storeInv (db : DB) (f : Faults) (ctxValue : CtxValue)
    (args : CreateRoomArgs) (h : storeInv db) :
    storeInv (createRoom db f ctxValue args).db := by
  cases ctxValue with
  | absent => exact h
  | other => exact h
  | int uid =>
    rcases createRoom_cases db f uid args with ⟨-, hdb⟩ | ⟨newRoom, tx1, m, tx2, tx3, h1, h2, h3, hdb, -⟩
    · rw [hdb]; exact h
    · obtain ⟨-, htx1⟩ := saveRoom_ok _ _ _ _ _ _ _ _ _ h1
      have hu1 : uniqueIndex tx1.work.memberships := by rw [htx1]; exact h.1
      obtain ⟨hu2, hr2, hm2⟩ := saveMembership_inv _ _ _ _ _ _ _ h2 hu1
      obtain ⟨hu3, hr3, hm3⟩ := saveParticipants_inv f newRoom.id uid
        (decide (nonOwnerCount uid args.participantIDs = 1)) args.participantIDs 0 tx2 hu2
      rw [h3] at hu3 hr3 hm3
      simp only [] at hu3 hr3 hm3
      have hrooms : tx3.work.rooms = db.rooms ++ [newRoom] := by rw [hr3, hr2, htx1]
      rw [hdb]
      refine ⟨hu3, ?_⟩
      intro row hrow
      have hcase : row ∈ db.memberships ∨ row.roomID = newRoom.id := by
        rcases hm3 row hrow with h' | h'
        · rcases hm2 row h' with h'' | h''
          · left; rw [htx1] at h''; exact h''
          · exact Or.inr h''
        · exact Or.inr h'
      rw [hrooms]
      rcases hcase with hold | hnew
      · obtain ⟨r, hr, hrid⟩ := h.2 row hold
        exact ⟨r, List.mem_append_left _ hr, hrid⟩
      · exact ⟨newRoom, by simp, hnew.symm⟩

/-- A caller whom `ensureRoomAdmin` lets through has a membership row in the
room. -/
theorem ensureRoomAdmin_none_mem (db : DB) (fault : Option Nat) (roomID userID : Int)
    (h : ensureRoomAdmin db fault roomID userID = none) :
    ∃ m ∈ db.memberships, m.roomID = roomID ∧ m.userID = userID := by
  unfold ensureRoomAdmin at h
  cases hres : ensureRoomMember db fault roomID userID with
  | error e => rw [hres] at h; simp at h
  | ok m =>
    unfold ensureRoomMember at hres
    cases honly : Only fault (membershipsWhere db roomID userID) with
    | error e =>
      rw [honly] at hres
      by_cases hnf : IsNotFound e = true
      · simp [hnf] at hres
      · simp [hnf] at hres
    | ok m' =>
      have hmem := (mem_membershipsWhere db roomID userID m').1 (Only_ok_mem _ _ _ honly)
      exact ⟨m', hmem.1, hmem.2.1, hmem.2.2⟩

/-- The committed state after the statements of `addRoomMembers`: the state
before, or the working copy the insert loop built. -/
theorem addRoomMembersBody_db (db : DB) (f : MemberFaults) (tx : Tx) (rid : Int)
    (role : Option Role) (mids : List Int) :
    (addRoomMembersBody db f tx rid role mids).db = db
    ∨ (addRoomMembersBody db f tx rid role mids).db
        = (saveMembers f rid role 0 mids tx).2.work := by
  unfold addRoomMembersBody
  rcases hs : saveMembers f rid role 0 mids tx with ⟨perr, tx1⟩
  cases perr with
  | some e => left; rfl
  | none =>
    have hc := commit_db_cases tx1 f.commit db
    dsimp only
    rcases hcm : tx1.Commit f.commit db with ⟨cerr, tx2, db'⟩
    rw [hcm] at hc
    cases cerr with
    | some e => exact hc
    | none => exact hc

/-- `addRoomMembers` keeps the invariant of the membership table. -/
theorem addRoomMembers_storeInv (db : DB) (f : MemberFaults) (ctxValue : CtxValue)
    (roomID : Except Err Int) (memberIDs : List Int) (roleArg : Option String)
    (h : storeInv db) :
    storeInv (addRoomMembers db f ctxValue roomID memberIDs roleArg).db := by
  have hbody : ∀ (rid : Int) (role : Option Role),
      (∃ m ∈ db.memberships, m.roomID = rid) →
      storeInv (addRoomMembersBody db f ⟨db, false⟩ rid role memberIDs).db := by
    intro rid role hroom
    obtain ⟨s1, s2, s3⟩ := saveMembers_inv f rid role memberIDs 0 ⟨db, false⟩ h.1
    have hwork : storeInv (saveMembers f rid role 0 memberIDs ⟨db, false⟩).2.work := by
      refine ⟨s1, ?_⟩
      intro row hrow
      rw [s2]
      rcases s3 row hrow with hold | hnew
      · exact h.2 row hold
      · obtain ⟨m, hm, hmr⟩ := hroom
        obtain ⟨r, hr, hrid⟩ := h.2 m hm
        exact ⟨r, hr, by rw [hrid, hmr, hnew]⟩
    rcases addRoomMembersBody_db db f ⟨db, false⟩ rid role memberIDs with hdb | hdb
    · rw [hdb]; exact h
    · rw [hdb]; exact hwork
  cases ctxValue with
  | absent => exact h
  | other => exact h
  | int uid =>
    cases roomID with
    | error e => exact h
    | ok rid =>
      cases hadm : ensureRoomAdmin db f.lookup rid uid with
      | some e =>
        simp only [addRoomMembers, UserIDFromContext, hadm]
        exact h
      | none =>
        obtain ⟨m, hm, hmr, -⟩ := ensureRoomAdmin_none_mem db f.lookup rid uid hadm
        cases hb : f.beginTx with
        | some code =>
          simp only [addRoomMembers, UserIDFromContext, hadm, beginTx, hb]
          exact h
        | none =>
          simp only [addRoomMembers, UserIDFromContext, hadm, beginTx, hb]
          exact hbody rid _ ⟨m, hm, hmr⟩

theorem updateMemberships_storeInv (db : DB) (fault : Option Nat) (roomID memberID : Int)
    (role : Option (Option Role)) (canPost canCall : Option Bool) (h : storeInv db) :
    storeInv (updateMemberships db fault roomID memberID role canPost canCall).2 := by
  have hmain : storeInv { db with memberships := db.memberships.map (fun m =>
      if m.roomID = roomID ∧ m.userID = memberID then
        { m with
          role := match role with
            | some (some r) => r
            | _ => m.role
          canPost := canPost.getD m.canPost
          canCall := canCall.getD m.canCall }
      else m) } := by
    have hkeep : ∀ m : RoomMembership,
        ((if m.roomID = roomID ∧ m.userID = memberID then
          { m with
            role := match role with
              | some (some r) => r
              | _ => m.role
            canPost := canPost.getD m.canPost
            canCall := canCall.getD m.canCall }
        else m) : RoomMembership).roomID = m.roomID
        ∧ ((if m.roomID = roomID ∧ m.userID = memberID then
          { m with
            role := match role with
              | some (some r) => r
              | _ => m.role
            canPost := canPost.getD m.canPost
            canCall := canCall.getD m.canCall }
        else m) : RoomMembership).userID = m.userID := by
      intro m
      split <;> exact ⟨rfl, rfl⟩
    refine ⟨?_, ?_⟩
    · show uniqueIndex (db.memberships.map _)
      unfold uniqueIndex
      rw [List.pairwise_map]
      refine List.Pairwise.imp ?_ h.1
      intro a b hab
      rw [(hkeep a).1, (hkeep a).2, (hkeep b).1, (hkeep b).2]
      exact hab
    · intro row hrow
      obtain ⟨m, hm, hrow'⟩ := List.mem_map.1 hrow
      obtain ⟨r, hr, hrid⟩ := h.2 m hm
      refine ⟨r, hr, ?_⟩
      rw [← hrow', (hkeep m).1]
      exact hrid
  unfold updateMemberships
  cases role with
  | none => cases fault with
    | some code => exact h
    | none => exact hmain
  | some r => cases r with
    | none => exact h
    | some r' => cases fault with
      | some code => exact h
      | none => exact hmain

/-- `updateRoomMembership` keeps the invariant of the membership table. -/
theorem updateRoomMembership_storeInv (db : DB) (f : UpdateFaults) (ctxValue : CtxValue)
    (roomID memberID : Except Err Int) (roleArg : Option String)
    (canPost canCall : Option Bool) (h : storeInv db) :
    storeInv (updateRoomMembership db f ctxValue roomID memberID roleArg canPost canCall).2 := by
  cases ctxValue with
  | absent => exact h
  | other => exact h
  | int uid =>
    cases roomID with
    | error e => exact h
    | ok rid =>
      cases memberID with
      | error e => exact h
      | ok mid =>
        cases hadm : ensureRoomAdmin db f.lookup rid uid with
        | some e =>
          simp only [updateRoomMembership, UserIDFromContext, hadm]
          exact h
        | none =>
          simp only [updateRoomMembership, UserIDFromContext, hadm]
          split
          · rename_i err db' hup
            have key := congrArg Prod.snd hup
            simp only [] at key
            show storeInv db'
            rw [← key]
            exact updateMemberships_storeInv db f.update rid mid _ canPost canCall h
          · rename_i db' hup
            have key := congrArg Prod.snd hup
            simp only [] at key
            show storeInv db'
            rw [← key]
            exact updateMemberships_storeInv db f.update rid mid _ canPost canCall h

/-- `removeRoomMember` keeps the invariant of the membership table. -/
theorem removeRoomMember_storeInv (db : DB) (lookupFault deleteFault : Option Nat)
    (ctxValue : CtxValue) (roomID memberID : Except Err Int) (h : storeInv db) :
    storeInv (removeRoomMember db lookupFault deleteFault ctxValue roomID memberID).2 := by
  have hdel : ∀ rid mid, storeInv (deleteMemberships db deleteFault rid mid).2 := by
    intro rid mid
    unfold deleteMemberships
    cases deleteFault with
    | some code => exact h
    | none =>
      refine ⟨List.Pairwise.sublist (List.filter_sublist _) h.1, ?_⟩
      intro row hrow
      exact h.2 row (List.mem_filter.1 hrow).1
  cases ctxValue with
  | absent => exact h
  | other => exact h
  | int uid =>
    cases roomID with
    | error e => exact h
    | ok rid =>
      cases memberID with
      | error e => exact h
      | ok mid =>
        cases hadm : ensureRoomAdmin db lookupFault rid uid with
        | some e =>
          simp only [removeRoomMember, UserIDFromContext, hadm]
          exact h
        | none =>
          simp only [removeRoomMember, UserIDFromContext, hadm]
          have hd := hdel rid mid
          cases hdm : deleteMemberships db deleteFault rid mid with
          | mk derr db' =>
            rw [hdm] at hd
            cases derr with
            | some e => exact hd
            | none => exact hd

/-- Every sequence of the four mutations keeps the invariant of the membership
table. -/
theorem applyAll_storeInv (ms : List Mutation) (db : DB) (h : storeInv db) :
    storeInv (applyAll db ms) := by
  induction ms generalizing db with
  | nil => exact h
  | cons m ms ih =>
    apply ih
    cases m with
    | createRoom f ctxValue args => exact createRoom_storeInv db f ctxValue args h
    | addRoomMembers f ctxValue roomID memberIDs roleArg =>
      exact addRoomMembers_storeInv db f ctxValue roomID memberIDs roleArg h
    | updateRoomMembership f ctxValue roomID memberID roleArg canPost canCall =>
      exact updateRoomMembership_storeInv db f ctxValue roomID memberID roleArg canPost canCall h
    | removeRoomMember lookupFault deleteFault ctxValue roomID memberID =>
      exact removeRoomMember_storeInv db lookupFault deleteFault ctxValue roomID memberID h

/-! ## The number of owner rows of a room -/

theorem ownerCount_eq_countP (db : DB) (roomID : Int) :
    ownerCount db roomID = db.memberships.countP (isOwnerRowOf roomID) := by
  unfold ownerCount rolesOf
  induction db.memberships with
  | nil => rfl
  | cons m rest ih =>
    by_cases hr : m.roomID = roomID
    · by_cases ho : m.role = Role.owner
      · have hp : isOwnerRowOf roomID m = true := by simp [isOwnerRowOf, hr, ho]
        rw [List.countP_cons_of_pos _ _ hp, ← ih]
        simp [hr, ho]
      · have hp : ¬ isOwnerRowOf roomID m = true := by simp [isOwnerRowOf, ho]
        rw [List.countP_cons_of_neg _ _ hp, ← ih]
        simp [hr, ho]
    · have hp : ¬ isOwnerRowOf roomID m = true := by simp [isOwnerRowOf, hr]
      rw [List.countP_cons_of_neg _ _ hp, ← ih]
      simp [hr]

/-- Rows appended with a role other than owner do not change the count. -/
theorem countP_append_non_owner (roomID : Int) (l rows : List RoomMembership)
    (h : ∀ row ∈ rows, row.role ≠ Role.owner) :
    (l ++ rows).countP (isOwnerRowOf roomID) = l.countP (isOwnerRowOf roomID) := by
  rw [List.countP_append]
  have : rows.countP (isOwnerRowOf roomID) = 0 := by
    rw [List.countP_eq_zero]
    intro row hrow
    simp [isOwnerRowOf, h row hrow]
  omega

/-- The insert loop of `addRoomMembers` appends rows of the role it was given. -/
theorem saveMembers_roles (f : MemberFaults) (roomID : Int) (role : Option Role)
    (mids : List Int) (i : Nat) (tx : Tx) :
    (saveMembers f roomID role i mids tx).2.work.rooms = tx.work.rooms
    ∧ ∃ rows, (saveMembers f roomID role i mids tx).2.work.memberships
        = tx.work.memberships ++ rows
      ∧ ∀ row ∈ rows, role = some row.role := by
  induction mids generalizing i tx with
  | nil => exact ⟨rfl, [], by simp [saveMembers], fun row h => absurd h (List.not_mem_nil _)⟩
  | cons mid rest ih =>
    cases hsave : tx.saveMembershipWithRole (f.save i) roomID mid role with
    | error err =>
      have hstep : saveMembers f roomID role i (mid :: rest) tx = (some err, tx) := by
        simp only [saveMembers]
        rw [hsave]
      rw [hstep]
      exact ⟨rfl, [], by simp, fun row h => absurd h (List.not_mem_nil _)⟩
    | ok res =>
      obtain ⟨m, tx'⟩ := res
      have hstep : saveMembers f roomID role i (mid :: rest) tx
          = saveMembers f roomID role (i + 1) rest tx' := by
        simp only [saveMembers]
        rw [hsave]
      rw [hstep]
      obtain ⟨hrooms, rows, hrows, hroles⟩ := ih (i + 1) tx'
      cases role with
      | none =>
        simp only [Tx.saveMembershipWithRole] at hsave
        exact Except.noConfusion hsave
      | some r =>
        simp only [Tx.saveMembershipWithRole] at hsave
        obtain ⟨hm, htx', -⟩ := saveMembership_ok _ _ _ _ _ _ _ hsave
        refine ⟨by rw [hrooms, htx'], m :: rows, ?_, ?_⟩
        · rw [hrows, htx']
          simp
        · intro row hrow
          rcases List.mem_cons.1 hrow with h1 | h1
          · rw [h1, hm]
          · exact hroles row h1

theorem roleOfString_owner (v : String) (h : roleOfString v = some Role.owner) :
    v = "owner" := by
  unfold roleOfString at h
  by_cases h1 : v = "owner"
  · exact h1
  · rw [if_neg h1] at h
    by_cases h2 : v = "admin"
    · rw [if_pos h2] at h
      exact Role.noConfusion (Option.some.inj h)
    · rw [if_neg h2] at h
      by_cases h3 : v = "member"
      · rw [if_pos h3] at h
        exact Role.noConfusion (Option.some.inj h)
      · rw [if_neg h3] at h
        exact Option.noConfusion h

/-- `createRoom` keeps the number of owner rows of every room that exists, and
a room it adds has exactly one. -/
theorem createRoom_ownerCount (db : DB) (f : Faults) (ctxValue : CtxValue)
    (args : CreateRoomArgs) (hst : storeInv db) :
    (∀ r ∈ db.rooms,
        ownerCount (createRoom db f ctxValue args).db r.id = ownerCount db r.id)
    ∧ (∀ r ∈ (createRoom db f ctxValue args).db.rooms, r ∉ db.rooms →
        ownerCount (createRoom db f ctxValue args).db r.id = 1) := by
  have hsame : (createRoom db f ctxValue args).db = db →
      (∀ r ∈ db.rooms,
        ownerCount (createRoom db f ctxValue args).db r.id = ownerCount db r.id)
      ∧ (∀ r ∈ (createRoom db f ctxValue args).db.rooms, r ∉ db.rooms →
        ownerCount (createRoom db f ctxValue args).db r.id = 1) := by
    intro hdb
    rw [hdb]
    exact ⟨fun _ _ => rfl, fun r hr hnot => absurd hr hnot⟩
  cases ctxValue with
  | absent => exact hsame rfl
  | other => exact hsame rfl
  | int uid =>
    cases hb : f.beginTx with
    | some code =>
      apply hsame
      simp only [createRoom, UserIDFromContext, beginTx, hb]
    | none =>
      obtain ⟨-, hshape⟩ := createRoom_shape db f uid args hb
      rcases hshape with ⟨e, -, hdb, -⟩ | ⟨rows, hdb, hmap, -, -, -⟩
      · exact hsame hdb
      · rw [hdb]
        have hrows : ∀ rid, rows.countP (isOwnerRowOf rid)
            = if nextID (db.rooms.map (fun r => r.id)) = rid then 1 else 0 := by
          intro rid
          have h1 : rows.countP (isOwnerRowOf rid)
              = (rows.map (fun m => (m.roomID, m.userID, m.role))).countP
                  (fun t => decide (t.1 = rid) && decide (t.2.2 = Role.owner)) := by
            rw [List.countP_map]
            rfl
          rw [h1, hmap]
          unfold expectedMemberships
          have h2 : (args.participantIDs.map (fun pid =>
              (nextID (db.rooms.map (fun r => r.id)), pid,
                if decide (nonOwnerCount uid args.participantIDs = 1) && decide (pid ≠ uid)
                then Role.admin else Role.member))).countP
                (fun t => decide (t.1 = rid) && decide (t.2.2 = Role.owner)) = 0 := by
            rw [List.countP_eq_zero]
            intro t ht
            obtain ⟨pid, -, hpid⟩ := List.mem_map.1 ht
            rw [← hpid]
            split <;> simp
          rw [List.countP_cons, h2]
          by_cases hid : nextID (db.rooms.map (fun r => r.id)) = rid
          · simp [hid]
          · simp [hid]
        have hold : ∀ r ∈ db.rooms, nextID (db.rooms.map (fun r => r.id)) ≠ r.id := by
          intro r hr heq
          have := lt_nextID (db.rooms.map (fun r => r.id)) r.id (List.mem_map.2 ⟨r, hr, rfl⟩)
          omega
        constructor
        · intro r hr
          rw [ownerCount_eq_countP, ownerCount_eq_countP]
          show (db.memberships ++ rows).countP (isOwnerRowOf r.id) = _
          rw [List.countP_append, hrows r.id, if_neg (hold r hr)]
          rfl
        · intro r hr hnot
          have hr' : r ∈ db.rooms ++ [(⟨nextID (db.rooms.map (fun r => r.id)), args.name,
              args.description.getD "", args.isPrivate.getD false,
              decide (nonOwnerCount uid args.participantIDs = 1), uid⟩ : Room)] := hr
          rcases List.mem_append.1 hr' with h1 | h1
          · exact absurd h1 hnot
          · have hrid : r.id = nextID (db.rooms.map (fun r => r.id)) := by
              rw [List.mem_singleton.1 h1]
            rw [ownerCount_eq_countP]
            show (db.memberships ++ rows).countP (isOwnerRowOf r.id) = 1
            rw [List.countP_append, hrows r.id, if_pos hrid.symm]
            have hzero : db.memberships.countP (isOwnerRowOf r.id) = 0 := by
              rw [List.countP_eq_zero]
              intro m hm hflag
              obtain ⟨r0, hr0, hr0id⟩ := hst.2 m hm
              have hmr : m.roomID = r.id := by
                simp only [isOwnerRowOf, Bool.and_eq_true, decide_eq_true_eq] at hflag
                exact hflag.1
              apply hold r0 hr0
              rw [← hrid, ← hmr, hr0id]
            rw [hzero]

/-- `addRoomMembers` with a role other than owner keeps the number of owner
rows of every room, and the room table. -/
theorem addRoomMembers_ownerCount (db : DB) (f : MemberFaults) (ctxValue : CtxValue)
    (roomID : Except Err Int) (memberIDs : List Int) (roleArg : Option String)
    (hrole : roleArg ≠ some "owner") :
    (addRoomMembers db f ctxValue roomID memberIDs roleArg).db.rooms = db.rooms
    ∧ ∀ rid, ownerCount (addRoomMembers db f ctxValue roomID memberIDs roleArg).db rid
        = ownerCount db rid := by
  have hsame : (addRoomMembers db f ctxValue roomID memberIDs roleArg).db = db →
      (addRoomMembers db f ctxValue roomID memberIDs roleArg).db.rooms = db.rooms
      ∧ ∀ rid, ownerCount (addRoomMembers db f ctxValue roomID memberIDs roleArg).db rid
          = ownerCount db rid := by
    intro hdb
    rw [hdb]
    exact ⟨rfl, fun _ => rfl⟩
  have hbody : ∀ (rid : Int) (role : Option Role), role ≠ some Role.owner →
      (addRoomMembersBody db f ⟨db, false⟩ rid role memberIDs).db.rooms = db.rooms
      ∧ ∀ rid', ownerCount (addRoomMembersBody db f ⟨db, false⟩ rid role memberIDs).db rid'
          = ownerCount db rid' := by
    intro rid role hne
    rcases addRoomMembersBody_db db f ⟨db, false⟩ rid role memberIDs with hdb | hdb
    · rw [hdb]
      exact ⟨rfl, fun _ => rfl⟩
    · rw [hdb]
      obtain ⟨hrooms, rows, hrows, hroles⟩ :=
        saveMembers_roles f rid role memberIDs 0 ⟨db, false⟩
      refine ⟨hrooms, fun rid' => ?_⟩
      rw [ownerCount_eq_countP, ownerCount_eq_countP, hrows]
      apply countP_append_non_owner
      intro row hrow ho
      apply hne
      rw [hroles row hrow, ho]
  cases ctxValue with
  | absent => exact hsame rfl
  | other => exact hsame rfl
  | int uid =>
    cases roomID with
    | error e => exact hsame rfl
    | ok rid =>
      cases hadm : ensureRoomAdmin db f.lookup rid uid with
      | some e =>
        apply hsame
        simp only [addRoomMembers, UserIDFromContext, hadm]
      | none =>
        cases hb : f.beginTx with
        | some code =>
          apply hsame
          simp only [addRoomMembers, UserIDFromContext, hadm, beginTx, hb]
        | none =>
          simp only [addRoomMembers, UserIDFromContext, hadm, beginTx, hb]
          apply hbody
          cases roleArg with
          | none => exact fun h => Role.noConfusion (Option.some.inj h)
          | some v =>
            dsimp only
            by_cases hv : v = ""
            · simp only [hv, ne_eq, not_true_eq_false, if_false]
              exact fun h => Role.noConfusion (Option.some.inj h)
            · simp only [ne_eq, hv, not_false_eq_true, if_true]
              intro h
              apply hrole
              rw [roleOfString_owner v h]

/-- The bulk update keeps the number of owner rows of every room when it sets
no role, or sets a role other than owner on a member whose row is not an
owner's. -/
theorem updateMemberships_ownerCount (db : DB) (fault : Option Nat) (roomID memberID : Int)
    (role : Option (Option Role)) (canPost canCall : Option Bool)
    (h : role = none ∨ role = some none
      ∨ ∃ r, role = some (some r) ∧ r ≠ Role.owner ∧ ownerRowOf db roomID memberID = false) :
    (updateMemberships db fault roomID memberID role canPost canCall).2.rooms = db.rooms
    ∧ ∀ rid, ownerCount (updateMemberships db fault roomID memberID role canPost canCall).2 rid
        = ownerCount db rid := by
  have hsame : (updateMemberships db fault roomID memberID role canPost canCall).2 = db →
      (updateMemberships db fault roomID memberID role canPost canCall).2.rooms = db.rooms
      ∧ ∀ rid,
        ownerCount (updateMemberships db fault roomID memberID role canPost canCall).2 rid
          = ownerCount db rid := by
    intro hdb
    rw [hdb]
    exact ⟨rfl, fun _ => rfl⟩
  have hmap : ∀ role' : Option (Option Role),
      (role' = none
        ∨ ∃ r, role' = some (some r) ∧ r ≠ Role.owner ∧ ownerRowOf db roomID memberID = false) →
      ∀ rid, (db.memberships.map (fun m =>
        if m.roomID = roomID ∧ m.userID = memberID then
          { m with
            role := match role' with
              | some (some r) => r
              | _ => m.role
            canPost := canPost.getD m.canPost
            canCall := canCall.getD m.canCall }
        else m)).countP (isOwnerRowOf rid) = db.memberships.countP (isOwnerRowOf rid) := by
    intro role' hrole' rid
    rw [List.countP_map]
    apply List.countP_congr
    intro m hm
    simp only [Function.comp]
    by_cases hpair : m.roomID = roomID ∧ m.userID = memberID
    · rw [if_pos hpair]
      rcases hrole' with h1 | ⟨r, h1, hr, hown⟩
      · rw [h1]
        simp [isOwnerRowOf]
      · rw [h1]
        have hmrole : m.role ≠ Role.owner := by
          intro ho
          have := List.any_eq_false.1 hown m hm
          apply this
          simp [hpair.1, hpair.2, ho]
        simp [isOwnerRowOf, hr, hmrole]
    · rw [if_neg hpair]
  unfold updateMemberships
  rcases h with h1 | h1 | ⟨r, h1, hr, hown⟩
  · rw [h1]
    cases fault with
    | some code => exact ⟨rfl, fun _ => rfl⟩
    | none =>
      refine ⟨rfl, fun rid => ?_⟩
      rw [ownerCount_eq_countP, ownerCount_eq_countP]
      exact hmap none (Or.inl rfl) rid
  · rw [h1]
    exact ⟨rfl, fun _ => rfl⟩
  · rw [h1]
    cases fault with
    | some code => exact ⟨rfl, fun _ => rfl⟩
    | none =>
      refine ⟨rfl, fun rid => ?_⟩
      rw [ownerCount_eq_countP, ownerCount_eq_countP]
      exact hmap (some (some r)) (Or.inr ⟨r, rfl, hr, hown⟩) rid

/-- The state an `updateRoomMembership` request of an admitted caller leaves is
the one its bulk update leaves, with the role the argument stands for. -/
theorem updateRoomMembership_snd (db : DB) (f : UpdateFaults) (uid rid mid : Int)
    (roleArg : Option String) (canPost canCall : Option Bool)
    (hadm : ensureRoomAdmin db f.lookup rid uid = none) :
    ∃ role : Option (Option Role),
      ((role = none ∧ (roleArg = none ∨ roleArg = some ""))
        ∨ ∃ v, roleArg = some v ∧ v ≠ "" ∧ role = some (roleOfString v))
      ∧ (updateRoomMembership db f (.int uid) (.ok rid) (.ok mid) roleArg canPost canCall).2
        = (updateMemberships db f.update rid mid role canPost canCall).2 := by
  cases roleArg with
  | none =>
    refine ⟨none, Or.inl ⟨rfl, Or.inl rfl⟩, ?_⟩
    simp only [updateRoomMembership, UserIDFromContext, hadm]
    generalize updateMemberships db f.update rid mid none canPost canCall = res
    obtain ⟨uerr, db'⟩ := res
    cases uerr with
    | some e => rfl
    | none => rfl
  | some v =>
    by_cases hv : v = ""
    · refine ⟨none, Or.inl ⟨rfl, Or.inr (by rw [hv])⟩, ?_⟩
      simp only [updateRoomMembership, UserIDFromContext, hadm, hv, ne_eq, not_true_eq_false,
        if_false]
      generalize updateMemberships db f.update rid mid none canPost canCall = res
      obtain ⟨uerr, db'⟩ := res
      cases uerr with
      | some e => rfl
      | none => rfl
    · refine ⟨some (roleOfString v), Or.inr ⟨v, rfl, hv, rfl⟩, ?_⟩
      simp only [updateRoomMembership, UserIDFromContext, hadm, ne_eq, hv, not_false_eq_true,
        if_true]
      generalize updateMemberships db f.update rid mid (some (roleOfString v)) canPost canCall
        = res
      obtain ⟨uerr, db'⟩ := res
      cases uerr with
      | some e => rfl
      | none => rfl

/-- `updateRoomMembership` keeps the number of owner rows of every room when
the request leaves the owner rows alone. -/
theorem updateRoomMembership_ownerCount (db : DB) (f : UpdateFaults) (ctxValue : CtxValue)
    (roomID memberID : Except Err Int) (roleArg : Option String)
    (canPost canCall : Option Bool)
    (hs : (Mutation.updateRoomMembership f ctxValue roomID memberID roleArg canPost
      canCall).sparesOwners db = true) :
    (updateRoomMembership db f ctxValue roomID memberID roleArg canPost canCall).2.rooms
        = db.rooms
    ∧ ∀ rid,
      ownerCount (updateRoomMembership db f ctxValue roomID memberID roleArg canPost
        canCall).2 rid = ownerCount db rid := by
  have hsame : (updateRoomMembership db f ctxValue roomID memberID roleArg canPost
        canCall).2 = db →
      (updateRoomMembership db f ctxValue roomID memberID roleArg canPost canCall).2.rooms
          = db.rooms
      ∧ ∀ rid,
        ownerCount (updateRoomMembership db f ctxValue roomID memberID roleArg canPost
          canCall).2 rid = ownerCount db rid := by
    intro hdb
    rw [hdb]
    exact ⟨rfl, fun _ => rfl⟩
  cases ctxValue with
  | absent => exact hsame rfl
  | other => exact hsame rfl
  | int uid =>
    cases roomID with
    | error e => exact hsame rfl
    | ok rid =>
      cases memberID with
      | error e => exact hsame rfl
      | ok mid =>
        cases hadm : ensureRoomAdmin db f.lookup rid uid with
        | some e =>
          apply hsame
          simp only [updateRoomMembership, UserIDFromContext, hadm]
        | none =>
          obtain ⟨role, hcase, hdb⟩ :=
            updateRoomMembership_snd db f uid rid mid roleArg canPost canCall hadm
          rw [hdb]
          apply updateMemberships_ownerCount
          rcases hcase with ⟨h1, -⟩ | ⟨v, hv1, hv2, hv3⟩
          · exact Or.inl h1
          · rw [hv1] at hs
            simp only [Mutation.sparesOwners, hv2, if_false, Bool.and_eq_true,
              decide_eq_true_eq, Bool.not_eq_true'] at hs
            cases hr : roleOfString v with
            | none => exact Or.inr (Or.inl (by rw [hv3, hr]))
            | some r =>
              refine Or.inr (Or.inr ⟨r, by rw [hv3, hr], ?_, hs.2⟩)
              intro ho
              rw [ho] at hr
              exact hs.1 (roleOfString_owner v hr)

/-- `removeRoomMember` keeps the number of owner rows of every room when the
member removed has no owner row. -/
theorem removeRoomMember_ownerCount (db : DB) (lookupFault deleteFault : Option Nat)
    (ctxValue : CtxValue) (roomID memberID : Except Err Int)
    (hs : (Mutation.removeRoomMember lookupFault deleteFault ctxValue roomID
      memberID).sparesOwners db = true) :
    (removeRoomMember db lookupFault deleteFault ctxValue roomID memberID).2.rooms = db.rooms
    ∧ ∀ rid,
      ownerCount (removeRoomMember db lookupFault deleteFault ctxValue roomID memberID).2 rid
        = ownerCount db rid := by
  have hsame : (removeRoomMember db lookupFault deleteFault ctxValue roomID memberID).2 = db →
      (removeRoomMember db lookupFault deleteFault ctxValue roomID memberID).2.rooms = db.rooms
      ∧ ∀ rid,
        ownerCount (removeRoomMember db lookupFault deleteFault ctxValue roomID memberID).2 rid
          = ownerCount db rid := by
    intro hdb
    rw [hdb]
    exact ⟨rfl, fun _ => rfl⟩
  cases ctxValue with
  | absent => exact hsame rfl
  | other => exact hsame rfl
  | int uid =>
    cases roomID with
    | error e => exact hsame rfl
    | ok rid =>
      cases memberID with
      | error e => exact hsame rfl
      | ok mid =>
        cases hadm : ensureRoomAdmin db lookupFault rid uid with
        | some e =>
          apply hsame
          simp only [removeRoomMember, UserIDFromContext, hadm]
        | none =>
          have hown : ownerRowOf db rid mid = false := by
            simpa [Mutation.sparesOwners] using hs
          have hdel : (deleteMemberships db deleteFault rid mid).2.rooms = db.rooms
              ∧ ∀ rid', ownerCount (deleteMemberships db deleteFault rid mid).2 rid'
                = ownerCount db rid' := by
            unfold deleteMemberships
            cases deleteFault with
            | some code => exact ⟨rfl, fun _ => rfl⟩
            | none =>
              refine ⟨rfl, fun rid' => ?_⟩
              rw [ownerCount_eq_countP, ownerCount_eq_countP]
              show (db.memberships.filter (fun m =>
                !(decide (m.roomID = rid) && decide (m.userID = mid)))).countP
                  (isOwnerRowOf rid') = _
              rw [List.countP_filter]
              apply List.countP_congr
              intro m hm
              have hnot := List.any_eq_false.1 hown m hm
              constructor
              · intro hboth
                simp only [Bool.and_eq_true] at hboth
                exact hboth.1
              · intro hflag
                simp only [Bool.and_eq_true, hflag, true_and]
                simp only [isOwnerRowOf, Bool.and_eq_true, decide_eq_true_eq] at hflag
                simp only [Bool.and_eq_true, decide_eq_true_eq, not_and] at hnot
                simp only [Bool.not_eq_true', Bool.and_eq_false_iff, decide_eq_false_iff_not]
                by_cases hr : m.roomID = rid
                · by_cases hu : m.userID = mid
                  · exact absurd hflag.2 (hnot ⟨hr, hu⟩)
                  · exact Or.inr hu
                · exact Or.inl hr
          simp only [removeRoomMember, UserIDFromContext, hadm]
          split
          · rename_i err db' heq
            have : db' = (deleteMemberships db deleteFault rid mid).2 := by rw [heq]
            show db'.rooms = db.rooms ∧ ∀ rid, ownerCount db' rid = ownerCount db rid
            rw [this]
            exact hdel
          · rename_i db' heq
            have : db' = (deleteMemberships db deleteFault rid mid).2 := by rw [heq]
            show db'.rooms = db.rooms ∧ ∀ rid, ownerCount db' rid = ownerCount db rid
            rw [this]
            exact hdel

theorem apply_storeInv (db : DB) (m : Mutation) (h : storeInv db) : storeInv (m.apply db) := by
  cases m with
  | createRoom f ctxValue args => exact createRoom_storeInv db f ctxValue args h
  | addRoomMembers f ctxValue roomID memberIDs roleArg =>
    exact addRoomMembers_storeInv db f ctxValue roomID memberIDs roleArg h
  | updateRoomMembership f ctxValue roomID memberID roleArg canPost canCall =>
    exact updateRoomMembership_storeInv db f ctxValue roomID memberID roleArg canPost canCall h
  | removeRoomMember lookupFault deleteFault ctxValue roomID memberID =>
    exact removeRoomMember_storeInv db lookupFault deleteFault ctxValue roomID memberID h

/-- A request that leaves the owner rows alone keeps the number of owner rows
of every room that exists, and a room it adds has exactly one. -/
theorem apply_ownerCount (db : DB) (m : Mutation) (hst : storeInv db)
    (hs : m.sparesOwners db = true) :
    (∀ r ∈ db.rooms, ownerCount (m.apply db) r.id = ownerCount db r.id)
    ∧ (∀ r ∈ (m.apply db).rooms, r ∉ db.rooms → ownerCount (m.apply db) r.id = 1) := by
  cases m with
  | createRoom f ctxValue args => exact createRoom_ownerCount db f ctxValue args hst
  | addRoomMembers f ctxValue roomID memberIDs roleArg =>
    have hrole : roleArg ≠ some "owner" := by
      simpa [Mutation.sparesOwners] using hs
    obtain ⟨h1, h2⟩ := addRoomMembers_ownerCount db f ctxValue roomID memberIDs roleArg hrole
    refine ⟨fun r _ => h2 r.id, fun r hr hnot => ?_⟩
    have hr' : r ∈ (addRoomMembers db f ctxValue roomID memberIDs roleArg).db.rooms := hr
    rw [h1] at hr'
    exact absurd hr' hnot
  | updateRoomMembership f ctxValue roomID memberID roleArg canPost canCall =>
    obtain ⟨h1, h2⟩ := updateRoomMembership_ownerCount db f ctxValue roomID memberID roleArg
      canPost canCall hs
    refine ⟨fun r _ => h2 r.id, fun r hr hnot => ?_⟩
    have hr' : r ∈ (updateRoomMembership db f ctxValue roomID memberID roleArg canPost
      canCall).2.rooms := hr
    rw [h1] at hr'
    exact absurd hr' hnot
  | removeRoomMember lookupFault deleteFault ctxValue roomID memberID =>
    obtain ⟨h1, h2⟩ := removeRoomMember_ownerCount db lookupFault deleteFault ctxValue roomID
      memberID hs
    refine ⟨fun r _ => h2 r.id, fun r hr hnot => ?_⟩
    have hr' : r ∈ (removeRoomMember db lookupFault deleteFault ctxValue roomID
      memberID).2.rooms := hr
    rw [h1] at hr'
    exact absurd hr' hnot

/-- Along a sequence of requests that leave the owner rows alone, every room
keeps exactly one owner row. -/
theorem applyAll_ownerCount (ms : List Mutation) (db : DB) (hst : storeInv db)
    (ho : ∀ r ∈ db.rooms, ownerCount db r.id = 1) (hs : sparesOwnersAll db ms = true) :
    ∀ r ∈ (applyAll db ms).rooms, ownerCount (applyAll db ms) r.id = 1 := by
  induction ms generalizing db with
  | nil => exact ho
  | cons m ms ih =>
    simp only [sparesOwnersAll, Bool.and_eq_true] at hs
    obtain ⟨h1, h2⟩ := apply_ownerCount db m hst hs.1
    apply ih (m.apply db) (apply_storeInv db m hst) ?_ hs.2
    intro r hr
    by_cases hold : r ∈ db.rooms
    · rw [h1 r hold]
      exact ho r hold
    · exact h2 r hr hold

/-- Counterexample for C14 as stated: owner 1 creates a direct room with user
2, which has one owner-role membership. When owner 1 then gives user 2 the
role owner through `updateRoomMembership`, the room has two owner-role
memberships; when owner 1 instead adds user 3 with the role owner through
`addRoomMembers`, it has two as well; when user 2 (an admin) removes user 1
through `removeRoomMember`, or gives user 1 the role member through
`updateRoomMembership`, the room has none. -/
theorem owner_count_not_preserved :
    ownerCount (applyAll ⟨[], []⟩
      [.createRoom noFaults (.int 1) ⟨"r", none, none, [2]⟩]) 1 = 1
    ∧ ownerCount (applyAll ⟨[], []⟩
      [.createRoom noFaults (.int 1) ⟨"r", none, none, [2]⟩,
       .updateRoomMembership noUpdateFaults (.int 1) (.ok 1) (.ok 2) (some "owner") none none])
        1 = 2
    ∧ ownerCount (applyAll ⟨[], []⟩
      [.createRoom noFaults (.int 1) ⟨"r", none, none, [2]⟩,
       .removeRoomMember none none (.int 2) (.ok 1) (.ok 1)]) 1 = 0
    ∧ ownerCount (applyAll ⟨[], []⟩
      [.createRoom noFaults (.int 1) ⟨"r", none, none, [2]⟩,
       .addRoomMembers noMemberFaults (.int 1) (.ok 1) [3] (some "owner")]) 1 = 2
    ∧ ownerCount (applyAll ⟨[], []⟩
      [.createRoom noFaults (.int 1) ⟨"r", none, none, [2]⟩,
       .updateRoomMembership noUpdateFaults (.int 2) (.ok 1) (.ok 1) (some "member") none none])
        1 = 0 := by
  decide

/-- C14 (amended). In every storage state reached from the empty store by
`createRoom`, `addRoomMembers`, `updateRoomMembership` and `removeRoomMember`
requests, with any arguments, callers and driver outcomes, no two membership
rows share their `(room, user)` pair, so a lookup of a pair finds at most one
row; a room that a successful `createRoom` request has just created has
exactly one membership whose role is owner; every further request that leaves
the owner rows alone (it does not assign the role owner, and does not change
the role of or remove a membership whose role is owner) keeps the number of
owner-role memberships of every room and gives a room it creates exactly one;
and when every request of the sequence leaves the owner rows alone, every room
of the state reached has exactly one owner-role membership. -/
theorem membership_rows_unique (ms : List Mutation) :
    uniqueIndex (applyAll ⟨[], []⟩ ms).memberships
    ∧ (∀ roomID userID, (membershipsWhere (applyAll ⟨[], []⟩ ms) roomID userID).length ≤ 1)
    ∧ (∀ (f : Faults) (uid : Int) (args : CreateRoomArgs) (room : Room),
        (createRoom (applyAll ⟨[], []⟩ ms) f (.int uid) args).result = .ok room →
        ownerCount (createRoom (applyAll ⟨[], []⟩ ms) f (.int uid) args).db room.id = 1)
    ∧ (∀ m : Mutation, m.sparesOwners (applyAll ⟨[], []⟩ ms) = true →
        (∀ r ∈ (applyAll ⟨[], []⟩ ms).rooms,
          ownerCount (m.apply (applyAll ⟨[], []⟩ ms)) r.id
            = ownerCount (applyAll ⟨[], []⟩ ms) r.id)
        ∧ (∀ r ∈ (m.apply (applyAll ⟨[], []⟩ ms)).rooms, r ∉ (applyAll ⟨[], []⟩ ms).rooms →
            ownerCount (m.apply (applyAll ⟨[], []⟩ ms)) r.id = 1))
    ∧ (sparesOwnersAll ⟨[], []⟩ ms = true →
        ∀ r ∈ (applyAll ⟨[], []⟩ ms).rooms, ownerCount (applyAll ⟨[], []⟩ ms) r.id = 1) := by
  have hinit : storeInv ⟨[], []⟩ :=
    ⟨List.Pairwise.nil, fun m hm => absurd hm (List.not_mem_nil m)⟩
  have hinv := applyAll_storeInv ms ⟨[], []⟩ hinit
  refine ⟨hinv.1, fun roomID userID => membershipsWhere_length_le_one _ roomID userID hinv.1,
    ?_, fun m hs => apply_ownerCount _ m hinv hs,
    fun hs => applyAll_ownerCount ms ⟨[], []⟩ hinit
      (fun r hr => absurd hr (List.not_mem_nil r)) hs⟩
  intro f uid args room hok
  unfold ownerCount
  rw [rolesOf_new_room _ f uid args room hinv.2 hok]
  have hnone : (args.participantIDs.map (fun pid =>
      (pid, if room.isDirect && decide (pid ≠ uid) then Role.admin else Role.member))).filter
      (fun p => decide (p.2 = Role.owner)) = [] := by
    rw [List.filter_eq_nil_iff]
    intro p hp
    obtain ⟨pid, -, hpid⟩ := List.mem_map.1 hp
    rw [← hpid]
    simp only [decide_eq_true_eq]
    split <;> exact fun h => Role.noConfusion h
  rw [List.filter_cons_of_pos (by simp), hnone]
  rfl

/-- C14 at a sequence of five requests: owner 1 creates a room with user 2,
adds user 3, makes user 3 an admin and removes user 2, and user 2 creates a
second room. Every request leaves the owner rows alone, all five take effect,
and both rooms have exactly one owner-role membership. -/
theorem membership_rows_unique_witness :
    sparesOwnersAll ⟨[], []⟩
      [.createRoom noFaults (.int 1) ⟨"r", none, none, [2]⟩,
       .addRoomMembers noMemberFaults (.int 1) (.ok 1) [3] none,
       .updateRoomMembership noUpdateFaults (.int 1) (.ok 1) (.ok 3) (some "admin") none none,
       .removeRoomMember none none (.int 1) (.ok 1) (.ok 2),
       .createRoom noFaults (.int 2) ⟨"s", none, none, []⟩] = true
    ∧ (applyAll ⟨[], []⟩
      [.createRoom noFaults (.int 1) ⟨"r", none, none, [2]⟩,
       .addRoomMembers noMemberFaults (.int 1) (.ok 1) [3] none,
       .updateRoomMembership noUpdateFaults (.int 1) (.ok 1) (.ok 3) (some "admin") none none,
       .removeRoomMember none none (.int 1) (.ok 1) (.ok 2),
       .createRoom noFaults (.int 2) ⟨"s", none, none, []⟩]).memberships.map
        (fun m => (m.roomID, m.userID, m.role))
        = [(1, 1, Role.owner), (1, 3, Role.admin), (2, 2, Role.owner)]
    ∧ ∀ r ∈ (applyAll ⟨[], []⟩
      [.createRoom noFaults (.int 1) ⟨"r", none, none, [2]⟩,
       .addRoomMembers noMemberFaults (.int 1) (.ok 1) [3] none,
       .updateRoomMembership noUpdateFaults (.int 1) (.ok 1) (.ok 3) (some "admin") none none,
       .removeRoomMember none none (.int 1) (.ok 1) (.ok 2),
       .createRoom noFaults (.int 2) ⟨"s", none, none, []⟩]).rooms,
        ownerCount (applyAll ⟨[], []⟩
          [.createRoom noFaults (.int 1) ⟨"r", none, none, [2]⟩,
           .addRoomMembers noMemberFaults (.int 1) (.ok 1) [3] none,
           .updateRoomMembership noUpdateFaults (.int 1) (.ok 1) (.ok 3) (some "admin") none
             none,
           .removeRoomMember none none (.int 1) (.ok 1) (.ok 2),
           .createRoom noFaults (.int 2) ⟨"s", none, none, []⟩]) r.id = 1 :=
  ⟨by decide, by decide, (membership_rows_unique _).2.2.2.2 (by decide)⟩

/-! ## The subscription relay -/

/-- The session starts with the invariant. -/
theorem WInv_start (sys : Sys) (hinv : Inv sys) (uid : Int) :
    WInv ⟨⟨(Subscribe sys.broker uid).2.2, sys.handles ++ [(Subscribe sys.broker uid).2.1]⟩,
      false,
      ⟨uid, (Subscribe sys.broker uid).1, (Subscribe sys.broker uid).2.1, .waiting, [], false,
        [], 0⟩⟩ := by
  refine ⟨Subscribe_inv sys hinv uid, ?_, ?_, ?_, ?_⟩
  · exact (getElem?_concat_eq_some _ _ _ _).2 (Or.inr ⟨hinv.len.symm, rfl⟩)
  · intro h; exact RelayPhase.noConfusion h
  · intro _; exact ⟨rfl, rfl⟩
  · exact ⟨[], by simp, rfl, fun _ => rfl, fun n h => RelayPhase.noConfusion h⟩

/-- A `return` of a relay that has not ended does not panic: the release
function is invoked (once), the relay has ended, and nothing else of the
session changes. -/
theorem relayReturn_inv (w : World) (hinv : WInv w)
    (hph : w.session.phase ≠ RelayPhase.ended) :
    ∃ w', relayReturn w = some w' ∧ WInv w'
      ∧ w'.session.phase = RelayPhase.ended ∧ w'.session.unsubscribeCalls = 1
      ∧ w'.session.ch = w.session.ch ∧ w'.session.uid = w.session.uid
      ∧ w'.session.stream = w.session.stream ∧ w'.session.received = w.session.received := by
  obtain ⟨hcalls, hstream⟩ := hinv.running hph
  obtain ⟨b', hcall, hinv', hclosed⟩ :=
    Release_inv w.sys hinv.sys w.session.ch w.session.unsubscribe hinv.handle
  obtain ⟨rest, hlen, hrel, -, -⟩ := hinv.relay
  refine ⟨{ w with
      sys := ⟨b', w.sys.handles⟩
      session := { w.session with
        phase := .ended
        unsubscribeCalls := w.session.unsubscribeCalls + 1
        streamClosed := true } }, by simp [relayReturn, hcall, hstream], ?_, rfl, ?_, rfl, rfl,
    rfl, rfl⟩
  · refine ⟨hinv', hinv.handle, ?_, ?_, ?_⟩
    · intro _
      exact ⟨by show w.session.unsubscribeCalls + 1 = 1; rw [hcalls], hclosed, rfl⟩
    · intro h; exact absurd rfl h
    · exact ⟨rest, hlen, hrel, fun h => RelayPhase.noConfusion h,
        fun n h => RelayPhase.noConfusion h⟩
  · show w.session.unsubscribeCalls + 1 = 1
    rw [hcalls]

theorem relayFilter_append (uid : Int) (items : List Notification) (n : Notification) :
    relayFilter uid (items ++ [n])
      = relayFilter uid items
        ++ (if recipientIDFromNotification (some n) = uid then [n] else []) := by
  unfold relayFilter
  rw [List.filter_append]
  by_cases h : recipientIDFromNotification (some n) = uid
  · simp [h]
  · simp [h]

/-- One event in a world with the invariant does not panic and keeps the
invariant; the session keeps its user and its sink. -/
theorem worldStep_inv (w : World) (hinv : WInv w) (ev : Event) :
    ∃ w', worldStep w ev = some w' ∧ WInv w'
      ∧ w'.session.ch = w.session.ch ∧ w'.session.uid = w.session.uid := by
  have hself : ∃ w', some w = some w' ∧ WInv w'
      ∧ w'.session.ch = w.session.ch ∧ w'.session.uid = w.session.uid :=
    ⟨w, rfl, hinv, rfl, rfl⟩
  have hret : w.session.phase ≠ RelayPhase.ended →
      ∃ w', relayReturn w = some w' ∧ WInv w'
        ∧ w'.session.ch = w.session.ch ∧ w'.session.uid = w.session.uid := by
    intro hph
    obtain ⟨w', h1, h2, -, -, h5, h6, -, -⟩ := relayReturn_inv w hinv hph
    exact ⟨w', h1, h2, h5, h6⟩
  cases ev with
  | call op =>
    obtain ⟨sys', hstep, hinv', hhandles, hclosed⟩ := step_inv w.sys hinv.sys op
    refine ⟨{ w with sys := sys' }, by simp only [worldStep, hstep], ?_, rfl, rfl⟩
    refine ⟨hinv', hhandles _ _ hinv.handle, ?_, hinv.running, hinv.relay⟩
    intro hph
    obtain ⟨h1, h2, h3⟩ := hinv.ended hph
    exact ⟨h1, hclosed _ h2, h3⟩
  | cancel =>
    exact ⟨{ w with cancelled := true }, rfl,
      ⟨hinv.sys, hinv.handle, hinv.ended, hinv.running, hinv.relay⟩, rfl, rfl⟩
  | relayDone =>
    simp only [worldStep]
    by_cases hc : w.cancelled = true
    · rw [if_pos hc]
      cases hph : w.session.phase with
      | ended => exact hself
      | waiting => exact hret (by rw [hph]; exact fun h => RelayPhase.noConfusion h)
      | forwarding n => exact hret (by rw [hph]; exact fun h => RelayPhase.noConfusion h)
    · rw [if_neg hc]
      exact hself
  | relaySend =>
    simp only [worldStep]
    cases hph : w.session.phase with
    | ended => exact hself
    | waiting => exact hself
    | forwarding n =>
      obtain ⟨rest, hlen, hrel, -, hfw⟩ := hinv.relay
      have hrest : rest = [n] := hfw n hph
      have hne : w.session.phase ≠ RelayPhase.ended := by
        rw [hph]; exact fun h => RelayPhase.noConfusion h
      refine ⟨_, rfl, ⟨hinv.sys, hinv.handle, ?_, ?_, ?_⟩, rfl, rfl⟩
      · intro h; exact RelayPhase.noConfusion h
      · intro _; exact hinv.running hne
      · refine ⟨[], by simp, ?_, fun _ => rfl, fun m h => RelayPhase.noConfusion h⟩
        show (w.session.stream ++ [n]) ++ [] = relayFilter w.session.uid w.session.received
        rw [List.append_nil, ← hrest]
        exact hrel
  | relayRecv =>
    simp only [worldStep]
    cases hph : w.session.phase with
    | ended => exact hself
    | forwarding n => exact hself
    | waiting =>
      have hne : w.session.phase ≠ RelayPhase.ended := by
        rw [hph]; exact fun h => RelayPhase.noConfusion h
      dsimp only
      cases hc : w.sys.broker.chans[w.session.ch]? with
      | none => exact hself
      | some c =>
        dsimp only
        cases hbuf : c.buf with
        | nil =>
          by_cases hcl : c.closed = true
          · simp only [hcl, if_true]
            exact hret hne
          · simp only [hcl]
            exact hself
        | cons notif rest0 =>
          obtain ⟨rest, hlen, hrel, hwait, -⟩ := hinv.relay
          have hrest : rest = [] := hwait hph
          have hsys := recv_inv w.sys hinv.sys w.session.ch
          by_cases hrec : recipientIDFromNotification (some notif) = w.session.uid
          · simp only [hrec, ne_eq, not_true_eq_false, if_false]
            refine ⟨_, rfl, ⟨hsys, hinv.handle, ?_, ?_, ?_⟩, rfl, rfl⟩
            · intro h; exact RelayPhase.noConfusion h
            · intro _; exact hinv.running hne
            · refine ⟨[notif], by simp, ?_, fun h => RelayPhase.noConfusion h, ?_⟩
              · show w.session.stream ++ [notif]
                  = relayFilter w.session.uid (w.session.received ++ [notif])
                rw [relayFilter_append, if_pos hrec, ← hrel, hrest, List.append_nil]
              · intro m hm
                have : notif = m := RelayPhase.forwarding.inj hm
                rw [this]
          · simp only [hrec, ne_eq, not_false_eq_true, if_true]
            refine ⟨_, rfl, ⟨hsys, hinv.handle, ?_, ?_, ?_⟩, rfl, rfl⟩
            · intro h; exact RelayPhase.noConfusion h
            · intro _; exact hinv.running hne
            · refine ⟨[], by simp, ?_, fun _ => rfl, ?_⟩
              · show w.session.stream ++ []
                  = relayFilter w.session.uid (w.session.received ++ [notif])
                rw [relayFilter_append, if_neg hrec, ← hrel, hrest, List.append_nil,
                  List.append_nil]
              · intro m hm; exact RelayPhase.noConfusion hm

/-- No sequence of events panics, and the invariant holds after it. -/
theorem runWorld_inv (evs : List Event) (w : World) (hinv : WInv w) :
    ∃ w', runWorld w evs = some w' ∧ WInv w'
      ∧ w'.session.ch = w.session.ch ∧ w'.session.uid = w.session.uid := by
  induction evs generalizing w with
  | nil => exact ⟨w, rfl, hinv, rfl, rfl⟩
  | cons ev evs ih =>
    obtain ⟨w1, h1, hinv1, hc1, hu1⟩ := worldStep_inv w hinv ev
    obtain ⟨w2, h2, hinv2, hc2, hu2⟩ := ih w1 hinv1
    refine ⟨w2, ?_, hinv2, by rw [hc2, hc1], by rw [hu2, hu1]⟩
    simp only [runWorld, h1]
    exact h2

/-- C11. For a session opened in any state reached from a new broker and any
sequence of events after it (calls on the broker from elsewhere, release calls
among them, cancellation, and the relay's own steps), nothing panics; a relay
that has not ended has not invoked the release function, and a relay that has
ended has invoked it exactly once, its sink is closed and registered for no
recipient, and its stream is closed. Each exit path ends the relay: with the
context cancelled, taking `<-p.Context.Done()` at either `select`; and at the
outer `select`, receiving from a sink that was closed elsewhere and is
empty. -/
theorem relay_releases_exactly_once (ops : List Op) (sys : Sys)
    (hrun : run initSys ops = some sys) (uid : Int) (evs : List Event) :
    ∃ w0 w, subscribeNotifications sys (.int uid) = .ok w0
      ∧ runWorld w0 evs = some w
      ∧ (w.session.phase ≠ RelayPhase.ended → w.session.unsubscribeCalls = 0)
      ∧ (w.session.phase = RelayPhase.ended →
          w.session.unsubscribeCalls = 1
          ∧ isClosed w.sys.broker w.session.ch
          ∧ (∀ u, ¬ registered w.sys.broker u w.session.ch)
          ∧ w.session.streamClosed = true)
      ∧ (w.cancelled = true → w.session.phase ≠ RelayPhase.ended →
          ∃ w', worldStep w .relayDone = some w'
            ∧ w'.session.phase = RelayPhase.ended ∧ w'.session.unsubscribeCalls = 1)
      ∧ (w.session.phase = RelayPhase.waiting → bufOf w.sys.broker w.session.ch = [] →
          isClosed w.sys.broker w.session.ch →
          ∃ w', worldStep w .relayRecv = some w'
            ∧ w'.session.phase = RelayPhase.ended ∧ w'.session.unsubscribeCalls = 1) := by
  have hinv := Inv_of_run ops sys hrun
  obtain ⟨w, hw, hwinv, -, -⟩ := runWorld_inv evs _ (WInv_start sys hinv uid)
  refine ⟨_, w, rfl, hw, fun h => (hwinv.running h).1, ?_, ?_, ?_⟩
  · intro hph
    obtain ⟨h1, h2, h3⟩ := hwinv.ended hph
    exact ⟨h1, h2, fun u => not_registered_of_isClosed w.sys hwinv.sys _ h2 u, h3⟩
  · intro hc hph
    obtain ⟨w', h1, -, h3, h4, -⟩ := relayReturn_inv w hwinv hph
    refine ⟨w', ?_, h3, h4⟩
    simp only [worldStep, hc, if_true]
    cases hp : w.session.phase with
    | ended => exact absurd hp hph
    | waiting => exact h1
    | forwarding n => exact h1
  · intro hph hbuf hcl
    have hne : w.session.phase ≠ RelayPhase.ended := by
      rw [hph]; exact fun h => RelayPhase.noConfusion h
    obtain ⟨w', h1, -, h3, h4, -⟩ := relayReturn_inv w hwinv hne
    refine ⟨w', ?_, h3, h4⟩
    unfold isClosed at hcl
    unfold bufOf at hbuf
    simp only [worldStep, hph]
    cases hc : w.sys.broker.chans[w.session.ch]? with
    | none => rw [hc] at hcl; exact hcl.elim
    | some c =>
      rw [hc] at hcl hbuf
      simp only [] at hcl hbuf
      simp only [hbuf, hcl, if_true]
      exact h1

/-- Witness for C11: user 7 subscribes on a new broker; a notification is
published and received, the context is cancelled while the relay forwards it,
and the relay takes the cancellation. -/
theorem relay_releases_exactly_once_witness :
    run initSys [] = some initSys
    ∧ subscribeNotifications initSys (.int 7) = .ok worldOfUser7
    ∧ (runWorld worldOfUser7
        [.call (.publish (some ⟨1, some 7⟩)), .relayRecv, .cancel, .relayDone]).map
        (fun w => (w.session.phase, w.session.unsubscribeCalls, w.sys.broker.subscribers 7))
        = some (.ended, 1, none)
    ∧ (runWorld worldOfUser7 [.cancel, .relayDone]).map
        (fun w => (w.session.phase, w.session.unsubscribeCalls, w.sys.broker.subscribers 7))
        = some (.ended, 1, none)
    ∧ (runWorld worldOfUser7 [.call (.release 0), .relayRecv]).map
        (fun w => (w.session.phase, w.session.unsubscribeCalls, w.sys.broker.subscribers 7))
        = some (.ended, 1, none)
    ∧ ∃ w0 w, subscribeNotifications initSys (.int 7) = .ok w0
      ∧ runWorld w0 [.call (.publish (some ⟨1, some 7⟩)), .relayRecv, .cancel, .relayDone]
          = some w
      ∧ (w.session.phase ≠ RelayPhase.ended → w.session.unsubscribeCalls = 0)
      ∧ (w.session.phase = RelayPhase.ended →
          w.session.unsubscribeCalls = 1
          ∧ isClosed w.sys.broker w.session.ch
          ∧ (∀ u, ¬ registered w.sys.broker u w.session.ch)
          ∧ w.session.streamClosed = true)
      ∧ (w.cancelled = true → w.session.phase ≠ RelayPhase.ended →
          ∃ w', worldStep w .relayDone = some w'
            ∧ w'.session.phase = RelayPhase.ended ∧ w'.session.unsubscribeCalls = 1)
      ∧ (w.session.phase = RelayPhase.waiting → bufOf w.sys.broker w.session.ch = [] →
          isClosed w.sys.broker w.session.ch →
          ∃ w', worldStep w .relayRecv = some w'
            ∧ w'.session.phase = RelayPhase.ended ∧ w'.session.unsubscribeCalls = 1) :=
  ⟨rfl, rfl, rfl, rfl, rfl,
    relay_releases_exactly_once [] initSys rfl 7
      [.call (.publish (some ⟨1, some 7⟩)), .relayRecv, .cancel, .relayDone]⟩

/-- Counterexample for C20 as stated: user 7 subscribes on a new broker, a
notification for recipient 7 is published and received by the relay, and the
context is cancelled while the relay is forwarding it. The relay ends having
received the item and written nothing: the stream is not the sequence of the
received items whose recipient is the session's user. -/
theorem relay_drops_item_on_cancel :
    subscribeNotifications initSys (.int 7) = .ok worldOfUser7
    ∧ (runWorld worldOfUser7
        [.call (.publish (some ⟨1, some 7⟩)), .relayRecv, .cancel, .relayDone]).map
        (fun w => (w.session.phase, w.session.received, w.session.stream,
          relayFilter w.session.uid w.session.received))
        = some (.ended, [⟨1, some 7⟩], [], [⟨1, some 7⟩])
    ∧ ¬ ∀ w, runWorld worldOfUser7
          [.call (.publish (some ⟨1, some 7⟩)), .relayRecv, .cancel, .relayDone] = some w →
        w.session.stream = relayFilter w.session.uid w.session.received := by
  refine ⟨rfl, rfl, ?_⟩
  intro hall
  have h := hall _ rfl
  exact absurd h (by decide)

/-- C20 (amended). For a session opened in any state reached from a new broker
and any sequence of events after it, the items written to the outward stream
are, in the same order, the received items whose recipient ID is the session's
user ID, but for at most the last of them: nothing is missing while the relay
waits at the outer `select`, and exactly the item in flight is missing while
the relay stands at the inner `select` (that item is dropped when the relay
ends there by cancellation). So every item written has the session's user as
recipient, and the stream is a subsequence of what was received: no item is
written twice or out of order. -/
theorem relay_stream_is_filtered_prefix (ops : List Op) (sys : Sys)
    (hrun : run initSys ops = some sys) (uid : Int) (evs : List Event) :
    ∃ w0 w, subscribeNotifications sys (.int uid) = .ok w0
      ∧ runWorld w0 evs = some w
      ∧ (∃ rest : List Notification, rest.length ≤ 1
          ∧ w.session.stream ++ rest = relayFilter uid w.session.received
          ∧ (w.session.phase = RelayPhase.waiting → rest = [])
          ∧ (∀ n, w.session.phase = RelayPhase.forwarding n → rest = [n]))
      ∧ (∀ n ∈ w.session.stream, recipientIDFromNotification (some n) = uid)
      ∧ w.session.stream.Sublist w.session.received := by
  have hinv := Inv_of_run ops sys hrun
  obtain ⟨w, hw, hwinv, -, huid⟩ := runWorld_inv evs _ (WInv_start sys hinv uid)
  have huid' : w.session.uid = uid := huid
  obtain ⟨rest, hlen, hrel, hwait, hfw⟩ := hwinv.relay
  rw [huid'] at hrel
  have hsub : w.session.stream.Sublist (relayFilter uid w.session.received) := by
    rw [← hrel]
    exact List.sublist_append_left _ _
  refine ⟨_, w, rfl, hw, ⟨rest, hlen, hrel, hwait, hfw⟩, ?_, ?_⟩
  · intro n hn
    have hmem : n ∈ relayFilter uid w.session.received := hsub.subset hn
    unfold relayFilter at hmem
    simpa using (List.mem_filter.1 hmem).2
  · exact hsub.trans (List.filter_sublist _)

/-- Witness for C20: user 7 subscribes on a new broker; two notifications are
published, received and written in turn. -/
theorem relay_stream_is_filtered_prefix_witness :
    run initSys [] = some initSys
    ∧ (runWorld worldOfUser7
        [.call (.publish (some ⟨1, some 7⟩)), .relayRecv, .relaySend,
         .call (.publish (some ⟨2, some 7⟩)), .relayRecv, .relaySend]).map
        (fun w => (w.session.received, w.session.stream))
        = some ([⟨1, some 7⟩, ⟨2, some 7⟩], [⟨1, some 7⟩, ⟨2, some 7⟩])
    ∧ ∃ w0 w, subscribeNotifications initSys (.int 7) = .ok w0
      ∧ runWorld w0
          [.call (.publish (some ⟨1, some 7⟩)), .relayRecv, .relaySend,
           .call (.publish (some ⟨2, some 7⟩)), .relayRecv, .relaySend] = some w
      ∧ (∃ rest : List Notification, rest.length ≤ 1
          ∧ w.session.stream ++ rest = relayFilter 7 w.session.received
          ∧ (w.session.phase = RelayPhase.waiting → rest = [])
          ∧ (∀ n, w.session.phase = RelayPhase.forwarding n → rest = [n]))
      ∧ (∀ n ∈ w.session.stream, recipientIDFromNotification (some n) = 7)
      ∧ w.session.stream.Sublist w.session.received :=
  ⟨rfl, rfl,
    relay_stream_is_filtered_prefix [] initSys rfl 7
      [.call (.publish (some ⟨1, some 7⟩)), .relayRecv, .relaySend,
       .call (.publish (some ⟨2, some 7⟩)), .relayRecv, .relaySend]⟩

/-! ## The guard passes storage errors on -/

/-- C22. When the membership lookup ends in an error other than not-found
(a driver fault, or a not-singular result), `ensureRoomMember`,
`ensureRoomAdmin` and `ensureRoomOwner` all return that error unchanged; it is
not `ErrForbidden`, and none of the three grants access. -/
theorem guard_passes_storage_error (db : DB) (fault : Option Nat) (roomID userID : Int)
    (e : Err) (hlook : Only fault (membershipsWhere db roomID userID) = .error e)
    (hnf : IsNotFound e = false) :
    ensureRoomMember db fault roomID userID = .error e
    ∧ ensureRoomAdmin db fault roomID userID = some e
    ∧ ensureRoomOwner db fault roomID userID = some e
    ∧ ensureRoomAccess db fault roomID userID = some e
    ∧ e ≠ Err.forbidden := by
  have hm : ensureRoomMember db fault roomID userID = .error e := by
    simp [ensureRoomMember, hlook, hnf]
  refine ⟨hm, by simp [ensureRoomAdmin, hm], by simp [ensureRoomOwner, hm],
    by simp [ensureRoomAccess, hm], ?_⟩
  intro he
  rw [he] at hlook
  unfold Only at hlook
  cases fault with
  | some code => simp at hlook
  | none =>
    match hl : membershipsWhere db roomID userID with
    | [] => rw [hl] at hlook; simp at hlook
    | [_] => rw [hl] at hlook; simp at hlook
    | _ :: _ :: _ => rw [hl] at hlook; simp at hlook

/-- Witness for C22: the driver fails the lookup with code 4. -/
theorem guard_passes_storage_error_witness :
    Only (some 4) (membershipsWhere ⟨[], [⟨1, 7, 3, Role.owner, true, true⟩]⟩ 7 3)
      = .error (Err.storage 4)
    ∧ IsNotFound (Err.storage 4) = false
    ∧ ensureRoomMember ⟨[], [⟨1, 7, 3, Role.owner, true, true⟩]⟩ (some 4) 7 3
        = .error (Err.storage 4)
    ∧ ensureRoomAdmin ⟨[], [⟨1, 7, 3, Role.owner, true, true⟩]⟩ (some 4) 7 3
        = some (Err.storage 4)
    ∧ ensureRoomOwner ⟨[], [⟨1, 7, 3, Role.owner, true, true⟩]⟩ (some 4) 7 3
        = some (Err.storage 4)
    ∧ ensureRoomAccess ⟨[], [⟨1, 7, 3, Role.owner, true, true⟩]⟩ (some 4) 7 3
        = some (Err.storage 4)
    ∧ Err.storage 4 ≠ Err.forbidden :=
  ⟨rfl, rfl,
    guard_passes_storage_error ⟨[], [⟨1, 7, 3, Role.owner, true, true⟩]⟩ (some 4) 7 3
      (Err.storage 4) rfl rfl⟩

/-! ## `decodeIDList` -/

theorem decodeEach_eq_filterMap (scan : String → Option Int) (items : List Raw) :
    decodeEach scan items = items.filterMap (fun item => (decodeID scan item).toOption) := by
  induction items with
  | nil => rfl
  | cons item rest ih =>
    cases h : decodeID scan item with
    | error e => simp [decodeEach, h, ih, Except.toOption]
    | ok id => simp [decodeEach, h, ih, Except.toOption]

/-- C30. For every raw list, `decodeIDList` returns the `decodeID` results of
the entries `decodeID` accepts, in their order and with duplicates kept,
skipping the entries it rejects; the result is never longer than the input;
nil gives the empty list and a `[]int` is returned unchanged. -/
theorem decodeIDList_keeps_accepted (scan : String → Option Int) :
    (∀ value : RawList, decodeIDList scan value
        = value.items.filterMap (fun item => (decodeID scan item).toOption))
    ∧ (∀ value : RawList, (decodeIDList scan value).length ≤ value.items.length)
    ∧ decodeIDList scan .nil = []
    ∧ (∀ v, decodeIDList scan (.ints v) = v)
    ∧ decodeIDList sampleScan (.ifaces [.int 3, .str "x", .str "7", .other, .int64 3, .int 3])
        = [3, 7, 3, 3] := by
  have key : ∀ value : RawList, decodeIDList scan value
      = value.items.filterMap (fun item => (decodeID scan item).toOption) := by
    intro value
    cases value with
    | nil => rfl
    | ifaces items => exact decodeEach_eq_filterMap scan items
    | ints v =>
      show v = (v.map Raw.int).filterMap _
      have hfun : ((fun item => (decodeID scan item).toOption) ∘ Raw.int) = some := rfl
      rw [List.filterMap_map, hfun, List.filterMap_some]
    | strs v => exact decodeEach_eq_filterMap scan _
    | other decoded =>
      cases decoded with
      | none => rfl
      | some raw => exact decodeEach_eq_filterMap scan raw
  refine ⟨key, ?_, rfl, fun v => rfl, by decide⟩
  intro value
  rw [key]
  exact List.length_filterMap_le _ _

/-! ## The relay after cancellation -/

/-- A relay that has ended stays ended, and its stream is never written
again. -/
theorem worldStep_ended (w w' : World) (ev : Event) (hstep : worldStep w ev = some w')
    (hph : w.session.phase = RelayPhase.ended) :
    w'.session.phase = RelayPhase.ended ∧ w'.session.stream = w.session.stream
      ∧ w'.session.received = w.session.received := by
  cases ev with
  | call op =>
    simp only [worldStep] at hstep
    cases hs : step w.sys op with
    | none => rw [hs] at hstep; exact Option.noConfusion hstep
    | some sys =>
      rw [hs] at hstep
      have h := Option.some.inj hstep
      rw [← h]
      exact ⟨hph, rfl, rfl⟩
  | cancel =>
    have h := Option.some.inj hstep
    rw [← h]
    exact ⟨hph, rfl, rfl⟩
  | relayDone =>
    simp only [worldStep, hph] at hstep
    by_cases hc : w.cancelled = true
    · rw [if_pos hc] at hstep
      have h := Option.some.inj hstep
      rw [← h]
      exact ⟨hph, rfl, rfl⟩
    · rw [if_neg hc] at hstep
      have h := Option.some.inj hstep
      rw [← h]
      exact ⟨hph, rfl, rfl⟩
  | relayRecv =>
    simp only [worldStep, hph] at hstep
    have h := Option.some.inj hstep
    rw [← h]
    exact ⟨hph, rfl, rfl⟩
  | relaySend =>
    simp only [worldStep, hph] at hstep
    have h := Option.some.inj hstep
    rw [← h]
    exact ⟨hph, rfl, rfl⟩

theorem runWorld_ended (evs : List Event) (w w' : World) (hrun : runWorld w evs = some w')
    (hph : w.session.phase = RelayPhase.ended) :
    w'.session.phase = RelayPhase.ended ∧ w'.session.stream = w.session.stream
      ∧ w'.session.received = w.session.received := by
  induction evs generalizing w with
  | nil =>
    have h := Option.some.inj hrun
    rw [← h]
    exact ⟨hph, rfl, rfl⟩
  | cons ev evs ih =>
    simp only [runWorld] at hrun
    cases hs : worldStep w ev with
    | none => rw [hs] at hrun; exact Option.noConfusion hrun
    | some w1 =>
      rw [hs] at hrun
      obtain ⟨h1, h2, h3⟩ := worldStep_ended w w1 ev hs hph
      obtain ⟨h4, h5, h6⟩ := ih w1 hrun h1
      exact ⟨h4, by rw [h5, h2], by rw [h6, h3]⟩

/-- The cancellation signal, once fired, stays fired. -/
theorem worldStep_cancelled (w w' : World) (ev : Event) (hstep : worldStep w ev = some w')
    (hc : w.cancelled = true) : w'.cancelled = true := by
  cases ev with
  | call op =>
    simp only [worldStep] at hstep
    cases hs : step w.sys op with
    | none => rw [hs] at hstep; exact Option.noConfusion hstep
    | some sys =>
      rw [hs] at hstep
      have h := Option.some.inj hstep
      rw [← h]
      exact hc
  | cancel =>
    have h := Option.some.inj hstep
    rw [← h]
  | relayDone =>
    simp only [worldStep, hc, if_true] at hstep
    cases hph : w.session.phase with
    | ended =>
      rw [hph] at hstep
      have h := Option.some.inj hstep
      rw [← h]
      exact hc
    | waiting =>
      rw [hph] at hstep
      simp only [relayReturn] at hstep
      split at hstep
      · exact Option.noConfusion hstep
      · split at hstep
        · exact Option.noConfusion hstep
        · have h := Option.some.inj hstep
          rw [← h]
          exact hc
    | forwarding n =>
      rw [hph] at hstep
      simp only [relayReturn] at hstep
      split at hstep
      · exact Option.noConfusion hstep
      · split at hstep
        · exact Option.noConfusion hstep
        · have h := Option.some.inj hstep
          rw [← h]
          exact hc
  | relayRecv =>
    simp only [worldStep] at hstep
    split at hstep
    · split at hstep
      · have h := Option.some.inj hstep
        rw [← h]
        exact hc
      · split at hstep
        · split at hstep
          · have h := Option.some.inj hstep
            rw [← h]
            exact hc
          · have h := Option.some.inj hstep
            rw [← h]
            exact hc
        · split at hstep
          · simp only [relayReturn] at hstep
            split at hstep
            · exact Option.noConfusion hstep
            · split at hstep
              · exact Option.noConfusion hstep
              · have h := Option.some.inj hstep
                rw [← h]
                exact hc
          · have h := Option.some.inj hstep
            rw [← h]
            exact hc
    · have h := Option.some.inj hstep
      rw [← h]
      exact hc
  | relaySend =>
    simp only [worldStep] at hstep
    split at hstep
    · have h := Option.some.inj hstep
      rw [← h]
      exact hc
    · have h := Option.some.inj hstep
      rw [← h]
      exact hc

/-- Counterexample for C21 as stated: user 7 subscribes on a new broker. In the
first run a notification for recipient 7 is published and the context is then
cancelled with the item buffered in the sink; in the second run the context is
cancelled first and the notification is published after that. In both, the
relay's outer `select` has two ready cases and takes `<-ch`, and its inner
`select` has two ready cases and takes `stream <- notif`: the item is written to
the stream after the cancellation signal has fired. -/
theorem relay_writes_after_cancel :
    subscribeNotifications initSys (.int 7) = .ok worldOfUser7
    ∧ (runWorld worldOfUser7 [.call (.publish (some ⟨1, some 7⟩)), .cancel]).map
        (fun w => (w.cancelled, w.session.phase, bufOf w.sys.broker w.session.ch,
          w.session.stream))
        = some (true, .waiting, [⟨1, some 7⟩], [])
    ∧ (runWorld worldOfUser7
        [.call (.publish (some ⟨1, some 7⟩)), .cancel, .relayRecv, .relaySend]).map
        (fun w => (w.cancelled, w.session.phase, w.session.stream))
        = some (true, .waiting, [⟨1, some 7⟩])
    ∧ (runWorld worldOfUser7 [.cancel]).map
        (fun w => (w.cancelled, w.session.phase, w.session.stream))
        = some (true, .waiting, [])
    ∧ (runWorld worldOfUser7
        [.cancel, .call (.publish (some ⟨1, some 7⟩)), .relayRecv, .relaySend]).map
        (fun w => (w.cancelled, w.session.phase, w.session.stream))
        = some (true, .waiting, [⟨1, some 7⟩]) :=
  ⟨rfl, rfl, rfl, rfl, rfl⟩

/-- C21 (amended). For a session opened in any state reached from a new broker
and any sequence of events after it: the cancellation signal stays fired once
it has fired; with the signal fired and the relay still running, the relay's
next `select` has the case `<-p.Context.Done()` ready, and taking it ends the
relay without writing to the stream and closes the stream; and once the relay
has ended, no later event (a `Publish` for the same recipient among them)
changes the stream or makes the relay receive an item. -/
theorem relay_stops_when_it_takes_cancellation (ops : List Op) (sys : Sys)
    (hrun : run initSys ops = some sys) (uid : Int) (evs : List Event) :
    ∃ w0 w, subscribeNotifications sys (.int uid) = .ok w0
      ∧ runWorld w0 evs = some w
      ∧ (w.cancelled = true → ∀ ev w', worldStep w ev = some w' → w'.cancelled = true)
      ∧ (w.cancelled = true → w.session.phase ≠ RelayPhase.ended →
          ∃ w', worldStep w .relayDone = some w'
            ∧ w'.session.phase = RelayPhase.ended
            ∧ w'.session.stream = w.session.stream
            ∧ w'.session.unsubscribeCalls = 1
            ∧ w'.session.streamClosed = true)
      ∧ (w.session.phase = RelayPhase.ended →
          ∀ later, ∃ w', runWorld w later = some w'
            ∧ w'.session.phase = RelayPhase.ended
            ∧ w'.session.stream = w.session.stream
            ∧ w'.session.received = w.session.received
            ∧ w'.session.streamClosed = true) := by
  have hinv := Inv_of_run ops sys hrun
  obtain ⟨w, hw, hwinv, -, -⟩ := runWorld_inv evs _ (WInv_start sys hinv uid)
  refine ⟨_, w, rfl, hw, fun hc ev w' hstep => worldStep_cancelled w w' ev hstep hc, ?_, ?_⟩
  · intro hc hph
    obtain ⟨w', h1, h2, h3, h4, -, -, h7, -⟩ := relayReturn_inv w hwinv hph
    refine ⟨w', ?_, h3, h7, h4, (h2.ended h3).2.2⟩
    simp only [worldStep, hc, if_true]
    cases hp : w.session.phase with
    | ended => exact absurd hp hph
    | waiting => exact h1
    | forwarding n => exact h1
  · intro hph later
    obtain ⟨w', h1, h2, -, -⟩ := runWorld_inv later w hwinv
    obtain ⟨h3, h4, h5⟩ := runWorld_ended later w w' h1 hph
    exact ⟨w', h1, h3, h4, h5, (h2.ended h3).2.2⟩

/-- Witness for C21 (amended): user 7 subscribes on a new broker, a
notification is published, the context is cancelled and the relay takes the
cancellation; a second notification published afterwards is not written. -/
theorem relay_stops_when_it_takes_cancellation_witness :
    run initSys [] = some initSys
    ∧ (runWorld worldOfUser7
        [.call (.publish (some ⟨1, some 7⟩)), .cancel, .relayDone,
         .call (.publish (some ⟨2, some 7⟩)), .relayRecv, .relaySend]).map
        (fun w => (w.cancelled, w.session.phase, w.session.stream, w.session.received))
        = some (true, .ended, [], [])
    ∧ ∃ w0 w, subscribeNotifications initSys (.int 7) = .ok w0
      ∧ runWorld w0 [.call (.publish (some ⟨1, some 7⟩)), .cancel, .relayDone] = some w
      ∧ (w.cancelled = true → ∀ ev w', worldStep w ev = some w' → w'.cancelled = true)
      ∧ (w.cancelled = true → w.session.phase ≠ RelayPhase.ended →
          ∃ w', worldStep w .relayDone = some w'
            ∧ w'.session.phase = RelayPhase.ended
            ∧ w'.session.stream = w.session.stream
            ∧ w'.session.unsubscribeCalls = 1
            ∧ w'.session.streamClosed = true)
      ∧ (w.session.phase = RelayPhase.ended →
          ∀ later, ∃ w', runWorld w later = some w'
            ∧ w'.session.phase = RelayPhase.ended
            ∧ w'.session.stream = w.session.stream
            ∧ w'.session.received = w.session.received
            ∧ w'.session.streamClosed = true) :=
  ⟨rfl, rfl,
    relay_stops_when_it_takes_cancellation [] initSys rfl 7
      [.call (.publish (some ⟨1, some 7⟩)), .cancel, .relayDone]⟩

/-! ## `addRoomMembers`: a failed insert -/

/-- C27. Code behaviour that departs from the claim: user 1, owner of room 7,
adds the members `[3, 3]`. The first insert succeeds and the second breaks the
unique index; the call returns that error, yet the deferred
`rollbackOnError(tx, &err)` reads the outer `err`, which is nil because the
loop declared its own: `Rollback` is not called and the transaction stays
open, still holding the first row. The same happens when the driver fails the
second insert of `[3, 4]`. (The committed table is untouched in both.) -/
theorem addRoomMembers_failed_insert_without_rollback :
    ensureRoomAdmin roomSevenOfUserOne none 7 1 = none
    ∧ (addRoomMembers roomSevenOfUserOne noMemberFaults (.int 1) (.ok 7) [3, 3] none).result
        = .error Err.constraint
    ∧ (addRoomMembers roomSevenOfUserOne noMemberFaults (.int 1) (.ok 7) [3, 3] none).rollbacks
        = 0
    ∧ (addRoomMembers roomSevenOfUserOne noMemberFaults (.int 1) (.ok 7) [3, 3] none).tx
        = some ⟨⟨roomSevenOfUserOne.rooms,
            roomSevenOfUserOne.memberships ++ [⟨2, 7, 3, Role.member, true, true⟩]⟩, false⟩
    ∧ (addRoomMembers roomSevenOfUserOne noMemberFaults (.int 1) (.ok 7) [3, 3] none).db
        = roomSevenOfUserOne
    ∧ (addRoomMembers roomSevenOfUserOne (memberFaultAt 1 5) (.int 1) (.ok 7) [3, 4] none).result
        = .error (Err.storage 5)
    ∧ (addRoomMembers roomSevenOfUserOne (memberFaultAt 1 5) (.int 1) (.ok 7) [3, 4] none).rollbacks
        = 0
    ∧ ((addRoomMembers roomSevenOfUserOne (memberFaultAt 1 5) (.int 1) (.ok 7) [3, 4] none).tx).map
        (fun tx => tx.done) = some false := by
  refine ⟨by decide, by decide, by decide, by decide, by decide, by decide, by decide, by decide⟩

/-! ## Notifications without a recipient, and recipient 0 -/

theorem Publish_recipient_zero (b : Broker) (n : Option Notification)
    (h : recipientIDFromNotification n = 0) : Publish b n = some b := by
  cases n with
  | none => rfl
  | some n => simp only [Publish, h, if_true]

/-- One call keeps the sinks of `Subscribe(0)` empty. -/
theorem step_zeroSinksEmpty (s s' : Sys) (hinv : Inv s) (hz : zeroSinksEmpty s) (op : Op)
    (hstep : step s op = some s') : zeroSinksEmpty s' := by
  cases op with
  | subscribe u =>
    have h := Option.some.inj hstep
    rw [← h]
    intro k r hk hr
    rcases (getElem?_concat_eq_some _ _ _ _).1 hk with hold | ⟨hlen, -⟩
    · have hlt : k < s.broker.chans.length := by
        rw [← hinv.len]; exact lt_of_getElem?_eq_some _ _ _ hold
      have hb := hz k r hold hr
      unfold bufOf at hb ⊢
      show (match (s.broker.chans ++ [(⟨1, [], false⟩ : Chan)])[k]? with
        | some c => c.buf
        | none => []) = []
      rw [List.getElem?_append_left hlt]
      exact hb
    · unfold bufOf
      show (match (s.broker.chans ++ [(⟨1, [], false⟩ : Chan)])[k]? with
        | some c => c.buf
        | none => []) = []
      rw [hlen, hinv.len, (getElem?_concat_eq_some _ _ _ _).2 (Or.inr ⟨rfl, rfl⟩)]
  | release k0 =>
    simp only [step] at hstep
    cases hh : s.handles[k0]? with
    | none =>
      rw [hh] at hstep
      have h := Option.some.inj hstep
      rw [← h]
      exact hz
    | some r0 =>
      rw [hh] at hstep
      obtain ⟨b', hcall, -, -, -, -, hother, hsame⟩ := Release_frame s hinv k0 r0 hh
      dsimp only at hstep
      rw [hcall] at hstep
      have h := Option.some.inj hstep
      rw [← h]
      intro k r hk hr
      have hb := hz k r hk hr
      by_cases hkk : k = k0
      · rw [hkk]
        rw [hkk] at hb
        exact hsame.trans hb
      · unfold bufOf at hb ⊢
        show (match b'.chans[k]? with
          | some c => c.buf
          | none => []) = []
        rw [hother k hkk]
        exact hb
  | publish n =>
    simp only [step] at hstep
    by_cases hrec : recipientIDFromNotification n = 0
    · rw [Publish_recipient_zero s.broker n hrec] at hstep
      have h := Option.some.inj hstep
      rw [← h]
      exact hz
    · cases n with
      | none => exact absurd rfl hrec
      | some n =>
        obtain ⟨b', hpub, -, hbufs⟩ := Publish_bufs s hinv n hrec
        rw [hpub] at hstep
        have h := Option.some.inj hstep
        rw [← h]
        intro k r hk hr
        have hb := hz k r hk hr
        have hnot : ¬ registered s.broker (recipientIDFromNotification (some n)) k := by
          intro hreg
          obtain ⟨subs, hsubs, hmem⟩ := (registered_iff _ _ _).1 hreg
          have hhandle := (hinv.regOpen _ subs hsubs k hmem).2
          have hk' : s.handles[k]? = some r := hk
          rw [hhandle] at hk'
          have hreq := Option.some.inj hk'
          rw [← hreq] at hr
          exact hrec hr
        unfold bufOf at hb ⊢
        show (match b'.chans[k]? with
          | some c => c.buf
          | none => []) = []
        rw [(hbufs k).2.2 hnot]
        exact hb
  | recv ch =>
    have h := Option.some.inj hstep
    rw [← h]
    intro k r hk hr
    have hb := hz k r hk hr
    unfold bufOf at hb ⊢
    show (match (recvChan s.broker.chans ch)[k]? with
      | some c => c.buf
      | none => []) = []
    rw [(recvChan_spec s.broker.chans ch).2 k]
    by_cases hkc : k = ch
    · rw [if_pos hkc]
      cases hc : s.broker.chans[k]? with
      | none => rfl
      | some c =>
        rw [hc] at hb
        simp only [Option.map_some'] 
        show c.buf.tail = []
        have hb' : c.buf = [] := hb
        rw [hb']
        rfl
    · rw [if_neg hkc]
      exact hb

theorem run_zeroSinksEmpty (ops : List Op) (s s' : Sys) (hinv : Inv s)
    (hz : zeroSinksEmpty s) (hrun : run s ops = some s') : zeroSinksEmpty s' := by
  induction ops generalizing s with
  | nil =>
    have h := Option.some.inj hrun
    rw [← h]
    exact hz
  | cons op ops ih =>
    simp only [run] at hrun
    obtain ⟨s1, hs1, hinv1, -, -⟩ := step_inv s hinv op
    rw [hs1] at hrun
    exact ih s1 hinv1 (step_zeroSinksEmpty s s1 hinv hz op hs1) hrun

/-- C29. `Publish` of a nil notification, of one whose recipient edge is not
loaded, or of one whose recipient ID is 0 returns with the broker as it was:
every sink and every registry entry is unchanged. So in every state reached
from a new broker, a sink that `Subscribe(0)` returned holds no item: it has
never received one. -/
theorem publish_without_recipient_changes_nothing (ops : List Op) (s : Sys)
    (hrun : run initSys ops = some s) :
    (∀ b : Broker, Publish b none = some b)
    ∧ (∀ (b : Broker) (id : Int), Publish b (some ⟨id, none⟩) = some b)
    ∧ (∀ (b : Broker) (id : Int), Publish b (some ⟨id, some 0⟩) = some b)
    ∧ (∀ n, recipientIDFromNotification n = 0 → step s (.publish n) = some s)
    ∧ (∀ k, s.handles[k]? = some ⟨0, k⟩ → bufOf s.broker k = [])
    ∧ (∀ k, (Subscribe s.broker 0).1 = k → (Subscribe s.broker 0).2.1 = ⟨0, k⟩) := by
  refine ⟨fun b => rfl, fun b id => rfl, fun b id => rfl, ?_, ?_, ?_⟩
  · intro n hn
    simp only [step, Publish_recipient_zero s.broker n hn]
  · intro k hk
    have hz : zeroSinksEmpty initSys := by
      intro k r hk
      exact Option.noConfusion hk
    exact run_zeroSinksEmpty ops initSys s Inv_initSys hz hrun k _ hk rfl
  · intro k hk
    rw [← hk]
    rfl

/-- Witness for C29: a sink of `Subscribe(0)` and one of `Subscribe(7)`; the
three kinds of notification without a recipient are published, then one for
recipient 7. Only the sink of recipient 7 holds an item. -/
theorem publish_without_recipient_changes_nothing_witness :
    (run initSys [.subscribe 0, .subscribe 7, .publish (some ⟨1, some 0⟩),
        .publish (some ⟨2, none⟩), .publish none, .publish (some ⟨3, some 7⟩)]).map
      (fun s => (s.handles, bufOf s.broker 0, bufOf s.broker 1))
      = some ([⟨0, 0⟩, ⟨7, 1⟩], [], [⟨3, some 7⟩])
    ∧ ∃ s, run initSys [.subscribe 0, .subscribe 7, .publish (some ⟨1, some 0⟩),
        .publish (some ⟨2, none⟩), .publish none, .publish (some ⟨3, some 7⟩)] = some s
      ∧ (∀ b : Broker, Publish b none = some b)
      ∧ (∀ (b : Broker) (id : Int), Publish b (some ⟨id, none⟩) = some b)
      ∧ (∀ (b : Broker) (id : Int), Publish b (some ⟨id, some 0⟩) = some b)
      ∧ (∀ n, recipientIDFromNotification n = 0 → step s (.publish n) = some s)
      ∧ (∀ k, s.handles[k]? = some ⟨0, k⟩ → bufOf s.broker k = [])
      ∧ (∀ k, (Subscribe s.broker 0).1 = k → (Subscribe s.broker 0).2.1 = ⟨0, k⟩) :=
  ⟨rfl, _, rfl,
    publish_without_recipient_changes_nothing
      [.subscribe 0, .subscribe 7, .publish (some ⟨1, some 0⟩),
        .publish (some ⟨2, none⟩), .publish none, .publish (some ⟨3, some 7⟩)] _ rfl⟩

/-! ## Role tests outside the guard -/

theorem inlineRoleCheck_eq_guardRoleCheck (membership : RoomMembership) :
    inlineRoleCheck membership = guardRoleCheck membership := by
  unfold inlineRoleCheck guardRoleCheck
  cases h : membership.role <;> simp

/-- C25. For a caller who is not the author (the sender of the message, the
initiator of the call), the authorisation steps of `updateMessage` and
`deleteMessage`, of `createMedia` and of the call-log mutations return, for
the room the record belongs to, exactly what `ensureRoomAdmin` returns for
that room and caller, whatever the membership table holds and whatever the
lookup does; and on every membership the inline test `role == member` decides
as the guard's test `role == owner || role == admin` does. -/
theorem inline_role_checks_agree_with_guard (db : DB) (fault : Option Nat)
    (uid authorID roomID : Int) (hne : authorID ≠ uid) :
    messageAuthorCheck db fault uid (some roomID) (some authorID)
        = ensureRoomAdmin db fault roomID uid
    ∧ mediaAuthorCheck db fault uid (some roomID) (some authorID)
        = ensureRoomAdmin db fault roomID uid
    ∧ callInitiatorCheck db fault uid (some roomID) (some authorID)
        = ensureRoomAdmin db fault roomID uid
    ∧ (∀ membership : RoomMembership,
        inlineRoleCheck membership = guardRoleCheck membership)
    ∧ (∀ membership, ensureRoomMember db fault roomID uid = .ok membership →
        ensureRoomAdmin db fault roomID uid = inlineRoleCheck membership) := by
  refine ⟨?_, ?_, ?_, inlineRoleCheck_eq_guardRoleCheck, ?_⟩
  · simp only [messageAuthorCheck, ensureRoomAdmin]
    cases h : ensureRoomMember db fault roomID uid with
    | error err => rfl
    | ok membership =>
      simp only [hne, ne_eq, not_false_eq_true, true_and]
      exact inlineRoleCheck_eq_guardRoleCheck membership
  · simp only [mediaAuthorCheck, ensureRoomAdmin, hne, ne_eq, not_false_eq_true, if_true]
    cases h : ensureRoomMember db fault roomID uid with
    | error err => rfl
    | ok membership => exact inlineRoleCheck_eq_guardRoleCheck membership
  · simp only [callInitiatorCheck, ensureRoomAdmin, hne, ne_eq, not_false_eq_true, if_true]
    cases h : ensureRoomMember db fault roomID uid with
    | error err => rfl
    | ok membership => exact inlineRoleCheck_eq_guardRoleCheck membership
  · intro membership hm
    simp only [ensureRoomAdmin, hm]
    exact (inlineRoleCheck_eq_guardRoleCheck membership).symm

/-- Witness for C25: in room 7 (owner 1, member 3), user 1 and user 3 each act
on a record authored by user 4; the owner passes and the member is refused by
all four decisions. -/
theorem inline_role_checks_agree_with_guard_witness :
    (messageAuthorCheck sampleStore.db none 1 (some 7) (some 4),
        mediaAuthorCheck sampleStore.db none 1 (some 7) (some 4),
        callInitiatorCheck sampleStore.db none 1 (some 7) (some 4),
        ensureRoomAdmin sampleStore.db none 7 1) = (none, none, none, none)
    ∧ (messageAuthorCheck sampleStore.db none 3 (some 7) (some 4),
        mediaAuthorCheck sampleStore.db none 3 (some 7) (some 4),
        callInitiatorCheck sampleStore.db none 3 (some 7) (some 4),
        ensureRoomAdmin sampleStore.db none 7 3)
        = (some Err.forbidden, some Err.forbidden, some Err.forbidden, some Err.forbidden)
    ∧ (4 : Int) ≠ 3
    ∧ messageAuthorCheck sampleStore.db none 3 (some 7) (some 4)
        = ensureRoomAdmin sampleStore.db none 7 3
    ∧ mediaAuthorCheck sampleStore.db none 3 (some 7) (some 4)
        = ensureRoomAdmin sampleStore.db none 7 3
    ∧ callInitiatorCheck sampleStore.db none 3 (some 7) (some 4)
        = ensureRoomAdmin sampleStore.db none 7 3
    ∧ (∀ membership : RoomMembership,
        inlineRoleCheck membership = guardRoleCheck membership)
    ∧ (∀ membership, ensureRoomMember sampleStore.db none 7 3 = .ok membership →
        ensureRoomAdmin sampleStore.db none 7 3 = inlineRoleCheck membership) :=
  ⟨by decide, by decide, by decide,
    inline_role_checks_agree_with_guard sampleStore.db none 3 4 7 (by decide)⟩

/-! ## A request without a user ID -/

theorem UserIDFromContext_no_id (ctxValue : CtxValue) (h : ∀ id, ctxValue ≠ CtxValue.int id) :
    UserIDFromContext ctxValue = .error Err.unauthorized := by
  cases ctxValue with
  | absent => rfl
  | int id => exact absurd rfl (h id)
  | other => rfl

/-! ## The traced resolvers are the resolvers -/

theorem roomQueryTraced_fst (db : DB) (lookupFault readFault : Option Nat)
    (ctxValue : CtxValue) (id : Except Err Int) :
    (roomQueryTraced db lookupFault readFault ctxValue id).1
      = roomQuery db lookupFault readFault ctxValue id := by
  unfold roomQueryTraced roomQuery
  cases UserIDFromContext ctxValue with
  | error e => rfl
  | ok uid =>
    cases id with
    | error e => rfl
    | ok id =>
      dsimp only
      cases ensureRoomAccess db lookupFault id uid with
      | some e => rfl
      | none => rfl

theorem saveParticipantsTraced_fst (f : Faults) (roomID uid : Int) (direct : Bool)
    (pids : List Int) (i : Nat) (tx : Tx) :
    (saveParticipantsTraced f roomID uid direct i pids tx).1
      = saveParticipants f roomID uid direct i pids tx := by
  induction pids generalizing i tx with
  | nil => rfl
  | cons pid rest ih =>
    simp only [saveParticipantsTraced, saveParticipants]
    cases tx.saveMembership (f.saveParticipant i) roomID pid
        (if direct && decide (pid ≠ uid) then Role.admin else Role.member) with
    | error e => rfl
    | ok res => exact ih (i + 1) res.2

theorem createRoomBodyTraced_fst (db : DB) (f : Faults) (tx : Tx) (uid : Int)
    (name description : String) (isPrivate : Bool) (pids : List Int) :
    (createRoomBodyTraced db f tx uid name description isPrivate pids).1
      = createRoomBody db f tx uid name description isPrivate pids := by
  simp only [createRoomBodyTraced, createRoomBody]
  cases tx.saveRoom f.saveRoom name description isPrivate
      (decide (nonOwnerCount uid pids = 1)) uid with
  | error e => rfl
  | ok res1 =>
    obtain ⟨newRoom, tx1⟩ := res1
    dsimp only
    cases tx1.saveMembership f.saveOwner newRoom.id uid Role.owner with
    | error e => rfl
    | ok res2 =>
      obtain ⟨m, tx2⟩ := res2
      dsimp only
      have hp := saveParticipantsTraced_fst f newRoom.id uid
        (decide (nonOwnerCount uid pids = 1)) pids 0 tx2
      rcases ht : saveParticipantsTraced f newRoom.id uid
        (decide (nonOwnerCount uid pids = 1)) 0 pids tx2 with ⟨⟨perr, tx3⟩, calls⟩
      rw [ht] at hp
      rw [← hp]
      cases perr with
      | some e => rfl
      | none =>
        dsimp only
        rcases tx3.Commit f.commit db with ⟨cerr, tx4, db'⟩
        cases cerr with
        | some e => rfl
        | none => rfl

theorem createRoomTraced_fst (db : DB) (f : Faults) (ctxValue : CtxValue)
    (args : CreateRoomArgs) :
    (createRoomTraced db f ctxValue args).1 = createRoom db f ctxValue args := by
  unfold createRoomTraced createRoom
  cases UserIDFromContext ctxValue with
  | error e => rfl
  | ok uid =>
    dsimp only
    cases beginTx db f.beginTx with
    | error e => rfl
    | ok tx =>
      dsimp only
      have hb := createRoomBodyTraced_fst db f tx uid args.name (args.description.getD "")
        (args.isPrivate.getD false) args.participantIDs
      rcases ht : createRoomBodyTraced db f tx uid args.name (args.description.getD "")
        (args.isPrivate.getD false) args.participantIDs with ⟨body, calls⟩
      rw [ht] at hb
      rw [← hb]

theorem saveMembersTraced_fst (f : MemberFaults) (roomID : Int) (role : Option Role)
    (mids : List Int) (i : Nat) (tx : Tx) :
    (saveMembersTraced f roomID role i mids tx).1 = saveMembers f roomID role i mids tx := by
  induction mids generalizing i tx with
  | nil => rfl
  | cons mid rest ih =>
    simp only [saveMembersTraced, saveMembers]
    cases tx.saveMembershipWithRole (f.save i) roomID mid role with
    | error e => rfl
    | ok res => exact ih (i + 1) res.2

theorem addRoomMembersBodyTraced_fst (db : DB) (f : MemberFaults) (tx : Tx) (roomID : Int)
    (role : Option Role) (mids : List Int) :
    (addRoomMembersBodyTraced db f tx roomID role mids).1
      = addRoomMembersBody db f tx roomID role mids := by
  unfold addRoomMembersBodyTraced addRoomMembersBody
  have hp := saveMembersTraced_fst f roomID role mids 0 tx
  rcases ht : saveMembersTraced f roomID role 0 mids tx with ⟨⟨perr, tx1⟩, calls⟩
  rw [ht] at hp
  rw [← hp]
  cases perr with
  | some e => rfl
  | none =>
    dsimp only
    rcases tx1.Commit f.commit db with ⟨cerr, tx2, db'⟩
    cases cerr with
    | some e => rfl
    | none => rfl

theorem addRoomMembersTraced_fst (db : DB) (f : MemberFaults) (ctxValue : CtxValue)
    (roomID : Except Err Int) (memberIDs : List Int) (roleArg : Option String) :
    (addRoomMembersTraced db f ctxValue roomID memberIDs roleArg).1
      = addRoomMembers db f ctxValue roomID memberIDs roleArg := by
  unfold addRoomMembersTraced addRoomMembers
  cases UserIDFromContext ctxValue with
  | error e => rfl
  | ok uid =>
    cases roomID with
    | error e => rfl
    | ok roomID =>
      dsimp only
      cases ensureRoomAdmin db f.lookup roomID uid with
      | some e => rfl
      | none =>
        dsimp only
        cases beginTx db f.beginTx with
        | error e => rfl
        | ok tx =>
          dsimp only
          rw [addRoomMembersBodyTraced_fst]
          try rfl

theorem updateRoomMembershipTraced_fst (db : DB) (f : UpdateFaults) (ctxValue : CtxValue)
    (roomID memberID : Except Err Int) (roleArg : Option String)
    (canPost canCall : Option Bool) :
    (updateRoomMembershipTraced db f ctxValue roomID memberID roleArg canPost canCall).1
      = updateRoomMembership db f ctxValue roomID memberID roleArg canPost canCall := by
  unfold updateRoomMembershipTraced updateRoomMembership
  cases UserIDFromContext ctxValue with
  | error e => rfl
  | ok uid =>
    cases roomID with
    | error e => rfl
    | ok roomID =>
      cases memberID with
      | error e => rfl
      | ok memberID =>
        dsimp only
        cases ensureRoomAdmin db f.lookup roomID uid with
        | some e => rfl
        | none =>
          dsimp only
          cases roleArg with
          | none =>
            dsimp only
            generalize updateMemberships db f.update roomID memberID _ canPost canCall = res
            obtain ⟨uerr, db'⟩ := res
            cases uerr with
            | some e => rfl
            | none => rfl
          | some v =>
            dsimp only
            generalize updateMemberships db f.update roomID memberID _ canPost canCall = res
            obtain ⟨uerr, db'⟩ := res
            cases uerr with
            | some e => rfl
            | none => rfl

theorem removeRoomMemberTraced_fst (db : DB) (lookupFault deleteFault : Option Nat)
    (ctxValue : CtxValue) (roomID memberID : Except Err Int) :
    (removeRoomMemberTraced db lookupFault deleteFault ctxValue roomID memberID).1
      = removeRoomMember db lookupFault deleteFault ctxValue roomID memberID := by
  unfold removeRoomMemberTraced removeRoomMember
  cases UserIDFromContext ctxValue with
  | error e => rfl
  | ok uid =>
    cases roomID with
    | error e => rfl
    | ok roomID =>
      cases memberID with
      | error e => rfl
      | ok memberID =>
        dsimp only
        cases ensureRoomAdmin db lookupFault roomID uid with
        | some e => rfl
        | none =>
          dsimp only
          rcases deleteMemberships db deleteFault roomID memberID with ⟨derr, db'⟩
          cases derr with
          | some e => rfl
          | none => rfl

/-- C23. When the request context carries no user ID (the key is absent, or
its value is not an `int`), each of `room`, `messages`, `createRoom`,
`updateRoom`, `deleteRoom`, `addRoomMembers`, `updateRoomMembership`,
`removeRoomMember`, `createMessage` and `createNotification` returns
`ErrUnauthorized`, for every storage state, every argument and every behaviour
of the storage driver, and for each of the ten the list of storage calls made
is empty: no guard lookup, no read, no write, no transaction opened, committed
or rolled back. The committed state is what it was and nothing is published.
For `room`, `createRoom`, `addRoomMembers`, `updateRoomMembership` and
`removeRoomMember` the calls are those of the traced resolver, whose outcome
is the resolver's for every request, with or without a user ID. -/
theorem no_user_id_is_unauthorized_before_storage (ctxValue : CtxValue)
    (h : ∀ id, ctxValue ≠ CtxValue.int id) :
    (∀ db lookupFault readFault id,
        roomQueryTraced db lookupFault readFault ctxValue id = (.error Err.unauthorized, [])
        ∧ roomQuery db lookupFault readFault ctxValue id = .error Err.unauthorized)
    ∧ (∀ st lookupFault readFault roomID,
        (messagesQuery st lookupFault readFault ctxValue roomID).result
            = .error Err.unauthorized
        ∧ (messagesQuery st lookupFault readFault ctxValue roomID).store = st
        ∧ (messagesQuery st lookupFault readFault ctxValue roomID).calls = [])
    ∧ (∀ db f args,
        (createRoomTraced db f ctxValue args).2 = []
        ∧ (createRoomTraced db f ctxValue args).1 = createRoom db f ctxValue args
        ∧ (createRoom db f ctxValue args).result = .error Err.unauthorized
        ∧ (createRoom db f ctxValue args).db = db
        ∧ (createRoom db f ctxValue args).tx = none
        ∧ (createRoom db f ctxValue args).rollbacks = 0)
    ∧ (∀ st lookupFault readFault exec roomID,
        (updateRoom st lookupFault readFault exec ctxValue roomID).result
            = .error Err.unauthorized
        ∧ (updateRoom st lookupFault readFault exec ctxValue roomID).store = st
        ∧ (updateRoom st lookupFault readFault exec ctxValue roomID).calls = [])
    ∧ (∀ st lookupFault exec roomID,
        (deleteRoom st lookupFault exec ctxValue roomID).result = .error Err.unauthorized
        ∧ (deleteRoom st lookupFault exec ctxValue roomID).store = st
        ∧ (deleteRoom st lookupFault exec ctxValue roomID).calls = [])
    ∧ (∀ db f roomID memberIDs roleArg,
        (addRoomMembersTraced db f ctxValue roomID memberIDs roleArg).2 = []
        ∧ (addRoomMembersTraced db f ctxValue roomID memberIDs roleArg).1
            = addRoomMembers db f ctxValue roomID memberIDs roleArg
        ∧ (addRoomMembers db f ctxValue roomID memberIDs roleArg).result
            = .error Err.unauthorized
        ∧ (addRoomMembers db f ctxValue roomID memberIDs roleArg).db = db
        ∧ (addRoomMembers db f ctxValue roomID memberIDs roleArg).tx = none
        ∧ (addRoomMembers db f ctxValue roomID memberIDs roleArg).rollbacks = 0)
    ∧ (∀ db f roomID memberID roleArg canPost canCall,
        updateRoomMembershipTraced db f ctxValue roomID memberID roleArg canPost canCall
          = ((.error Err.unauthorized, db), [])
        ∧ updateRoomMembership db f ctxValue roomID memberID roleArg canPost canCall
          = (.error Err.unauthorized, db))
    ∧ (∀ db lookupFault deleteFault roomID memberID,
        removeRoomMemberTraced db lookupFault deleteFault ctxValue roomID memberID
          = ((.error Err.unauthorized, db), [])
        ∧ removeRoomMember db lookupFault deleteFault ctxValue roomID memberID
          = (.error Err.unauthorized, db))
    ∧ (∀ st lookupFault save roomID,
        (createMessage st lookupFault save ctxValue roomID).result = .error Err.unauthorized
        ∧ (createMessage st lookupFault save ctxValue roomID).store = st
        ∧ (createMessage st lookupFault save ctxValue roomID).calls = [])
    ∧ (∀ st f args,
        (createNotification st f ctxValue args).result = .error Err.unauthorized
        ∧ (createNotification st f ctxValue args).store = st
        ∧ (createNotification st f ctxValue args).calls = []
        ∧ (createNotification st f ctxValue args).published = [])
    ∧ (∀ c : CtxValue,
        (∀ db lookupFault readFault id,
          (roomQueryTraced db lookupFault readFault c id).1
            = roomQuery db lookupFault readFault c id)
        ∧ (∀ db f args, (createRoomTraced db f c args).1 = createRoom db f c args)
        ∧ (∀ db f roomID memberIDs roleArg,
          (addRoomMembersTraced db f c roomID memberIDs roleArg).1
            = addRoomMembers db f c roomID memberIDs roleArg)
        ∧ (∀ db f roomID memberID roleArg canPost canCall,
          (updateRoomMembershipTraced db f c roomID memberID roleArg canPost canCall).1
            = updateRoomMembership db f c roomID memberID roleArg canPost canCall)
        ∧ (∀ db lookupFault deleteFault roomID memberID,
          (removeRoomMemberTraced db lookupFault deleteFault c roomID memberID).1
            = removeRoomMember db lookupFault deleteFault c roomID memberID)) := by
  have hu := UserIDFromContext_no_id ctxValue h
  refine ⟨?_, ?_, ?_, ?_, ?_, ?_, ?_, ?_, ?_, ?_, ?_⟩
  · intro db lookupFault readFault id
    refine ⟨?_, ?_⟩
    · simp only [roomQueryTraced, hu]
    · simp only [roomQuery, hu]
  · intro st lookupFault readFault roomID
    simp only [messagesQuery, hu, and_self]
  · intro db f args
    refine ⟨?_, createRoomTraced_fst db f ctxValue args, ?_⟩
    · simp only [createRoomTraced, hu]
    · simp only [createRoom, hu, and_self]
  · intro st lookupFault readFault exec roomID
    simp only [updateRoom, hu, and_self]
  · intro st lookupFault exec roomID
    simp only [deleteRoom, hu, and_self]
  · intro db f roomID memberIDs roleArg
    refine ⟨?_, addRoomMembersTraced_fst db f ctxValue roomID memberIDs roleArg, ?_⟩
    · simp only [addRoomMembersTraced, hu]
    · simp only [addRoomMembers, hu, and_self]
  · intro db f roomID memberID roleArg canPost canCall
    refine ⟨?_, ?_⟩
    · simp only [updateRoomMembershipTraced, hu]
    · simp only [updateRoomMembership, hu]
  · intro db lookupFault deleteFault roomID memberID
    refine ⟨?_, ?_⟩
    · simp only [removeRoomMemberTraced, hu]
    · simp only [removeRoomMember, hu]
  · intro st lookupFault save roomID
    simp only [createMessage, hu, and_self]
  · intro st f args
    simp only [createNotification, hu, and_self]
  · intro c
    exact ⟨fun db lookupFault readFault id => roomQueryTraced_fst db lookupFault readFault c id,
      fun db f args => createRoomTraced_fst db f c args,
      fun db f roomID memberIDs roleArg =>
        addRoomMembersTraced_fst db f c roomID memberIDs roleArg,
      fun db f roomID memberID roleArg canPost canCall =>
        updateRoomMembershipTraced_fst db f c roomID memberID roleArg canPost canCall,
      fun db lookupFault deleteFault roomID memberID =>
        removeRoomMemberTraced_fst db lookupFault deleteFault c roomID memberID⟩

/-- Witness for C23: the context holds no value under the key. For comparison,
the same `createRoom` request with user 1 in the context opens a transaction,
inserts, commits and reads back, and the `room` query of a member makes its
guard lookup first. -/
theorem no_user_id_is_unauthorized_before_storage_witness :
    (∀ id, CtxValue.absent ≠ CtxValue.int id)
    ∧ (createNotification sampleStore noNotifFaults .absent
        ⟨.ok 1, "k", "c", none, some (.ok 7), none⟩).calls = []
    ∧ (createRoomTraced ⟨[], []⟩ noFaults .absent ⟨"r", none, none, [2]⟩).2 = []
    ∧ (createRoomTraced ⟨[], []⟩ noFaults (.int 1) ⟨"r", none, none, [2]⟩).2
        = [.beginTx, .roomInsert, .membershipInsert 1 1, .membershipInsert 1 2, .commit,
            .roomRead 1]
    ∧ (roomQueryTraced sampleStore.db none none (.int 3) (.ok 7)).2
        = [.membershipLookup 7 3, .roomRead 7]
    ∧ (addRoomMembersTraced roomSevenOfUserOne noMemberFaults (.int 1) (.ok 7) [3, 3] none).2
        = [.membershipLookup 7 1, .beginTx, .membershipInsert 7 3, .membershipInsert 7 3]
    ∧
    (∀ db lookupFault readFault id,
        roomQueryTraced db lookupFault readFault .absent id = (.error Err.unauthorized, [])
        ∧ roomQuery db lookupFault readFault .absent id = .error Err.unauthorized)
    ∧ (∀ st lookupFault readFault roomID,
        (messagesQuery st lookupFault readFault .absent roomID).result
            = .error Err.unauthorized
        ∧ (messagesQuery st lookupFault readFault .absent roomID).store = st
        ∧ (messagesQuery st lookupFault readFault .absent roomID).calls = [])
    ∧ (∀ db f args,
        (createRoomTraced db f .absent args).2 = []
        ∧ (createRoomTraced db f .absent args).1 = createRoom db f .absent args
        ∧ (createRoom db f .absent args).result = .error Err.unauthorized
        ∧ (createRoom db f .absent args).db = db
        ∧ (createRoom db f .absent args).tx = none
        ∧ (createRoom db f .absent args).rollbacks = 0)
    ∧ (∀ st lookupFault readFault exec roomID,
        (updateRoom st lookupFault readFault exec .absent roomID).result
            = .error Err.unauthorized
        ∧ (updateRoom st lookupFault readFault exec .absent roomID).store = st
        ∧ (updateRoom st lookupFault readFault exec .absent roomID).calls = [])
    ∧ (∀ st lookupFault exec roomID,
        (deleteRoom st lookupFault exec .absent roomID).result = .error Err.unauthorized
        ∧ (deleteRoom st lookupFault exec .absent roomID).store = st
        ∧ (deleteRoom st lookupFault exec .absent roomID).calls = [])
    ∧ (∀ db f roomID memberIDs roleArg,
        (addRoomMembersTraced db f .absent roomID memberIDs roleArg).2 = []
        ∧ (addRoomMembersTraced db f .absent roomID memberIDs roleArg).1
            = addRoomMembers db f .absent roomID memberIDs roleArg
        ∧ (addRoomMembers db f .absent roomID memberIDs roleArg).result
            = .error Err.unauthorized
        ∧ (addRoomMembers db f .absent roomID memberIDs roleArg).db = db
        ∧ (addRoomMembers db f .absent roomID memberIDs roleArg).tx = none
        ∧ (addRoomMembers db f .absent roomID memberIDs roleArg).rollbacks = 0)
    ∧ (∀ db f roomID memberID roleArg canPost canCall,
        updateRoomMembershipTraced db f .absent roomID memberID roleArg canPost canCall
          = ((.error Err.unauthorized, db), [])
        ∧ updateRoomMembership db f .absent roomID memberID roleArg canPost canCall
          = (.error Err.unauthorized, db))
    ∧ (∀ db lookupFault deleteFault roomID memberID,
        removeRoomMemberTraced db lookupFault deleteFault .absent roomID memberID
          = ((.error Err.unauthorized, db), [])
        ∧ removeRoomMember db lookupFault deleteFault .absent roomID memberID
          = (.error Err.unauthorized, db))
    ∧ (∀ st lookupFault save roomID,
        (createMessage st lookupFault save .absent roomID).result = .error Err.unauthorized
        ∧ (createMessage st lookupFault save .absent roomID).store = st
        ∧ (createMessage st lookupFault save .absent roomID).calls = [])
    ∧ (∀ st f args,
        (createNotification st f .absent args).result = .error Err.unauthorized
        ∧ (createNotification st f .absent args).store = st
        ∧ (createNotification st f .absent args).calls = []
        ∧ (createNotification st f .absent args).published = [])
    ∧ (∀ c : CtxValue,
        (∀ db lookupFault readFault id,
          (roomQueryTraced db lookupFault readFault c id).1
            = roomQuery db lookupFault readFault c id)
        ∧ (∀ db f args, (createRoomTraced db f c args).1 = createRoom db f c args)
        ∧ (∀ db f roomID memberIDs roleArg,
          (addRoomMembersTraced db f c roomID memberIDs roleArg).1
            = addRoomMembers db f c roomID memberIDs roleArg)
        ∧ (∀ db f roomID memberID roleArg canPost canCall,
          (updateRoomMembershipTraced db f c roomID memberID roleArg canPost canCall).1
            = updateRoomMembership db f c roomID memberID roleArg canPost canCall)
        ∧ (∀ db lookupFault deleteFault roomID memberID,
          (removeRoomMemberTraced db lookupFault deleteFault c roomID memberID).1
            = removeRoomMember db lookupFault deleteFault c roomID memberID)) :=
  ⟨fun _ hne => CtxValue.noConfusion hne, rfl, rfl, by decide, by decide, by decide,
    no_user_id_is_unauthorized_before_storage .absent (fun _ hne => CtxValue.noConfusion hne)⟩

/-! ## Notifications: publish after the write and the read-back -/

theorem Only_ok_fault {α : Type} (fault : Option Nat) (nodes : List α) (x : α)
    (h : Only fault nodes = .ok x) : fault = none := by
  cases fault with
  | none => rfl
  | some code => simp [Only] at h

theorem insertNotification_ok (st st' : Store) (fault : Option Nat) (recipientID : Int)
    (kind cipherText : String) (scheme : Option String) (roomID messageID : Option Int)
    (saved : NotificationRow)
    (h : st.insertNotification fault recipientID kind cipherText scheme roomID messageID
      = .ok (saved, st')) :
    fault = none ∧ kind ≠ "" ∧ cipherText ≠ ""
      ∧ st' = { st with notifications := st.notifications ++ [saved] }
      ∧ saved.recipientID = recipientID := by
  unfold Store.insertNotification at h
  by_cases hk : kind = ""
  · rw [if_pos hk] at h; exact Except.noConfusion h
  · rw [if_neg hk] at h
    by_cases hc : cipherText = ""
    · rw [if_pos hc] at h; exact Except.noConfusion h
    · rw [if_neg hc] at h
      cases fault with
      | some code => exact Except.noConfusion h
      | none =>
        simp only [Except.ok.injEq, Prod.mk.injEq] at h
        obtain ⟨h1, h2⟩ := h
        refine ⟨rfl, hk, hc, ?_, ?_⟩
        · rw [← h2, ← h1]
        · rw [← h1]

theorem updateNotification_store_ok (st st' : Store) (fault : Option Nat) (id : Int)
    (kind cipherText scheme : Option String) (read : Option Bool)
    (h : st.updateNotification fault id kind cipherText scheme read = (none, st')) :
    fault = none := by
  unfold Store.updateNotification at h
  by_cases hk : kind = some ""
  · rw [if_pos hk] at h
    exact absurd (congrArg Prod.fst h) (by simp)
  · rw [if_neg hk] at h
    by_cases hc : cipherText = some ""
    · rw [if_pos hc] at h
      exact absurd (congrArg Prod.fst h) (by simp)
    · rw [if_neg hc] at h
      cases fault with
      | some code => exact absurd (congrArg Prod.fst h) (by simp)
      | none => rfl

/-- The two ways a `createNotification` request ends: with an error and
nothing published, or with the row read back after a successful insert, which
is the one thing published. -/
theorem createNotification_cases (st : Store) (f : NotifFaults) (ctxValue : CtxValue)
    (args : CreateNotificationArgs) :
    ((∃ e, (createNotification st f ctxValue args).result = .error e)
        ∧ (createNotification st f ctxValue args).published = [])
    ∨ (∃ (recipientID : Int) (scheme : Option String) (roomID messageID : Option Int)
        (saved enriched : NotificationRow) (st' : Store) (pre : List StorageCall),
        st.insertNotification f.save recipientID args.kind args.cipherText scheme roomID
          messageID = .ok (saved, st')
        ∧ Only f.readBack (st'.notifications.filter (fun n => decide (n.id = saved.id)))
          = .ok enriched
        ∧ (createNotification st f ctxValue args).result = .ok enriched
        ∧ (createNotification st f ctxValue args).store = st'
        ∧ (createNotification st f ctxValue args).calls
          = pre ++ [.notificationInsert, .notificationRead saved.id]
        ∧ (createNotification st f ctxValue args).published
          = [(recipientID, enriched.toNotification)]) := by
  unfold createNotification
  cases hu : UserIDFromContext ctxValue with
  | error e => exact Or.inl ⟨⟨_, rfl⟩, rfl⟩
  | ok uid =>
    dsimp only
    cases hr : args.recipientId with
    | error e => exact Or.inl ⟨⟨_, rfl⟩, rfl⟩
    | ok recipientID =>
      dsimp only
      rcases ht : notificationTarget st f.message args.roomId args.messageId with ⟨target, calls⟩
      cases target with
      | error e => exact Or.inl ⟨⟨_, rfl⟩, rfl⟩
      | ok pair =>
        obtain ⟨roomID, messageID⟩ := pair
        dsimp only
        rcases ha : notificationAuth st.db f.recipientLookup f.callerLookup uid recipientID
          roomID with ⟨autherr, calls2⟩
        cases autherr with
        | some e => exact Or.inl ⟨⟨_, rfl⟩, rfl⟩
        | none =>
          dsimp only
          cases hs : st.insertNotification f.save recipientID args.kind args.cipherText
            (match args.encryptionScheme with
              | some v => if v ≠ "" then some v else none
              | none => none) roomID messageID with
          | error e => exact Or.inl ⟨⟨_, rfl⟩, rfl⟩
          | ok res =>
            obtain ⟨saved, st'⟩ := res
            dsimp only
            cases hb : Only f.readBack
              (st'.notifications.filter (fun n => decide (n.id = saved.id))) with
            | error e => exact Or.inl ⟨⟨_, rfl⟩, rfl⟩
            | ok enriched =>
              refine Or.inr ⟨recipientID, _, roomID, messageID, saved, enriched, st',
                calls ++ calls2, hs, hb, rfl, rfl, ?_, rfl⟩
              show calls ++ calls2 ++ [StorageCall.notificationInsert,
                StorageCall.notificationRead saved.id] = _
              rfl

/-- The two ways an `updateNotification` request ends. -/
theorem updateNotification_cases (st : Store) (f : NotifUpdateFaults) (ctxValue : CtxValue)
    (args : UpdateNotificationArgs) :
    ((∃ e, (updateNotification st f ctxValue args).result = .error e)
        ∧ (updateNotification st f ctxValue args).published = [])
    ∨ (∃ (uid id : Int) (updated : NotificationRow) (st' : Store),
        st.updateNotification f.update id args.kind args.cipherText args.encryptionScheme
          args.read = (none, st')
        ∧ Only f.readBack (st'.notifications.filter (fun n => decide (n.id = id)))
          = .ok updated
        ∧ (updateNotification st f ctxValue args).result = .ok updated
        ∧ (updateNotification st f ctxValue args).store = st'
        ∧ (updateNotification st f ctxValue args).calls
          = [.notificationOfRecipient id uid, .notificationUpdate id, .notificationRead id]
        ∧ (updateNotification st f ctxValue args).published
          = [(uid, updated.toNotification)]) := by
  unfold updateNotification
  cases hu : UserIDFromContext ctxValue with
  | error e => exact Or.inl ⟨⟨_, rfl⟩, rfl⟩
  | ok uid =>
    dsimp only
    cases hr : args.id with
    | error e => exact Or.inl ⟨⟨_, rfl⟩, rfl⟩
    | ok id =>
      dsimp only
      cases ho : Only f.owned (st.notifications.filter
          (fun n => decide (n.id = id) && decide (n.recipientID = uid))) with
      | error e => exact Or.inl ⟨⟨_, rfl⟩, rfl⟩
      | ok owned =>
        dsimp only
        rcases hup : st.updateNotification f.update id args.kind args.cipherText
          args.encryptionScheme args.read with ⟨uerr, st'⟩
        cases uerr with
        | some e => exact Or.inl ⟨⟨_, rfl⟩, rfl⟩
        | none =>
          dsimp only
          cases hb : Only f.readBack
            (st'.notifications.filter (fun n => decide (n.id = id))) with
          | error e => exact Or.inl ⟨⟨_, rfl⟩, rfl⟩
          | ok updated =>
            exact Or.inr ⟨uid, id, updated, st', hup, hb, rfl, rfl, rfl, rfl⟩

/-- C24. For every storage state, caller, argument and driver behaviour,
`createNotification` and `updateNotification` hand a notification to
`publishNotification` (and so to the broker's `Publish`) at most once, and
only after the insert (the update) and the read-back have both succeeded: a
request that returns an error has published nothing, in particular one whose
insert, update or read-back the driver fails, or whose insert a validator
rejects; and what is published is the row that was read back, which is the
request's result and a row of the notifications table in the state the request
leaves. -/
theorem notification_published_only_after_read_back (st : Store) (ctxValue : CtxValue) :
    (∀ (f : NotifFaults) (args : CreateNotificationArgs),
      (∀ e, (createNotification st f ctxValue args).result = .error e →
          (createNotification st f ctxValue args).published = [])
      ∧ (∀ p ∈ (createNotification st f ctxValue args).published,
          ∃ row, (createNotification st f ctxValue args).result = .ok row
            ∧ row ∈ (createNotification st f ctxValue args).store.notifications
            ∧ p.2 = row.toNotification
            ∧ (createNotification st f ctxValue args).published = [p]
            ∧ ∃ pre, (createNotification st f ctxValue args).calls
                = pre ++ [.notificationInsert, .notificationRead row.id])
      ∧ (∀ code, f.save = some code ∨ f.readBack = some code →
          (∃ e, (createNotification st f ctxValue args).result = .error e)
          ∧ (createNotification st f ctxValue args).published = [])
      ∧ (args.kind = "" ∨ args.cipherText = "" →
          (∃ e, (createNotification st f ctxValue args).result = .error e)
          ∧ (createNotification st f ctxValue args).published = []))
    ∧ (∀ (f : NotifUpdateFaults) (args : UpdateNotificationArgs),
      (∀ e, (updateNotification st f ctxValue args).result = .error e →
          (updateNotification st f ctxValue args).published = [])
      ∧ (∀ p ∈ (updateNotification st f ctxValue args).published,
          ∃ row, (updateNotification st f ctxValue args).result = .ok row
            ∧ row ∈ (updateNotification st f ctxValue args).store.notifications
            ∧ p.2 = row.toNotification
            ∧ (updateNotification st f ctxValue args).published = [p]
            ∧ ∃ pre, (updateNotification st f ctxValue args).calls
                = pre ++ [.notificationUpdate row.id, .notificationRead row.id])
      ∧ (∀ code, f.update = some code ∨ f.readBack = some code →
          (∃ e, (updateNotification st f ctxValue args).result = .error e)
          ∧ (updateNotification st f ctxValue args).published = []))
    ∧ (createNotification sampleStore noNotifFaults (.int 1)
        ⟨.ok 3, "k", "c", none, some (.ok 7), none⟩).published = [(3, ⟨1, some 3⟩)]
    ∧ (createNotification sampleStore ⟨none, none, none, none, some 4⟩ (.int 1)
        ⟨.ok 3, "k", "c", none, some (.ok 7), none⟩).published = [] := by
  refine ⟨?_, ?_, by decide, by decide⟩
  · intro f args
    rcases createNotification_cases st f ctxValue args with
      ⟨⟨e, he⟩, hp⟩ | ⟨recipientID, scheme, roomID, messageID, saved, enriched, st', pre,
        hs, hb, hres, hst, hcalls, hpub⟩
    · refine ⟨fun _ _ => hp, ?_, fun _ _ => ⟨⟨e, he⟩, hp⟩, fun _ => ⟨⟨e, he⟩, hp⟩⟩
      intro p hmem
      rw [hp] at hmem
      exact absurd hmem (List.not_mem_nil _)
    · have hmemf := Only_ok_mem _ _ _ hb
      have hmem := (List.mem_filter.1 hmemf).1
      have hid : enriched.id = saved.id := by
        simpa using (List.mem_filter.1 hmemf).2
      obtain ⟨hsave, hk, hc, -, -⟩ := insertNotification_ok _ _ _ _ _ _ _ _ _ _ hs
      have hread := Only_ok_fault _ _ _ hb
      refine ⟨?_, ?_, ?_, ?_⟩
      · intro e he
        rw [hres] at he
        exact Except.noConfusion he
      · intro p hp
        rw [hpub] at hp
        have hpe : p = (recipientID, enriched.toNotification) := List.mem_singleton.1 hp
        refine ⟨enriched, hres, by rw [hst]; exact hmem, by rw [hpe], by rw [hpub, hpe],
          pre, ?_⟩
        rw [hcalls, hid]
      · intro code hcode
        rcases hcode with h1 | h1
        · rw [hsave] at h1; exact Option.noConfusion h1
        · rw [hread] at h1; exact Option.noConfusion h1
      · intro hempty
        rcases hempty with h1 | h1
        · exact absurd h1 hk
        · exact absurd h1 hc
  · intro f args
    rcases updateNotification_cases st f ctxValue args with
      ⟨⟨e, he⟩, hp⟩ | ⟨uid, id, updated, st', hup, hb, hres, hst, hcalls, hpub⟩
    · refine ⟨fun _ _ => hp, ?_, fun _ _ => ⟨⟨e, he⟩, hp⟩⟩
      intro p hmem
      rw [hp] at hmem
      exact absurd hmem (List.not_mem_nil _)
    · have hmemf := Only_ok_mem _ _ _ hb
      have hmem := (List.mem_filter.1 hmemf).1
      have hid : updated.id = id := by
        simpa using (List.mem_filter.1 hmemf).2
      have hupd := updateNotification_store_ok _ _ _ _ _ _ _ _ hup
      have hread := Only_ok_fault _ _ _ hb
      refine ⟨?_, ?_, ?_⟩
      · intro e he
        rw [hres] at he
        exact Except.noConfusion he
      · intro p hp
        rw [hpub] at hp
        have hpe : p = (uid, updated.toNotification) := List.mem_singleton.1 hp
        refine ⟨updated, hres, by rw [hst]; exact hmem, by rw [hpe], by rw [hpub, hpe],
          [.notificationOfRecipient id uid], ?_⟩
        rw [hcalls, hid]
        rfl
      · intro code hcode
        rcases hcode with h1 | h1
        · rw [hupd] at h1; exact Option.noConfusion h1
        · rw [hread] at h1; exact Option.noConfusion h1

/-! ## `createNotification`: who may notify whom -/

/-- What `ensureRoomAdmin` returns when the lookup does not fault, in terms of
the rows of the table. -/
theorem ensureRoomAdmin_spec (db : DB) (fault : Option Nat) (roomID userID : Int)
    (h : lookupFaults db fault roomID userID = false) :
    (ensureRoomAdmin db fault roomID userID = none ↔
        ∃ row ∈ db.memberships, row.roomID = roomID ∧ row.userID = userID
          ∧ (row.role = Role.owner ∨ row.role = Role.admin))
    ∧ (ensureRoomAdmin db fault roomID userID = none
        ∨ ensureRoomAdmin db fault roomID userID = some Err.forbidden) := by
  have hmem := mem_membershipsWhere db roomID userID
  unfold lookupFaults at h
  unfold ensureRoomAdmin ensureRoomMember
  cases fault with
  | some code => simp [Only, IsNotFound] at h
  | none =>
    match hl : membershipsWhere db roomID userID with
    | [] =>
      refine ⟨?_, Or.inr (by simp [Only, IsNotFound])⟩
      constructor
      · intro hnone
        simp [Only, IsNotFound] at hnone
      · rintro ⟨row, hrow, hr, hu, -⟩
        have := (hmem row).2 ⟨hrow, hr, hu⟩
        rw [hl] at this
        exact absurd this (List.not_mem_nil _)
    | [row0] =>
      have hrow0 := (hmem row0).1 (by rw [hl]; simp)
      by_cases hrole : row0.role = Role.owner ∨ row0.role = Role.admin
      · refine ⟨?_, Or.inl (by simp [Only, hrole])⟩
        constructor
        · intro _
          exact ⟨row0, hrow0.1, hrow0.2.1, hrow0.2.2, hrole⟩
        · intro _
          simp [Only, hrole]
      · refine ⟨?_, Or.inr (by simp [Only, hrole])⟩
        constructor
        · intro hnone
          simp [Only, hrole] at hnone
        · rintro ⟨row, hrow, hr, hu, hrl⟩
          have hin := (hmem row).2 ⟨hrow, hr, hu⟩
          rw [hl] at hin
          have heq : row = row0 := List.mem_singleton.1 hin
          rw [heq] at hrl
          exact absurd hrl hrole
    | _ :: _ :: _ => rw [hl] at h; simp [Only, IsNotFound] at h

/-- The authorisation statements of `createNotification`, with lookups that do
not fault, in terms of the rows of the table. -/
theorem notificationAuth_spec (db : DB) (uid recipientID : Int) (roomID : Option Int)
    (hidx : uniqueIndex db.memberships) :
    ((notificationAuth db none none uid recipientID roomID).1 = none ↔
        match roomID with
        | none => recipientID = uid
        | some rid =>
          hasMembership db rid recipientID
          ∧ (recipientID ≠ uid →
              ∃ row ∈ db.memberships, row.roomID = rid ∧ row.userID = uid
                ∧ (row.role = Role.owner ∨ row.role = Role.admin))
          ∧ (recipientID = uid → hasMembership db rid uid))
    ∧ ((notificationAuth db none none uid recipientID roomID).1 = none
        ∨ (notificationAuth db none none uid recipientID roomID).1 = some Err.forbidden) := by
  cases roomID with
  | none =>
    by_cases hne : recipientID = uid
    · simp [notificationAuth, hne]
    · simp [notificationAuth, hne]
  | some rid =>
    obtain ⟨hiff, -, hforb⟩ := ensureRoomMember_spec db none rid recipientID
      (lookupFaults_false_of_uniqueIndex db rid recipientID hidx)
    obtain ⟨hadm, hadm2⟩ := ensureRoomAdmin_spec db none rid uid
      (lookupFaults_false_of_uniqueIndex db rid uid hidx)
    dsimp only
    cases h1 : ensureRoomMember db none rid recipientID with
    | error err =>
      have hval : (notificationAuth db none none uid recipientID (some rid)).1 = some err := by
        simp only [notificationAuth, h1]
      rw [hval]
      have hno : ¬ hasMembership db rid recipientID := by
        intro hhas
        obtain ⟨m, hm⟩ := hiff.2 hhas
        rw [h1] at hm
        exact Except.noConfusion hm
      have herr : err = Err.forbidden := by
        have := hforb hno
        rw [h1] at this
        exact Except.error.inj this
      refine ⟨?_, Or.inr (by rw [herr])⟩
      constructor
      · intro hnone
        exact Option.noConfusion hnone
      · rintro ⟨hhas, -⟩
        exact absurd hhas hno
    | ok m =>
      have hhas : hasMembership db rid recipientID := hiff.1 ⟨m, h1⟩
      by_cases hne : recipientID = uid
      · have h2 : ensureRoomMember db none rid uid = .ok m := by rw [← hne]; exact h1
        have hval : (notificationAuth db none none uid recipientID (some rid)).1 = none := by
          simp only [notificationAuth, h1, hne, h2, ne_eq, not_true_eq_false, if_false]
        rw [hval]
        refine ⟨?_, Or.inl rfl⟩
        constructor
        · intro _
          exact ⟨hhas, fun hcontra => absurd hne hcontra, fun _ => by rw [← hne]; exact hhas⟩
        · intro _
          rfl
      · have hval : (notificationAuth db none none uid recipientID (some rid)).1
            = ensureRoomAdmin db none rid uid := by
          simp only [notificationAuth, h1, ne_eq, hne, not_false_eq_true, if_true]
        rw [hval]
        refine ⟨?_, hadm2⟩
        rw [hadm]
        constructor
        · intro hrow
          exact ⟨hhas, fun _ => hrow, fun heq => absurd heq hne⟩
        · rintro ⟨-, hrow, -⟩
          exact hrow hne

/-- C28. With the unique index in force and membership lookups that do not
fault, once `createNotification` has settled the notification's room (none
without `roomId` and `messageId`; the `roomId` argument; the room of the
message when `messageId` is given), its authorisation statements let the
request through exactly when: without a room, the recipient is the caller;
with a room, the recipient has a membership row in it and the caller has one
whose role is owner or admin if the recipient is another user, or any row if
the recipient is the caller. In every other case the request fails with
`ErrForbidden` and creates nothing. When both `roomId` and `messageId` are
given and the message belongs to another room, the request fails after the
message query, before any lookup or insert. -/
theorem createNotification_authorisation (st : Store) (f : NotifFaults) (uid recipientID : Int)
    (args : CreateNotificationArgs) (hrec : args.recipientId = .ok recipientID)
    (hidx : uniqueIndex st.db.memberships)
    (hf1 : f.recipientLookup = none) (hf2 : f.callerLookup = none) :
    (∀ roomID messageID calls,
      notificationTarget st f.message args.roomId args.messageId
          = (.ok (roomID, messageID), calls) →
      (((match roomID with
          | none => recipientID = uid
          | some rid =>
            hasMembership st.db rid recipientID
            ∧ (recipientID ≠ uid →
                ∃ row ∈ st.db.memberships, row.roomID = rid ∧ row.userID = uid
                  ∧ (row.role = Role.owner ∨ row.role = Role.admin))
            ∧ (recipientID = uid → hasMembership st.db rid uid)) →
          StorageCall.notificationInsert ∈ (createNotification st f (.int uid) args).calls
          ∧ (createNotification st f (.int uid) args).result ≠ .error Err.forbidden)
        ∧ (¬ (match roomID with
          | none => recipientID = uid
          | some rid =>
            hasMembership st.db rid recipientID
            ∧ (recipientID ≠ uid →
                ∃ row ∈ st.db.memberships, row.roomID = rid ∧ row.userID = uid
                  ∧ (row.role = Role.owner ∨ row.role = Role.admin))
            ∧ (recipientID = uid → hasMembership st.db rid uid)) →
          (createNotification st f (.int uid) args).result = .error Err.forbidden
          ∧ (createNotification st f (.int uid) args).store = st
          ∧ (createNotification st f (.int uid) args).published = [])))
    ∧ (args.roomId = none → args.messageId = none →
        notificationTarget st f.message args.roomId args.messageId = (.ok (none, none), []))
    ∧ (∀ rid, args.roomId = some (.ok rid) → args.messageId = none →
        notificationTarget st f.message args.roomId args.messageId
          = (.ok (some rid, none), []))
    ∧ (∀ mid message roomEdge, args.messageId = some (.ok mid) →
        Only f.message (st.messages.filter (fun m => decide (m.id = mid))) = .ok message →
        message.room = some roomEdge →
        (args.roomId = none ∨ args.roomId = some (.ok roomEdge)) →
        notificationTarget st f.message args.roomId args.messageId
          = (.ok (some roomEdge, some mid), [.messageRead mid]))
    ∧ (∀ rid mid message roomEdge, args.roomId = some (.ok rid) →
        args.messageId = some (.ok mid) →
        Only f.message (st.messages.filter (fun m => decide (m.id = mid))) = .ok message →
        message.room = some roomEdge → rid ≠ roomEdge →
        (createNotification st f (.int uid) args).result
            = .error (Err.text "message does not belong to provided room")
        ∧ (createNotification st f (.int uid) args).store = st
        ∧ (createNotification st f (.int uid) args).calls = [.messageRead mid]
        ∧ (createNotification st f (.int uid) args).published = []) := by
  refine ⟨?_, ?_, ?_, ?_, ?_⟩
  · intro roomID messageID calls ht
    obtain ⟨hiff, hor⟩ := notificationAuth_spec st.db uid recipientID roomID hidx
    constructor
    · intro hallowed
      have hnone := hiff.2 hallowed
      rcases ha : notificationAuth st.db none none uid recipientID roomID with ⟨autherr, calls2⟩
      rw [ha] at hnone
      have hnone' : autherr = none := hnone
      rw [hnone'] at ha
      simp only [createNotification, UserIDFromContext, hrec, ht, hf1, hf2, ha]
      split
      · exact ⟨by simp, fun hcontra => by
          rename_i err heq
          have herr := Except.error.inj hcontra
          rw [herr] at heq
          unfold Store.insertNotification at heq
          split at heq
          · exact Err.noConfusion (Except.error.inj heq)
          · split at heq
            · exact Err.noConfusion (Except.error.inj heq)
            · split at heq
              · exact Err.noConfusion (Except.error.inj heq)
              · exact Except.noConfusion heq⟩
      · split
        · refine ⟨by simp, fun hcontra => ?_⟩
          rename_i err heq
          have herr := Except.error.inj hcontra
          rw [herr] at heq
          unfold Only at heq
          split at heq
          · exact Err.noConfusion (Except.error.inj heq)
          · split at heq
            · exact Err.noConfusion (Except.error.inj heq)
            · exact Except.noConfusion heq
            · exact Err.noConfusion (Except.error.inj heq)
        · exact ⟨by simp, fun hcontra => Except.noConfusion hcontra⟩
    · intro hnot
      have hforb : (notificationAuth st.db none none uid recipientID roomID).1
          = some Err.forbidden := by
        rcases hor with h | h
        · exact absurd (hiff.1 h) hnot
        · exact h
      rcases ha : notificationAuth st.db none none uid recipientID roomID with ⟨autherr, calls2⟩
      rw [ha] at hforb
      have hforb' : autherr = some Err.forbidden := hforb
      rw [hforb'] at ha
      simp only [createNotification, UserIDFromContext, hrec, ht, hf1, hf2, ha, and_self]
  · intro h1 h2
    simp only [notificationTarget, h1, h2]
  · intro rid h1 h2
    simp only [notificationTarget, h1, h2]
  · intro mid message roomEdge h2 hmsg hroom h1
    rcases h1 with h1 | h1
    · simp only [notificationTarget, h1, h2, hmsg, hroom]
    · simp only [notificationTarget, h1, h2, hmsg, hroom, ne_eq, not_true_eq_false, if_false]
  · intro rid mid message roomEdge h1 h2 hmsg hroom hne
    have ht : notificationTarget st f.message args.roomId args.messageId
        = (.error (Err.text "message does not belong to provided room"),
            [.messageRead mid]) := by
      simp only [notificationTarget, h1, h2, hmsg, hroom, ne_eq, hne, not_false_eq_true, if_true]
    simp only [createNotification, UserIDFromContext, hrec, ht, and_self]

/-- Witness for C28: in room 7 (owner 1, member 3), the owner notifies user 3
about the room and the notification is created; user 3 notifying user 1 about
the room is refused; and a notification for room 8 about message 5, which
belongs to room 7, fails after the message query. -/
theorem createNotification_authorisation_witness :
    sampleNotifyArgs.recipientId = .ok 3
    ∧ uniqueIndex sampleStore.db.memberships
    ∧ noNotifFaults.recipientLookup = none
    ∧ noNotifFaults.callerLookup = none
    ∧ (createNotification sampleStore noNotifFaults (.int 1) sampleNotifyArgs).result
        = .ok ⟨1, 3, "k", "c", "signal", false, some 7, none⟩
    ∧ (createNotification sampleStore noNotifFaults (.int 3)
        ⟨.ok 1, "k", "c", none, some (.ok 7), none⟩).result = .error Err.forbidden
    ∧ (createNotification sampleStore noNotifFaults (.int 1)
        ⟨.ok 3, "k", "c", none, none, none⟩).result = .error Err.forbidden
    ∧ (createNotification sampleStore noNotifFaults (.int 1)
        ⟨.ok 3, "k", "c", none, some (.ok 8), some (.ok 5)⟩).result
        = .error (Err.text "message does not belong to provided room")
    ∧ (createNotification sampleStore noNotifFaults (.int 1)
        ⟨.ok 3, "k", "c", none, some (.ok 8), some (.ok 5)⟩).calls = [.messageRead 5]
    ∧ (createNotification sampleStore noNotifFaults (.int 1)
        ⟨.ok 3, "k", "c", none, some (.ok 8), some (.ok 5)⟩).store = sampleStore
    ∧
    (∀ roomID messageID calls,
      notificationTarget sampleStore noNotifFaults.message sampleNotifyArgs.roomId sampleNotifyArgs.messageId
          = (.ok (roomID, messageID), calls) →
      (((match roomID with
          | none => (3 : Int) = 1
          | some rid =>
            hasMembership sampleStore.db rid 3
            ∧ ((3 : Int) ≠ 1 →
                ∃ row ∈ sampleStore.db.memberships, row.roomID = rid ∧ row.userID = 1
                  ∧ (row.role = Role.owner ∨ row.role = Role.admin))
            ∧ ((3 : Int) = 1 → hasMembership sampleStore.db rid 1)) →
          StorageCall.notificationInsert ∈ (createNotification sampleStore noNotifFaults (.int 1) sampleNotifyArgs).calls
          ∧ (createNotification sampleStore noNotifFaults (.int 1) sampleNotifyArgs).result ≠ .error Err.forbidden)
        ∧ (¬ (match roomID with
          | none => (3 : Int) = 1
          | some rid =>
            hasMembership sampleStore.db rid 3
            ∧ ((3 : Int) ≠ 1 →
                ∃ row ∈ sampleStore.db.memberships, row.roomID = rid ∧ row.userID = 1
                  ∧ (row.role = Role.owner ∨ row.role = Role.admin))
            ∧ ((3 : Int) = 1 → hasMembership sampleStore.db rid 1)) →
          (createNotification sampleStore noNotifFaults (.int 1) sampleNotifyArgs).result = .error Err.forbidden
          ∧ (createNotification sampleStore noNotifFaults (.int 1) sampleNotifyArgs).store = sampleStore
          ∧ (createNotification sampleStore noNotifFaults (.int 1) sampleNotifyArgs).published = [])))
    ∧ (sampleNotifyArgs.roomId = none → sampleNotifyArgs.messageId = none →
        notificationTarget sampleStore noNotifFaults.message sampleNotifyArgs.roomId sampleNotifyArgs.messageId = (.ok (none, none), []))
    ∧ (∀ rid, sampleNotifyArgs.roomId = some (.ok rid) → sampleNotifyArgs.messageId = none →
        notificationTarget sampleStore noNotifFaults.message sampleNotifyArgs.roomId sampleNotifyArgs.messageId
          = (.ok (some rid, none), []))
    ∧ (∀ mid message roomEdge, sampleNotifyArgs.messageId = some (.ok mid) →
        Only noNotifFaults.message (sampleStore.messages.filter (fun m => decide (m.id = mid))) = .ok message →
        message.room = some roomEdge →
        (sampleNotifyArgs.roomId = none ∨ sampleNotifyArgs.roomId = some (.ok roomEdge)) →
        notificationTarget sampleStore noNotifFaults.message sampleNotifyArgs.roomId sampleNotifyArgs.messageId
          = (.ok (some roomEdge, some mid), [.messageRead mid]))
    ∧ (∀ rid mid message roomEdge, sampleNotifyArgs.roomId = some (.ok rid) →
        sampleNotifyArgs.messageId = some (.ok mid) →
        Only noNotifFaults.message (sampleStore.messages.filter (fun m => decide (m.id = mid))) = .ok message →
        message.room = some roomEdge → rid ≠ roomEdge →
        (createNotification sampleStore noNotifFaults (.int 1) sampleNotifyArgs).result
            = .error (Err.text "message does not belong to provided room")
        ∧ (createNotification sampleStore noNotifFaults (.int 1) sampleNotifyArgs).store = sampleStore
        ∧ (createNotification sampleStore noNotifFaults (.int 1) sampleNotifyArgs).calls = [.messageRead mid]
        ∧ (createNotification sampleStore noNotifFaults (.int 1) sampleNotifyArgs).published = []) :=
  ⟨rfl, by unfold uniqueIndex; decide, rfl, rfl, by decide, by decide, by decide, by decide,
    by decide, by decide,
    createNotification_authorisation sampleStore noNotifFaults 1 3 sampleNotifyArgs rfl
      (by unfold uniqueIndex; decide) rfl rfl⟩

/-! ## Goroutines on one broker -/

/-- A call on the broker keeps every sink listed at most once. -/
theorem step_regNodup (s s' : Sys) (hn : regNodup s.broker) (op : Op)
    (h : step s op = some s') : regNodup s'.broker := by
  cases op with
  | subscribe u =>
    have h' := Option.some.inj h
    rw [← h']
    intro k subs hk
    have hk' : (if k = u then some (List.insert s.broker.chans.length
        (match s.broker.subscribers u with
          | some subs => subs
          | none => [])) else s.broker.subscribers k) = some subs := hk
    by_cases hku : k = u
    · rw [if_pos hku] at hk'
      rw [← Option.some.inj hk']
      apply List.Nodup.insert
      cases hs : s.broker.subscribers u with
      | none => exact List.nodup_nil
      | some subs0 => exact hn u subs0 hs
    · rw [if_neg hku] at hk'
      exact hn k subs hk'
  | release k =>
    simp only [step] at h
    cases hh : s.handles[k]? with
    | none =>
      rw [hh] at h
      rw [← Option.some.inj h]
      exact hn
    | some r =>
      rw [hh] at h
      dsimp only at h
      cases hc : r.call s.broker with
      | none => rw [hc] at h; exact Option.noConfusion h
      | some b =>
        rw [hc] at h
        rw [← Option.some.inj h]
        show regNodup b
        unfold Release.call at hc
        cases hs : s.broker.subscribers r.userID with
        | none =>
          rw [hs] at hc
          rw [← Option.some.inj hc]
          exact hn
        | some subs =>
          rw [hs] at hc
          dsimp only at hc
          by_cases hm : r.ch ∈ subs
          · rw [if_pos hm] at hc
            cases hcl : closeChan s.broker.chans r.ch with
            | none => rw [hcl] at hc; exact Option.noConfusion hc
            | some chans =>
              rw [hcl] at hc
              dsimp only at hc
              by_cases hlen : (subs.filter (fun c => decide (c ≠ r.ch))).length = 0
              · rw [if_pos hlen] at hc
                rw [← Option.some.inj hc]
                intro k' subs' hk'
                have hk2 : (if k' = r.userID then none else s.broker.subscribers k')
                    = some subs' := hk'
                by_cases hku : k' = r.userID
                · rw [if_pos hku] at hk2; exact Option.noConfusion hk2
                · rw [if_neg hku] at hk2; exact hn k' subs' hk2
              · rw [if_neg hlen] at hc
                rw [← Option.some.inj hc]
                intro k' subs' hk'
                have hk2 : (if k' = r.userID then some (subs.filter (fun c => decide (c ≠ r.ch)))
                    else s.broker.subscribers k') = some subs' := hk'
                by_cases hku : k' = r.userID
                · rw [if_pos hku] at hk2
                  rw [← Option.some.inj hk2]
                  exact List.Nodup.filter _ (hn r.userID subs hs)
                · rw [if_neg hku] at hk2; exact hn k' subs' hk2
          · rw [if_neg hm] at hc
            rw [← Option.some.inj hc]
            exact hn
  | publish n =>
    simp only [step] at h
    cases hp : Publish s.broker n with
    | none => rw [hp] at h; exact Option.noConfusion h
    | some b =>
      rw [hp] at h
      rw [← Option.some.inj h]
      show regNodup b
      unfold Publish at hp
      cases n with
      | none =>
        rw [← Option.some.inj hp]
        exact hn
      | some n =>
        dsimp only at hp
        by_cases hu : recipientIDFromNotification (some n) = 0
        · rw [if_pos hu] at hp
          rw [← Option.some.inj hp]
          exact hn
        · rw [if_neg hu] at hp
          split at hp
          · exact Option.noConfusion hp
          · rw [← Option.some.inj hp]
            exact hn
  | recv ch =>
    rw [← Option.some.inj h]
    exact hn

/-- The `select` of `Publish` on a registered sink does not panic and keeps
the broker's invariant and its registry. -/
theorem trySend_inv (s : Sys) (hinv : Inv s) (u : Int) (ch : Nat) (n : Notification)
    (hreg : registered s.broker u ch) :
    ∃ chans', trySend s.broker.chans ch n = some chans'
      ∧ Inv ⟨⟨chans', s.broker.subscribers⟩, s.handles⟩ := by
  obtain ⟨subs, hs, hm⟩ := (registered_iff _ _ _).1 hreg
  obtain ⟨⟨c0, hc0, hcl⟩, -⟩ := hinv.regOpen u subs hs ch hm
  obtain ⟨chans', hsend, hlen, hpt⟩ := trySend_open s.broker.chans ch n c0 hc0 hcl
  refine ⟨chans', hsend, ?_⟩
  refine Inv_bufOnly s chans' (fun k c => if k = ch then deliver n c else c) hinv hlen ?_ ?_
  · intro k
    rw [hpt k]
    by_cases hk : k = ch
    · rw [if_pos hk, hk, hc0]
      simp
    · rw [if_neg hk]
      cases hck : s.broker.chans[k]? with
      | none => rfl
      | some c => simp [hk]
  · intro k c hcap hbuf
    beta_reduce
    by_cases hk : k = ch
    · rw [if_pos hk]
      exact ⟨deliver_cap n c, deliver_closed n c, (deliver_buf n c hcap).2.2 hbuf⟩
    · rw [if_neg hk]
      exact ⟨rfl, rfl, hbuf⟩

/-- The invariant after goroutine `i` has moved: what has to be shown of the
broker, of the goroutine and of the deliveries recorded. -/
theorem CInv_update (c : Conc) (hinv : CInv c) (i : Nat) (g g' : Goroutine)
    (hg : c.threads[i]? = some g) (sys' : Sys) (sent' : List (Nat × Nat × Nat))
    (hsys : Inv sys') (hnodup : regNodup sys'.broker)
    (hothers : ∀ (j : Nat) (gj : Goroutine) (n : Notification) (rest : List Nat), j ≠ i →
      c.threads[j]? = some gj → gj.pc = Pc.publishing n rest →
      ∀ ch ∈ rest, registered sys'.broker (recipientIDFromNotification (some n)) ch)
    (hbusy : g'.pc ≠ Pc.idle → g'.todo ≠ [])
    (hpub : ∀ (n : Notification) (rest : List Nat), g'.pc = Pc.publishing n rest →
      rest.Nodup ∧ ∀ ch ∈ rest, registered sys'.broker (recipientIDFromNotification (some n)) ch)
    (hold : ∀ e ∈ sent', e.1 ≠ i → e ∈ c.sent)
    (hlog : ∀ e ∈ sent', e.1 = i →
      (g'.todo.length < e.2.1
        ∨ (g'.todo.length = e.2.1 ∧ ∃ n rest, g'.pc = Pc.publishing n rest ∧ e.2.2 ∉ rest)))
    (honce : sent'.Nodup) :
    CInv ⟨sys', c.threads.set i g', sent'⟩ := by
  have hget : ∀ j, (c.threads.set i g')[j]? = if j = i then some g' else c.threads[j]? :=
    fun j => getElem?_set_of_some c.threads i j g g' hg
  refine ⟨hsys, hnodup, ?_, ?_, ?_, honce⟩
  · intro j gj hj hpc
    have hj' : (c.threads.set i g')[j]? = some gj := hj
    rw [hget j] at hj'
    by_cases hji : j = i
    · rw [if_pos hji] at hj'
      rw [← Option.some.inj hj']
      rw [← Option.some.inj hj'] at hpc
      exact hbusy hpc
    · rw [if_neg hji] at hj'
      exact hinv.busy j gj hj' hpc
  · intro j gj n rest hj hpc
    have hj' : (c.threads.set i g')[j]? = some gj := hj
    rw [hget j] at hj'
    by_cases hji : j = i
    · rw [if_pos hji] at hj'
      rw [← Option.some.inj hj'] at hpc
      exact hpub n rest hpc
    · rw [if_neg hji] at hj'
      exact ⟨(hinv.pub j gj n rest hj' hpc).1, hothers j gj n rest hji hj' hpc⟩
  · intro e he
    have he' : e ∈ sent' := he
    by_cases hei : e.1 = i
    · refine ⟨g', ?_, hlog e he' hei⟩
      show (c.threads.set i g')[e.1]? = some g'
      rw [hget e.1, if_pos hei]
    · obtain ⟨ge, hge, hrest⟩ := hinv.log e (hold e he' hei)
      refine ⟨ge, ?_, hrest⟩
      show (c.threads.set i g')[e.1]? = some ge
      rw [hget e.1, if_neg hei]
      exact hge

/-- The deliveries recorded for goroutine `i` belong to calls that are over
once the goroutine has fewer calls left. -/
theorem log_shrink (c : Conc) (hinv : CInv c) (i : Nat) (g g' : Goroutine)
    (hg : c.threads[i]? = some g) (hlt : g'.todo.length < g.todo.length) :
    ∀ e ∈ c.sent, e.1 = i →
      (g'.todo.length < e.2.1
        ∨ (g'.todo.length = e.2.1 ∧ ∃ n rest, g'.pc = Pc.publishing n rest ∧ e.2.2 ∉ rest)) := by
  intro e he hei
  obtain ⟨ge, hge, hrest⟩ := hinv.log e he
  rw [hei, hg] at hge
  rw [← Option.some.inj hge] at hrest
  rcases hrest with h | ⟨h, -⟩
  · exact Or.inl (by omega)
  · exact Or.inl (by omega)

/-- The deliveries recorded for an idle goroutine belong to calls that are
over. -/
theorem log_idle (c : Conc) (hinv : CInv c) (i : Nat) (g g' : Goroutine)
    (hg : c.threads[i]? = some g) (hpc : g.pc = Pc.idle) (hlen : g'.todo.length = g.todo.length) :
    ∀ e ∈ c.sent, e.1 = i →
      (g'.todo.length < e.2.1
        ∨ (g'.todo.length = e.2.1 ∧ ∃ n rest, g'.pc = Pc.publishing n rest ∧ e.2.2 ∉ rest)) := by
  intro e he hei
  obtain ⟨ge, hge, hrest⟩ := hinv.log e he
  rw [hei, hg] at hge
  rw [← Option.some.inj hge] at hrest
  rcases hrest with h | ⟨-, n, rest, hp, -⟩
  · exact Or.inl (by omega)
  · rw [hpc] at hp
    exact Pc.noConfusion hp

/-- The sinks the other goroutines have still to visit stay registered when
the registry is not touched. -/
theorem others_same_registry (c : Conc) (hinv : CInv c) (i : Nat) (sys' : Sys)
    (hreg : sys'.broker.subscribers = c.sys.broker.subscribers) :
    ∀ (j : Nat) (gj : Goroutine) (n : Notification) (rest : List Nat), j ≠ i →
      c.threads[j]? = some gj → gj.pc = Pc.publishing n rest →
      ∀ ch ∈ rest, registered sys'.broker (recipientIDFromNotification (some n)) ch := by
  intro j gj n rest _ hj hpc ch hch
  have h := (hinv.pub j gj n rest hj hpc).2 ch hch
  unfold registered at h ⊢
  rw [hreg]
  exact h

theorem tail_length_lt {α : Type} (l : List α) (h : l ≠ []) : l.tail.length < l.length := by
  cases l with
  | nil => exact absurd rfl h
  | cons a t => simp

/-- One step of a goroutine does not panic and keeps the invariant. -/
theorem cstep_inv (c : Conc) (hinv : CInv c) (i : Nat) :
    cstep c i ≠ Move.panic ∧ ∀ c', cstep c i = Move.next c' → CInv c' := by
  unfold cstep
  cases hg : c.threads[i]? with
  | none => exact ⟨fun h => Move.noConfusion h, fun c' h => Move.noConfusion h⟩
  | some g =>
    obtain ⟨pc, todo⟩ := g
    dsimp only
    have hsame : ∀ (j : Nat) (gj : Goroutine) (n : Notification) (rest : List Nat), j ≠ i →
        c.threads[j]? = some gj → gj.pc = Pc.publishing n rest →
        ∀ ch ∈ rest, registered c.sys.broker (recipientIDFromNotification (some n)) ch :=
      others_same_registry c hinv i c.sys rfl
    cases pc with
    | idle =>
      dsimp only
      cases todo with
      | nil => exact ⟨fun h => Move.noConfusion h, fun c' h => Move.noConfusion h⟩
      | cons op rest =>
        -- the goroutine after skipping the call `op`
        have hskip : CInv ⟨c.sys, c.threads.set i ⟨Pc.idle, rest⟩, c.sent⟩ := by
          refine CInv_update c hinv i _ _ hg c.sys c.sent hinv.sys hinv.nodup hsame ?_ ?_
            (fun e he _ => he) ?_ hinv.once
          · intro h; exact absurd rfl h
          · intro n r h
            exact Pc.noConfusion h
          · exact log_shrink c hinv i _ _ hg (by simp)
        -- the goroutine after claiming the mutex for `op`
        have hclaim : ∀ op', CInv ⟨c.sys, c.threads.set i ⟨Pc.locking op', op :: rest⟩,
            c.sent⟩ := by
          intro op'
          refine CInv_update c hinv i _ _ hg c.sys c.sent hinv.sys hinv.nodup hsame ?_ ?_
            (fun e he _ => he) ?_ hinv.once
          · intro _
            exact List.cons_ne_nil _ _
          · intro n r h
            exact Pc.noConfusion h
          · exact log_idle c hinv i _ _ hg rfl rfl
        cases op with
        | subscribe u =>
          dsimp only
          split
          · exact ⟨fun h => Move.noConfusion h, fun c' h => Move.noConfusion h⟩
          · refine ⟨fun h => Move.noConfusion h, fun c' h => ?_⟩
            rw [← Move.next.inj h]
            exact hclaim _
        | release k =>
          dsimp only
          cases hh : c.sys.handles[k]? with
          | none =>
            refine ⟨fun h => Move.noConfusion h, fun c' h => ?_⟩
            rw [← Move.next.inj h]
            exact hskip
          | some r =>
            dsimp only
            split
            · exact ⟨fun h => Move.noConfusion h, fun c' h => Move.noConfusion h⟩
            · refine ⟨fun h => Move.noConfusion h, fun c' h => ?_⟩
              rw [← Move.next.inj h]
              exact hclaim _
        | publish notification =>
          dsimp only
          cases notification with
          | none =>
            refine ⟨fun h => Move.noConfusion h, fun c' h => ?_⟩
            rw [← Move.next.inj h]
            exact hskip
          | some n =>
            dsimp only
            by_cases hu : recipientIDFromNotification (some n) = 0
            · rw [if_pos hu]
              refine ⟨fun h => Move.noConfusion h, fun c' h => ?_⟩
              rw [← Move.next.inj h]
              exact hskip
            · rw [if_neg hu]
              split
              · exact ⟨fun h => Move.noConfusion h, fun c' h => Move.noConfusion h⟩
              · refine ⟨fun h => Move.noConfusion h, fun c' h => ?_⟩
                rw [← Move.next.inj h]
                refine CInv_update c hinv i _ _ hg c.sys c.sent hinv.sys hinv.nodup hsame ?_ ?_
                  (fun e he _ => he) ?_ hinv.once
                · intro _
                  exact List.cons_ne_nil _ _
                · intro n' r h
                  have h' := Pc.publishing.inj h
                  rw [← h'.1, ← h'.2]
                  cases hs : c.sys.broker.subscribers (recipientIDFromNotification (some n)) with
                  | none =>
                    exact ⟨List.nodup_nil, fun ch hch => absurd hch (List.not_mem_nil _)⟩
                  | some subs =>
                    refine ⟨hinv.nodup _ subs hs, fun ch hch => ?_⟩
                    exact (registered_iff _ _ _).2 ⟨subs, hs, hch⟩
                · exact log_idle c hinv i _ _ hg rfl rfl
        | recv ch =>
          dsimp only
          refine ⟨fun h => Move.noConfusion h, fun c' h => ?_⟩
          rw [← Move.next.inj h]
          refine CInv_update c hinv i _ _ hg _ c.sent (recv_inv c.sys hinv.sys ch) hinv.nodup
            (others_same_registry c hinv i _ rfl) ?_ ?_ (fun e he _ => he) ?_ hinv.once
          · intro h; exact absurd rfl h
          · intro n r h
            exact Pc.noConfusion h
          · exact log_shrink c hinv i _ _ hg (by simp)
    | locking op =>
      dsimp only
      have hne : todo ≠ [] := hinv.busy i _ hg (fun h => Pc.noConfusion h)
      by_cases hread : c.threads.any (fun t => t.pc.reading) = true
      · rw [if_pos hread]
        exact ⟨fun h => Move.noConfusion h, fun c' h => Move.noConfusion h⟩
      · rw [if_neg hread]
        obtain ⟨sys', hstep, hsys', -, -⟩ := step_inv c.sys hinv.sys op
        rw [hstep]
        dsimp only
        refine ⟨fun h => Move.noConfusion h, fun c' h => ?_⟩
        rw [← Move.next.inj h]
        have hnone : ∀ (j : Nat) (gj : Goroutine), c.threads[j]? = some gj →
            gj.pc.reading = false := by
          intro j gj hj
          have := List.any_eq_false.1 (by simpa using hread) gj (List.getElem?_mem hj)
          simpa using this
        refine CInv_update c hinv i _ _ hg sys' c.sent hsys'
          (step_regNodup c.sys sys' hinv.nodup op hstep) ?_ ?_ ?_ (fun e he _ => he) ?_ hinv.once
        · intro j gj n r _ hj hp
          have := hnone j gj hj
          rw [hp] at this
          exact Bool.noConfusion this
        · intro h; exact absurd rfl h
        · intro n r h
          exact Pc.noConfusion h
        · exact log_shrink c hinv i _ _ hg (tail_length_lt todo hne)
    | publishing n rest =>
      have hne : todo ≠ [] := hinv.busy i _ hg (fun h => Pc.noConfusion h)
      obtain ⟨hnd, hregs⟩ := hinv.pub i _ n rest hg rfl
      cases rest with
      | nil =>
        dsimp only
        refine ⟨fun h => Move.noConfusion h, fun c' h => ?_⟩
        rw [← Move.next.inj h]
        refine CInv_update c hinv i _ _ hg c.sys c.sent hinv.sys hinv.nodup hsame ?_ ?_
          (fun e he _ => he) ?_ hinv.once
        · intro h; exact absurd rfl h
        · intro n' r h
          exact Pc.noConfusion h
        · exact log_shrink c hinv i _ _ hg (tail_length_lt todo hne)
      | cons ch rest =>
        dsimp only
        obtain ⟨chans', hsend, hsys'⟩ := trySend_inv c.sys hinv.sys _ ch n
          (hregs ch (List.mem_cons_self _ _))
        rw [hsend]
        dsimp only
        refine ⟨fun h => Move.noConfusion h, fun c' h => ?_⟩
        rw [← Move.next.inj h]
        obtain ⟨hch, hnd'⟩ := List.nodup_cons.1 hnd
        -- what is recorded for this goroutine so far
        have hmine : ∀ e ∈ c.sent, e.1 = i →
            todo.length < e.2.1 ∨ (todo.length = e.2.1 ∧ e.2.2 ∉ ch :: rest) := by
          intro e he hei
          obtain ⟨ge, hge, hrest⟩ := hinv.log e he
          rw [hei, hg] at hge
          rw [← Option.some.inj hge] at hrest
          rcases hrest with h1 | ⟨h1, n', r', hp, hnot⟩
          · exact Or.inl h1
          · have h' := Pc.publishing.inj hp
            rw [← h'.2] at hnot
            exact Or.inr ⟨h1, hnot⟩
        have hfresh : (i, todo.length, ch) ∉ c.sent := by
          intro hmem
          rcases hmine _ hmem rfl with h1 | ⟨-, h2⟩
          · exact absurd h1 (Nat.lt_irrefl _)
          · exact h2 (List.mem_cons_self _ _)
        refine CInv_update c hinv i _ _ hg _ _ hsys' hinv.nodup
          (others_same_registry c hinv i _ rfl) ?_ ?_ ?_ ?_ ?_
        · intro _
          exact hne
        · intro n' r h
          have h' := Pc.publishing.inj h
          rw [← h'.1, ← h'.2]
          exact ⟨hnd', fun x hx => hregs x (List.mem_cons_of_mem _ hx)⟩
        · intro e he hei
          by_cases hd : sendDelivers c.sys.broker.chans ch = true
          · rw [if_pos hd] at he
            rcases List.mem_append.1 he with h1 | h1
            · exact h1
            · have := List.mem_singleton.1 h1
              rw [this] at hei
              exact absurd rfl hei
          · rw [if_neg hd] at he
            exact he
        · intro e he hei
          have hcase : e ∈ c.sent ∨ e = (i, todo.length, ch) := by
            by_cases hd : sendDelivers c.sys.broker.chans ch = true
            · rw [if_pos hd] at he
              rcases List.mem_append.1 he with h1 | h1
              · exact Or.inl h1
              · exact Or.inr (List.mem_singleton.1 h1)
            · rw [if_neg hd] at he
              exact Or.inl he
          rcases hcase with h1 | h1
          · rcases hmine e h1 hei with h2 | ⟨h2, h3⟩
            · exact Or.inl h2
            · exact Or.inr ⟨h2, n, rest, rfl, fun hx => h3 (List.mem_cons_of_mem _ hx)⟩
          · rw [h1]
            exact Or.inr ⟨rfl, n, rest, rfl, hch⟩
        · by_cases hd : sendDelivers c.sys.broker.chans ch = true
          · rw [if_pos hd]
            refine List.Nodup.append hinv.once (List.nodup_singleton _) ?_
            intro x hx hx'
            rw [List.mem_singleton.1 hx'] at hx
            exact hfresh hx
          · rw [if_neg hd]
            exact hinv.once

/-- The start state has the invariant. -/
theorem CInv_start (programs : List (List Op)) : CInv (startConc programs) := by
  refine ⟨Inv_initSys, ?_, ?_, ?_, ?_, List.nodup_nil⟩
  · intro u subs h
    exact Option.noConfusion h
  · intro i g hg hpc
    have hg' : (programs.map (fun p => (⟨Pc.idle, p⟩ : Goroutine)))[i]? = some g := hg
    rw [List.getElem?_map] at hg'
    cases hp : programs[i]? with
    | none => rw [hp] at hg'; exact Option.noConfusion hg'
    | some p =>
      rw [hp] at hg'
      have := Option.some.inj hg'
      rw [← this] at hpc
      exact absurd rfl hpc
  · intro i g n rest hg hpc
    have hg' : (programs.map (fun p => (⟨Pc.idle, p⟩ : Goroutine)))[i]? = some g := hg
    rw [List.getElem?_map] at hg'
    cases hp : programs[i]? with
    | none => rw [hp] at hg'; exact Option.noConfusion hg'
    | some p =>
      rw [hp] at hg'
      have := Option.some.inj hg'
      rw [← this] at hpc
      exact Pc.noConfusion hpc
  · intro e he
    exact absurd he (List.not_mem_nil _)

/-- No schedule panics, and the invariant holds after it. -/
theorem crun_inv (schedule : List Nat) (c : Conc) (hinv : CInv c) :
    ∃ c', crun c schedule = some c' ∧ CInv c' := by
  induction schedule generalizing c with
  | nil => exact ⟨c, rfl, hinv⟩
  | cons i rest ih =>
    obtain ⟨hnp, hnext⟩ := cstep_inv c hinv i
    simp only [crun]
    cases hs : cstep c i with
    | blocked => exact ih c hinv
    | panic => exact absurd hs hnp
    | next c1 => exact ih c1 (hnext c1 hs)

/-- Unless every goroutine has finished, some goroutine can take a step. -/
theorem cstep_progress (c : Conc) (hinv : CInv c) :
    (∀ g ∈ c.threads, g.pc = Pc.idle ∧ g.todo = []) ∨ ∃ i c', cstep c i = Move.next c' := by
  by_cases hread : c.threads.any (fun t => t.pc.reading) = true
  · -- a goroutine inside `Publish` makes its next `select` or unlocks
    right
    obtain ⟨g, hmem, hg⟩ := List.any_eq_true.1 hread
    obtain ⟨i, hi⟩ := List.mem_iff_getElem?.1 hmem
    obtain ⟨hnp, -⟩ := cstep_inv c hinv i
    refine ⟨i, ?_⟩
    cases hs : cstep c i with
    | next c' => exact ⟨c', rfl⟩
    | panic => exact absurd hs hnp
    | blocked =>
      exfalso
      unfold cstep at hs
      rw [hi] at hs
      dsimp only at hs
      cases hpc : g.pc with
      | idle => rw [hpc] at hg; exact Bool.noConfusion hg
      | locking op => rw [hpc] at hg; exact Bool.noConfusion hg
      | publishing n rest =>
        rw [hpc] at hs
        cases rest with
        | nil => exact Move.noConfusion hs
        | cons ch rest =>
          dsimp only at hs
          split at hs
          · exact Move.noConfusion hs
          · exact Move.noConfusion hs
  · by_cases hw : c.threads.any (fun t => t.pc.holdsW) = true
    · -- no reader is left: the writer runs its body and unlocks
      right
      obtain ⟨g, hmem, hg⟩ := List.any_eq_true.1 hw
      obtain ⟨i, hi⟩ := List.mem_iff_getElem?.1 hmem
      obtain ⟨hnp, -⟩ := cstep_inv c hinv i
      refine ⟨i, ?_⟩
      cases hs : cstep c i with
      | next c' => exact ⟨c', rfl⟩
      | panic => exact absurd hs hnp
      | blocked =>
        exfalso
        unfold cstep at hs
        rw [hi] at hs
        dsimp only at hs
        cases hpc : g.pc with
        | idle => rw [hpc] at hg; exact Bool.noConfusion hg
        | publishing n rest => rw [hpc] at hg; exact Bool.noConfusion hg
        | locking op =>
          rw [hpc] at hs
          dsimp only at hs
          rw [if_neg hread] at hs
          split at hs
          · exact Move.noConfusion hs
          · exact Move.noConfusion hs
    · -- the mutex is free: any goroutine with a call left starts it
      by_cases hdone : ∀ g ∈ c.threads, g.pc = Pc.idle ∧ g.todo = []
      · exact Or.inl hdone
      · right
        have hex : ∃ g ∈ c.threads, ¬ (g.pc = Pc.idle ∧ g.todo = []) := by
          by_contra hcon
          apply hdone
          intro g hg
          by_contra hng
          exact hcon ⟨g, hg, hng⟩
        obtain ⟨g, hmem, hg⟩ := hex
        obtain ⟨i, hi⟩ := List.mem_iff_getElem?.1 hmem
        have hidle : g.pc = Pc.idle := by
          cases hpc : g.pc with
          | idle => rfl
          | locking op =>
            exfalso
            apply hw
            exact List.any_eq_true.2 ⟨g, hmem, by rw [hpc]; rfl⟩
          | publishing n rest =>
            exfalso
            apply hread
            exact List.any_eq_true.2 ⟨g, hmem, by rw [hpc]; rfl⟩
        have htodo : g.todo ≠ [] := fun h => hg ⟨hidle, h⟩
        obtain ⟨hnp, -⟩ := cstep_inv c hinv i
        refine ⟨i, ?_⟩
        cases hs : cstep c i with
        | next c' => exact ⟨c', rfl⟩
        | panic => exact absurd hs hnp
        | blocked =>
          exfalso
          unfold cstep at hs
          rw [hi] at hs
          dsimp only at hs
          rw [hidle] at hs
          dsimp only at hs
          cases hl : g.todo with
          | nil => exact htodo hl
          | cons op rest =>
            rw [hl] at hs
            cases op with
            | subscribe u =>
              dsimp only at hs
              rw [if_neg hw] at hs
              exact Move.noConfusion hs
            | release k =>
              dsimp only at hs
              cases hh : c.sys.handles[k]? with
              | none => rw [hh] at hs; exact Move.noConfusion hs
              | some r =>
                rw [hh] at hs
                dsimp only at hs
                rw [if_neg hw] at hs
                exact Move.noConfusion hs
            | publish notification =>
              cases notification with
              | none => exact Move.noConfusion hs
              | some n =>
                dsimp only at hs
                by_cases hu : recipientIDFromNotification (some n) = 0
                · rw [if_pos hu] at hs
                  exact Move.noConfusion hs
                · rw [if_neg hu, if_neg hw] at hs
                  exact Move.noConfusion hs
            | recv ch => exact Move.noConfusion hs


/-- Replacing one entry of a list changes the sum of a function over it by
that entry's share. -/
theorem sum_map_set {α : Type} (f : α → Nat) (l : List α) (i : Nat) (a b : α)
    (h : l[i]? = some a) :
    ((l.set i b).map f).sum + f a = (l.map f).sum + f b := by
  induction l generalizing i with
  | nil => exact Option.noConfusion h
  | cons x t ih =>
    cases i with
    | zero =>
      have hx : x = a := by simpa using h
      simp only [List.set_cons_zero, List.map_cons, List.sum_cons]
      rw [hx]
      omega
    | succ j =>
      have hj : t[j]? = some a := by simpa using h
      have := ih j hj
      simp only [List.set_cons_succ, List.map_cons, List.sum_cons]
      omega

/-- Every step of a goroutine lowers the termination measure. -/
theorem cstep_measure (c c' : Conc) (hinv : CInv c) (i : Nat)
    (h : cstep c i = Move.next c') :
    Prod.Lex (fun a b : Nat => a < b) (fun a b : Nat => a < b) c'.measure c.measure := by
  unfold cstep at h
  cases hg : c.threads[i]? with
  | none => rw [hg] at h; exact Move.noConfusion h
  | some g =>
    rw [hg] at h
    obtain ⟨pc, todo⟩ := g
    dsimp only at h
    have hw := fun b => sum_map_set Goroutine.weight c.threads i ⟨pc, todo⟩ b hg
    have hl := fun b => sum_map_set Goroutine.left c.threads i ⟨pc, todo⟩ b hg
    -- a step that lowers the weight of goroutine `i`
    have hless : ∀ (g' : Goroutine) (sys' : Sys) (sent' : List (Nat × Nat × Nat)),
        g'.weight < Goroutine.weight ⟨pc, todo⟩ →
        Prod.Lex (fun a b : Nat => a < b) (fun a b : Nat => a < b)
          (Conc.measure ⟨sys', c.threads.set i g', sent'⟩) c.measure := by
      intro g' sys' sent' hlt
      apply Prod.Lex.left
      have := hw g'
      show ((c.threads.set i g').map Goroutine.weight).sum < (c.threads.map Goroutine.weight).sum
      omega
    cases pc with
    | idle =>
      dsimp only at h
      cases todo with
      | nil => exact Move.noConfusion h
      | cons op rest =>
        have hskip : Prod.Lex (fun a b : Nat => a < b) (fun a b : Nat => a < b)
            (Conc.measure ⟨c.sys, c.threads.set i ⟨Pc.idle, rest⟩, c.sent⟩) c.measure :=
          hless _ _ _ (by simp [Goroutine.weight])
        cases op with
        | subscribe u =>
          dsimp only at h
          split at h
          · exact Move.noConfusion h
          · rw [← Move.next.inj h]
            exact hless _ _ _ (by simp [Goroutine.weight])
        | release k =>
          dsimp only at h
          cases hh : c.sys.handles[k]? with
          | none =>
            rw [hh] at h
            rw [← Move.next.inj h]
            exact hskip
          | some r =>
            rw [hh] at h
            dsimp only at h
            split at h
            · exact Move.noConfusion h
            · rw [← Move.next.inj h]
              exact hless _ _ _ (by simp [Goroutine.weight])
        | publish notification =>
          cases notification with
          | none =>
            rw [← Move.next.inj h]
            exact hskip
          | some n =>
            dsimp only at h
            by_cases hu : recipientIDFromNotification (some n) = 0
            · rw [if_pos hu] at h
              rw [← Move.next.inj h]
              exact hskip
            · rw [if_neg hu] at h
              split at h
              · exact Move.noConfusion h
              · rw [← Move.next.inj h]
                exact hless _ _ _ (by simp [Goroutine.weight])
        | recv ch =>
          rw [← Move.next.inj h]
          exact hless _ _ _ (by simp [Goroutine.weight])
    | locking op =>
      have hne : todo ≠ [] := hinv.busy i _ hg (fun h => Pc.noConfusion h)
      dsimp only at h
      split at h
      · exact Move.noConfusion h
      · split at h
        · exact Move.noConfusion h
        · rw [← Move.next.inj h]
          refine hless _ _ _ ?_
          have := tail_length_lt todo hne
          simp only [Goroutine.weight]
          omega
    | publishing n rest =>
      have hne : todo ≠ [] := hinv.busy i _ hg (fun h => Pc.noConfusion h)
      cases rest with
      | nil =>
        rw [← Move.next.inj h]
        refine hless _ _ _ ?_
        have := tail_length_lt todo hne
        simp only [Goroutine.weight]
        omega
      | cons ch rest =>
        dsimp only at h
        split at h
        · exact Move.noConfusion h
        · rw [← Move.next.inj h]
          have h1 := hw (⟨Pc.publishing n rest, todo⟩ : Goroutine)
          have h2 := hl (⟨Pc.publishing n rest, todo⟩ : Goroutine)
          have hweq : ((c.threads.set i ⟨Pc.publishing n rest, todo⟩).map Goroutine.weight).sum
              = (c.threads.map Goroutine.weight).sum := by
            simp only [Goroutine.weight] at h1
            omega
          have hllt : ((c.threads.set i ⟨Pc.publishing n rest, todo⟩).map Goroutine.left).sum
              < (c.threads.map Goroutine.left).sum := by
            simp only [Goroutine.left, List.length_cons] at h2
            omega
          show Prod.Lex _ _
            (((c.threads.set i ⟨Pc.publishing n rest, todo⟩).map Goroutine.weight).sum,
              ((c.threads.set i ⟨Pc.publishing n rest, todo⟩).map Goroutine.left).sum)
            ((c.threads.map Goroutine.weight).sum, (c.threads.map Goroutine.left).sum)
          rw [hweq]
          exact Prod.Lex.right _ hllt

/-- No execution goes on for ever: the steps of the goroutines, taken in
states with the invariant, form a well-founded relation. -/
theorem cstep_wellFounded :
    WellFounded (fun c2 c1 : Conc => CInv c1 ∧ ∃ i, cstep c1 i = Move.next c2) := by
  refine Subrelation.wf ?_ (InvImage.wf Conc.measure
    (WellFounded.prod_lex Nat.lt_wfRel.wf Nat.lt_wfRel.wf))
  intro c2 c1 hr
  obtain ⟨hinv, i, hi⟩ := hr
  exact cstep_measure c1 c2 hinv i hi

/-- The `select` of `Publish` on a sink still to visit: the item enters the
sink and the delivery is recorded when the sink is empty; nothing changes when
it is full. -/
theorem cstep_send (c : Conc) (hinv : CInv c) (i : Nat) (g : Goroutine) (n : Notification)
    (ch : Nat) (rest : List Nat) (hg : c.threads[i]? = some g)
    (hpc : g.pc = Pc.publishing n (ch :: rest)) :
    ch ∉ rest
    ∧ ∃ c', cstep c i = Move.next c'
      ∧ c'.threads = c.threads.set i { g with pc := Pc.publishing n rest }
      ∧ (bufOf c.sys.broker ch = [] →
          bufOf c'.sys.broker ch = [n] ∧ c'.sent = c.sent ++ [(i, g.todo.length, ch)])
      ∧ (bufOf c.sys.broker ch ≠ [] →
          c'.sys.broker.chans = c.sys.broker.chans ∧ c'.sent = c.sent) := by
  obtain ⟨pc, todo⟩ := g
  have hpc' : pc = Pc.publishing n (ch :: rest) := hpc
  subst hpc'
  obtain ⟨hnd, hregs⟩ := hinv.pub i _ n (ch :: rest) hg rfl
  refine ⟨(List.nodup_cons.1 hnd).1, ?_⟩
  have hreg := hregs ch (List.mem_cons_self _ _)
  obtain ⟨subs, hs, hm⟩ := (registered_iff _ _ _).1 hreg
  obtain ⟨⟨c0, hc0, hcl⟩, -⟩ := hinv.sys.regOpen _ subs hs ch hm
  obtain ⟨hcap, -⟩ := hinv.sys.slot ch c0 hc0
  have hbuf : bufOf c.sys.broker ch = c0.buf := by
    unfold bufOf
    rw [hc0]
  by_cases hempty : c0.buf = []
  · have hsend : trySend c.sys.broker.chans ch n
        = some (c.sys.broker.chans.set ch { c0 with buf := c0.buf ++ [n] }) := by
      unfold trySend
      rw [hc0]
      simp [hcl, hempty, hcap]
    have hdel : sendDelivers c.sys.broker.chans ch = true := by
      unfold sendDelivers
      rw [hc0]
      simp [hcl, hempty, hcap]
    refine ⟨_, by unfold cstep; rw [hg]; dsimp only; rw [hsend], rfl, ?_, ?_⟩
    · intro _
      refine ⟨?_, by simp only [hdel, if_true]⟩
      unfold bufOf
      show (match (c.sys.broker.chans.set ch { c0 with buf := c0.buf ++ [n] })[ch]? with
        | some c => c.buf
        | none => []) = [n]
      rw [getElem?_set_of_some c.sys.broker.chans ch ch c0 _ hc0, if_pos rfl]
      simp [hempty]
    · intro hne
      rw [hbuf] at hne
      exact absurd hempty hne
  · have hfull : ¬ c0.buf.length < c0.cap := by
      rw [hcap]
      have := List.length_pos.2 hempty
      omega
    have hsend : trySend c.sys.broker.chans ch n = some c.sys.broker.chans := by
      unfold trySend
      rw [hc0]
      simp [hcl, hfull]
    have hdel : sendDelivers c.sys.broker.chans ch = false := by
      unfold sendDelivers
      rw [hc0]
      simp [hfull]
    refine ⟨_, by unfold cstep; rw [hg]; dsimp only; rw [hsend], rfl, ?_, ?_⟩
    · intro he
      rw [hbuf] at he
      exact absurd he hempty
    · intro _
      exact ⟨rfl, by simp only [hdel, Bool.false_eq_true, if_false]⟩

/-- C26. Any number of goroutines run any programs of `Subscribe`, release,
`Publish` and receive calls on one new broker, interleaved step by step by any
schedule, with `b.mu` as a read-write mutex: writers exclude everyone, a
writer waiting for the mutex keeps new readers out, and the publishers share
the read lock, their `select` statements interleaving. Then no step panics; in
the state reached, either every goroutine has finished or some goroutine can
take a step, so no execution deadlocks; no execution goes on for ever; every
`select` of a call of `Publish` is on a sink the call has not visited before,
and delivers exactly when that sink is empty; and no delivery is recorded
twice: no call of `Publish` delivers its item to a sink more than once. -/
theorem broker_goroutines_no_deadlock_at_most_once (programs : List (List Op))
    (schedule : List Nat) :
    ∃ c, crun (startConc programs) schedule = some c
      ∧ (∀ i, cstep c i ≠ Move.panic)
      ∧ ((∀ g ∈ c.threads, g.pc = Pc.idle ∧ g.todo = []) ∨ ∃ i c', cstep c i = Move.next c')
      ∧ c.sent.Nodup
      ∧ (∀ (i : Nat) (g : Goroutine) (n : Notification) (ch : Nat) (rest : List Nat),
          c.threads[i]? = some g → g.pc = Pc.publishing n (ch :: rest) →
          ch ∉ rest
          ∧ ∃ c', cstep c i = Move.next c'
            ∧ c'.threads = c.threads.set i { g with pc := Pc.publishing n rest }
            ∧ (bufOf c.sys.broker ch = [] →
                bufOf c'.sys.broker ch = [n] ∧ c'.sent = c.sent ++ [(i, g.todo.length, ch)])
            ∧ (bufOf c.sys.broker ch ≠ [] →
                c'.sys.broker.chans = c.sys.broker.chans ∧ c'.sent = c.sent))
      ∧ WellFounded (fun c2 c1 : Conc => CInv c1 ∧ ∃ i, cstep c1 i = Move.next c2)
      ∧ CInv c
      ∧ (crun (startConc [[.subscribe 7, .recv 0, .release 0], [.publish (some ⟨1, some 7⟩)],
            [.publish (some ⟨2, some 7⟩)]])
          [0, 0, 1, 2, 1, 0, 2, 2, 1, 0, 0]).map
          (fun c => (c.threads, c.sent, bufOf c.sys.broker 0, c.sys.broker.subscribers 7))
        = some ([⟨.idle, []⟩, ⟨.idle, []⟩, ⟨.idle, []⟩], [(1, 1, 0), (2, 1, 0)],
            [⟨2, some 7⟩], none) := by
  obtain ⟨c, hrun, hinv⟩ := crun_inv schedule (startConc programs) (CInv_start programs)
  exact ⟨c, hrun, fun i => (cstep_inv c hinv i).1, cstep_progress c hinv, hinv.once,
    fun i g n ch rest hg hpc => cstep_send c hinv i g n ch rest hg hpc, cstep_wellFounded,
    hinv, rfl⟩

end Enclave
